import Mathlib

/-!
# Unit registry and dependency graph of the service manager (src/core/unit.c)

A shallow embedding of the unit registry, the dependency graph and the
garbage-collection predicate of `src/core/unit.c`.

* A `Unit *` is an index (`UnitId`) into the manager's table of unit objects
  (`Manager.heap`); dereferencing an index outside the table has no behaviour
  (`none`).
* A `Set *` of units is the list of its members without repetition; the `NULL`
  set and an allocated empty set are both `[]`.
* A function that returns an `int` and mutates the manager is a function to
  `Option (Int × Manager)`: `none` stands for a failed `assert` or a loop that
  never ends, `some (r, m)` for the return value `r` in the state `m`.
* Allocation failure is decided by an oracle `oom : Nat → Bool`, asked once at
  every allocation site of a call (the sites are numbered in each function).
* Log output is not part of the state.
-/

namespace Systemd

/-! ## Error numbers -/

def ENOENT : Int := 2
def E2BIG : Int := 7
def ENOMEM : Int := 12
def EEXIST : Int := 17
def EINVAL : Int := 22

/-! ## Enumerations -/

/-- The unit types, in the order of the `unit_vtable` array (unit.c:63-76);
`_UNIT_TYPE_INVALID` is `none` of `Option UnitType`. -/
inductive UnitType where
  | service | socket | busname | target | device | mount
  | automount | swap | timer | path | slice | scope
  deriving DecidableEq, Repr

inductive UnitLoadState where
  | stub | loaded | not_found | error | merged | masked
  deriving DecidableEq, Repr

inductive UnitActiveState where
  | active | reloading | inactive | failed | activating | deactivating
  deriving DecidableEq, Repr

/-- The macro `UNIT_IS_INACTIVE_OR_FAILED`. -/
def UNIT_IS_INACTIVE_OR_FAILED (t : UnitActiveState) : Bool :=
  t = .inactive || t = .failed

/-- The relation kinds `UNIT_REQUIRES` ... `UNIT_REFERENCED_BY`: the 22 kinds
that index `inverse_table` (unit.c:2290-2313), in the order of the enum;
`_UNIT_DEPENDENCY_INVALID` is `none` of `Option UnitDependency`. -/
inductive UnitDependency where
  | requires | requisite | wants | binds_to | part_of
  | required_by | requisite_of | wanted_by | bound_by | consists_of
  | conflicts | conflicted_by
  | before | after
  | on_failure
  | triggers | triggered_by
  | propagates_reload_to | reload_propagated_from
  | joins_namespace_of
  | references | referenced_by
  deriving DecidableEq, Repr

/-- The values `0 .. _UNIT_DEPENDENCY_MAX - 1`, as `for (d = 0; d < _UNIT_DEPENDENCY_MAX; d++)` visits them. -/
def UnitDependency.all : List UnitDependency :=
  [.requires, .requisite, .wants, .binds_to, .part_of,
   .required_by, .requisite_of, .wanted_by, .bound_by, .consists_of,
   .conflicts, .conflicted_by, .before, .after, .on_failure,
   .triggers, .triggered_by, .propagates_reload_to, .reload_propagated_from,
   .joins_namespace_of, .references, .referenced_by]

/-- Arrays indexed by the relation kind are compared entry by entry. -/
instance depArrayDecEq {α : Type} [DecidableEq α] : DecidableEq (UnitDependency → α) := fun f g =>
  decidable_of_iff (∀ d ∈ UnitDependency.all, f d = g d)
    ⟨fun h => funext fun d => h d (by cases d <;> decide), fun h d _ => by rw [h]⟩

/-- The static `inverse_table` of `unit_add_dependency` (unit.c:2290-2313). -/
def inverse_table : UnitDependency → Option UnitDependency
  | .requires => some .required_by
  | .wants => some .wanted_by
  | .requisite => some .requisite_of
  | .binds_to => some .bound_by
  | .part_of => some .consists_of
  | .required_by => some .requires
  | .requisite_of => some .requisite
  | .wanted_by => some .wants
  | .bound_by => some .binds_to
  | .consists_of => some .part_of
  | .conflicts => some .conflicted_by
  | .conflicted_by => some .conflicts
  | .before => some .after
  | .after => some .before
  | .on_failure => none
  | .references => some .referenced_by
  | .referenced_by => some .references
  | .triggers => some .triggered_by
  | .triggered_by => some .triggers
  | .propagates_reload_to => some .reload_propagated_from
  | .reload_propagated_from => some .propagates_reload_to
  | .joins_namespace_of => some .joins_namespace_of

/-- Optional values are compared by their contents. -/
instance optionDecEq {α : Type} [DecidableEq α] : DecidableEq (Option α) := fun a b =>
  match a, b with
  | none, none => isTrue rfl
  | none, some _ => isFalse (fun h => Option.noConfusion h)
  | some _, none => isFalse (fun h => Option.noConfusion h)
  | some x, some y => decidable_of_iff (x = y) ⟨congrArg some, Option.some.inj⟩

/-! ## Sets of units -/

abbrev UnitId := Nat

/-- The call `set_put(s, x)`: 0 when `x` is a member already, 1 when it was
inserted, `-ENOMEM` when the insertion had to allocate and could not. -/
def set_put (oom : Bool) (s : List UnitId) (x : UnitId) : Int × List UnitId :=
  if x ∈ s then (0, s)
  else if oom then (-ENOMEM, s)
  else (1, s ++ [x])

/-- The call `set_remove(s, x)`. -/
def set_remove (s : List UnitId) (x : UnitId) : List UnitId :=
  s.filter (fun y => decide (y ≠ x))

/-- The call `set_ensure_allocated(&s, NULL)`: it allocates only when the set is
`NULL`, which a set with members is not. A list does not tell an allocated
empty set from `NULL`: the empty list is taken for `NULL`, so that the call can
fail with `-ENOMEM` on every empty set, also on one that the code had allocated
before and on which it returns 0 without allocating. -/
def set_ensure_allocated (oom : Bool) (s : List UnitId) : Int :=
  if s ≠ [] then 0 else if oom then -ENOMEM else 0

/-- The call `set_remove_and_put(s, old, new)`: `-ENOENT` without `old`,
`-EEXIST` with `new` already there, else `old` is replaced by `new`. -/
def set_remove_and_put (s : List UnitId) (old new : UnitId) : Int × List UnitId :=
  if old ∉ s then (-ENOENT, s)
  else if new ∈ s then (-EEXIST, s)
  else (0, set_remove s old ++ [new])

/-- The call `set_move(s, other)`: storage for all of `other` is reserved first
(`-ENOMEM` leaves both sets alone), then every entry of `other` that `s` lacks
moves over and the entries `s` has already stay in `other`. -/
def set_move {α : Type} [DecidableEq α] (oom : Bool) (s other : List α) : Int × List α × List α :=
  if oom then (-ENOMEM, s, other)
  else (0, s ++ other.filter (fun y => decide (y ∉ s)), other.filter (fun y => decide (y ∈ s)))

/-- The static function `complete_move` (unit.c:632-651). An empty `other` moves
nothing; otherwise the members are moved with `set_move`, or, when `*s` is
`NULL`, by handing over the whole set. -/
def complete_move {α : Type} [DecidableEq α] (oom : Bool) (s other : List α) : Int × List α × List α :=
  if other = [] then (0, s, other)
  else if s ≠ [] then
    let r := set_move oom s other
    if r.1 < 0 then (r.1, s, other) else (0, r.2.1, r.2.2)
  else if oom then (-ENOMEM, s, other)
  else (0, other, [])

/-! ## Units and the manager -/

/-- The type `dual_timestamp`: two clock readings in microseconds. -/
structure dual_timestamp where
  realtime : Nat := 0
  monotonic : Nat := 0
  deriving DecidableEq, Repr

/-- The job verbs that the `switch` of `unit_notify` distinguishes
(unit.c:2025-2071), and `JOB_NOP`. -/
inductive JobType where
  | start | verify_active | stop | reload | reload_or_start | restart | try_restart
  | try_reload | nop
  deriving DecidableEq, Repr

/-- The states `JOB_WAITING` and `JOB_RUNNING` of an installed job. -/
inductive JobState where
  | waiting | running
  deriving DecidableEq, Repr

/-- The results that a finished job can have. -/
inductive JobResult where
  | done | canceled | timeout | failed | dependency | skipped | invalid | collected
  deriving DecidableEq, Repr

/-- The job modes that `manager_add_job` distinguishes (manager.c:1366-1392),
and the other modes. -/
inductive JobMode where
  | fail | replace | replace_irreversibly | isolate | flush
  | ignore_dependencies | ignore_requirements
  deriving DecidableEq, Repr

/-- The fields of `struct Job` that `unit.c` and `manager.c` read. -/
structure Job where
  id : Nat := 0
  unit : Nat := 0
  type : JobType := .start
  state : JobState := .waiting
  deriving DecidableEq, Repr

/-- The constant `NSEC_INFINITY` of `basic/time-util.h`: `(nsec_t) -1`, the
largest value of 64 bits. -/
def NSEC_INFINITY : Nat := 2 ^ 64 - 1

/-- The fields of `struct Unit` that the registry, the graph and the collector
read or write. `data` is the state owned by the unit type (the part of the
object behind `struct Unit`), which only the vtable hooks interpret. `job` and
`nop_job` point into the table of job objects of the manager. The default
values are those of the object that `unit_new` returns (unit.c:86-105): zero but
for `default_dependencies`, `on_failure_job_mode` and `cpu_usage_last`. -/
structure Unit where
  names : List String := []
  id : Option String := none
  inst : Option String := none
  type : Option UnitType := none
  load_state : UnitLoadState := .stub
  merged_into : Option UnitId := none
  dependencies : UnitDependency → List UnitId := fun _ => []
  job : Option Nat := none
  nop_job : Option Nat := none
  refs : List Nat := []
  perpetual : Bool := false
  bus_track : Nat := 0
  in_load_queue : Bool := false
  in_dbus_queue : Bool := false
  in_cleanup_queue : Bool := false
  in_gc_queue : Bool := false
  sent_dbus_new_signal : Bool := false
  data : Nat := 0
  gc_marker : Nat := 0
  allow_isolate : Bool := false
  default_dependencies : Bool := true
  fragment_path : Option String := none
  requires_mounts_for : List String := []
  state_change_timestamp : dual_timestamp := {}
  inactive_exit_timestamp : dual_timestamp := {}
  inactive_enter_timestamp : dual_timestamp := {}
  active_enter_timestamp : dual_timestamp := {}
  active_exit_timestamp : dual_timestamp := {}
  condition_timestamp : dual_timestamp := {}
  assert_timestamp : dual_timestamp := {}
  condition_result : Bool := false
  assert_result : Bool := false
  transient : Bool := false
  cpu_usage_base : Nat := 0
  cpu_usage_last : Nat := NSEC_INFINITY
  deserialized_refs : List String := []
  in_audit : Bool := false
  load_error : Int := 0
  transient_file : Bool := false
  fragment_mtime : Nat := 0
  on_failure_job_mode : JobMode := .replace
  slice : Option UnitId := none

/-- The fields of the registry and the graph agree. -/
def Unit.eq_ident (a b : Unit) : Prop :=
  a.names = b.names ∧ a.id = b.id ∧ a.inst = b.inst ∧ a.type = b.type ∧
    a.load_state = b.load_state ∧ a.merged_into = b.merged_into ∧
    a.dependencies = b.dependencies ∧ a.job = b.job ∧ a.nop_job = b.nop_job

instance (a b : Unit) : Decidable (a.eq_ident b) := by
  unfold Unit.eq_ident; infer_instance

/-- The fields of the collector and the queues agree. -/
def Unit.eq_queues (a b : Unit) : Prop :=
  a.refs = b.refs ∧ a.perpetual = b.perpetual ∧ a.bus_track = b.bus_track ∧
    a.in_load_queue = b.in_load_queue ∧ a.in_dbus_queue = b.in_dbus_queue ∧
    a.in_cleanup_queue = b.in_cleanup_queue ∧ a.in_gc_queue = b.in_gc_queue ∧
    a.sent_dbus_new_signal = b.sent_dbus_new_signal ∧ a.data = b.data ∧
    a.gc_marker = b.gc_marker

instance (a b : Unit) : Decidable (a.eq_queues b) := by
  unfold Unit.eq_queues; infer_instance

/-- The settings and the timestamps agree. -/
def Unit.eq_times (a b : Unit) : Prop :=
  a.allow_isolate = b.allow_isolate ∧
    a.default_dependencies = b.default_dependencies ∧ a.fragment_path = b.fragment_path ∧
    a.requires_mounts_for = b.requires_mounts_for ∧
    a.state_change_timestamp = b.state_change_timestamp ∧
    a.inactive_exit_timestamp = b.inactive_exit_timestamp ∧
    a.inactive_enter_timestamp = b.inactive_enter_timestamp ∧
    a.active_enter_timestamp = b.active_enter_timestamp ∧
    a.active_exit_timestamp = b.active_exit_timestamp

instance (a b : Unit) : Decidable (a.eq_times b) := by
  unfold Unit.eq_times; infer_instance

/-- The remaining serialized fields agree. -/
def Unit.eq_serial (a b : Unit) : Prop :=
  a.condition_timestamp = b.condition_timestamp ∧
    a.assert_timestamp = b.assert_timestamp ∧
    a.condition_result = b.condition_result ∧ a.assert_result = b.assert_result ∧
    a.transient = b.transient ∧ a.cpu_usage_base = b.cpu_usage_base ∧
    a.cpu_usage_last = b.cpu_usage_last ∧ a.deserialized_refs = b.deserialized_refs ∧
    a.in_audit = b.in_audit

instance (a b : Unit) : Decidable (a.eq_serial b) := by
  unfold Unit.eq_serial; infer_instance

/-- The fields that `unit_load` reads and writes agree. -/
def Unit.eq_load (a b : Unit) : Prop :=
  a.load_error = b.load_error ∧ a.transient_file = b.transient_file ∧
    a.fragment_mtime = b.fragment_mtime ∧ a.on_failure_job_mode = b.on_failure_job_mode ∧
    a.slice = b.slice

instance (a b : Unit) : Decidable (a.eq_load b) := by
  unfold Unit.eq_load; infer_instance

/-- Unit objects are compared field by field. -/
instance : DecidableEq Unit := fun a b =>
  decidable_of_iff (a.eq_ident b ∧ a.eq_queues b ∧ a.eq_times b ∧ a.eq_serial b ∧ a.eq_load b)
    ⟨fun h => by
      cases a; cases b
      simp only [Unit.eq_ident, Unit.eq_queues, Unit.eq_times, Unit.eq_serial, Unit.eq_load] at h
      simp only [Unit.mk.injEq]
      simp only [and_assoc] at h ⊢
      exact h,
     fun h => by
      subst h
      simp [Unit.eq_ident, Unit.eq_queues, Unit.eq_times, Unit.eq_serial, Unit.eq_load]⟩

instance : Inhabited Unit := ⟨{}⟩

/-- The values of `m->exit_code` that `manager.c` names; `MANAGER_OK` is
`ok`. -/
inductive ManagerExitCode where
  | ok | exit | reload | reexecute | reboot | poweroff | halt | kexec | switch_root
  deriving DecidableEq, Repr

/-- The fields of `struct Manager` used here: the unit objects, the name
registry `units`, the job objects and the job table `jobs` (job id to job
object), the queues, the counts behind `sd_bus_track_count(m->subscribed)` and
`set_isempty(m->private_buses)`, the generation counter of the collector, the
counters of `unit_notify`, and what the main loop, the load queue and the
serialization of the manager read and write. -/
structure Manager where
  heap : List Unit := []
  units : List (String × UnitId) := []
  units_by_type : List (UnitType × UnitId) := []
  load_queue : List UnitId := []
  dbus_unit_queue : List UnitId := []
  cleanup_queue : List UnitId := []
  gc_unit_queue : List UnitId := []
  subscribed : Nat := 0
  private_buses : Nat := 0
  job_heap : List Job := []
  jobs : List (Nat × Nat) := []
  gc_marker : Nat := 0
  n_reloading : Nat := 0
  n_on_console : Nat := 0
  no_console_output : Bool := false
  exit_code : ManagerExitCode := .ok
  runtime_watchdog : Nat := 0
  notify_fd : Int := -1
  cgroups_agent_fd : Int := -1
  user_lookup_fds : Int × Int := (-1, -1)
  dispatching_load_queue : Bool := false
  startup_units : List UnitId := []

/-- Manager states are compared field by field. -/
instance : DecidableEq Manager := fun a b =>
  decidable_of_iff
    (a.heap = b.heap ∧ a.units = b.units ∧ a.units_by_type = b.units_by_type ∧
      a.load_queue = b.load_queue ∧ a.dbus_unit_queue = b.dbus_unit_queue ∧
      a.cleanup_queue = b.cleanup_queue ∧ a.gc_unit_queue = b.gc_unit_queue ∧
      a.subscribed = b.subscribed ∧ a.private_buses = b.private_buses ∧
      a.job_heap = b.job_heap ∧ a.jobs = b.jobs ∧ a.gc_marker = b.gc_marker ∧
      a.n_reloading = b.n_reloading ∧ a.n_on_console = b.n_on_console ∧
      a.no_console_output = b.no_console_output ∧ a.exit_code = b.exit_code ∧
      a.runtime_watchdog = b.runtime_watchdog ∧ a.notify_fd = b.notify_fd ∧
      a.cgroups_agent_fd = b.cgroups_agent_fd ∧ a.user_lookup_fds = b.user_lookup_fds ∧
      a.dispatching_load_queue = b.dispatching_load_queue ∧
      a.startup_units = b.startup_units)
    ⟨fun h => by
      cases a; cases b; simp only [Manager.mk.injEq]; exact h,
     fun h => by subst h; simp⟩

/-- The unit object behind a pointer (an empty object outside the table). -/
def Manager.unit (m : Manager) (u : UnitId) : Unit := m.heap.getD u default

/-- Whether the pointer designates a unit object of this manager. -/
def Manager.valid (m : Manager) (u : UnitId) : Prop := u < m.heap.length

instance (m : Manager) (u : UnitId) : Decidable (m.valid u) := by
  unfold Manager.valid; infer_instance

/-- A write through a unit pointer. -/
def Manager.modify (m : Manager) (u : UnitId) (f : Unit → Unit) : Manager :=
  { m with heap := m.heap.set u (f (m.unit u)) }

/-- The members of `u->dependencies[d]`. -/
def Manager.deps (m : Manager) (u : UnitId) (d : UnitDependency) : List UnitId :=
  (m.unit u).dependencies d

/-- The assignment of new contents to `u->dependencies[d]`. -/
def Manager.setDeps (m : Manager) (u : UnitId) (d : UnitDependency) (s : List UnitId) : Manager :=
  m.modify u (fun x => { x with dependencies := fun k => if k = d then s else x.dependencies k })

/-- The loop of `unit_follow_merge`, at most `fuel` units long. -/
def follow_merge_loop (m : Manager) : Nat → UnitId → Option UnitId
  | 0, _ => none
  | fuel + 1, u =>
    if m.valid u then
      if (m.unit u).load_state = .merged then
        match (m.unit u).merged_into with
        | none => none
        | some v => follow_merge_loop m fuel v
      else some u
    else none

/-- The function `unit_follow_merge` (unit.c:840-847). A chain of `merged_into`
links that does not end within as many steps as there are unit objects runs in
a cycle, on which the loop never ends. -/
def unit_follow_merge (m : Manager) (u : UnitId) : Option UnitId :=
  follow_merge_loop m (m.heap.length + 1) u

/-- The function `unit_add_to_dbus_queue` (unit.c:397-414). -/
def unit_add_to_dbus_queue (m : Manager) (u : UnitId) : Option Manager :=
  if (m.unit u).type = none then none
  else if (m.unit u).load_state = .stub ∨ (m.unit u).in_dbus_queue = true then some m
  else if m.subscribed ≤ 0 ∧ (m.unit u).bus_track ≤ 0 ∧ m.private_buses = 0 then
    some (m.modify u (fun x => { x with sent_dbus_new_signal := true }))
  else
    some { m.modify u (fun x => { x with in_dbus_queue := true }) with
           dbus_unit_queue := u :: m.dbus_unit_queue }

/-- The function `unit_add_to_cleanup_queue` (unit.c:374-382). -/
def unit_add_to_cleanup_queue (m : Manager) (u : UnitId) : Manager :=
  if (m.unit u).in_cleanup_queue = true then m
  else { m.modify u (fun x => { x with in_cleanup_queue := true }) with
         cleanup_queue := u :: m.cleanup_queue }

/-! ## Adding a dependency -/

/-- The `fail:` label of `unit_add_dependency` (unit.c:2383-2393): what the
insertions `q`, `v`, `w` added is taken out again (the caller returns `r`). -/
def unit_add_dependency_fail (m : Manager) (u : UnitId) (d : UnitDependency) (other : UnitId)
    (q v w : Int) : Manager :=
  let m1 := if q > 0 then m.setDeps u d (set_remove (m.deps u d) other) else m
  let m2 := if v > 0 then
      match inverse_table d with
      | some i => m1.setDeps other i (set_remove (m1.deps other i) u)
      | none => m1
    else m1
  if w > 0 then m2.setDeps u .references (set_remove (m2.deps u .references) other) else m2

/-- The part of `unit_add_dependency` after the inverse insertion
(unit.c:2368-2381): the two reference insertions (allocation sites 6 and 7),
then the D-Bus queue. -/
def unit_add_dependency_refs (oom : Nat → Bool) (m : Manager) (u : UnitId) (d : UnitDependency)
    (other : UnitId) (add_reference : Bool) (q v : Int) : Option (Int × Manager) :=
  if add_reference then
    let w := set_put (oom 6) (m.deps u .references) other
    if w.1 < 0 then some (w.1, unit_add_dependency_fail m u d other q v w.1)
    else
      let m3 := m.setDeps u .references w.2
      let r := set_put (oom 7) (m3.deps other .referenced_by) u
      if r.1 < 0 then some (r.1, unit_add_dependency_fail m3 u d other q v w.1)
      else
        (unit_add_to_dbus_queue (m3.setDeps other .referenced_by r.2) u).map (fun m5 => (0, m5))
  else
    (unit_add_to_dbus_queue m u).map (fun m5 => (0, m5))

/-- The function `unit_add_dependency` (unit.c:2288-2394). Allocation sites: 0-3
the four `set_ensure_allocated`, 4-7 the four `set_put`. -/
def unit_add_dependency (oom : Nat → Bool) (m : Manager) (u : UnitId) (d : UnitDependency)
    (other : UnitId) (add_reference : Bool) : Option (Int × Manager) :=
  match unit_follow_merge m u, unit_follow_merge m other with
  | some u, some other =>
    if u = other then some (0, m)
    else if d = .before ∧ (m.unit other).type = some .device then some (0, m)
    else if set_ensure_allocated (oom 0) (m.deps u d) < 0 then some (-ENOMEM, m)
    else if (inverse_table d).any (fun i => decide (set_ensure_allocated (oom 1) (m.deps other i) < 0))
      then some (-ENOMEM, m)
    else if add_reference = true ∧ set_ensure_allocated (oom 2) (m.deps u .references) < 0
      then some (-ENOMEM, m)
    else if add_reference = true ∧ set_ensure_allocated (oom 3) (m.deps other .referenced_by) < 0
      then some (-ENOMEM, m)
    else
      let q := set_put (oom 4) (m.deps u d) other
      if q.1 < 0 then some (q.1, m)
      else
        let m1 := m.setDeps u d q.2
        match inverse_table d with
        | some i =>
          if i ≠ d then
            let v := set_put (oom 5) (m1.deps other i) u
            if v.1 < 0 then some (v.1, unit_add_dependency_fail m1 u d other q.1 v.1 0)
            else unit_add_dependency_refs oom (m1.setDeps other i v.2) u d other add_reference q.1 v.1
          else unit_add_dependency_refs oom m1 u d other add_reference q.1 0
        | none => unit_add_dependency_refs oom m1 u d other add_reference q.1 0
  | _, _ => none

/-! ## The name registry -/

def UNIT_NAME_PLAIN : Nat := 1
def UNIT_NAME_INSTANCE : Nat := 2
def UNIT_NAME_TEMPLATE : Nat := 4

/-- Modelled from the spec: the `load` capability of a unit-type backend. The
`load` functions of the unit types are not part of `unit.c`, which provides
two common implementations for them (unit.c:1099 and 1120): a backend loads
its unit with `unit_load_fragment_and_dropin`, for which a unit without a
definition is an error, or with `unit_load_fragment_and_dropin_optional`. -/
inductive UnitLoadHook where
  | fragment_and_dropin | fragment_and_dropin_optional
  deriving DecidableEq, Repr

/-- The hooks of a `UnitVTable` that the functions below call, and the offsets
of the contexts in the unit object. A hook reads and writes the state owned by
the unit type (`Unit.data`); of the `serialize` hook only its presence matters
here. The `load` hook reads the definition of the unit and calls back into the
manager: it is one of the implementations that `UnitLoadHook` names. -/
structure UnitVTable where
  active_state : Nat → UnitActiveState
  release_resources : Option (Nat → Bool → Nat) := none
  check_gc : Option (Nat → Bool) := none
  done : Option (Nat → Nat) := none
  init : Option (Nat → Nat) := none
  serialize : Bool := false
  deserialize_item : Option (Nat → String → String → Int × Nat) := none
  exec_runtime_offset : Nat := 0
  cgroup_context_offset : Nat := 0
  load : Option UnitLoadHook := none

/-- What `unit.c` takes from other files: the `unit_vtable` array, the name
functions of `basic/unit-name.c` and the constant `MANAGER_MAX_NAMES` of
`core/manager.h`. They are parameters of the embedding. -/
structure Env where
  unit_vtable : UnitType → UnitVTable
  unit_name_is_valid : String → Nat → Bool
  unit_name_to_type : String → Option UnitType
  unit_name_to_instance : String → Int × Option String
  unit_name_replace_instance : String → String → Int × String
  unit_type_may_alias : UnitType → Bool
  unit_type_may_template : UnitType → Bool
  MANAGER_MAX_NAMES : Nat

/-- The call `hashmap_get(m->units, name)`. -/
def hashmap_get (h : List (String × UnitId)) (key : String) : Option UnitId :=
  h.lookup key

/-- The call `hashmap_contains(m->units, name)`. -/
def hashmap_contains (h : List (String × UnitId)) (key : String) : Bool :=
  (hashmap_get h key).isSome

/-- The call `hashmap_put(h, key, value)`: 0 when the key maps to this value
already, `-EEXIST` when it maps to another one, else 1 after the insertion, or
`-ENOMEM`. -/
def hashmap_put (oom : Bool) (h : List (String × UnitId)) (key : String) (value : UnitId) :
    Int × List (String × UnitId) :=
  match hashmap_get h key with
  | some v => if v = value then (0, h) else (-EEXIST, h)
  | none => if oom then (-ENOMEM, h) else (1, h ++ [(key, value)])

/-- The call `hashmap_replace(h, key, value)`: 0 when an entry of this key was
overwritten, else as `hashmap_put`. -/
def hashmap_replace (oom : Bool) (h : List (String × UnitId)) (key : String) (value : UnitId) :
    Int × List (String × UnitId) :=
  match hashmap_get h key with
  | some _ => (0, h.map (fun e => if e.1 = key then (key, value) else e))
  | none => if oom then (-ENOMEM, h) else (1, h ++ [(key, value)])

/-- The call `hashmap_remove_value(h, key, value)`. -/
def hashmap_remove_value (h : List (String × UnitId)) (key : String) (value : UnitId) :
    List (String × UnitId) :=
  if hashmap_get h key = some value then h.filter (fun e => decide (e.1 ≠ key)) else h

/-- The function `manager_get_unit` (manager.c:1451-1456). -/
def manager_get_unit (m : Manager) (name : String) : Option UnitId :=
  hashmap_get m.units name

/-- The static function `unit_init` (unit.c:138-175): the contexts and the
`init` hook belong to the state of the unit type. -/
def unit_init (env : Env) (m : Manager) (u : UnitId) : Option Manager :=
  match (m.unit u).type with
  | none => none
  | some t =>
    match (env.unit_vtable t).init with
    | some f => some (m.modify u (fun x => { x with data := f x.data }))
    | none => some m

/-- The start of `unit_add_name` (unit.c:185-197): the name `s` that is
registered for `text` (allocation site 0 is the `strdup`). -/
def unit_add_name_resolve (env : Env) (oom : Nat → Bool) (m : Manager) (u : UnitId)
    (text : String) : Except Int String :=
  if env.unit_name_is_valid text UNIT_NAME_TEMPLATE = true then
    match (m.unit u).inst with
    | none => .error (-EINVAL)
    | some i =>
      let r := env.unit_name_replace_instance text i
      if r.1 < 0 then .error r.1 else .ok r.2
  else if oom 0 = true then .error (-ENOMEM)
  else .ok text

/-- The end of `unit_add_name` (unit.c:233-259), after all checks: the name is
put into `u->names` (site 1) and into the registry (site 2), a unit without a
type takes the type, id and instance of the name. -/
def unit_add_name_commit (env : Env) (oom : Nat → Bool) (m : Manager) (u : UnitId)
    (s : String) (t : UnitType) (i : Option String) : Option (Int × Manager) :=
  if oom 1 = true then some (-ENOMEM, m)
  else
    let m1 := m.modify u (fun x => { x with names := x.names ++ [s] })
    let r := hashmap_put (oom 2) m1.units s u
    if r.1 < 0 then some (r.1, m1.modify u (fun x => { x with names := x.names.filter (fun n => decide (n ≠ s)) }))
    else
      let m2 : Manager := { m1 with units := r.2 }
      if (m2.unit u).type = none then
        let m3 : Manager := { m2.modify u (fun x => { x with type := some t, id := some s, inst := i }) with
                              units_by_type := (t, u) :: m2.units_by_type }
        (unit_init env m3 u).bind (fun m4 => (unit_add_to_dbus_queue m4 u).map (fun m5 => (0, m5)))
      else
        (unit_add_to_dbus_queue m2 u).map (fun m5 => (0, m5))

/-- The checks of `unit_add_name` on the resolved name `s` (unit.c:199-231). -/
def unit_add_name_checked (env : Env) (oom : Nat → Bool) (m : Manager) (u : UnitId)
    (s : String) : Option (Int × Manager) :=
  if s ∈ (m.unit u).names then some (0, m)
  else if hashmap_contains m.units s = true then some (-EEXIST, m)
  else if env.unit_name_is_valid s (UNIT_NAME_PLAIN ||| UNIT_NAME_INSTANCE) = false then some (-EINVAL, m)
  else
    match env.unit_name_to_type s with
    | none => some (-EINVAL, m)
    | some t =>
      if (m.unit u).type ≠ none ∧ some t ≠ (m.unit u).type then some (-EINVAL, m)
      else
        let r := env.unit_name_to_instance s
        if r.1 < 0 then some (r.1, m)
        else if r.2.isSome = true ∧ env.unit_type_may_template t = false then some (-EINVAL, m)
        else if (m.unit u).type ≠ none ∧ (m.unit u).inst.isNone ≠ r.2.isNone then some (-EINVAL, m)
        else if env.unit_type_may_alias t = false ∧ (m.unit u).names ≠ [] then some (-EEXIST, m)
        else if m.units.length ≥ env.MANAGER_MAX_NAMES then some (-E2BIG, m)
        else unit_add_name_commit env oom m u s t r.2

/-- The function `unit_add_name` (unit.c:177-260). -/
def unit_add_name (env : Env) (oom : Nat → Bool) (m : Manager) (u : UnitId) (text : String) :
    Option (Int × Manager) :=
  if m.valid u then
    match unit_add_name_resolve env oom m u text with
    | .error r => some (r, m)
    | .ok s => unit_add_name_checked env oom m u s
  else none

/-! ## Garbage-collection predicate -/

/-- The function `unit_active_state` (unit.c:613-624): the `active_state` hook
of the unit that `u` resolves to. -/
def unit_active_state (env : Env) (m : Manager) (u : UnitId) : Option UnitActiveState :=
  match unit_follow_merge m u with
  | none => none
  | some v =>
    match (m.unit v).type with
    | none => none
    | some t => some ((env.unit_vtable t).active_state (m.unit v).data)

/-- The call of the `release_resources` hook in `unit_check_gc` (unit.c:338-340). -/
def unit_release_resources (env : Env) (m : Manager) (u : UnitId) (state : UnitActiveState) :
    Option Manager :=
  if UNIT_IS_INACTIVE_OR_FAILED state = true then
    match (m.unit u).type with
    | none => none
    | some t =>
      match (env.unit_vtable t).release_resources with
      | some f => some (m.modify u (fun x => { x with data := f x.data (decide (state = .inactive)) }))
      | none => some m
  else some m

/-- The call of the `check_gc` hook in `unit_check_gc` (unit.c:356-358): whether
the hook exists and returns true. -/
def unit_check_gc_hook (env : Env) (m : Manager) (u : UnitId) : Option Bool :=
  match (m.unit u).type with
  | none => none
  | some t =>
    match (env.unit_vtable t).check_gc with
    | some f => some (f (m.unit u).data)
    | none => some false

/-- The function `unit_check_gc` (unit.c:322-361), with the state that the
`release_resources` hook leaves. -/
def unit_check_gc (env : Env) (m : Manager) (u : UnitId) : Option (Bool × Manager) :=
  if m.valid u then
    if (m.unit u).job.isSome = true then some (true, m)
    else if (m.unit u).nop_job.isSome = true then some (true, m)
    else
      match unit_active_state env m u with
      | none => none
      | some state =>
        match unit_release_resources env m u state with
        | none => none
        | some m1 =>
          if state ≠ .inactive then some (true, m1)
          else if (m1.unit u).perpetual = true then some (true, m1)
          else if (m1.unit u).refs ≠ [] then some (true, m1)
          else if (m1.unit u).bus_track > 0 then some (true, m1)
          else (unit_check_gc_hook env m1 u).map (fun b => (b, m1))
  else none

/-- The function `unit_add_to_gc_queue` (unit.c:384-395). -/
def unit_add_to_gc_queue (env : Env) (m : Manager) (u : UnitId) : Option Manager :=
  if (m.unit u).in_gc_queue = true ∨ (m.unit u).in_cleanup_queue = true then some m
  else
    match unit_check_gc env m u with
    | none => none
    | some (true, m1) => some m1
    | some (false, m1) =>
      some { m1.modify u (fun x => { x with in_gc_queue := true }) with
             gc_unit_queue := u :: m1.gc_unit_queue }

/-! ## Merging two units -/

/-- The static function `merge_names` (unit.c:653-673); allocation happens in
`complete_move` only. Every `hashmap_replace` must overwrite an entry
(`assert_se(... == 0)`). -/
def merge_names (oom : Bool) (m : Manager) (u other : UnitId) : Option (Int × Manager) :=
  let r := complete_move oom (m.unit u).names (m.unit other).names
  if r.1 < 0 then some (r.1, m)
  else
    let m1 := (m.modify u (fun x => { x with names := r.2.1 })).modify other
      (fun x => { x with names := [], id := none })
    if (m1.unit u).names.all (fun t => hashmap_contains m1.units t) = true then
      let h1 := (m1.unit u).names.foldl (fun h t => (hashmap_replace false h t u).2) m1.units
      some (0, { m1 with units := h1 })
    else none

/-- The static function `reserve_dependencies` (unit.c:675-694): `set_reserve`
allocates only for a positive number of entries. -/
def reserve_dependencies (oom : Bool) (m : Manager) (u other : UnitId) (d : UnitDependency) : Int :=
  if m.deps u d = [] then 0
  else
    let n_reserve := (m.deps other d).length - (if u ∈ m.deps other d then 1 else 0)
    if n_reserve > 0 ∧ oom = true then -ENOMEM else 0

/-- The loop `for (d = 0; d < _UNIT_DEPENDENCY_MAX; d++)` over
`reserve_dependencies` in `unit_merge` (unit.c:776-784); the allocation site of
kind number `n` is `n`. -/
def reserve_loop (oom : Nat → Bool) (m : Manager) (u other : UnitId) :
    List UnitDependency → Nat → Int
  | [], _ => 0
  | d :: ds, n =>
    let r := reserve_dependencies (oom n) m u other d
    if r < 0 then r else reserve_loop oom m u other ds (n + 1)

/-- The body of the inner loop of `merge_dependencies` (unit.c:709-721) for one
`back` and one kind `k`. -/
def merge_dependencies_fix (m : Manager) (u other back : UnitId) (k : UnitDependency) : Manager :=
  if back = u then
    m.setDeps back k (set_remove (m.deps back k) other)
  else
    let r := set_remove_and_put (m.deps back k) other u
    if r.1 = -EEXIST then m.setDeps back k (set_remove (m.deps back k) other)
    else m.setDeps back k r.2

/-- The static function `merge_dependencies` (unit.c:696-733). The outer loop
visits the members that `other->dependencies[d]` has when it starts; the move
at the end cannot fail after the reservation. -/
def merge_dependencies (m : Manager) (u other : UnitId) (d : UnitDependency) : Option Manager :=
  let m1 := (m.deps other d).foldl
    (fun acc back => UnitDependency.all.foldl (fun a k => merge_dependencies_fix a u other back k) acc) m
  let m2 := m1.setDeps other d (set_remove (m1.deps other d) u)
  let r := complete_move false (m2.deps u d) (m2.deps other d)
  if r.1 = 0 then
    some (((m2.setDeps u d r.2.1).setDeps other d r.2.2).setDeps other d [])
  else none

/-- The loop `for (d = 0; d < _UNIT_DEPENDENCY_MAX; d++)` over
`merge_dependencies` in `unit_merge` (unit.c:796-797). -/
def merge_dependencies_loop (m : Manager) (u other : UnitId) : List UnitDependency → Option Manager
  | [] => some m
  | d :: ds => (merge_dependencies m u other d).bind (fun m1 => merge_dependencies_loop m1 u other ds)

/-- The address of the `UnitRef` that is the field `slice` of the unit object
`u`. A `UnitRef` is named by a number, as a member of the list `refs` of the
unit it points to: an odd number is the field `slice` of a unit object, an even
number a reference that lives in the object of a unit type. -/
def slice_ref (u : UnitId) : Nat := 2 * u + 1

/-- The assignment `ref->unit = v`. It writes a field of the state when the
reference is the `slice` of a unit object. -/
def unit_ref_assign (m : Manager) (ref : Nat) (v : Option UnitId) : Manager :=
  if ref % 2 = 1 then m.modify (ref / 2) (fun x => { x with slice := v }) else m

/-- The function `unit_ref_unset` (unit.c:3464-3476) on a reference with
`ref->unit = t`: nothing happens to an unset reference; else the unit is
offered to the collector, the reference leaves its list `refs` and is unset. -/
def unit_ref_unset (env : Env) (m : Manager) (ref : Nat) : Option UnitId → Option Manager
  | none => some m
  | some t =>
    (unit_add_to_gc_queue env m t).map (fun m1 =>
      unit_ref_assign (m1.modify t (fun x => { x with refs := x.refs.erase ref })) ref none)

/-- The function `unit_ref_set` (unit.c:3452-3462) on a reference with
`ref->unit = other`: the reference is unset, then it points to `u` and is put
in front of `u->refs`. -/
def unit_ref_set (env : Env) (m : Manager) (other u : UnitId) (ref : Nat) : Option Manager :=
  (unit_ref_unset env m ref (some other)).map (fun m1 =>
    (unit_ref_assign m1 ref (some u)).modify u (fun x => { x with refs := ref :: x.refs }))

/-- The loop `while (other->refs) unit_ref_set(other->refs, u)` (unit.c:792-793),
one round for each reference that `other` holds at the start. -/
def redirect_refs (env : Env) (m : Manager) (u other : UnitId) : List Nat → Option Manager
  | [] => some m
  | ref :: rest => (unit_ref_set env m other u ref).bind (fun m1 => redirect_refs env m1 u other rest)

/-- The call of the `done` hook at the end of `unit_merge` (unit.c:804-806). -/
def unit_merge_done (env : Env) (m : Manager) (other : UnitId) : Option Manager :=
  if (m.unit other).load_state ≠ .stub then
    match (m.unit other).type with
    | none => none
    | some t =>
      match (env.unit_vtable t).done with
      | some f => some (m.modify other (fun x => { x with data := f x.data }))
      | none => some m
  else some m

/-- The part of `unit_merge` after the checks and the reservation
(unit.c:786-811); allocation site 22 is the move of the names. -/
def unit_merge_commit (env : Env) (oom : Nat → Bool) (m : Manager) (u other : UnitId) :
    Option (Int × Manager) :=
  match merge_names (oom 22) m u other with
  | none => none
  | some (r, m1) =>
    if r < 0 then some (r, m1)
    else
      (redirect_refs env m1 u other (m1.unit other).refs).bind fun m2 =>
      (merge_dependencies_loop m2 u other UnitDependency.all).bind fun m3 =>
      let m4 := m3.modify other (fun x => { x with load_state := .merged, merged_into := some u })
      (unit_merge_done env m4 other).bind fun m5 =>
      (unit_add_to_dbus_queue m5 u).map fun m6 =>
      (0, unit_add_to_cleanup_queue m6 other)

/-- The function `unit_merge` (unit.c:735-812). -/
def unit_merge (env : Env) (oom : Nat → Bool) (m : Manager) (u other : UnitId) :
    Option (Int × Manager) :=
  if m.valid u then
    match (m.unit u).type with
    | none => none
    | some ut =>
      match unit_follow_merge m other with
      | none => none
      | some other =>
        if other = u then some (0, m)
        else if some ut ≠ (m.unit other).type then some (-EINVAL, m)
        else if (m.unit u).inst.isNone ≠ (m.unit other).inst.isNone then some (-EINVAL, m)
        else if env.unit_type_may_alias ut = false then some (-EEXIST, m)
        else if (m.unit other).load_state ≠ .stub ∧ (m.unit other).load_state ≠ .not_found
          then some (-EEXIST, m)
        else if (m.unit other).job.isSome = true then some (-EEXIST, m)
        else if (m.unit other).nop_job.isSome = true then some (-EEXIST, m)
        else
          match unit_active_state env m other with
          | none => none
          | some st =>
            if UNIT_IS_INACTIVE_OR_FAILED st = false then some (-EEXIST, m)
            else
              let r := reserve_loop oom m u other UnitDependency.all 0
              if r < 0 then some (r, m)
              else unit_merge_commit env oom m u other
  else none

/-! ## Sequences of calls and predicates on graphs -/

/-- The edges that a call of `unit_add_dependency` on the resolved units asks for. -/
def added (u o : UnitId) (d : UnitDependency) (ar : Bool) (x : UnitId) (k : UnitDependency)
    (y : UnitId) : Prop :=
  (x = u ∧ k = d ∧ y = o) ∨ (x = o ∧ inverse_table d = some k ∧ k ≠ d ∧ y = u) ∨
  (ar = true ∧ x = u ∧ k = .references ∧ y = o) ∨ (ar = true ∧ x = o ∧ k = .referenced_by ∧ y = u)

/-- One call of `unit_add_dependency`, with the allocation oracle it meets. -/
structure DepCall where
  u : UnitId
  d : UnitDependency
  other : UnitId
  add_reference : Bool
  oom : Nat → Bool

/-- A sequence of calls of `unit_add_dependency` that all succeed: the state
after the last one (`none` when a call fails or does not return). -/
def run_add_dependency : Manager → List DepCall → Option Manager
  | m, [] => some m
  | m, c :: cs =>
    match unit_add_dependency c.oom m c.u c.d c.other c.add_reference with
    | some (r, m1) => if r < 0 then none else run_add_dependency m1 cs
    | none => none

/-- All dependency sets of all unit objects are empty. -/
def Manager.no_dependencies (m : Manager) : Prop :=
  ∀ x ∈ m.heap, ∀ k ∈ UnitDependency.all, x.dependencies k = []

instance (m : Manager) : Decidable m.no_dependencies := by
  unfold Manager.no_dependencies; infer_instance

/-- No unit is a member of one of its own dependency sets. -/
def Manager.no_self_edges (m : Manager) : Prop :=
  ∀ x k, x ∉ m.deps x k

/-- An oracle under which no allocation fails. -/
def no_oom : Nat → Bool := fun _ => false

/-- An oracle under which exactly the allocation at site `n` fails. -/
def oom_at (n : Nat) : Nat → Bool := fun i => decide (i = n)

/-- Two service units without dependencies. -/
def graph2 : Manager :=
  { heap := [ { names := ["a.service"], id := some "a.service", type := some .service },
              { names := ["b.service"], id := some "b.service", type := some .service } ],
    units := [("a.service", 0), ("b.service", 1)] }

/-- The graph `graph2` with the edge `Requires` from unit 0 to unit 1 and its inverse. -/
def graph2_requires : Manager :=
  { heap := [ { names := ["a.service"], id := some "a.service", type := some .service,
                dependencies := fun k => if k = .requires then [1] else [] },
              { names := ["b.service"], id := some "b.service", type := some .service,
                dependencies := fun k => if k = .required_by then [0] else [] } ],
    units := [("a.service", 0), ("b.service", 1)] }

/-- A service unit, a device unit, and a service unit merged into the device unit. -/
def graph_device : Manager :=
  { heap := [ { names := ["a.service"], id := some "a.service", type := some .service },
              { names := ["d.device", "e.device"], id := some "d.device", type := some .device },
              { type := some .device, load_state := .merged, merged_into := some 1 } ],
    units := [("a.service", 0), ("d.device", 1), ("e.device", 1)] }

/-- Inverse-edge symmetry for the kinds whose inverse is another kind. -/
def Manager.inverse_symmetric (m : Manager) : Prop :=
  ∀ u v k k', inverse_table k = some k' → k' ≠ k → (v ∈ m.deps u k ↔ u ∈ m.deps v k')

/-- A small environment: three service names, two mount names, one template
with its instance; the hooks of every type report `inactive` for the state 0
of the unit type. Services may be aliased and instantiated, mounts not, and
the registry holds at most 4 names. -/
def env0 : Env where
  unit_vtable := fun _ => { active_state := fun n => if n = 0 then .inactive else .active }
  unit_name_is_valid := fun s f =>
    if f = UNIT_NAME_TEMPLATE then decide (s = "t@.service")
    else decide (s ∈ ["a.service", "b.service", "c.service", "d.mount", "e.mount", "t@x.service"])
  unit_name_to_type := fun s =>
    if s ∈ ["a.service", "b.service", "c.service", "t@x.service"] then some .service
    else if s ∈ ["d.mount", "e.mount"] then some .mount else none
  unit_name_to_instance := fun s => if s = "t@x.service" then (0, some "x") else (0, none)
  unit_name_replace_instance := fun _ i => if i = "x" then (0, "t@x.service") else (-EINVAL, "")
  unit_type_may_alias := fun t => decide (t = .service)
  unit_type_may_template := fun t => decide (t = .service)
  MANAGER_MAX_NAMES := 4

/-- The service unit `a.service` (0), the mount unit `d.mount` (1) and a unit
object without a name (2). -/
def registry3 : Manager :=
  { heap := [ { names := ["a.service"], id := some "a.service", type := some .service },
              { names := ["d.mount"], id := some "d.mount", type := some .mount },
              {} ],
    units := [("a.service", 0), ("d.mount", 1)] }

/-- Four service units whose names fill the registry of `env0`, and a unit
object without a name (4). -/
def registry_full : Manager :=
  { heap := [ { names := ["a.service"], id := some "a.service", type := some .service },
              { names := ["b.service"], id := some "b.service", type := some .service },
              { names := ["c.service"], id := some "c.service", type := some .service },
              { names := ["t@x.service"], id := some "t@x.service", type := some .service,
                inst := some "x" },
              {} ],
    units := [("a.service", 0), ("b.service", 1), ("c.service", 2), ("t@x.service", 3)] }

/-- Three service units: unit 1 has a job, unit 2 is active (state 1 of the
unit type in `env0`). -/
def merge_busy : Manager :=
  { heap := [ { names := ["a.service"], id := some "a.service", type := some .service },
              { names := ["b.service"], id := some "b.service", type := some .service,
                job := some 1 },
              { names := ["c.service"], id := some "c.service", type := some .service,
                data := 1 } ],
    units := [("a.service", 0), ("b.service", 1), ("c.service", 2)] }

/-- The identity of a unit object: its names, id, instance, type, load state,
merge link and fragment path. -/
def Unit.ident (x : Unit) :
    List String × Option String × Option String × Option UnitType × UnitLoadState ×
      Option UnitId × Option String :=
  (x.names, x.id, x.inst, x.type, x.load_state, x.merged_into, x.fragment_path)

/-- The state `m'` has the registry and the unit identities of `m`. -/
def Manager.same_ident (m m' : Manager) : Prop :=
  m'.units = m.units ∧ m'.heap.length = m.heap.length ∧ ∀ x, (m'.unit x).ident = (m.unit x).ident

/-- The state `m'` has the dependency sets of `m`. -/
def Manager.same_deps (m m' : Manager) : Prop :=
  ∀ x, (m'.unit x).dependencies = (m.unit x).dependencies

/-- The members of `x->dependencies[k]` after the inner loop of
`merge_dependencies` visited `x`: `other` is replaced by `u`, or only
removed when `x` is `u` itself. -/
def redirected (m : Manager) (u other x : UnitId) (k : UnitDependency) (y : UnitId) : Prop :=
  (y ∈ m.deps x k ∧ y ≠ other) ∨ (y = u ∧ other ∈ m.deps x k ∧ x ≠ u)

/-- The members of `x->dependencies[k]` while `unit_merge(u, other)` runs its
loop over `merge_dependencies`, after the kinds in `done`, in terms of the
graph `m0` before the loop. -/
def merged_spec (m0 : Manager) (u other : UnitId) (done : List UnitDependency)
    (x : UnitId) (k : UnitDependency) (y : UnitId) : Prop :=
  if x = other then k ∉ done ∧ y ∈ m0.deps other k
  else if x = u then
    (y ∈ m0.deps u k ∧ ((∃ d ∈ done, u ∈ m0.deps other d) → y ≠ other)) ∨
      (k ∈ done ∧ y ∈ m0.deps other k ∧ y ≠ u)
  else if ∃ d ∈ done, x ∈ m0.deps other d then redirected m0 u other x k y
  else y ∈ m0.deps x k

/-- Three service units `a.service` (0), `b.service` (1), `c.service` (2) and
the mount unit `d.mount` (3): unit 1 `Wants` unit 3, unit 0 is ordered
`Before` unit 1, with the inverse edges. -/
def merge_graph : Manager :=
  { heap := [ { names := ["a.service"], id := some "a.service", type := some .service,
                dependencies := fun k => if k = .before then [1] else [] },
              { names := ["b.service"], id := some "b.service", type := some .service,
                dependencies := fun k =>
                  if k = .wants then [3] else if k = .after then [0] else [] },
              { names := ["c.service"], id := some "c.service", type := some .service },
              { names := ["d.mount"], id := some "d.mount", type := some .mount,
                dependencies := fun k => if k = .wanted_by then [1] else [] } ],
    units := [("a.service", 0), ("b.service", 1), ("c.service", 2), ("d.mount", 3)] }

/-- The state that `unit_merge(2, 1)` leaves from `merge_graph`: `b.service`
is a name of unit 2, unit 1 is merged into unit 2 and waits for its cleanup. -/
def merge_graph_chain : Manager :=
  { heap := [ { names := ["a.service"], id := some "a.service", type := some .service,
                dependencies := fun k => if k = .before then [2] else [] },
              { type := some .service, load_state := .merged, merged_into := some 2,
                in_cleanup_queue := true },
              { names := ["c.service", "b.service"], id := some "c.service", type := some .service,
                dependencies := fun k =>
                  if k = .wants then [3] else if k = .after then [0] else [] },
              { names := ["d.mount"], id := some "d.mount", type := some .mount,
                dependencies := fun k => if k = .wanted_by then [2] else [] } ],
    units := [("a.service", 0), ("b.service", 2), ("c.service", 2), ("d.mount", 3)],
    cleanup_queue := [1] }

/-- The result of a call that returns, and the state unchanged otherwise. -/
def state_after (m : Manager) (x : Option (Int × Manager)) : Manager :=
  match x with
  | some p => p.2
  | none => m

/-- The graph has no self-edge among its unit objects (a check that can be
evaluated). -/
def Manager.no_self_edges_in_heap (m : Manager) : Prop :=
  ∀ i < m.heap.length, ∀ k ∈ UnitDependency.all, i ∉ m.deps i k

instance (m : Manager) : Decidable m.no_self_edges_in_heap := by
  unfold Manager.no_self_edges_in_heap; infer_instance

/-- Every edge of the graph has a reverse edge of some kind (a check that can
be evaluated). -/
def Manager.reverse_edges_in_heap (m : Manager) : Prop :=
  ∀ i < m.heap.length, ∀ k ∈ UnitDependency.all, ∀ y ∈ m.deps i k,
    ∃ k' ∈ UnitDependency.all, i ∈ m.deps y k'

instance (m : Manager) : Decidable m.reverse_edges_in_heap := by
  unfold Manager.reverse_edges_in_heap; infer_instance

/-- Every name of every unit has the type of the unit and is mapped to the
unit by the registry of the manager. -/
def Manager.names_consistent (env : Env) (m : Manager) : Prop :=
  ∀ x, ∀ n ∈ (m.unit x).names,
    (m.unit x).type ≠ none ∧ env.unit_name_to_type n = (m.unit x).type ∧
      manager_get_unit m n = some x

/-- One call of `unit_add_name` or of `unit_merge`, with its allocation oracle. -/
inductive NameCall where
  | add_name (u : UnitId) (text : String) (oom : Nat → Bool)
  | merge (u other : UnitId) (oom : Nat → Bool)

/-- The result of one call. -/
def NameCall.run (env : Env) (m : Manager) : NameCall → Option (Int × Manager)
  | .add_name u text oom => unit_add_name env oom m u text
  | .merge u other oom => unit_merge env oom m u other

/-- A sequence of calls of `unit_add_name` and `unit_merge` that all return,
successfully or not: the state after the last one. -/
def run_name_calls (env : Env) : Manager → List NameCall → Option Manager
  | m, [] => some m
  | m, c :: cs =>
    match c.run env m with
    | some (_, m1) => run_name_calls env m1 cs
    | none => none

/-- The same for the unit objects of the heap (a check that can be evaluated). -/
def Manager.names_consistent_in_heap (env : Env) (m : Manager) : Prop :=
  ∀ x < m.heap.length, ∀ n ∈ (m.unit x).names,
    (m.unit x).type ≠ none ∧ env.unit_name_to_type n = (m.unit x).type ∧
      manager_get_unit m n = some x

instance (env : Env) (m : Manager) : Decidable (m.names_consistent_in_heap env) := by
  unfold Manager.names_consistent_in_heap; infer_instance

/-- Whether the call is a `unit_add_name` on the unit `u`. -/
def NameCall.adds_name_to (u : UnitId) : NameCall → Bool
  | .add_name v _ _ => decide (v = u)
  | .merge _ _ _ => false

/-- No call of the sequence is a successful `unit_add_name` on `u`. -/
def no_name_added (env : Env) (u : UnitId) : Manager → List NameCall → Bool
  | _, [] => true
  | m, c :: cs =>
    match c.run env m with
    | some (r, m1) => (!(c.adds_name_to u) || decide (r < 0)) && no_name_added env u m1 cs
    | none => true

/-- Two service units `a.service` (0), `b.service` (1) and two unit objects
without a name (2, 3). -/
def names_fresh : Manager :=
  { heap := [ { names := ["a.service"], id := some "a.service", type := some .service },
              { names := ["b.service"], id := some "b.service", type := some .service },
              {}, {} ],
    units := [("a.service", 0), ("b.service", 1)] }

/-- A registration on unit 2 that fails for lack of memory, the merge of unit
1 into unit 0, a registration on unit 3, and a registration of a mount name
on unit 3 that is refused. -/
def name_calls : List NameCall :=
  [ .add_name 2 "d.mount" (oom_at 2), .merge 0 1 no_oom,
    .add_name 3 "c.service" no_oom, .add_name 3 "e.mount" no_oom ]

/-- The state that `name_calls` leaves from `names_fresh`. -/
def names_merged : Manager :=
  { heap := [ { names := ["a.service", "b.service"], id := some "a.service", type := some .service },
              { type := some .service, load_state := .merged, merged_into := some 0,
                in_cleanup_queue := true },
              {},
              { names := ["c.service"], id := some "c.service", type := some .service } ],
    units := [("a.service", 0), ("b.service", 0), ("c.service", 3)],
    units_by_type := [(.service, 3)],
    cleanup_queue := [1] }

/-! ## Jobs: `manager_add_job` and `unit_notify` -/

/-- The macro `UNIT_IS_ACTIVE_OR_RELOADING`. -/
def UNIT_IS_ACTIVE_OR_RELOADING (t : UnitActiveState) : Bool :=
  t = .active || t = .reloading

/-- The macro `UNIT_IS_ACTIVE_OR_ACTIVATING`. -/
def UNIT_IS_ACTIVE_OR_ACTIVATING (t : UnitActiveState) : Bool :=
  t = .active || t = .activating || t = .reloading

/-- The macro `UNIT_IS_INACTIVE_OR_DEACTIVATING`. -/
def UNIT_IS_INACTIVE_OR_DEACTIVATING (t : UnitActiveState) : Bool :=
  t = .inactive || t = .failed || t = .deactivating

/-- The macro `MANAGER_IS_RELOADING`. -/
def MANAGER_IS_RELOADING (m : Manager) : Bool := decide (m.n_reloading > 0)

/-- The error names that `manager_add_job` passes to `sd_bus_error_setf`. -/
inductive BusErrorName where
  | invalid_args | no_isolation
  deriving DecidableEq, Repr

/-- Modelled from the spec: the transaction of `transaction.c`, "an ephemeral
working set of not-yet-installed Jobs" built for one anchor job. -/
structure Transaction where
  jobs : List Job := []
  anchor_job : Option Nat := none
  irreversible : Bool := false
  deriving DecidableEq, Repr

/-- What `manager_add_job` and `unit_notify` take from other files: the return
value of `sd_bus_error_setf` for an error name, the transaction engine of
`job.c` and `transaction.c`, and `exec_context_may_touch_console` applied to
the execution context of a unit (`none` without context). They are parameters
of the embedding. -/
structure JobEnv where
  sd_bus_error_setf : BusErrorName → Int
  job_type_collapse : Manager → JobType → UnitId → JobType
  transaction_new : Bool → Transaction
  transaction_add_job_and_dependencies :
    Transaction → JobType → UnitId → Bool → Bool → Bool → Bool → Manager →
      Int × Option BusErrorName × Transaction
  transaction_add_isolate_jobs : Transaction → Manager → Int × Transaction
  transaction_activate : Transaction → Manager → JobMode →
    Int × Option BusErrorName × Transaction × Manager
  transaction_abort : Transaction → Manager → Manager
  may_touch_console : Manager → UnitId → Option Bool

/-- What `manager_add_job` hands back: the return value, the error it stored
in `*e`, the job it stored in `*_ret`. -/
structure AddJobResult where
  r : Int
  e : Option BusErrorName := none
  ret : Option Nat := none
  deriving DecidableEq, Repr

/-- The label `tr_abort` of `manager_add_job` (manager.c:1406-1409). -/
def manager_add_job_abort (jenv : JobEnv) (m : Manager) (tr : Transaction) (r : Int)
    (e : Option BusErrorName) : AddJobResult × Manager :=
  ({ r := r, e := e }, jenv.transaction_abort tr m)

/-- The function `manager_add_job` (manager.c:1357-1410); allocation site 0 is
`transaction_new`. -/
def manager_add_job (jenv : JobEnv) (oom : Nat → Bool) (m : Manager) (type : JobType)
    (unit : UnitId) (mode : JobMode) : Option (AddJobResult × Manager) :=
  if m.valid unit then
    if mode = .isolate ∧ type ≠ .start then
      some ({ r := jenv.sd_bus_error_setf .invalid_args, e := some .invalid_args }, m)
    else if mode = .isolate ∧ (m.unit unit).allow_isolate = false then
      some ({ r := jenv.sd_bus_error_setf .no_isolation, e := some .no_isolation }, m)
    else
      let type := jenv.job_type_collapse m type unit
      if oom 0 = true then some ({ r := -ENOMEM }, m)
      else
        let tr := jenv.transaction_new (decide (mode = .replace_irreversibly))
        let a := jenv.transaction_add_job_and_dependencies tr type unit true false
          (decide (mode = .ignore_dependencies ∨ mode = .ignore_requirements))
          (decide (mode = .ignore_dependencies)) m
        if a.1 < 0 then some (manager_add_job_abort jenv m a.2.2 a.1 a.2.1)
        else
          let b := if mode = .isolate then jenv.transaction_add_isolate_jobs a.2.2 m
            else (0, a.2.2)
          if b.1 < 0 then some (manager_add_job_abort jenv m b.2 b.1 none)
          else
            let c := jenv.transaction_activate b.2 m mode
            if c.1 < 0 then some (manager_add_job_abort jenv c.2.2.2 c.2.2.1 c.1 c.2.1)
            else some ({ r := 0, ret := c.2.2.1.anchor_job }, c.2.2.2)
  else none

/-- The calls of `unit_notify` into other files and into functions that end in
the transaction engine, in the order in which they are made. -/
inductive Call where
  | manager_update_failed_units (u : UnitId) (failed : Bool)
  | unit_prune_cgroup (u : UnitId)
  | job_add_to_run_queue (j : Nat)
  | job_finish_and_invalidate (j : Nat) (result : JobResult) (recursive already : Bool)
  | retroactively_start_dependencies (u : UnitId)
  | retroactively_stop_dependencies (u : UnitId)
  | check_unneeded_dependencies (u : UnitId)
  | unit_start_on_failure (u : UnitId)
  | bus_init
  | manager_send_unit_audit (u : UnitId) (start success : Bool)
  | manager_send_unit_plymouth (u : UnitId)
  | manager_recheck_journal
  | unit_trigger_notify (u : UnitId)
  | unit_check_unneeded (u : UnitId)
  | unit_check_binds_to (u : UnitId)
  deriving DecidableEq, Repr

/-- The job object behind a job pointer. -/
def Manager.job (m : Manager) (j : Nat) : Option Job := m.job_heap.get? j

/-- Modelled from the spec: what `job_finish_and_invalidate` of `job.c` does to
the fields used here. It "notifies dependents ... before removing the job": the
job leaves the job table and its unit. -/
def job_finish_and_invalidate (m : Manager) (u : UnitId) (j : Nat) : Manager :=
  { m.modify u (fun x => { x with job := none }) with
    jobs := m.jobs.filter (fun e => decide (e.2 ≠ j)) }

/-- The update of the timestamps in `unit_notify` (unit.c:1970-1984); `now` is
what `dual_timestamp_get` reads. -/
def unit_notify_timestamps (now : dual_timestamp) (m : Manager) (u : UnitId)
    (os ns : UnitActiveState) : Manager :=
  if MANAGER_IS_RELOADING m = true then m
  else
    let m1 := m.modify u (fun x => { x with state_change_timestamp := now })
    let m2 :=
      if UNIT_IS_INACTIVE_OR_FAILED os = true ∧ UNIT_IS_INACTIVE_OR_FAILED ns = false then
        m1.modify u (fun x => { x with inactive_exit_timestamp := x.state_change_timestamp })
      else if UNIT_IS_INACTIVE_OR_FAILED os = false ∧ UNIT_IS_INACTIVE_OR_FAILED ns = true then
        m1.modify u (fun x => { x with inactive_enter_timestamp := x.state_change_timestamp })
      else m1
    if UNIT_IS_ACTIVE_OR_RELOADING os = false ∧ UNIT_IS_ACTIVE_OR_RELOADING ns = true then
      m2.modify u (fun x => { x with active_enter_timestamp := x.state_change_timestamp })
    else if UNIT_IS_ACTIVE_OR_RELOADING os = true ∧ UNIT_IS_ACTIVE_OR_RELOADING ns = false then
      m2.modify u (fun x => { x with active_exit_timestamp := x.state_change_timestamp })
    else m2

/-- The count of units on the console in `unit_notify` (unit.c:1995-2009);
`n_on_console` is an `unsigned`. -/
def unit_notify_console (jenv : JobEnv) (m : Manager) (u : UnitId) (os ns : UnitActiveState) :
    Manager :=
  if UNIT_IS_INACTIVE_OR_FAILED os ≠ UNIT_IS_INACTIVE_OR_FAILED ns then
    if jenv.may_touch_console m u = some true then
      if UNIT_IS_INACTIVE_OR_FAILED ns = true then
        let n := (m.n_on_console + 2 ^ 32 - 1) % 2 ^ 32
        { m with n_on_console := n,
                 no_console_output := if n = 0 then false else m.no_console_output }
      else { m with n_on_console := (m.n_on_console + 1) % 2 ^ 32 }
    else m
  else m

/-- One call of `job_finish_and_invalidate(u->job, result, true, false)` in
`unit_notify`: the call is recorded and the job is removed. -/
def unit_notify_finish (s : List Call × Manager) (u : UnitId) (j : Nat) (result : JobResult) :
    List Call × Manager :=
  (s.1 ++ [.job_finish_and_invalidate j result true false], job_finish_and_invalidate s.2 u j)

/-- The `switch (u->job->type)` of `unit_notify` (unit.c:2023-2072) for the job
`j` of type `type` and state `state`: the flag `unexpected`, the calls and the
state. `JOB_NOP` is "Job type unknown". -/
def unit_notify_switch (s : List Call × Manager) (u : UnitId) (j : Nat) (type : JobType)
    (state : JobState) (ns : UnitActiveState) (reload_success : Bool) :
    Option (Bool × List Call × Manager) :=
  match type with
  | .start | .verify_active =>
    if UNIT_IS_ACTIVE_OR_RELOADING ns = true then
      some (false, unit_notify_finish s u j .done)
    else if state = .running ∧ ns ≠ .activating then
      if UNIT_IS_INACTIVE_OR_FAILED ns = true then
        some (true, unit_notify_finish s u j (if ns = .failed then .failed else .done))
      else some (true, s)
    else some (false, s)
  | .reload | .reload_or_start | .try_reload =>
    if state = .running then
      if ns = .active then
        some (false, unit_notify_finish s u j (if reload_success = true then .done else .failed))
      else if ns ≠ .activating ∧ ns ≠ .reloading then
        if UNIT_IS_INACTIVE_OR_FAILED ns = true then
          some (true, unit_notify_finish s u j (if ns = .failed then .failed else .done))
        else some (true, s)
      else some (false, s)
    else some (false, s)
  | .stop | .restart | .try_restart =>
    if UNIT_IS_INACTIVE_OR_FAILED ns = true then
      some (false, unit_notify_finish s u j .done)
    else if state = .running ∧ ns ≠ .deactivating then
      some (true, unit_notify_finish s u j .failed)
    else some (false, s)
  | .nop => none

/-- The part `if (u->job) ... else unexpected = true` of `unit_notify`
(unit.c:2011-2076). -/
def unit_notify_job (s : List Call × Manager) (u : UnitId) (ns : UnitActiveState)
    (reload_success : Bool) : Option (Bool × List Call × Manager) :=
  match (s.2.unit u).job with
  | some j =>
    match s.2.job j with
    | none => none
    | some job =>
      let s1 := if job.state = .waiting then (s.1 ++ [Call.job_add_to_run_queue j], s.2) else s
      unit_notify_switch s1 u j job.type job.state ns reload_success
  | none => some (true, s)

/-- The retroactive jobs of `unit_notify` (unit.c:2078-2102). -/
def unit_notify_retroactive (m : Manager) (u : UnitId) (os ns : UnitActiveState)
    (unexpected : Bool) : List Call :=
  if MANAGER_IS_RELOADING m = true then []
  else
    (if unexpected = true then
      if UNIT_IS_INACTIVE_OR_FAILED os = true ∧ UNIT_IS_ACTIVE_OR_ACTIVATING ns = true then
        [Call.retroactively_start_dependencies u]
      else if UNIT_IS_ACTIVE_OR_ACTIVATING os = true ∧ UNIT_IS_INACTIVE_OR_DEACTIVATING ns = true then
        [Call.retroactively_stop_dependencies u]
      else []
    else []) ++
    (if UNIT_IS_INACTIVE_OR_DEACTIVATING ns = true then [Call.check_unneeded_dependencies u]
      else []) ++
    (if ns ≠ os ∧ ns = .failed then [Call.unit_start_on_failure u] else [])

/-- The special names, the audit records and the boot splash of `unit_notify`
(unit.c:2104-2149). -/
def unit_notify_special (s : List Call × Manager) (u : UnitId) (os ns : UnitActiveState) :
    List Call × Manager :=
  let m := s.2
  if UNIT_IS_ACTIVE_OR_RELOADING ns = true then
    let c1 := if "dbus.service" ∈ (m.unit u).names then [Call.bus_init] else []
    let audit := decide ((m.unit u).type = some .service) &&
      !UNIT_IS_ACTIVE_OR_RELOADING os && !MANAGER_IS_RELOADING m
    let c2 := if audit = true then [Call.manager_send_unit_audit u true true] else []
    let m1 := if audit = true then m.modify u (fun x => { x with in_audit := true }) else m
    let c3 := if UNIT_IS_ACTIVE_OR_RELOADING os = false then [Call.manager_send_unit_plymouth u]
      else []
    (s.1 ++ c1 ++ c2 ++ c3, m1)
  else if (m.unit u).type = some .service ∧ UNIT_IS_INACTIVE_OR_FAILED ns = true ∧
      UNIT_IS_INACTIVE_OR_FAILED os = false ∧ MANAGER_IS_RELOADING m = false then
    let c :=
      if (m.unit u).in_audit = false then
        [Call.manager_send_unit_audit u true (decide (ns = .inactive))] ++
          (if ns = .inactive then [Call.manager_send_unit_audit u false true] else [])
      else [Call.manager_send_unit_audit u false (decide (ns = .inactive))]
    (s.1 ++ c, m.modify u (fun x => { x with in_audit := false }))
  else s

/-- The function `unit_notify` (unit.c:1953-2167): the calls it makes and the
state it leaves. -/
def unit_notify (env : Env) (jenv : JobEnv) (now : dual_timestamp) (m : Manager) (u : UnitId)
    (os ns : UnitActiveState) (reload_success : Bool) : Option (List Call × Manager) :=
  if m.valid u then
    let m1 := unit_notify_timestamps now m u os ns
    let c1 := [Call.manager_update_failed_units u (decide (ns = .failed))] ++
      (if UNIT_IS_INACTIVE_OR_FAILED ns = true then [Call.unit_prune_cgroup u] else [])
    let m2 := unit_notify_console jenv m1 u os ns
    (unit_notify_job (c1, m2) u ns reload_success).bind fun r =>
    let s3 : List Call × Manager :=
      (r.2.1 ++ unit_notify_retroactive r.2.2 u os ns r.1, r.2.2)
    let s4 := unit_notify_special s3 u os ns
    let c5 := [Call.manager_recheck_journal, Call.unit_trigger_notify u] ++
      (if MANAGER_IS_RELOADING s4.2 = false then
        [Call.unit_check_unneeded u, Call.unit_check_binds_to u] else [])
    (unit_add_to_dbus_queue s4.2 u).bind fun m6 =>
    (unit_add_to_gc_queue env m6 u).map fun m7 => (s4.1 ++ c5, m7)
  else none

/-- The results with which the calls `job_finish_and_invalidate` of a record
finish the job `j`, in order. -/
def finished (calls : List Call) (j : Nat) : List JobResult :=
  calls.filterMap fun c =>
    match c with
    | .job_finish_and_invalidate i r _ _ => if i = j then some r else none
    | _ => none

/-- The calls of `unit_notify`, and nothing when it does not return. -/
def calls_of (x : Option (List Call × Manager)) : List Call :=
  match x with
  | some p => p.1
  | none => []

/-- A transaction engine that refuses nothing and installs nothing, with
`EINVAL` and `EPERM` as the codes of the two error names. -/
def jenv0 : JobEnv where
  sd_bus_error_setf := fun n => match n with
    | .invalid_args => -EINVAL
    | .no_isolation => -1
  job_type_collapse := fun _ t _ => t
  transaction_new := fun b => { irreversible := b }
  transaction_add_job_and_dependencies := fun tr _ _ _ _ _ _ _ => (0, none, tr)
  transaction_add_isolate_jobs := fun tr _ => (0, tr)
  transaction_activate := fun tr m _ => (0, none, tr, m)
  transaction_abort := fun _ m => m
  may_touch_console := fun _ _ => none

/-- The loaded service `a.service` (0) with the running start job 0, and the
loaded service `b.service` (1) with the waiting stop job 1. -/
def notify_jobs : Manager :=
  { heap := [ { names := ["a.service"], id := some "a.service", type := some .service,
                load_state := .loaded, job := some 0 },
              { names := ["b.service"], id := some "b.service", type := some .service,
                load_state := .loaded, job := some 1 } ],
    units := [("a.service", 0), ("b.service", 1)],
    job_heap := [ { id := 1, unit := 0, type := .start, state := .running },
                  { id := 2, unit := 1, type := .stop, state := .waiting } ],
    jobs := [(1, 0), (2, 1)] }

/-! ## Default dependencies on targets and on mounts -/

/-- The function `unit_add_default_target_dependency` (unit.c:1141-1165); the
allocation sites are those of `unit_add_dependency`. -/
def unit_add_default_target_dependency (oom : Nat → Bool) (m : Manager) (u target : UnitId) :
    Option (Int × Manager) :=
  if m.valid u ∧ m.valid target then
    if (m.unit target).type ≠ some .target then some (0, m)
    else if (m.unit u).load_state ≠ .loaded ∨ (m.unit target).load_state ≠ .loaded then
      some (0, m)
    else if (m.unit u).default_dependencies = false ∨
        (m.unit target).default_dependencies = false then some (0, m)
    else if u ∈ m.deps target .before then some (0, m)
    else unit_add_dependency oom m target .after u true
  else none

/-- The loaded service `a.service` (0) and the loaded target `x.target` (1),
both with default dependencies, without edges. -/
def graph_target : Manager :=
  { heap := [ { names := ["a.service"], id := some "a.service", type := some .service,
                load_state := .loaded },
              { names := ["x.target"], id := some "x.target", type := some .target,
                load_state := .loaded } ],
    units := [("a.service", 0), ("x.target", 1)] }

/-! ## Freeing a unit -/

/-- The static function `unit_done` (unit.c:494-514): the `done` hook; the
execution and cgroup contexts belong to the state of the unit type. -/
def unit_done (env : Env) (m : Manager) (u : UnitId) : Manager :=
  match (m.unit u).type with
  | none => m
  | some t =>
    match (env.unit_vtable t).done with
    | some f => m.modify u (fun x => { x with data := f x.data })
    | none => m

/-- Modelled from the spec: what `job_uninstall` and `job_free` of `job.c` do to
the fields used here when `unit_free` "uninstalls and frees any job": the job
leaves the job table and the field of its unit. -/
def job_uninstall (m : Manager) (u : UnitId) (j : Nat) (nop : Bool) : Manager :=
  { m.modify u (fun x => if nop = true then { x with nop_job := none } else { x with job := none })
    with jobs := m.jobs.filter (fun e => decide (e.2 ≠ j)) }

/-- The body of the loop of `bidi_set_free` (unit.c:426-432) for one member
`other` of the set. -/
def bidi_set_free_other (env : Env) (m : Manager) (u other : UnitId) : Option Manager :=
  if m.valid other then
    unit_add_to_gc_queue env
      (UnitDependency.all.foldl (fun a d => a.setDeps other d (set_remove (a.deps other d) u)) m)
      other
  else none

/-- The static function `bidi_set_free` (unit.c:416-435) on the members `s` of
the set. -/
def bidi_set_free (env : Env) (u : UnitId) : Manager → List UnitId → Option Manager
  | m, [] => some m
  | m, other :: rest => (bidi_set_free_other env m u other).bind (fun m1 => bidi_set_free env u m1 rest)

/-- The loop `for (d = 0; d < _UNIT_DEPENDENCY_MAX; d++) bidi_set_free(u, u->dependencies[d])`
of `unit_free` (unit.c:559-560). -/
def unit_free_dependencies (env : Env) (u : UnitId) : Manager → List UnitDependency → Option Manager
  | m, [] => some m
  | m, d :: ds => (bidi_set_free env u m (m.deps u d)).bind (fun m1 => unit_free_dependencies env u m1 ds)

/-- The removals from the lists of the manager in `unit_free` (unit.c:562-575):
a `LIST_REMOVE` takes the unit out of the list. -/
def unit_free_queues (m : Manager) (u : UnitId) : Manager :=
  { m with
    units_by_type := if (m.unit u).type ≠ none
      then m.units_by_type.filter (fun e => decide (e.2 ≠ u)) else m.units_by_type,
    load_queue := if (m.unit u).in_load_queue = true then m.load_queue.erase u else m.load_queue,
    dbus_unit_queue := if (m.unit u).in_dbus_queue = true then m.dbus_unit_queue.erase u
      else m.dbus_unit_queue,
    cleanup_queue := if (m.unit u).in_cleanup_queue = true then m.cleanup_queue.erase u
      else m.cleanup_queue,
    gc_unit_queue := if (m.unit u).in_gc_queue = true then m.gc_unit_queue.erase u
      else m.gc_unit_queue }

/-- The loop `while (u->refs) unit_ref_unset(u->refs)` of `unit_free`
(unit.c:591-592), one round for each reference that `u` holds at the start. -/
def unit_free_refs (env : Env) (u : UnitId) : Manager → List Nat → Option Manager
  | m, [] => some m
  | m, ref :: rest => (unit_ref_unset env m ref (some u)).bind (fun m1 => unit_free_refs env u m1 rest)

/-- The loop `SET_FOREACH(t, u->names, i) hashmap_remove_value(u->manager->units, t, u)`
of `unit_free` (unit.c:541-542). -/
def unit_free_names (m : Manager) (u : UnitId) : Manager :=
  { m with units := (m.unit u).names.foldl (fun h t => hashmap_remove_value h t u) m.units }

/-- The jobs of the unit are uninstalled and freed in `unit_free`
(unit.c:547-557). -/
def unit_free_jobs (m : Manager) (u : UnitId) : Manager :=
  let m1 := match (m.unit u).job with
    | some j => job_uninstall m u j false
    | none => m
  match (m1.unit u).nop_job with
  | some j => job_uninstall m1 u j true
  | none => m1

/-- The function `unit_free` (unit.c:516-611). The files, the bus, the cgroup,
the watched pids and the sets `failed_units`, `units_requiring_mounts_for` and
`units_by_invocation_id` are not part of the state. The unit leaves
`startup_units` (unit.c:585), its reference to its slice is unset (unit.c:589)
and so is every reference to the unit (unit.c:591-592). After the call the
object is gone: its place in the table holds an empty object. -/
def unit_free (env : Env) (m : Manager) (u : UnitId) : Option Manager :=
  if m.valid u then
    let m1 := unit_done env m u
    let m2 := m1.modify u (fun x => { x with deserialized_refs := [], requires_mounts_for := [] })
    let m5 := unit_free_jobs (unit_free_names m2 u) u
    (unit_free_dependencies env u m5 UnitDependency.all).bind fun m6 =>
    let m7 : Manager := { unit_free_queues m6 u with
                          startup_units := set_remove (unit_free_queues m6 u).startup_units u }
    (unit_ref_unset env m7 (slice_ref u) (m7.unit u).slice).bind fun m7s =>
    (unit_free_refs env u m7s (m7s.unit u).refs).map fun m8 =>
    { m8 with heap := m8.heap.set u {} }
  else none

/-- The loop of `manager_dispatch_cleanup_queue`, at most `fuel` rounds. -/
def dispatch_cleanup_loop (env : Env) : Nat → Manager → Option Manager
  | 0, _ => none
  | fuel + 1, m =>
    match m.cleanup_queue with
    | [] => some m
    | u :: _ =>
      if (m.unit u).in_cleanup_queue = true then
        (unit_free env m u).bind (fun m1 => dispatch_cleanup_loop env fuel m1)
      else none

/-- The function `manager_dispatch_cleanup_queue` (manager.c:901-915). Every
round takes the head out of the queue, so the loop ends within as many rounds
as the queue is long. -/
def manager_dispatch_cleanup_queue (env : Env) (m : Manager) : Option Manager :=
  dispatch_cleanup_loop env (m.cleanup_queue.length + 1) m

/-- The call leaves a reverse edge of some kind: it adds the references, or
the inverse of its kind is another kind. -/
def DepCall.has_reverse (c : DepCall) : Bool :=
  c.add_reference || (inverse_table c.d).any (fun i => decide (i ≠ c.d))

/-- The graph `graph2` with the edge `OnFailure` from unit 0 to unit 1, which
has no inverse. -/
def graph2_on_failure : Manager :=
  { heap := [ { names := ["a.service"], id := some "a.service", type := some .service,
                dependencies := fun k => if k = .on_failure then [1] else [] },
              { names := ["b.service"], id := some "b.service", type := some .service } ],
    units := [("a.service", 0), ("b.service", 1)] }

/-! ## Deserialization of a unit -/

/-- A `FILE *` open for reading: the lines that `fgets` still returns, and
what follows them, the end of the file (`none`) or a read error (`errno`). -/
structure File where
  lines : List String := []
  error : Option Int := none

/-- What `unit_deserialize` takes from other files: `strstrip`,
`dual_timestamp_deserialize` (which leaves the timestamp alone when the value
does not parse), `dual_timestamp_is_set`, `parse_boolean`, `safe_atou64`, the
deserialization of a job (the result, the job and the number of lines it
reads), `job_install_deserialized`, and `exec_runtime_deserialize_item` on
the state of the unit type. They are parameters of the embedding. -/
structure SerialEnv where
  strstrip : String → String
  dual_timestamp_deserialize : String → dual_timestamp → dual_timestamp
  dual_timestamp_is_set : dual_timestamp → Bool
  parse_boolean : String → Int
  safe_atou64 : String → Option Nat
  job_deserialize : Job → List String → Int × Job × Nat
  job_install_deserialized : Manager → UnitId → Nat → Int × Manager
  exec_runtime_deserialize_item : Nat → String → String → Int × Nat

/-- The key of a line: the part before the first `=` (`l[k] = 0` at
`k = strcspn(l, "=")`). -/
def line_key (l : String) : String := String.mk (l.data.takeWhile (fun c => c ≠ '='))

/-- The value of a line: the part after the first `=`, empty without one. -/
def line_value (l : String) : String := String.mk ((l.data.dropWhile (fun c => c ≠ '=')).drop 1)

/-- The call `hashmap_put(u->manager->jobs, UINT32_TO_PTR(j->id), j)`. -/
def jobs_put (oom : Bool) (h : List (Nat × Nat)) (id j : Nat) : Int × List (Nat × Nat) :=
  match h.lookup id with
  | some v => if v = j then (0, h) else (-EEXIST, h)
  | none => if oom then (-ENOMEM, h) else (1, h ++ [(id, j)])

/-- What one item does in the loop of `unit_deserialize`. -/
inductive ItemResult where
  | next (m : Manager) (skip : Nat)
  | fail (r : Int) (m : Manager)

/-- The item `job` of `unit_deserialize` (unit.c:2910-2940) with the lines
`rest` that follow it; allocation site 0 is `job_new_raw`, site 1 the entry of
the job table. A job that is not installed leaves the table and is freed. -/
def unit_deserialize_job (senv : SerialEnv) (oom : Nat → Bool) (m : Manager) (u : UnitId)
    (v : String) (rest : List String) : ItemResult :=
  if v = "" then
    if oom 0 = true then .fail (-ENOMEM) m
    else
      let d := senv.job_deserialize { unit := u } rest
      if d.1 < 0 then .fail d.1 m
      else
        let j := m.job_heap.length
        let p := jobs_put (oom 1) m.jobs d.2.1.id j
        if p.1 < 0 then .fail p.1 m
        else
          let m1 : Manager := { m with job_heap := m.job_heap ++ [d.2.1], jobs := p.2 }
          let i := senv.job_install_deserialized m1 u j
          let m2 : Manager :=
            { i.2 with jobs := i.2.jobs.filter (fun e => decide (e.1 ≠ d.2.1.id)) }
          if i.1 < 0 then .fail i.1 m2 else .next i.2 d.2.2
  else .next m 0

/-- The end of the loop body of `unit_deserialize` (unit.c:3083-3099): the
items of the unit type. -/
def unit_deserialize_type_item (env : Env) (senv : SerialEnv) (m : Manager) (u : UnitId)
    (l v : String) : Option Manager :=
  match (m.unit u).type with
  | none => none
  | some t =>
    match (env.unit_vtable t).deserialize_item with
    | some f =>
      if (env.unit_vtable t).serialize = true then
        let r := if (env.unit_vtable t).exec_runtime_offset > 0
          then senv.exec_runtime_deserialize_item (m.unit u).data l v else (0, (m.unit u).data)
        if r.1 ≠ 0 then some (m.modify u (fun x => { x with data := r.2 }))
        else some (m.modify u (fun x => { x with data := (f r.2 l v).2 }))
      else some m
    | none => some m

/-- The body of the loop of `unit_deserialize` for the stripped line `l`, which
is not the end marker (unit.c:2903-3100); allocation site 2 is `strv_extend`.
The control group, the referenced user and group and the invocation id are
not part of the state. -/
def unit_deserialize_item (env : Env) (senv : SerialEnv) (oom : Nat → Bool) (m : Manager)
    (u : UnitId) (l : String) (rest : List String) : Option ItemResult :=
  let k := line_key l
  let v := line_value l
  let bool (f : Unit → Bool → Unit) : Option ItemResult :=
    some (.next (if senv.parse_boolean v < 0 then m
      else m.modify u (fun x => f x (decide (senv.parse_boolean v ≠ 0)))) 0)
  if k = "job" then some (unit_deserialize_job senv oom m u v rest)
  else if k = "state-change-timestamp" then
    some (.next (m.modify u (fun x =>
      { x with state_change_timestamp := senv.dual_timestamp_deserialize v x.state_change_timestamp })) 0)
  else if k = "inactive-exit-timestamp" then
    some (.next (m.modify u (fun x =>
      { x with inactive_exit_timestamp := senv.dual_timestamp_deserialize v x.inactive_exit_timestamp })) 0)
  else if k = "active-enter-timestamp" then
    some (.next (m.modify u (fun x =>
      { x with active_enter_timestamp := senv.dual_timestamp_deserialize v x.active_enter_timestamp })) 0)
  else if k = "active-exit-timestamp" then
    some (.next (m.modify u (fun x =>
      { x with active_exit_timestamp := senv.dual_timestamp_deserialize v x.active_exit_timestamp })) 0)
  else if k = "inactive-enter-timestamp" then
    some (.next (m.modify u (fun x =>
      { x with inactive_enter_timestamp := senv.dual_timestamp_deserialize v x.inactive_enter_timestamp })) 0)
  else if k = "condition-timestamp" then
    some (.next (m.modify u (fun x =>
      { x with condition_timestamp := senv.dual_timestamp_deserialize v x.condition_timestamp })) 0)
  else if k = "assert-timestamp" then
    some (.next (m.modify u (fun x =>
      { x with assert_timestamp := senv.dual_timestamp_deserialize v x.assert_timestamp })) 0)
  else if k = "condition-result" then bool (fun x b => { x with condition_result := b })
  else if k = "assert-result" then bool (fun x b => { x with assert_result := b })
  else if k = "transient" then bool (fun x b => { x with transient := b })
  else if k = "cpu-usage-base" ∨ k = "cpuacct-usage-base" then
    some (.next (match senv.safe_atou64 v with
      | some n => m.modify u (fun x => { x with cpu_usage_base := n })
      | none => m) 0)
  else if k = "cpu-usage-last" then
    some (.next (match senv.safe_atou64 v with
      | some n => m.modify u (fun x => { x with cpu_usage_last := n })
      | none => m) 0)
  else if k = "cgroup" ∨ k = "cgroup-realized" ∨ k = "cgroup-realized-mask" ∨
      k = "cgroup-enabled-mask" ∨ k = "ref-uid" then some (.next m 0)
  else if k = "ref" then
    some (.next (if oom 2 = true then m
      else m.modify u (fun x => { x with deserialized_refs := x.deserialized_refs ++ [v] })) 0)
  else if k = "invocation-id" then some (.next m 0)
  else (unit_deserialize_type_item env senv m u k v).map (fun m1 => .next m1 0)

/-- The end of `unit_deserialize` after the end marker (unit.c:3105-3112);
`now` is what `dual_timestamp_get` reads. -/
def unit_deserialize_finish (senv : SerialEnv) (now : dual_timestamp) (m : Manager) (u : UnitId) :
    Int × Manager :=
  if senv.dual_timestamp_is_set (m.unit u).state_change_timestamp = false then
    (0, m.modify u (fun x => { x with state_change_timestamp := now }))
  else (0, m)

/-- The loop `for (;;)` of `unit_deserialize` (unit.c:2888-3100), at most
`fuel` lines long. -/
def unit_deserialize_loop (env : Env) (senv : SerialEnv) (now : dual_timestamp)
    (oom : Nat → Bool) (u : UnitId) (error : Option Int) :
    Nat → Manager → List String → Option (Int × Manager)
  | 0, _, _ => none
  | fuel + 1, m, lines =>
    match lines with
    | [] =>
      match error with
      | none => some (0, m)
      | some e => some (-e, m)
    | line :: rest =>
      if senv.strstrip line = "" then some (unit_deserialize_finish senv now m u)
      else
        match unit_deserialize_item env senv oom m u (senv.strstrip line) rest with
        | none => none
        | some (.fail r m1) => some (r, m1)
        | some (.next m1 skip) =>
          unit_deserialize_loop env senv now oom u error fuel m1 (rest.drop skip)

/-- The function `unit_deserialize` (unit.c:2875-3113). Every round of the
loop reads a line, so it ends within as many rounds as the stream has lines,
and one more for the end of the stream. -/
def unit_deserialize (env : Env) (senv : SerialEnv) (now : dual_timestamp) (oom : Nat → Bool)
    (m : Manager) (u : UnitId) (f : File) : Option (Int × Manager) :=
  if m.valid u ∧ (m.unit u).type ≠ none then
    unit_deserialize_loop env senv now oom u f.error (f.lines.length + 1) m f.lines
  else none

/-- The characters of `WHITESPACE`: space, tab, newline and carriage return. -/
def is_whitespace (c : Char) : Bool :=
  c = Char.ofNat 32 || c = Char.ofNat 9 || c = Char.ofNat 10 || c = Char.ofNat 13

/-- A small `SerialEnv`: `strstrip` drops the white space at both ends, the
only timestamp that parses is `1 1`, a timestamp is set when one of its clocks
is positive, and no job deserializes. -/
def senv0 : SerialEnv where
  strstrip := fun s =>
    String.mk ((s.data.dropWhile is_whitespace).reverse.dropWhile is_whitespace).reverse
  dual_timestamp_deserialize := fun v t =>
    if v = "1 1" then { realtime := 1, monotonic := 1 } else t
  dual_timestamp_is_set := fun t => decide (t.realtime > 0) || decide (t.monotonic > 0)
  parse_boolean := fun v =>
    if v ∈ ["1", "yes", "true", "on"] then 1 else if v ∈ ["0", "no", "false", "off"] then 0
    else -EINVAL
  safe_atou64 := fun _ => none
  job_deserialize := fun j _ => (-EINVAL, j, 0)
  job_install_deserialized := fun m _ _ => (-EEXIST, m)
  exec_runtime_deserialize_item := fun d _ _ => (0, d)

/-- The function `unit_add_to_load_queue` (unit.c:363-372). -/
def unit_add_to_load_queue (m : Manager) (u : UnitId) : Option Manager :=
  if (m.unit u).type = none then none
  else if (m.unit u).load_state ≠ .stub ∨ (m.unit u).in_load_queue = true then some m
  else some { m.modify u (fun x => { x with in_load_queue := true }) with
              load_queue := u :: m.load_queue }

/-- The function `unit_new` (unit.c:80-111): a new unit object at the end of
the table (allocation sites 0 and 1), or `NULL`. The object is zeroed
(`malloc0`) but for `type = _UNIT_TYPE_INVALID` (here `none`),
`default_dependencies = true`, `on_failure_job_mode = JOB_REPLACE` and
`cpu_usage_last = NSEC_INFINITY`, which are the default values of `Unit`, and
for fields that are not part of the state (`unit_file_state`,
`unit_file_preset`, `cgroup_inotify_wd`, the job timeouts, `ref_uid`, `ref_gid`
and the two rate limits). -/
def unit_new (oom : Nat → Bool) (m : Manager) : Option UnitId × Manager :=
  if oom 0 = true ∨ oom 1 = true then (none, m)
  else (some m.heap.length, { m with heap := m.heap ++ [{}] })

/-- What `manager_load_unit_prepare` and `unit_add_mount_dependencies` take
from `basic/path-util.h` and `basic/unit-name.c`: `is_path`, `basename`, the
prefixes that `PATH_FOREACH_PREFIX_MORE` visits, from the path itself to the
shortest, and `unit_name_from_path`. They are parameters of the embedding. -/
structure PathEnv where
  is_path : String → Bool
  basename : String → String
  path_prefixes : String → List String
  unit_name_from_path : String → String → Int × String

/-- The function `manager_load_unit_prepare` (manager.c:1484-1548): the return
value, `*_ret` and the state. Allocation sites: 0 and 1 `unit_new`, 2 the copy
of the path, 3 and up those of `unit_add_name`. -/
def manager_load_unit_prepare (env : Env) (jenv : JobEnv) (penv : PathEnv) (oom : Nat → Bool)
    (m : Manager) (name path : Option String) : Option (Int × Option UnitId × Manager) :=
  if name.isSome = true ∨ path.isSome = true then
    if path.any (fun p => !penv.is_path p) = true then
      some (jenv.sd_bus_error_setf .invalid_args, none, m)
    else
      let name := name.getD (penv.basename (path.getD ""))
      if env.unit_name_to_type name = none ∨
          env.unit_name_is_valid name (UNIT_NAME_PLAIN ||| UNIT_NAME_INSTANCE) = false then
        some (jenv.sd_bus_error_setf .invalid_args, none, m)
      else
        match manager_get_unit m name with
        | some ret => some (1, some ret, m)
        | none =>
          match unit_new oom m with
          | (none, m0) => some (-ENOMEM, none, m0)
          | (some ret, m0) =>
            if path.isSome = true ∧ oom 2 = true then
              (unit_free env m0 ret).map (fun m1 => (-ENOMEM, none, m1))
            else
              let m1 := if path.isSome = true
                then m0.modify ret (fun x => { x with fragment_path := path }) else m0
              match unit_add_name env (fun n => oom (n + 3)) m1 ret name with
              | none => none
              | some (r, m2) =>
                if r < 0 then (unit_free env m2 ret).map (fun m3 => (r, none, m3))
                else
                  (unit_add_to_load_queue m2 ret).bind fun m3 =>
                  (unit_add_to_dbus_queue m3 ret).bind fun m4 =>
                  (unit_add_to_gc_queue env m4 ret).map fun m5 => (0, some ret, m5)
  else none

/-- The body of the inner loop of `unit_add_mount_dependencies`
(unit.c:1217-1249) for one prefix: a negative value ends the function. The
allocation sites of the `After` edge are 0 to 7, those of the `Requires` edge
8 to 15, those of `manager_load_unit_prepare` 16 and up. -/
def unit_add_mount_dependencies_prefix (env : Env) (jenv : JobEnv) (penv : PathEnv)
    (oom : Nat → Bool) (m : Manager) (u : UnitId) (pfx : String) : Option (Int × Manager) :=
  let p := penv.unit_name_from_path pfx ".mount"
  if p.1 < 0 then some (p.1, m)
  else
    match manager_get_unit m p.2 with
    | none =>
      (manager_load_unit_prepare env jenv penv (fun n => oom (n + 16)) m (some p.2) none).map
        (fun r => (0, r.2.2))
    | some mu =>
      if mu = u then some (0, m)
      else if (m.unit mu).load_state ≠ .loaded then some (0, m)
      else
        match unit_add_dependency oom m u .after mu true with
        | none => none
        | some (r, m1) =>
          if r < 0 then some (r, m1)
          else if (m1.unit mu).fragment_path ≠ none then
            (unit_add_dependency (fun n => oom (n + 8)) m1 u .requires mu true).map
              (fun q => (if q.1 < 0 then q.1 else 0, q.2))
          else some (0, m1)

/-- The loop `PATH_FOREACH_PREFIX_MORE(prefix, *i)` of
`unit_add_mount_dependencies` over the prefixes `ps`; `oom j` is the oracle of
the round number `j`. -/
def unit_add_mount_dependencies_prefixes (env : Env) (jenv : JobEnv) (penv : PathEnv)
    (oom : Nat → Nat → Bool) (u : UnitId) : Nat → Manager → List String → Option (Int × Manager)
  | _, m, [] => some (0, m)
  | j, m, pfx :: ps =>
    match unit_add_mount_dependencies_prefix env jenv penv (oom j) m u pfx with
    | none => none
    | some (r, m1) =>
      if r < 0 then some (r, m1)
      else unit_add_mount_dependencies_prefixes env jenv penv oom u (j + 1) m1 ps

/-- The loop `STRV_FOREACH(i, u->requires_mounts_for)` of
`unit_add_mount_dependencies` over the paths `paths`; `oom i j` is the oracle
of the prefix number `j` of the path number `i`. -/
def unit_add_mount_dependencies_paths (env : Env) (jenv : JobEnv) (penv : PathEnv)
    (oom : Nat → Nat → Nat → Bool) (u : UnitId) : Nat → Manager → List String → Option (Int × Manager)
  | _, m, [] => some (0, m)
  | i, m, path :: paths =>
    match unit_add_mount_dependencies_prefixes env jenv penv (oom i) u 0 m
        (penv.path_prefixes path) with
    | none => none
    | some (r, m1) =>
      if r < 0 then some (r, m1)
      else unit_add_mount_dependencies_paths env jenv penv oom u (i + 1) m1 paths

/-- The static function `unit_add_mount_dependencies` (unit.c:1208-1254). -/
def unit_add_mount_dependencies (env : Env) (jenv : JobEnv) (penv : PathEnv)
    (oom : Nat → Nat → Nat → Bool) (m : Manager) (u : UnitId) : Option (Int × Manager) :=
  if m.valid u then
    unit_add_mount_dependencies_paths env jenv penv oom u 0 m (m.unit u).requires_mounts_for
  else none

/-- The mount unit that the round for the prefix `pfx` links `u` to: the
unit registered for the mount name of the prefix, when it is loaded and is not
`u` itself. -/
def mount_target (penv : PathEnv) (m : Manager) (u : UnitId) (pfx : String) : Option UnitId :=
  if (penv.unit_name_from_path pfx ".mount").1 < 0 then none
  else
    match manager_get_unit m (penv.unit_name_from_path pfx ".mount").2 with
    | some mu => if mu ≠ u ∧ (m.unit mu).load_state = .loaded then some mu else none
    | none => none

/-- The loaded mount units registered for the prefixes of the paths in
`u->requires_mounts_for`. -/
def mount_targets (penv : PathEnv) (m : Manager) (u : UnitId) : List UnitId :=
  ((m.unit u).requires_mounts_for.flatMap penv.path_prefixes).filterMap (mount_target penv m u)

/-- The names of `env0` and the mount names `a.mount`, `a-b.mount` and
`-.mount`. -/
def env_mounts : Env :=
  { env0 with
    unit_name_is_valid := fun s f =>
      env0.unit_name_is_valid s f ||
        (decide (f ≠ UNIT_NAME_TEMPLATE) && decide (s ∈ ["a.mount", "a-b.mount", "-.mount"]))
    unit_name_to_type := fun s =>
      if s ∈ ["a.mount", "a-b.mount", "-.mount"] then some .mount else env0.unit_name_to_type s
    MANAGER_MAX_NAMES := 8 }

/-- The prefixes of the path `/a/b`, and the mount names of `/a/b`, `/a` and
of the root directory. -/
def penv0 : PathEnv where
  is_path := fun p => decide (p ∈ ["/a/b", "/a"])
  basename := fun p => p
  path_prefixes := fun p => if p = "/a/b" then ["/a/b", "/a", ""] else []
  unit_name_from_path := fun p _ =>
    if p = "/a/b" then (0, "a-b.mount") else if p = "/a" then (0, "a.mount")
    else if p = "" then (0, "-.mount") else (-EINVAL, "")

/-- The loaded service `a.service` (0), which requires the mounts for `/a/b`,
and the loaded mount units `a-b.mount` (1), with a fragment path, and
`a.mount` (2), without one. -/
def graph_mounts : Manager :=
  { heap := [ { names := ["a.service"], id := some "a.service", type := some .service,
                load_state := .loaded, requires_mounts_for := ["/a/b"] },
              { names := ["a-b.mount"], id := some "a-b.mount", type := some .mount,
                load_state := .loaded, fragment_path := some "/etc/systemd/system/a-b.mount" },
              { names := ["a.mount"], id := some "a.mount", type := some .mount,
                load_state := .loaded } ],
    units := [("a.service", 0), ("a-b.mount", 1), ("a.mount", 2)] }

/-- The fields of a unit object that `unit_add_name` does not write: load
state, merge link, fragment path, dependency sets, references, jobs and the
reference to the slice. -/
def Unit.rest (x : Unit) :
    UnitLoadState × Option UnitId × Option String × (UnitDependency → List UnitId) × List Nat ×
      Option Nat × Option Nat × Option UnitId :=
  (x.load_state, x.merged_into, x.fragment_path, x.dependencies, x.refs, x.job, x.nop_job,
    x.slice)

/-- The state `m'` differs from `m` in the unit object of `u` at most, and
there in none of the fields of `Unit.rest`. -/
def Manager.touches (m m' : Manager) (u : UnitId) : Prop :=
  m'.heap.length = m.heap.length ∧ (∀ x, x ≠ u → m'.unit x = m.unit x) ∧
    (m'.unit u).rest = (m.unit u).rest

/-- The state `m'` extends `m` by stub units: the unit objects of `m` keep
their identity, every other object is a stub, a name registered in `m` still
designates its unit, and a name registered since designates a new object. -/
def Manager.extended_by (m m' : Manager) : Prop :=
  m.heap.length ≤ m'.heap.length ∧
  (∀ x, m.valid x → (m'.unit x).ident = (m.unit x).ident) ∧
  (∀ x, ¬ m.valid x → (m'.unit x).load_state = .stub) ∧
  (∀ n, manager_get_unit m' n = manager_get_unit m n ∨
    (manager_get_unit m n = none ∧ ∃ v, manager_get_unit m' n = some v ∧ ¬ m.valid v))

/-! ## The garbage collector of units -/

def GC_OFFSET_IN_PATH : Nat := 0
def GC_OFFSET_UNSURE : Nat := 1
def GC_OFFSET_GOOD : Nat := 2
def GC_OFFSET_BAD : Nat := 3
def _GC_OFFSET_MAX : Nat := 4

/-- The expression `gc_marker + offset` on `unsigned`. -/
def gc_mark (gc_marker offset : Nat) : Nat := (gc_marker + offset) % 2 ^ 32

/-- The loop `SET_FOREACH(other, u->dependencies[UNIT_REFERENCES], i)` of
`unit_gc_mark_good` (manager.c:932-934) over the members `s`; `rec` is the
recursive call. -/
def unit_gc_mark_good_loop (rec : Manager → UnitId → Option Manager) (gc_marker : Nat) :
    Manager → List UnitId → Option Manager
  | m, [] => some m
  | m, other :: rest =>
    if m.valid other then
      if (m.unit other).gc_marker = gc_mark gc_marker GC_OFFSET_UNSURE then
        (rec m other).bind (fun m1 => unit_gc_mark_good_loop rec gc_marker m1 rest)
      else unit_gc_mark_good_loop rec gc_marker m rest
    else none

/-- The static function `unit_gc_mark_good` (manager.c:925-935), to a recursion
depth of `fuel`. -/
def unit_gc_mark_good : Nat → Manager → UnitId → Nat → Option Manager
  | 0, _, _, _ => none
  | fuel + 1, m, u, gc_marker =>
    if m.valid u then
      unit_gc_mark_good_loop (fun a other => unit_gc_mark_good fuel a other gc_marker) gc_marker
        (m.modify u (fun x => { x with gc_marker := gc_mark gc_marker GC_OFFSET_GOOD }))
        (m.deps u .references)
    else none

/-- The label `bad:` of `unit_gc_sweep` (manager.c:979-984). -/
def unit_gc_sweep_bad (m : Manager) (u : UnitId) (gc_marker : Nat) : Manager :=
  unit_add_to_cleanup_queue
    (m.modify u (fun x => { x with gc_marker := gc_mark gc_marker GC_OFFSET_BAD })) u

/-- The loop `SET_FOREACH(other, u->dependencies[UNIT_REFERENCED_BY], i)` of
`unit_gc_sweep` (manager.c:960-968) over the members `s`, with the value of
`is_bad`; `rec` is the recursive call. The result is the state and `none`
after `goto good`, else the final value of `is_bad`. -/
def unit_gc_sweep_loop (rec : Manager → UnitId → Option Manager) (gc_marker : Nat) :
    Manager → Bool → List UnitId → Option (Manager × Option Bool)
  | m, is_bad, [] => some (m, some is_bad)
  | m, is_bad, other :: rest =>
    match rec m other with
    | none => none
    | some m1 =>
      if (m1.unit other).gc_marker = gc_mark gc_marker GC_OFFSET_GOOD then some (m1, none)
      else if (m1.unit other).gc_marker ≠ gc_mark gc_marker GC_OFFSET_BAD then
        unit_gc_sweep_loop rec gc_marker m1 false rest
      else unit_gc_sweep_loop rec gc_marker m1 is_bad rest

/-- The static function `unit_gc_sweep` (manager.c:937-988), to a recursion
depth of `fuel`. A call of `unit_gc_mark_good` goes no deeper than there are
unit objects. -/
def unit_gc_sweep (env : Env) : Nat → Manager → UnitId → Nat → Option Manager
  | 0, _, _, _ => none
  | fuel + 1, m, u, gc_marker =>
    if m.valid u then
      if (m.unit u).gc_marker = gc_mark gc_marker GC_OFFSET_GOOD ∨
          (m.unit u).gc_marker = gc_mark gc_marker GC_OFFSET_BAD ∨
          (m.unit u).gc_marker = gc_mark gc_marker GC_OFFSET_UNSURE ∨
          (m.unit u).gc_marker = gc_mark gc_marker GC_OFFSET_IN_PATH then some m
      else if (m.unit u).in_cleanup_queue = true then some (unit_gc_sweep_bad m u gc_marker)
      else
        match unit_check_gc env m u with
        | none => none
        | some (true, m1) => unit_gc_mark_good (m1.heap.length + 1) m1 u gc_marker
        | some (false, m1) =>
          match unit_gc_sweep_loop (fun a other => unit_gc_sweep env fuel a other gc_marker)
              gc_marker
              (m1.modify u (fun x => { x with gc_marker := gc_mark gc_marker GC_OFFSET_IN_PATH }))
              true (m1.deps u .referenced_by) with
          | none => none
          | some (m3, none) => unit_gc_mark_good (m3.heap.length + 1) m3 u gc_marker
          | some (m3, some true) => some (unit_gc_sweep_bad m3 u gc_marker)
          | some (m3, some false) =>
            unit_add_to_gc_queue env
              (m3.modify u (fun x => { x with gc_marker := gc_mark gc_marker GC_OFFSET_UNSURE })) u
    else none

/-- One round of the loop of `manager_dispatch_gc_unit_queue`
(manager.c:1004-1021) for the head `u` of the queue, after the sweep left the
state `m1`. -/
def manager_dispatch_gc_unit_queue_collect (m1 : Manager) (u : UnitId) (gc_marker : Nat) :
    Manager :=
  let m2 : Manager :=
    { m1.modify u (fun x => { x with in_gc_queue := false }) with
      gc_unit_queue := m1.gc_unit_queue.erase u }
  if (m2.unit u).gc_marker = gc_mark gc_marker GC_OFFSET_BAD ∨
      (m2.unit u).gc_marker = gc_mark gc_marker GC_OFFSET_UNSURE then
    unit_add_to_cleanup_queue
      (m2.modify u (fun x => { x with gc_marker := gc_mark gc_marker GC_OFFSET_BAD })) u
  else m2

/-- The loop of `manager_dispatch_gc_unit_queue`, at most `fuel` rounds, with
the count `n`. -/
def manager_dispatch_gc_unit_queue_loop (env : Env) (gc_marker : Nat) :
    Nat → Manager → Nat → Option (Nat × Manager)
  | 0, _, _ => none
  | fuel + 1, m, n =>
    match m.gc_unit_queue with
    | [] => some (n, m)
    | u :: _ =>
      if (m.unit u).in_gc_queue = true then
        match unit_gc_sweep env (m.heap.length + 1) m u gc_marker with
        | none => none
        | some m1 =>
          manager_dispatch_gc_unit_queue_loop env gc_marker fuel
            (manager_dispatch_gc_unit_queue_collect m1 u gc_marker) ((n + 1) % 2 ^ 32)
      else none

/-- The value of `m->gc_marker` that `manager_dispatch_gc_unit_queue` sets
(manager.c:998-1000). -/
def manager_next_gc_marker (m : Manager) : Nat :=
  if ((m.gc_marker + _GC_OFFSET_MAX) % 2 ^ 32 + _GC_OFFSET_MAX) % 2 ^ 32 ≤ _GC_OFFSET_MAX then 1
  else (m.gc_marker + _GC_OFFSET_MAX) % 2 ^ 32

/-- The static function `manager_dispatch_gc_unit_queue` (manager.c:990-1024):
the count and the state. A sweep marks every unit it puts on the queue, and
marks no unit twice, so the loop ends within as many rounds as there are units
on the queue and unit objects. -/
def manager_dispatch_gc_unit_queue (env : Env) (m : Manager) : Option (Nat × Manager) :=
  manager_dispatch_gc_unit_queue_loop env (manager_next_gc_marker m)
    (m.gc_unit_queue.length + m.heap.length + 1)
    { m with gc_marker := manager_next_gc_marker m } 0

/-- Two units without a job that reference each other, both on the queue of
the collector. -/
def gc_cycle : Manager :=
  { heap := [ { names := ["a.service"], id := some "a.service", type := some .service,
                in_gc_queue := true,
                dependencies := fun k =>
                  if k = .references then [1] else if k = .referenced_by then [1] else [] },
              { names := ["b.service"], id := some "b.service", type := some .service,
                in_gc_queue := true,
                dependencies := fun k =>
                  if k = .references then [0] else if k = .referenced_by then [0] else [] } ],
    units := [("a.service", 0), ("b.service", 1)],
    gc_unit_queue := [0, 1] }

/-- The unit object carries one of the four markers of the generation
`gc_marker`: the first test of `unit_gc_sweep`. -/
def Unit.gc_marked (x : Unit) (gc_marker : Nat) : Prop :=
  x.gc_marker = gc_mark gc_marker GC_OFFSET_GOOD ∨
    x.gc_marker = gc_mark gc_marker GC_OFFSET_BAD ∨
    x.gc_marker = gc_mark gc_marker GC_OFFSET_UNSURE ∨
    x.gc_marker = gc_mark gc_marker GC_OFFSET_IN_PATH

instance (x : Unit) (g : Nat) : Decidable (x.gc_marked g) := by
  unfold Unit.gc_marked; infer_instance

/-- The value of `unit_check_gc` on a unit object that is not merged: the
function reads no other object then. -/
def Unit.check_gc (env : Env) (x : Unit) : Option Bool :=
  (unit_check_gc env { heap := [x] } 0).map Prod.fst

/-- What a sweep of the generation `g` does to one unit object, `x` before and
`x'` after: nothing; or the marker goes from UNSURE to GOOD; or the object had no
marker and has its verdict now, is on the cleanup queue if it was or if the
verdict is BAD, and stays on the queue of the collector if it was there. A
verdict other than GOOD is for a unit on the cleanup queue or with
`unit_check_gc` false, a verdict other than BAD for a unit off the cleanup queue
with `unit_check_gc` true or with a referrer. -/
def Unit.swept (env : Env) (g : Nat) (x x' : Unit) : Prop :=
  x' = x ∨
  (x.gc_marker = gc_mark g GC_OFFSET_UNSURE ∧
    x' = { x with gc_marker := gc_mark g GC_OFFSET_GOOD }) ∨
  (¬ x.gc_marked g ∧
    (x'.gc_marker = gc_mark g GC_OFFSET_UNSURE ∨ x'.gc_marker = gc_mark g GC_OFFSET_GOOD ∨
      x'.gc_marker = gc_mark g GC_OFFSET_BAD) ∧
    (x'.in_cleanup_queue = true ↔
      x.in_cleanup_queue = true ∨ x'.gc_marker = gc_mark g GC_OFFSET_BAD) ∧
    (x.in_gc_queue = true → x'.in_gc_queue = true) ∧
    (x'.gc_marker = gc_mark g GC_OFFSET_UNSURE ∨ x'.gc_marker = gc_mark g GC_OFFSET_BAD →
      x.load_state ≠ .merged → x.in_cleanup_queue = true ∨ x.check_gc env = some false) ∧
    (x'.gc_marker = gc_mark g GC_OFFSET_UNSURE ∨ x'.gc_marker = gc_mark g GC_OFFSET_GOOD →
      x.in_cleanup_queue = false ∧
        (x.load_state ≠ .merged →
          x.check_gc env = some true ∨ x.dependencies .referenced_by ≠ [])))

/-- The number of unit objects without a marker of the generation `g`. -/
def Manager.gc_unmarked (m : Manager) (g : Nat) : Nat :=
  (List.range m.heap.length).countP (fun y => decide (¬ (m.unit y).gc_marked g))

/-- The queue of the collector and the cleanup queue hold the units that have
the flag of the queue, each once. -/
def Manager.queues_ok (m : Manager) : Prop :=
  m.gc_unit_queue.Nodup ∧ (∀ y, y ∈ m.gc_unit_queue ↔ (m.unit y).in_gc_queue = true) ∧
  m.cleanup_queue.Nodup ∧ (∀ y, y ∈ m.cleanup_queue ↔ (m.unit y).in_cleanup_queue = true)

/-- What a sweep of the generation `g` does to the state: the identities and
the dependency sets stay, every unit object changes as `Unit.swept` says, a
unit whose verdict is BAD and that was not on the cleanup queue has only
referrers marked BAD, the queues stay well formed, and the queue of the
collector grows by no more units than get a marker. -/
def Manager.swept (env : Env) (g : Nat) (m m' : Manager) : Prop :=
  m.same_ident m' ∧ m.same_deps m' ∧
  (∀ y, (m.unit y).swept env g (m'.unit y)) ∧
  (∀ y, ¬ (m.unit y).gc_marked g → (m'.unit y).gc_marker = gc_mark g GC_OFFSET_BAD →
    (m.unit y).in_cleanup_queue = false →
    ∀ p ∈ m.deps y .referenced_by, (m'.unit p).gc_marker = gc_mark g GC_OFFSET_BAD) ∧
  (m.queues_ok → m'.queues_ok) ∧
  m'.gc_unit_queue.length + m'.gc_unmarked g ≤ m.gc_unit_queue.length + m.gc_unmarked g

/-- Every unit object has a type, and `unit_follow_merge` leads from it to a
unit object with a type; the members of the `References` and `ReferencedBy`
sets are unit objects. -/
def Manager.resolvable (m : Manager) : Prop :=
  ∀ y, m.valid y →
    (m.unit y).type ≠ none ∧ (∃ v, unit_follow_merge m y = some v ∧ (m.unit v).type ≠ none) ∧
    (∀ p ∈ m.deps y .referenced_by, m.valid p) ∧ (∀ p ∈ m.deps y .references, m.valid p)

/-- What `unit_gc_mark_good` does below its first line: the markers of some
unit objects go from UNSURE to GOOD, and nothing else changes. -/
def Manager.marked_good (g : Nat) (m m' : Manager) : Prop :=
  m' = { m with heap := m'.heap } ∧ m'.heap.length = m.heap.length ∧
  ∀ y, m'.unit y = m.unit y ∨
    ((m.unit y).gc_marker = gc_mark g GC_OFFSET_UNSURE ∧
      m'.unit y = { m.unit y with gc_marker := gc_mark g GC_OFFSET_GOOD })

/-- The number of unit objects marked UNSURE in the generation `g`. -/
def Manager.gc_unsure (m : Manager) (g : Nat) : Nat :=
  (List.range m.heap.length).countP
    (fun y => decide ((m.unit y).gc_marker = gc_mark g GC_OFFSET_UNSURE))

/-- Every unit object has a type and is not merged, and every member of its
dependency sets is another unit object that has it in one of its sets. -/
def Manager.well_formed (m : Manager) : Prop :=
  ∀ y, m.valid y → (m.unit y).type ≠ none ∧ (m.unit y).load_state ≠ .merged ∧
    ∀ k, ∀ p ∈ m.deps y k, m.valid p ∧ p ≠ y ∧ ∃ k', y ∈ m.deps p k'

/-- The property `well_formed`, checked on the table of unit objects. -/
def Manager.well_formed_in_heap (m : Manager) : Prop :=
  ∀ y ∈ List.range m.heap.length, (m.unit y).type ≠ none ∧ (m.unit y).load_state ≠ .merged ∧
    ∀ k ∈ UnitDependency.all, ∀ p ∈ m.deps y k,
      p < m.heap.length ∧ p ≠ y ∧ ∃ k' ∈ UnitDependency.all, y ∈ m.deps p k'

instance (m : Manager) : Decidable m.well_formed_in_heap := by
  unfold Manager.well_formed_in_heap; infer_instance

/-- The property `queues_ok`, checked on the table of unit objects. -/
def Manager.queues_ok_in_heap (m : Manager) : Prop :=
  m.gc_unit_queue.Nodup ∧ (∀ y ∈ m.gc_unit_queue, (m.unit y).in_gc_queue = true) ∧
  (∀ y ∈ List.range m.heap.length, (m.unit y).in_gc_queue = true → y ∈ m.gc_unit_queue) ∧
  m.cleanup_queue.Nodup ∧ (∀ y ∈ m.cleanup_queue, (m.unit y).in_cleanup_queue = true) ∧
  (∀ y ∈ List.range m.heap.length, (m.unit y).in_cleanup_queue = true → y ∈ m.cleanup_queue)

instance (m : Manager) : Decidable m.queues_ok_in_heap := by
  unfold Manager.queues_ok_in_heap; infer_instance

/-- The sets `References` and `ReferencedBy` are mutually inverse. -/
def Manager.references_symmetric (m : Manager) : Prop :=
  ∀ x y, y ∈ m.deps x .references ↔ x ∈ m.deps y .referenced_by

/-- The unit `x` is marked UNSURE although its referrer `p` has no marker or
is marked GOOD. -/
def Manager.gc_violation (m : Manager) (g : Nat) (x p : UnitId) : Prop :=
  (m.unit x).gc_marker = gc_mark g GC_OFFSET_UNSURE ∧ p ∈ m.deps x .referenced_by ∧
    ¬ ((m.unit p).gc_marked g ∧ (m.unit p).gc_marker ≠ gc_mark g GC_OFFSET_GOOD)

/-- Every referrer of a unit marked UNSURE is marked UNSURE, BAD or IN_PATH. -/
def Manager.gc_unsure_ok (m : Manager) (g : Nat) : Prop :=
  ∀ x p, ¬ m.gc_violation g x p

/-- What the rounds of `manager_dispatch_gc_unit_queue` of the generation `g`
keep, `m0` being the state at the start: the identities and the dependency
sets; no unit is marked IN_PATH; every referrer of a unit marked UNSURE is
marked and not GOOD; the referrers of a unit marked BAD that was not on the
cleanup queue are marked UNSURE or BAD; a unit on the cleanup queue was there
or is marked BAD; a unit object without a marker is as it was; and a unit that
is not merged, was off the cleanup queue and has `unit_check_gc` true is
marked neither UNSURE nor BAD. -/
def Manager.gc_rounds (env : Env) (g : Nat) (m0 m : Manager) : Prop :=
  (m0.same_ident m ∧ m0.same_deps m) ∧
  (∀ y, (m.unit y).gc_marker ≠ gc_mark g GC_OFFSET_IN_PATH) ∧
  m.gc_unsure_ok g ∧
  (∀ y, (m.unit y).gc_marker = gc_mark g GC_OFFSET_BAD → (m0.unit y).in_cleanup_queue = false →
    ∀ p ∈ m.deps y .referenced_by, (m.unit p).gc_marker = gc_mark g GC_OFFSET_UNSURE ∨
      (m.unit p).gc_marker = gc_mark g GC_OFFSET_BAD) ∧
  (∀ y, (m.unit y).in_cleanup_queue = true →
    (m0.unit y).in_cleanup_queue = true ∨ (m.unit y).gc_marker = gc_mark g GC_OFFSET_BAD) ∧
  (∀ y, ¬ (m.unit y).gc_marked g → m.unit y = m0.unit y) ∧
  (∀ a, (m0.unit a).load_state ≠ .merged → (m0.unit a).check_gc env = some true →
    (m0.unit a).in_cleanup_queue = false →
    (m.unit a).gc_marker ≠ gc_mark g GC_OFFSET_UNSURE ∧
      (m.unit a).gc_marker ≠ gc_mark g GC_OFFSET_BAD)

/-- The property `references_symmetric`, checked on the table of unit
objects. -/
def Manager.references_symmetric_in_heap (m : Manager) : Prop :=
  (∀ x ∈ List.range m.heap.length, ∀ y ∈ m.deps x .references, x ∈ m.deps y .referenced_by) ∧
  (∀ y ∈ List.range m.heap.length, ∀ x ∈ m.deps y .referenced_by, y ∈ m.deps x .references)

instance (m : Manager) : Decidable m.references_symmetric_in_heap := by
  unfold Manager.references_symmetric_in_heap; infer_instance

/-- A chain of `References` edges from `a` to `b` in the state `m`, every
unit of which after `a` is off the cleanup queue. -/
def Manager.references_chain (m : Manager) (a b : UnitId) : Prop :=
  Relation.ReflTransGen
    (fun x y => y ∈ m.deps x .references ∧ (m.unit y).in_cleanup_queue = false) a b

/-- The loaded service `a.service` (0) with an installed job, which references
the loaded service `b.service` (1) without a job; `b.service` is on the queue
of the collector. -/
def gc_referenced : Manager :=
  { heap := [ { names := ["a.service"], id := some "a.service", type := some .service,
                load_state := .loaded, job := some 1,
                dependencies := fun k => if k = .references then [1] else [] },
              { names := ["b.service"], id := some "b.service", type := some .service,
                load_state := .loaded, in_gc_queue := true,
                dependencies := fun k => if k = .referenced_by then [0] else [] } ],
    units := [("a.service", 0), ("b.service", 1)],
    gc_unit_queue := [1] }

/-- Calls of `manager_dispatch_gc_unit_queue` one after the other, `k` of them,
as the main loop makes one in every round (manager.c:2271): the state after
the last one. -/
def manager_dispatch_gc_unit_queue_times (env : Env) : Nat → Manager → Option Manager
  | 0, m => some m
  | k + 1, m =>
    (manager_dispatch_gc_unit_queue env m).bind
      (fun r => manager_dispatch_gc_unit_queue_times env k r.2)

/-- The state `gc_referenced` after a sweep of the generation 4, which marked
both units GOOD (6), after the generation counter has wrapped to 1 since, and
after `unit_add_to_gc_queue` on `b.service`. -/
def gc_referenced_wrapped : Manager :=
  { heap := [ { names := ["a.service"], id := some "a.service", type := some .service,
                load_state := .loaded, job := some 1, gc_marker := 6,
                dependencies := fun k => if k = .references then [1] else [] },
              { names := ["b.service"], id := some "b.service", type := some .service,
                load_state := .loaded, in_gc_queue := true, gc_marker := 6,
                dependencies := fun k => if k = .referenced_by then [0] else [] } ],
    units := [("a.service", 0), ("b.service", 1)],
    gc_unit_queue := [1],
    gc_marker := 1 }

/-- The state `gc_referenced` after the sweep of the generation 4: both units
are marked GOOD (6), the queue of the collector is empty. -/
def gc_referenced_swept : Manager :=
  { heap := [ { names := ["a.service"], id := some "a.service", type := some .service,
                load_state := .loaded, job := some 1, gc_marker := 6,
                dependencies := fun k => if k = .references then [1] else [] },
              { names := ["b.service"], id := some "b.service", type := some .service,
                load_state := .loaded, gc_marker := 6,
                dependencies := fun k => if k = .referenced_by then [0] else [] } ],
    units := [("a.service", 0), ("b.service", 1)],
    gc_marker := 4 }

/-- The state `gc_referenced` before `b.service` was put on the queue of the
collector. -/
def gc_referenced_idle : Manager :=
  { heap := [ { names := ["a.service"], id := some "a.service", type := some .service,
                load_state := .loaded, job := some 1,
                dependencies := fun k => if k = .references then [1] else [] },
              { names := ["b.service"], id := some "b.service", type := some .service,
                load_state := .loaded,
                dependencies := fun k => if k = .referenced_by then [0] else [] } ],
    units := [("a.service", 0), ("b.service", 1)] }

/-- The state `gc_referenced` after the sweep of the generation 5: both units
are marked GOOD (7), the queue of the collector is empty. -/
def gc_referenced_good : Manager :=
  { heap := [ { names := ["a.service"], id := some "a.service", type := some .service,
                load_state := .loaded, job := some 1, gc_marker := 7,
                dependencies := fun k => if k = .references then [1] else [] },
              { names := ["b.service"], id := some "b.service", type := some .service,
                load_state := .loaded, gc_marker := 7,
                dependencies := fun k => if k = .referenced_by then [0] else [] } ],
    units := [("a.service", 0), ("b.service", 1)],
    gc_marker := 5 }

/-- The state `gc_referenced_good` after the generation counter has come back
to 1, the job of `a.service` was uninstalled and `a.service` was freed:
`b.service` (1) has no referrer and no job, is on the queue of the collector
and still carries the marker GOOD (7) of the generation 5. -/
def gc_unreferenced_stale : Manager :=
  { heap := [ {},
              { names := ["b.service"], id := some "b.service", type := some .service,
                load_state := .loaded, in_gc_queue := true, gc_marker := 7 } ],
    units := [("b.service", 1)],
    gc_unit_queue := [1],
    gc_marker := 1 }

/-! ## Conditions of a unit -/

/-- The fields of a `Condition` that `unit_condition_test_list` reads. -/
structure Condition where
  type : Nat := 0
  trigger : Bool := false
  negate : Bool := false
  parameter : String := ""
  deriving DecidableEq, Repr

/-- The loop `LIST_FOREACH(conditions, c, first)` of `unit_condition_test_list`
(unit.c:1377-1401) from the condition number `i` on, with the value of
`triggered`. `condition_test i c` is what `condition_test` (shared/condition.c)
returns for `c`, the condition number `i` of the list. -/
def unit_condition_test_list_loop (condition_test : Nat → Condition → Int) :
    Nat → List Condition → Int → Bool
  | _, [], triggered => decide (triggered ≠ 0)
  | i, c :: rest, triggered =>
    let r := condition_test i c
    if c.trigger = false ∧ r ≤ 0 then false
    else if c.trigger = true ∧ triggered ≤ 0 then
      unit_condition_test_list_loop condition_test (i + 1) rest (if r > 0 then 1 else 0)
    else unit_condition_test_list_loop condition_test (i + 1) rest triggered

/-- The static function `unit_condition_test_list` (unit.c:1362-1404) on the
list `first`. -/
def unit_condition_test_list (condition_test : Nat → Condition → Int) (first : List Condition) :
    Bool :=
  if first = [] then true
  else unit_condition_test_list_loop condition_test 0 first (-1)

/-- Inverse-edge symmetry for the kinds whose inverse is another kind, checked
on the table of unit objects. -/
def Manager.inverse_symmetric_in_heap (m : Manager) : Prop :=
  ∀ u ∈ List.range m.heap.length, ∀ k ∈ UnitDependency.all, ∀ v ∈ m.deps u k,
    ∀ k' ∈ UnitDependency.all, inverse_table k = some k' → k' ≠ k → u ∈ m.deps v k'

instance (m : Manager) : Decidable m.inverse_symmetric_in_heap := by
  unfold Manager.inverse_symmetric_in_heap; infer_instance

/-- The unit that the loop of `unit_follow_merge` goes to from the merged unit
`x` (`x` itself without a link). -/
def merge_next (m : Manager) (x : UnitId) : UnitId := ((m.unit x).merged_into).getD x

/-! ## Mutations of a unit and the D-Bus queue -/

/-- A call that changes a unit: `unit_add_name`, `unit_add_dependency` or
`unit_merge` into the unit. -/
inductive Mutation where
  | add_name (text : String)
  | add_dependency (d : UnitDependency) (other : UnitId) (add_reference : Bool)
  | merge (other : UnitId)

/-- The call on the unit `u`. -/
def Mutation.run (env : Env) (oom : Nat → Bool) (m : Manager) (u : UnitId) :
    Mutation → Option (Int × Manager)
  | .add_name text => unit_add_name env oom m u text
  | .add_dependency d other add_reference => unit_add_dependency oom m u d other add_reference
  | .merge other => unit_merge env oom m u other

/-- The call is one that changes `u` when it succeeds: the name is not a name
of `u` yet; `u` is not merged, `other` resolves to another unit and the edge
is not a `Before` edge onto a device; `other` resolves to another unit than
`u`. -/
def Mutation.mutates (env : Env) (oom : Nat → Bool) (m : Manager) (u : UnitId) :
    Mutation → Prop
  | .add_name text =>
    ∃ s, unit_add_name_resolve env oom m u text = .ok s ∧ s ∉ (m.unit u).names
  | .add_dependency d other _ =>
    unit_follow_merge m u = some u ∧
      ∃ o, unit_follow_merge m other = some o ∧ o ≠ u ∧
        ¬ (d = .before ∧ (m.unit o).type = some .device)
  | .merge other => ∃ o, unit_follow_merge m other = some o ∧ o ≠ u

/-- The state `m'` has the D-Bus queue of `m`, its subscribers, and the queue
flag and the tracked bus clients of every unit object. -/
def Manager.same_bus (m m' : Manager) : Prop :=
  m'.subscribed = m.subscribed ∧ m'.private_buses = m.private_buses ∧
  m'.dbus_unit_queue = m.dbus_unit_queue ∧
  ∀ x, (m'.unit x).in_dbus_queue = (m.unit x).in_dbus_queue ∧
    (m'.unit x).bus_track = (m.unit x).bus_track

/-- The test "nobody cares" of `unit_add_to_dbus_queue` (unit.c:405-407). -/
def Manager.nobody_cares (m : Manager) (u : UnitId) : Prop :=
  m.subscribed ≤ 0 ∧ (m.unit u).bus_track ≤ 0 ∧ m.private_buses = 0

instance (m : Manager) (u : UnitId) : Decidable (m.nobody_cares u) := by
  unfold Manager.nobody_cares; infer_instance

/-! ## The main loop of the manager -/

/-- What `manager_loop` calls: the macro `MANAGER_IS_SYSTEM`,
`manager_check_finished`, `manager_dispatch_sigchld`, the six dispatchers of
the queues with the count that each returns, and `sd_event_run` with the time
to wait. The properties of the loop hold whatever they do, so they are
parameters of the embedding. -/
structure LoopEnv where
  MANAGER_IS_SYSTEM : Manager → Bool
  manager_check_finished : Manager → Option Manager
  manager_dispatch_sigchld : Manager → Option (Int × Manager)
  manager_dispatch_load_queue : Manager → Option (Nat × Manager)
  manager_dispatch_gc_job_queue : Manager → Option (Nat × Manager)
  manager_dispatch_gc_unit_queue : Manager → Option (Nat × Manager)
  manager_dispatch_cleanup_queue : Manager → Option (Nat × Manager)
  manager_dispatch_cgroup_queue : Manager → Option (Nat × Manager)
  manager_dispatch_dbus_queue : Manager → Option (Nat × Manager)
  sd_event_run : Manager → Nat → Option (Int × Manager)

/-- The calls of one round of the loop of `manager_loop` that act on the
queues or wait for events, with the value that each returns. -/
inductive LoopCall where
  | load_queue (n : Nat)
  | gc_job_queue (n : Nat)
  | gc_unit_queue (n : Nat)
  | cleanup_queue (n : Nat)
  | cgroup_queue (n : Nat)
  | dbus_queue (n : Nat)
  | event_run (r : Int)
  deriving DecidableEq, Repr

/-- What `manager_loop` returns: a negative error, or `m->exit_code`. -/
inductive LoopResult where
  | error (r : Int)
  | exit (code : ManagerExitCode)
  deriving DecidableEq, Repr

def USEC_INFINITY : Nat := 2 ^ 64 - 1

/-- The statement `if (dispatch(m) > 0) continue;` followed by the rest `k` of
the round: the calls of the round, the value with which the function returns
from inside the round, if it does, and the state. -/
def manager_loop_dispatch (dispatch : Manager → Option (Nat × Manager)) (call : Nat → LoopCall)
    (k : Manager → Option (List LoopCall × Option Int × Manager)) (m : Manager) :
    Option (List LoopCall × Option Int × Manager) :=
  match dispatch m with
  | none => none
  | some (n, m1) =>
    if n > 0 then some ([call n], none, m1)
    else (k m1).map (fun r => (call n :: r.1, r.2))

/-- The end of a round of the loop of `manager_loop` (manager.c:2283-2293):
the time to wait and `sd_event_run`. -/
def manager_loop_wait (lenv : LoopEnv) (m : Manager) :
    Option (List LoopCall × Option Int × Manager) :=
  let wait_usec :=
    if m.runtime_watchdog > 0 ∧ m.runtime_watchdog ≠ USEC_INFINITY ∧
        lenv.MANAGER_IS_SYSTEM m = true then
      (if m.runtime_watchdog / 2 ≤ 0 then 1 else m.runtime_watchdog / 2)
    else USEC_INFINITY
  (lenv.sd_event_run m wait_usec).map
    (fun r => ([.event_run r.1], if r.1 < 0 then some r.1 else none, r.2))

/-- One round of the loop of `manager_loop` (manager.c:2254-2293). The ping of
the watchdog, the test of the rate limit and the sleep act outside the state. -/
def manager_loop_round (lenv : LoopEnv) (m : Manager) :
    Option (List LoopCall × Option Int × Manager) :=
  manager_loop_dispatch lenv.manager_dispatch_load_queue .load_queue
    (manager_loop_dispatch lenv.manager_dispatch_gc_job_queue .gc_job_queue
      (manager_loop_dispatch lenv.manager_dispatch_gc_unit_queue .gc_unit_queue
        (manager_loop_dispatch lenv.manager_dispatch_cleanup_queue .cleanup_queue
          (manager_loop_dispatch lenv.manager_dispatch_cgroup_queue .cgroup_queue
            (manager_loop_dispatch lenv.manager_dispatch_dbus_queue .dbus_queue
              (manager_loop_wait lenv)))))) m

/-- The loop `while (m->exit_code == MANAGER_OK)` of `manager_loop`, at most
`fuel` rounds: the calls of every round, the result and the state. -/
def manager_loop_rounds (lenv : LoopEnv) :
    Nat → Manager → Option (List (List LoopCall) × LoopResult × Manager)
  | 0, _ => none
  | fuel + 1, m =>
    if m.exit_code = .ok then
      match manager_loop_round lenv m with
      | none => none
      | some (calls, some r, m1) => some ([calls], .error r, m1)
      | some (calls, none, m1) =>
        (manager_loop_rounds lenv fuel m1).map (fun p => (calls :: p.1, p.2))
    else some ([], .exit m.exit_code, m)

/-- The function `manager_loop` (manager.c:2234-2297), at most `fuel` rounds
of its loop. The path cache is not part of the state. -/
def manager_loop (lenv : LoopEnv) (fuel : Nat) (m : Manager) :
    Option (List (List LoopCall) × LoopResult × Manager) :=
  (lenv.manager_check_finished { m with exit_code := .ok }).bind fun m1 =>
  (lenv.manager_dispatch_sigchld m1).bind fun r =>
  if r.1 < 0 then some ([], .error r.1, r.2)
  else manager_loop_rounds lenv fuel r.2

/-- The calls of a round in the order of the code: every call but the last
is a dispatcher that returned 0, and the last is a dispatcher that returned a
positive count or the wait for events. -/
def LoopCall.in_order (calls : List LoopCall) : Prop :=
  (∃ n, n > 0 ∧ calls = [.load_queue n]) ∨
  (∃ n, n > 0 ∧ calls = [.load_queue 0, .gc_job_queue n]) ∨
  (∃ n, n > 0 ∧ calls = [.load_queue 0, .gc_job_queue 0, .gc_unit_queue n]) ∨
  (∃ n, n > 0 ∧ calls = [.load_queue 0, .gc_job_queue 0, .gc_unit_queue 0, .cleanup_queue n]) ∨
  (∃ n, n > 0 ∧ calls = [.load_queue 0, .gc_job_queue 0, .gc_unit_queue 0, .cleanup_queue 0,
    .cgroup_queue n]) ∨
  (∃ n, n > 0 ∧ calls = [.load_queue 0, .gc_job_queue 0, .gc_unit_queue 0, .cleanup_queue 0,
    .cgroup_queue 0, .dbus_queue n]) ∨
  (∃ r, calls = [.load_queue 0, .gc_job_queue 0, .gc_unit_queue 0, .cleanup_queue 0,
    .cgroup_queue 0, .dbus_queue 0, .event_run r])

/-- An environment in which every queue is empty: each dispatcher returns 0;
the second wait for events ends the loop with `MANAGER_EXIT`. -/
def lenv0 : LoopEnv where
  MANAGER_IS_SYSTEM := fun _ => true
  manager_check_finished := fun m => some m
  manager_dispatch_sigchld := fun m => some (0, m)
  manager_dispatch_load_queue := fun m => some (0, m)
  manager_dispatch_gc_job_queue := fun m => some (0, m)
  manager_dispatch_gc_unit_queue := fun m => some (0, m)
  manager_dispatch_cleanup_queue := fun m => some (0, m)
  manager_dispatch_cgroup_queue := fun m => some (0, m)
  manager_dispatch_dbus_queue := fun m => some (0, m)
  sd_event_run := fun m _ =>
    if m.n_on_console = 0 then some (1, { m with n_on_console := 1 })
    else some (1, { m with exit_code := .exit })

/-! ## Serialization of the manager -/

def EIO : Int := 5
def EMFILE : Int := 24

/-- What `manager_serialize` and `unit_serialize` take from other files:
`fdset_put_dup` (the copy of a descriptor, or a negative error),
`dynamic_user_serialize`, the `serialize` hook of the unit type, whether the
pointer at `exec_runtime_offset` is set, `exec_runtime_serialize`, `ferror` on
the stream at the end, and `bus_fdset_add_all`. The stream and the set of file
descriptors are outside the state: of the calls that write to them the return
values are kept. -/
structure SerializeEnv where
  fdset_put_dup : Int → Int
  dynamic_user_serialize : Manager → Int
  serialize : Manager → UnitId → Int
  exec_runtime : Manager → UnitId → Bool
  exec_runtime_serialize : Manager → UnitId → Int
  ferror : Bool
  bus_fdset_add_all : Manager → Int

/-- The function `unit_can_serialize` (unit.c:2699-2703). -/
def unit_can_serialize (env : Env) (m : Manager) (u : UnitId) : Option Bool :=
  (m.unit u).type.map fun t =>
    (env.unit_vtable t).serialize && (env.unit_vtable t).deserialize_item.isSome

/-- The function `unit_get_exec_runtime` (unit.c:3622-3633): whether it
returns a pointer. -/
def unit_get_exec_runtime (env : Env) (zenv : SerializeEnv) (m : Manager) (u : UnitId) : Bool :=
  match (m.unit u).type with
  | none => false
  | some t => decide ((env.unit_vtable t).exec_runtime_offset > 0) && zenv.exec_runtime m u

/-- The return value of `unit_serialize` (unit.c:2724-2799): the negative
result of the `serialize` hook or of `exec_runtime_serialize`, else 0 after
the items of the unit are written. -/
def unit_serialize (env : Env) (zenv : SerializeEnv) (m : Manager) (u : UnitId)
    (_serialize_jobs : Bool) : Option Int :=
  (unit_can_serialize env m u).map fun c =>
    if c = true then
      if zenv.serialize m u < 0 then zenv.serialize m u
      else if unit_get_exec_runtime env zenv m u = true ∧ zenv.exec_runtime_serialize m u < 0 then
        zenv.exec_runtime_serialize m u
      else 0
    else 0

/-- The loop `HASHMAP_FOREACH_KEY(u, t, m->units, i)` of `manager_serialize`
(manager.c:2556-2569): the value of `r` at its end, negative if the loop was
left by a failure of `unit_serialize`, and the start markers written. -/
def manager_serialize_units (env : Env) (zenv : SerializeEnv) (m : Manager)
    (switching_root : Bool) : List (String × UnitId) → Option (Int × List String)
  | [] => some (0, [])
  | (t, u) :: rest =>
    if (m.unit u).id ≠ some t then manager_serialize_units env zenv m switching_root rest
    else
      match unit_serialize env zenv m u (!switching_root) with
      | none => none
      | some r =>
        if r < 0 then some (r, [t])
        else (manager_serialize_units env zenv m switching_root rest).map
          (fun p => (p.1, t :: p.2))

/-- The function `manager_serialize` (manager.c:2474-2582): the return value,
the state and the start markers written. -/
def manager_serialize (env : Env) (zenv : SerializeEnv) (m : Manager) (switching_root : Bool) :
    Option (Int × Manager × List String) :=
  let m1 := { m with n_reloading := m.n_reloading + 1 }
  if m1.notify_fd ≥ 0 ∧ zenv.fdset_put_dup m1.notify_fd < 0 then
    some (zenv.fdset_put_dup m1.notify_fd, m1, [])
  else if m1.cgroups_agent_fd ≥ 0 ∧ zenv.fdset_put_dup m1.cgroups_agent_fd < 0 then
    some (zenv.fdset_put_dup m1.cgroups_agent_fd, m1, [])
  else if m1.user_lookup_fds.1 ≥ 0 ∧ zenv.fdset_put_dup m1.user_lookup_fds.1 < 0 then
    some (zenv.fdset_put_dup m1.user_lookup_fds.1, m1, [])
  else if m1.user_lookup_fds.1 ≥ 0 ∧ zenv.fdset_put_dup m1.user_lookup_fds.2 < 0 then
    some (zenv.fdset_put_dup m1.user_lookup_fds.2, m1, [])
  else if zenv.dynamic_user_serialize m1 < 0 then
    some (zenv.dynamic_user_serialize m1, m1, [])
  else
    match manager_serialize_units env zenv m1 switching_root m1.units with
    | none => none
    | some (r, ids) =>
      let m2 := { m1 with n_reloading := m1.n_reloading - 1 }
      if r < 0 then some (r, m2, ids)
      else if zenv.ferror = true then some (- EIO, m2, ids)
      else if zenv.bus_fdset_add_all m2 < 0 then some (zenv.bus_fdset_add_all m2, m2, ids)
      else some (0, m2, ids)

/-- The environment `env0` in which every unit type has the hooks `serialize`
and `deserialize_item`. -/
def env_serialize : Env :=
  { env0 with unit_vtable := fun _ =>
      { active_state := fun n => if n = 0 then .inactive else .active,
        serialize := true, deserialize_item := some (fun d _ _ => (0, d)) } }

/-- A `SerializeEnv` in which every call succeeds: the copy of the descriptor
`fd` is `fd + 10`. -/
def zenv0 : SerializeEnv where
  fdset_put_dup := fun fd => fd + 10
  dynamic_user_serialize := fun _ => 0
  serialize := fun _ _ => 0
  exec_runtime := fun _ _ => false
  exec_runtime_serialize := fun _ _ => 0
  ferror := false
  bus_fdset_add_all := fun _ => 0

/-! ## Loading a unit -/

/-- A parsed unit definition as the configuration loader supplies it: the
names of the unit, its dependency declarations (the kind of the dependency and
the name of the other unit), the settings of the unit type as a function on
the state owned by the unit type, and whether the definition masks the unit. -/
structure UnitDefinition where
  names : List String := []
  dependencies : List (UnitDependency × String) := []
  settings : Nat → Nat := fun d => d
  masked : Bool := false

/-- What `unit_load` and the functions it calls take from other files:
`fflush_and_check` on the transient file of the unit, `now(CLOCK_REALTIME)`,
`unit_name_to_prefix`, the macro `UNIT_HAS_CGROUP_CONTEXT`, whether the three
startup weights of the cgroup context of the unit are all invalid, the
constant `SPECIAL_ROOT_SLICE`, and the configuration loader: what it finds for
a unit when its fragment is loaded, an error (negative) or the parsed
definition, if there is one, and what it finds in the drop-in directories of
the unit. -/
structure LoadEnv where
  fflush_and_check : Manager → UnitId → Int
  now : Nat
  unit_name_to_prefix : String → Int × String
  UNIT_HAS_CGROUP_CONTEXT : Manager → UnitId → Bool
  startup_weights_invalid : Manager → UnitId → Bool
  SPECIAL_ROOT_SLICE : String
  load_fragment : Manager → UnitId → Int × Option UnitDefinition
  load_dropin : Manager → UnitId → Int × UnitDefinition

/-- The function `unit_has_name` (unit.c:131-136). -/
def unit_has_name (m : Manager) (u : UnitId) (name : String) : Bool :=
  decide (name ∈ (m.unit u).names)

/-- The function `unit_get_cgroup_context` (unit.c:3609-3620): whether it
returns a pointer. -/
def unit_get_cgroup_context (env : Env) (m : Manager) (u : UnitId) : Bool :=
  match (m.unit u).type with
  | none => false
  | some t => decide ((env.unit_vtable t).cgroup_context_offset > 0)

/-- The loop `SET_FOREACH(target, u->dependencies[deps[k]], i)` of
`unit_add_target_dependencies` over the members `targets` of the set; `oom i`
is the oracle of the round number `i`, and `r` the value of the last call. The
calls add to the sets `After`, `Before`, `References` and `ReferencedBy`, which
the loop does not visit. -/
def unit_add_target_dependencies_set (oom : Nat → Nat → Bool) (u : UnitId) :
    Nat → Int → Manager → List UnitId → Option (Int × Manager)
  | _, r, m, [] => some (r, m)
  | i, _, m, target :: targets =>
    match unit_add_default_target_dependency (oom i) m u target with
    | none => none
    | some (r1, m1) =>
      if r1 < 0 then some (r1, m1)
      else unit_add_target_dependencies_set oom u (i + 1) r1 m1 targets

/-- The loop `for (k = 0; k < ELEMENTSOF(deps); k++)` of
`unit_add_target_dependencies` over the kinds `ds`. -/
def unit_add_target_dependencies_kinds (oom : Nat → Nat → Nat → Bool) (u : UnitId) :
    Nat → Int → Manager → List UnitDependency → Option (Int × Manager)
  | _, r, m, [] => some (r, m)
  | k, r, m, d :: ds =>
    match unit_add_target_dependencies_set (oom k) u 0 r m (m.deps u d) with
    | none => none
    | some (r1, m1) =>
      if r1 < 0 then some (r1, m1)
      else unit_add_target_dependencies_kinds oom u (k + 1) r1 m1 ds

/-- The static function `unit_add_target_dependencies` (unit.c:1167-1191). -/
def unit_add_target_dependencies (oom : Nat → Nat → Nat → Bool) (m : Manager) (u : UnitId) :
    Option (Int × Manager) :=
  unit_add_target_dependencies_kinds oom u 0 0 m
    [.required_by, .requisite_of, .wanted_by, .bound_by]

/-- The function `unit_add_two_dependencies` (unit.c:2396-2406); `oom 0` and
`oom 1` are the oracles of the two calls. -/
def unit_add_two_dependencies (oom : Nat → Nat → Bool) (m : Manager) (u : UnitId)
    (d e : UnitDependency) (other : UnitId) (add_reference : Bool) : Option (Int × Manager) :=
  match unit_add_dependency (oom 0) m u d other add_reference with
  | none => none
  | some (r, m1) =>
    if r < 0 then some (r, m1)
    else unit_add_dependency (oom 1) m1 u e other add_reference

/-- The static function `resolve_template` (unit.c:2408-2441): the return
value and `*ret`. -/
def resolve_template (env : Env) (penv : PathEnv) (lenv : LoadEnv) (m : Manager) (u : UnitId)
    (name path : Option String) : Option (Int × String) :=
  let name := name.getD (penv.basename (path.getD ""))
  if env.unit_name_is_valid name UNIT_NAME_TEMPLATE = false then some (0, name)
  else
    match (m.unit u).inst with
    | some i =>
      let r := env.unit_name_replace_instance name i
      some (if r.1 < 0 then (r.1, "") else (0, r.2))
    | none =>
      match (m.unit u).id with
      | none => none
      | some id =>
        let q := lenv.unit_name_to_prefix id
        if q.1 < 0 then some (q.1, "")
        else
          let r := env.unit_name_replace_instance name q.2
          some (if r.1 < 0 then (r.1, "") else (0, r.2))

/-- The loop `while ((u = m->load_queue))` of `manager_dispatch_load_queue`
(manager.c:1473-1478), at most `fuel` rounds; `n` counts the rounds, and
`unit_load n` is the call of `unit_load` in the round number `n`. -/
def manager_dispatch_load_queue_loop (unit_load : Nat → Manager → UnitId → Option (Int × Manager)) :
    Nat → Nat → Manager → Option (Nat × Manager)
  | 0, _, _ => none
  | fuel + 1, n, m =>
    match m.load_queue with
    | [] => some (n, m)
    | u :: _ =>
      if (m.unit u).in_load_queue = true then
        match unit_load n m u with
        | none => none
        | some (_, m1) => manager_dispatch_load_queue_loop unit_load fuel (n + 1) m1
      else none

/-- The function `manager_dispatch_load_queue` (manager.c:1458-1482) over the
function `unit_load`. -/
def manager_dispatch_load_queue (unit_load : Nat → Manager → UnitId → Option (Int × Manager))
    (fuel : Nat) (m : Manager) : Option (Nat × Manager) :=
  if m.dispatching_load_queue = true then some (0, m)
  else
    (manager_dispatch_load_queue_loop unit_load fuel 0 { m with dispatching_load_queue := true }).map
      (fun p => (p.1, { p.2 with dispatching_load_queue := false }))

/-- The function `manager_load_unit` (manager.c:1550-1574) over the call
`dispatch` of `manager_dispatch_load_queue`: the return value, `*_ret` and the
state. -/
def manager_load_unit (env : Env) (jenv : JobEnv) (penv : PathEnv) (oom : Nat → Bool)
    (dispatch : Manager → Option (Nat × Manager)) (m : Manager) (name path : Option String) :
    Option (Int × Option UnitId × Manager) :=
  match manager_load_unit_prepare env jenv penv oom m name path with
  | none => none
  | some (r, ret, m1) =>
    if r ≠ 0 then some (r, ret, m1)
    else
      match dispatch m1 with
      | none => none
      | some (_, m2) =>
        match ret with
        | none => none
        | some x => (unit_follow_merge m2 x).map (fun y => (0, some y, m2))

/-- The function `unit_add_two_dependencies_by_name` (unit.c:2462-2480); the
oracles `oom 0` and `oom 1` are those of the two edges, `oom 2` is that of
`manager_load_unit_prepare`. -/
def unit_add_two_dependencies_by_name (env : Env) (jenv : JobEnv) (penv : PathEnv)
    (lenv : LoadEnv) (oom : Nat → Nat → Bool) (dispatch : Manager → Option (Nat × Manager))
    (m : Manager) (u : UnitId) (d e : UnitDependency) (name path : Option String)
    (add_reference : Bool) : Option (Int × Manager) :=
  match resolve_template env penv lenv m u name path with
  | none => none
  | some (r, name1) =>
    if r < 0 then some (r, m)
    else
      match manager_load_unit env jenv penv (oom 2) dispatch m (some name1) path with
      | none => none
      | some (r1, other, m1) =>
        if r1 < 0 then some (r1, m1)
        else
          match other with
          | none => none
          | some o => unit_add_two_dependencies oom m1 u d e o add_reference

/-- The function `unit_add_dependency_by_name` (unit.c:2443-2460); the oracle
`oom 0` is that of the edge, `oom 2` is that of `manager_load_unit_prepare`. -/
def unit_add_dependency_by_name (env : Env) (jenv : JobEnv) (penv : PathEnv)
    (lenv : LoadEnv) (oom : Nat → Nat → Bool) (dispatch : Manager → Option (Nat × Manager))
    (m : Manager) (u : UnitId) (d : UnitDependency) (name path : Option String)
    (add_reference : Bool) : Option (Int × Manager) :=
  match resolve_template env penv lenv m u name path with
  | none => none
  | some (r, name1) =>
    if r < 0 then some (r, m)
    else
      match manager_load_unit env jenv penv (oom 2) dispatch m (some name1) path with
      | none => none
      | some (r1, other, m1) =>
        if r1 < 0 then some (r1, m1)
        else
          match other with
          | none => none
          | some o => unit_add_dependency (oom 0) m1 u d o add_reference

/-- The end of `unit_merge_by_name` (unit.c:833-837) for the resolved name. -/
def unit_merge_by_name_resolved (env : Env) (oom : Nat → Bool) (m : Manager) (u : UnitId)
    (name : String) : Option (Int × Manager) :=
  match manager_get_unit m name with
  | some other => unit_merge env oom m u other
  | none => unit_add_name env oom m u name

/-- The function `unit_merge_by_name` (unit.c:814-838). -/
def unit_merge_by_name (env : Env) (oom : Nat → Bool) (m : Manager) (u : UnitId)
    (name : String) : Option (Int × Manager) :=
  if env.unit_name_is_valid name UNIT_NAME_TEMPLATE = true then
    match (m.unit u).inst with
    | none => some (-EINVAL, m)
    | some i =>
      if (env.unit_name_replace_instance name i).1 < 0 then
        some ((env.unit_name_replace_instance name i).1, m)
      else unit_merge_by_name_resolved env oom m u (env.unit_name_replace_instance name i).2
  else unit_merge_by_name_resolved env oom m u name

/-- Modelled from the spec: the Unit Registry consumes the names of a parsed
unit definition. Each name is given to the unit with `unit_merge_by_name`,
which merges the unit that owns the name into `u` or registers the name for
`u`; the first error ends the loop. `oom i` is the oracle of the round
number `i`. -/
def unit_load_names (env : Env) (oom : Nat → Nat → Bool) (u : UnitId) :
    Nat → Manager → List String → Option (Int × Manager)
  | _, m, [] => some (0, m)
  | i, m, name :: names =>
    match unit_merge_by_name env (oom i) m u name with
    | none => none
    | some (r, m1) =>
      if r < 0 then some (r, m1)
      else unit_load_names env oom u (i + 1) m1 names

/-- Modelled from the spec: the Dependency Graph consumes the dependency
declarations of a parsed unit definition. Each declaration is added with
`unit_add_dependency_by_name`, which loads the unit of that name; the first
error ends the loop. `oom i` are the oracles and `dispatch i` is the call of
`manager_dispatch_load_queue` of the round number `i`. -/
def unit_load_dependencies (env : Env) (jenv : JobEnv) (penv : PathEnv) (lenv : LoadEnv)
    (oom : Nat → Nat → Nat → Bool) (dispatch : Nat → Manager → Option (Nat × Manager))
    (u : UnitId) : Nat → Manager → List (UnitDependency × String) → Option (Int × Manager)
  | _, m, [] => some (0, m)
  | i, m, decl :: decls =>
    match unit_add_dependency_by_name env jenv penv lenv (oom i) (dispatch i) m u decl.1
        (some decl.2) none true with
    | none => none
    | some (r, m1) =>
      if r < 0 then some (r, m1)
      else unit_load_dependencies env jenv penv lenv oom dispatch u (i + 1) m1 decls

/-- Modelled from the spec: `unit_load_fragment` of `load-fragment.c`, through
which the core consumes the parsed definition of the unit: "the configuration
loader supplies parsed unit definitions (name, dependency declarations,
type-specific settings) that the core's Unit Registry/Dependency Graph
consume". An error of the loader is returned; without a definition the unit
stays a stub; else the registry takes the names, a unit that is still a stub
becomes loaded, or masked, the graph takes the dependency declarations and the
unit type its settings. The oracles `oom [0, i]` are those of the names,
`oom [1, i, k]` those of the dependency declarations, whose calls of
`manager_dispatch_load_queue` are `dispatch (2 * i + 1)`. -/
def unit_load_fragment (env : Env) (jenv : JobEnv) (penv : PathEnv) (lenv : LoadEnv)
    (oom : List Nat → Nat → Bool) (dispatch : Nat → Manager → Option (Nat × Manager))
    (m : Manager) (u : UnitId) : Option (Int × Manager) :=
  if (lenv.load_fragment m u).1 < 0 then some ((lenv.load_fragment m u).1, m)
  else
    match (lenv.load_fragment m u).2 with
    | none => some (0, m)
    | some d =>
      match unit_load_names env (fun i => oom [0, i]) u 0 m d.names with
      | none => none
      | some (r1, m1) =>
        if r1 < 0 then some (r1, m1)
        else
          match unit_load_dependencies env jenv penv lenv (fun i k => oom [1, i, k])
              (fun i => dispatch (2 * i + 1)) u 0
              (m1.modify u (fun x => if x.load_state = .stub
                then { x with load_state := if d.masked = true then .masked else .loaded }
                else x))
              d.dependencies with
          | none => none
          | some (r2, m2) =>
            if r2 < 0 then some (r2, m2)
            else some (0, m2.modify u (fun x => { x with data := d.settings x.data }))

/-- Modelled from the spec: `unit_load_dropin` of `load-dropin.c`, through
which the core consumes what the configuration loader finds in the drop-in
directories of the unit: an error of the loader is returned; else the graph
takes the dependency declarations and the unit type the settings (a drop-in
neither names nor masks the unit). The oracles `oom [2, i, k]` are those of
the dependency declarations, whose calls of `manager_dispatch_load_queue` are
`dispatch (2 * i + 2)`. -/
def unit_load_dropin (env : Env) (jenv : JobEnv) (penv : PathEnv) (lenv : LoadEnv)
    (oom : List Nat → Nat → Bool) (dispatch : Nat → Manager → Option (Nat × Manager))
    (m : Manager) (u : UnitId) : Option (Int × Manager) :=
  if (lenv.load_dropin m u).1 < 0 then some ((lenv.load_dropin m u).1, m)
  else
    match unit_load_dependencies env jenv penv lenv (fun i k => oom [2, i, k])
        (fun i => dispatch (2 * i + 2)) u 0 m (lenv.load_dropin m u).2.dependencies with
    | none => none
    | some (r, m1) =>
      if r < 0 then some (r, m1)
      else some (0, m1.modify u (fun x => { x with data := (lenv.load_dropin m u).2.settings x.data }))

/-- The function `unit_load_fragment_and_dropin` (unit.c:1100-1118). -/
def unit_load_fragment_and_dropin (env : Env) (jenv : JobEnv) (penv : PathEnv) (lenv : LoadEnv)
    (oom : List Nat → Nat → Bool) (dispatch : Nat → Manager → Option (Nat × Manager))
    (m : Manager) (u : UnitId) : Option (Int × Manager) :=
  match unit_load_fragment env jenv penv lenv oom dispatch m u with
  | none => none
  | some (r, m1) =>
    if r < 0 then some (r, m1)
    else if (m1.unit u).load_state = .stub then some (-ENOENT, m1)
    else
      match unit_follow_merge m1 u with
      | none => none
      | some v => unit_load_dropin env jenv penv lenv oom dispatch m1 v

/-- The function `unit_load_fragment_and_dropin_optional` (unit.c:1121-1139). -/
def unit_load_fragment_and_dropin_optional (env : Env) (jenv : JobEnv) (penv : PathEnv)
    (lenv : LoadEnv) (oom : List Nat → Nat → Bool)
    (dispatch : Nat → Manager → Option (Nat × Manager)) (m : Manager) (u : UnitId) :
    Option (Int × Manager) :=
  match unit_load_fragment env jenv penv lenv oom dispatch m u with
  | none => none
  | some (r, m1) =>
    if r < 0 then some (r, m1)
    else
      match unit_follow_merge
          (if (m1.unit u).load_state = .stub
            then m1.modify u (fun x => { x with load_state := .loaded }) else m1) u with
      | none => none
      | some v =>
        unit_load_dropin env jenv penv lenv oom dispatch
          (if (m1.unit u).load_state = .stub
            then m1.modify u (fun x => { x with load_state := .loaded }) else m1) v

/-- The call `UNIT_VTABLE(u)->load(u)` of `unit_load` (unit.c:1304) for the
hook of the unit type. -/
def unit_vtable_load (env : Env) (jenv : JobEnv) (penv : PathEnv) (lenv : LoadEnv)
    (oom : List Nat → Nat → Bool) (dispatch : Nat → Manager → Option (Nat × Manager))
    (hook : UnitLoadHook) (m : Manager) (u : UnitId) : Option (Int × Manager) :=
  match hook with
  | .fragment_and_dropin => unit_load_fragment_and_dropin env jenv penv lenv oom dispatch m u
  | .fragment_and_dropin_optional =>
    unit_load_fragment_and_dropin_optional env jenv penv lenv oom dispatch m u

/-- The static function `unit_add_slice_dependencies` (unit.c:1193-1206). -/
def unit_add_slice_dependencies (env : Env) (jenv : JobEnv) (penv : PathEnv) (lenv : LoadEnv)
    (oom : Nat → Nat → Bool) (dispatch : Manager → Option (Nat × Manager)) (m : Manager)
    (u : UnitId) : Option (Int × Manager) :=
  if lenv.UNIT_HAS_CGROUP_CONTEXT m u = false then some (0, m)
  else
    match (m.unit u).slice with
    | some s => unit_add_two_dependencies oom m u .after .requires s true
    | none =>
      if unit_has_name m u lenv.SPECIAL_ROOT_SLICE = true then some (0, m)
      else
        unit_add_two_dependencies_by_name env jenv penv lenv oom dispatch m u .after .requires
          (some lenv.SPECIAL_ROOT_SLICE) none true

/-- The static function `unit_add_startup_units` (unit.c:1256-1274); `oom 0`
is the oracle of `set_ensure_allocated` and `oom 1` that of `set_put`. -/
def unit_add_startup_units (env : Env) (lenv : LoadEnv) (oom : Nat → Bool) (m : Manager)
    (u : UnitId) : Int × Manager :=
  if unit_get_cgroup_context env m u = false then (0, m)
  else if lenv.startup_weights_invalid m u = true then (0, m)
  else if set_ensure_allocated (oom 0) m.startup_units < 0 then
    (set_ensure_allocated (oom 0) m.startup_units, m)
  else
    ((set_put (oom 1) m.startup_units u).1,
      { m with startup_units := (set_put (oom 1) m.startup_units u).2 })

/-- The block `if (u->load_state == UNIT_LOADED)` of `unit_load`
(unit.c:1314-1342): a negative value is the `r` of a `goto fail`. The oracles
`oom [0, k, i]` are those of `unit_add_target_dependencies`, `oom [1, i]`
those of `unit_add_slice_dependencies`, `oom [2, i, j]` those of
`unit_add_mount_dependencies` and `oom [3]` that of `unit_add_startup_units`.
The warning about the timeouts is a log message, and the cgroup masks that
`unit_update_cgroup_members_masks` writes are not part of the state. -/
def unit_load_loaded (env : Env) (jenv : JobEnv) (penv : PathEnv) (lenv : LoadEnv)
    (oom : List Nat → Nat → Bool) (dispatch : Manager → Option (Nat × Manager)) (m : Manager)
    (u : UnitId) : Option (Int × Manager) :=
  match unit_add_target_dependencies (fun k i => oom [0, k, i]) m u with
  | none => none
  | some (r1, m1) =>
    if r1 < 0 then some (r1, m1)
    else
      match unit_add_slice_dependencies env jenv penv lenv (fun i => oom [1, i]) dispatch m1 u with
      | none => none
      | some (r2, m2) =>
        if r2 < 0 then some (r2, m2)
        else
          match unit_add_mount_dependencies env jenv penv (fun i j => oom [2, i, j]) m2 u with
          | none => none
          | some (r3, m3) =>
            if r3 < 0 then some (r3, m3)
            else if (unit_add_startup_units env lenv (oom [3]) m3 u).1 < 0 then
              some (unit_add_startup_units env lenv (oom [3]) m3 u)
            else if ((unit_add_startup_units env lenv (oom [3]) m3 u).2.unit u).on_failure_job_mode
                  = .isolate ∧
                ((unit_add_startup_units env lenv (oom [3]) m3 u).2.deps u .on_failure).length > 1
            then some (-EINVAL, (unit_add_startup_units env lenv (oom [3]) m3 u).2)
            else some (0, (unit_add_startup_units env lenv (oom [3]) m3 u).2)

/-- The body of `unit_load` from the transient file to the end of the block
for a loaded unit (unit.c:1292-1342): a negative value is the `r` of a
`goto fail`, and the state is the one at the point of failure. The oracles
`oom (4 :: p)` are the oracles `p` of the `load` hook; `dispatch 0` is the call
of `manager_dispatch_load_queue` for the slice, the other calls are those of
the hook. -/
def unit_load_body (env : Env) (jenv : JobEnv) (penv : PathEnv) (lenv : LoadEnv)
    (oom : List Nat → Nat → Bool) (dispatch : Nat → Manager → Option (Nat × Manager))
    (m : Manager) (u : UnitId) : Option (Int × Manager) :=
  if (m.unit u).transient_file = true ∧ lenv.fflush_and_check m u < 0 then
    some (lenv.fflush_and_check m u, m)
  else
    let m1 := if (m.unit u).transient_file = true
      then m.modify u (fun x => { x with transient_file := false, fragment_mtime := lenv.now })
      else m
    match (m1.unit u).type with
    | none => none
    | some t =>
      match (match (env.unit_vtable t).load with
          | some hook =>
            unit_vtable_load env jenv penv lenv (fun p => oom (4 :: p)) dispatch hook m1 u
          | none => some (0, m1)) with
      | none => none
      | some (r, m2) =>
        if r < 0 then some (r, m2)
        else if (m2.unit u).load_state = .stub then some (-ENOENT, m2)
        else if (m2.unit u).load_state = .loaded then
          unit_load_loaded env jenv penv lenv oom (dispatch 0) m2 u
        else some (0, m2)

/-- The label `fail:` of `unit_load` (unit.c:1351-1359). -/
def unit_load_fail (env : Env) (m : Manager) (u : UnitId) (r : Int) : Option (Int × Manager) :=
  let m1 := m.modify u (fun x =>
    { x with load_state := if x.load_state = .stub then .not_found else .error, load_error := r })
  (unit_add_to_dbus_queue m1 u).bind fun m2 =>
  (unit_add_to_gc_queue env m2 u).map fun m3 => (r, m3)

/-- The start of `unit_load` (unit.c:1281-1284): the unit leaves the load
queue. -/
def unit_load_dequeue (m : Manager) (u : UnitId) : Manager :=
  if (m.unit u).in_load_queue = true
  then { m.modify u (fun x => { x with in_load_queue := false }) with
         load_queue := m.load_queue.erase u }
  else m

/-- The function `unit_load` (unit.c:1276-1360), with at most `fuel` nested
calls: loading a unit dispatches the load queue when it loads the root slice
or the unit of a dependency declaration, which loads other units. The oracles
`oom (5 :: k :: j :: p)` are the oracles `p` of the call of `unit_load` in the
round number `j` of the dispatch number `k`. -/
def unit_load (env : Env) (jenv : JobEnv) (penv : PathEnv) (lenv : LoadEnv) :
    Nat → (List Nat → Nat → Bool) → Manager → UnitId → Option (Int × Manager)
  | 0, _, _, _ => none
  | fuel + 1, oom, m, u =>
    if m.valid u then
      let m0 := unit_load_dequeue m u
      if (m0.unit u).type = none then some (-EINVAL, m0)
      else if (m0.unit u).load_state ≠ .stub then some (0, m0)
      else
        match unit_load_body env jenv penv lenv oom
            (fun k => manager_dispatch_load_queue (fun j => unit_load env jenv penv lenv fuel
              (fun p => oom (5 :: k :: j :: p))) fuel) m0 u with
        | none => none
        | some (r, m1) =>
          if r < 0 then unit_load_fail env m1 u r
          else if decide ((m1.unit u).load_state ≠ .merged) ≠
              decide ((m1.unit u).merged_into = none) then none
          else
            (unit_follow_merge m1 u).bind fun v =>
            (unit_add_to_dbus_queue m1 v).bind fun m2 =>
            (unit_add_to_gc_queue env m2 u).map fun m3 => (0, m3)
    else none

/-- The load state and the load queue of the unit objects of `m` are stable:
the table does not shrink, a unit that is not on the load queue does not come
onto it (neither the list nor the flag), and a unit that is not a stub does not
become one. -/
def Manager.load_stable (m m' : Manager) : Prop :=
  m.heap.length ≤ m'.heap.length ∧
  (∀ x, m.valid x → x ∉ m.load_queue → x ∉ m'.load_queue) ∧
  ∀ x, m.valid x →
    ((m.unit x).in_load_queue = false → (m'.unit x).in_load_queue = false) ∧
    ((m.unit x).load_state ≠ .stub → (m'.unit x).load_state ≠ .stub)

/-- The state `m'` has the load queue of `m` and the unit objects of `m` with
the same load state and load queue flag. -/
def Manager.same_load (m m' : Manager) : Prop :=
  m'.heap.length = m.heap.length ∧ m'.load_queue = m.load_queue ∧
  ∀ x, (m'.unit x).in_load_queue = (m.unit x).in_load_queue ∧
    (m'.unit x).load_state = (m.unit x).load_state

/-- The state `m'` has the unit objects of `m` with the same load state and
load queue flag, but for the object `u`, and no other unit has come onto the
load queue. -/
def Manager.same_load_but (m m' : Manager) (u : UnitId) : Prop :=
  m'.heap.length = m.heap.length ∧
  (∀ x, x ≠ u → x ∈ m'.load_queue → x ∈ m.load_queue) ∧
  ∀ x, x ≠ u → (m'.unit x).in_load_queue = (m.unit x).in_load_queue ∧
    (m'.unit x).load_state = (m.unit x).load_state

/-- The load queue is an intrusive list: it holds the unit `u` once when the
flag `in_load_queue` of `u` is set, and not at all otherwise. -/
def Manager.on_load_queue_once (m : Manager) (u : UnitId) : Prop :=
  m.load_queue.count u = if (m.unit u).in_load_queue = true then 1 else 0

instance (m : Manager) (u : UnitId) : Decidable (m.on_load_queue_once u) := by
  unfold Manager.on_load_queue_once; infer_instance

/-- The environment `env0` with the name of the root slice and room for 8
names, in which every unit type has a cgroup context and the `load` hook
`unit_load_fragment_and_dropin_optional`. -/
def env_load : Env :=
  { env0 with
    unit_vtable := fun _ =>
      { active_state := fun n => if n = 0 then .inactive else .active,
        cgroup_context_offset := 1,
        load := some .fragment_and_dropin_optional }
    unit_name_is_valid := fun s f =>
      env0.unit_name_is_valid s f || (decide (f ≠ UNIT_NAME_TEMPLATE) && decide (s = "-.slice"))
    unit_name_to_type := fun s =>
      if s = "-.slice" then some .slice else env0.unit_name_to_type s
    MANAGER_MAX_NAMES := 8 }

/-- The environment `env_load` with the `load` hook
`unit_load_fragment_and_dropin` for every unit type. -/
def env_load_strict : Env :=
  { env_load with
    unit_vtable := fun _ =>
      { active_state := fun n => if n = 0 then .inactive else .active,
        cgroup_context_offset := 1,
        load := some .fragment_and_dropin } }

/-- A small `LoadEnv`: no startup weight is set, and the configuration loader
finds no definition and no drop-in. -/
def load_env0 : LoadEnv where
  fflush_and_check := fun _ _ => 0
  now := 7
  unit_name_to_prefix := fun s => (0, s)
  UNIT_HAS_CGROUP_CONTEXT := fun _ _ => true
  startup_weights_invalid := fun _ _ => true
  SPECIAL_ROOT_SLICE := "-.slice"
  load_fragment := fun _ _ => (0, none)
  load_dropin := fun _ _ => (0, {})

/-- The `LoadEnv` `load_env0` with a configuration loader that has a
definition for the unit whose id is `a.service`: it is also named
`c.service`, wants `b.service` and sets the state of the unit type to 5; the
drop-ins of that unit declare that it comes after `d.mount`. -/
def load_env1 : LoadEnv :=
  { load_env0 with
    load_fragment := fun m u =>
      if (m.unit u).id = some "a.service" then
        (0, some { names := ["a.service", "c.service"],
                   dependencies := [(.wants, "b.service")],
                   settings := fun _ => 5 })
      else (0, none)
    load_dropin := fun m u =>
      if (m.unit u).id = some "a.service" then
        (0, { dependencies := [(.after, "d.mount")] })
      else (0, {}) }

/-- The `LoadEnv` `load_env1` with a configuration loader that fails with
`-EIO` on the drop-ins of `a.service`. -/
def load_env_dropin_fails : LoadEnv :=
  { load_env1 with
    load_dropin := fun m u =>
      if (m.unit u).id = some "a.service" then (- EIO, {}) else (0, {}) }

/-- The stub `a.service` (0) on the load queue. -/
def load_stub : Manager :=
  { heap := [ { names := ["a.service"], id := some "a.service", type := some .service,
                in_load_queue := true } ],
    units := [("a.service", 0)],
    load_queue := [0] }

/-! # Properties -/

/-! ## Unit table and sets -/

theorem valid_modify (m : Manager) (u v : UnitId) (f : Unit → Unit) :
    (m.modify u f).valid v ↔ m.valid v := by
  simp [Manager.modify, Manager.valid]

theorem unit_modify (m : Manager) (u v : UnitId) (f : Unit → Unit) :
    (m.modify u f).unit v = if m.valid u ∧ v = u then f (m.unit u) else m.unit v := by
  unfold Manager.modify Manager.unit Manager.valid
  simp only [List.getD_eq_getElem?_getD, List.getElem?_set]
  by_cases h : u = v
  · subst h
    by_cases h2 : u < m.heap.length
    · simp [h2]
    · simp [h2, List.getElem?_eq_none (Nat.le_of_not_lt h2)]
  · have : ¬ v = u := fun e => h e.symm
    simp [h, this]

theorem deps_setDeps (m : Manager) (x y : UnitId) (k j : UnitDependency) (s : List UnitId) :
    (m.setDeps x k s).deps y j = if m.valid x ∧ y = x ∧ j = k then s else m.deps y j := by
  unfold Manager.setDeps Manager.deps
  rw [unit_modify]
  by_cases h : m.valid x ∧ y = x
  · obtain ⟨h1, rfl⟩ := h
    by_cases hj : j = k <;> simp [h1, hj]
  · have : ¬ (m.valid x ∧ y = x ∧ j = k) := fun ⟨a, b, _⟩ => h ⟨a, b⟩
    simp [h, this]

theorem valid_setDeps (m : Manager) (x y : UnitId) (k : UnitDependency) (s : List UnitId) :
    (m.setDeps x k s).valid y ↔ m.valid y := valid_modify _ _ _ _

theorem follow_merge_loop_valid (m : Manager) (fuel : Nat) (u v : UnitId)
    (h : follow_merge_loop m fuel u = some v) :
    m.valid v ∧ (m.unit v).load_state ≠ .merged := by
  induction fuel generalizing u with
  | zero => simp [follow_merge_loop] at h
  | succ n ih =>
    unfold follow_merge_loop at h
    split_ifs at h with h1 h2
    · cases hm : (m.unit u).merged_into with
      | none => simp [hm] at h
      | some w => simp only [hm] at h; exact ih w h
    · cases h; exact ⟨h1, h2⟩

theorem unit_follow_merge_valid (m : Manager) (u v : UnitId) (h : unit_follow_merge m u = some v) :
    m.valid v ∧ (m.unit v).load_state ≠ .merged :=
  follow_merge_loop_valid m _ u v h

theorem unit_eq_of_heap {m m' : Manager} (h : m'.heap = m.heap) (y : UnitId) :
    m'.unit y = m.unit y := by
  unfold Manager.unit; rw [h]

theorem unit_dbus_queue (m m' : Manager) (u : UnitId) (h : unit_add_to_dbus_queue m u = some m')
    (y : UnitId) :
    m'.unit y = m.unit y ∨ m'.unit y = { m.unit y with sent_dbus_new_signal := true } ∨
      m'.unit y = { m.unit y with in_dbus_queue := true } := by
  unfold unit_add_to_dbus_queue at h
  split_ifs at h <;> cases h
  · exact Or.inl rfl
  · rw [unit_modify]
    split_ifs with hh
    · rw [hh.2]; exact Or.inr (Or.inl rfl)
    · exact Or.inl rfl
  · have key := unit_modify m u y (fun x => { x with in_dbus_queue := true })
    split_ifs at key with hh
    · rw [hh.2] at key ⊢; exact Or.inr (Or.inr key)
    · exact Or.inl key

theorem deps_dbus_queue (m m' : Manager) (u : UnitId) (h : unit_add_to_dbus_queue m u = some m')
    (y : UnitId) (j : UnitDependency) : m'.deps y j = m.deps y j := by
  unfold Manager.deps
  rcases unit_dbus_queue m m' u h y with e | e | e <;> rw [e]

theorem mem_set_put (oom : Bool) (s : List UnitId) (x y : UnitId) :
    y ∈ (set_put oom s x).2 ↔ y ∈ s ∨ (y = x ∧ ¬ (set_put oom s x).1 < 0) := by
  unfold set_put
  by_cases h : x ∈ s
  · simp only [h, if_true]
    constructor
    · intro h1; exact Or.inl h1
    · rintro (h1 | ⟨rfl, _⟩)
      · exact h1
      · exact h
  · cases oom <;> simp [h, ENOMEM]

theorem set_put_pos (oom : Bool) (s : List UnitId) (x : UnitId) :
    (set_put oom s x).1 > 0 ↔ (x ∉ s ∧ oom = false) := by
  unfold set_put
  by_cases h : x ∈ s
  · simp [h]
  · cases oom <;> simp [h, ENOMEM]

theorem set_put_neg (oom : Bool) (s : List UnitId) (x : UnitId) :
    (set_put oom s x).1 < 0 ↔ (x ∉ s ∧ oom = true) := by
  unfold set_put
  by_cases h : x ∈ s
  · simp [h]
  · cases oom <;> simp [h, ENOMEM]

theorem mem_set_remove (s : List UnitId) (x y : UnitId) :
    y ∈ set_remove s x ↔ y ∈ s ∧ y ≠ x := by
  simp [set_remove]



theorem mem_deps_remove (m : Manager) (a b : UnitId) (k : UnitDependency)
    (x : UnitId) (j : UnitDependency) (y : UnitId) :
    y ∈ (m.setDeps a k (set_remove (m.deps a k) b)).deps x j ↔
      y ∈ m.deps x j ∧ ¬ (x = a ∧ j = k ∧ y = b) := by
  rw [deps_setDeps]
  by_cases h : x = a ∧ j = k
  · obtain ⟨rfl, rfl⟩ := h
    by_cases hv : m.valid x
    · simp [hv, mem_set_remove]
    · have he : m.deps x j = [] := by
        unfold Manager.deps Manager.unit
        rw [List.getD_eq_default _ _ (Nat.le_of_not_lt hv)]; rfl
      simp [hv, he]
  · have h1 : ¬ (m.valid a ∧ x = a ∧ j = k) := fun ⟨_, p, q⟩ => h ⟨p, q⟩
    have h2 : ¬ (x = a ∧ j = k ∧ y = b) := fun ⟨p, q, _⟩ => h ⟨p, q⟩
    simp [h1, h2]

theorem mem_deps_put (m : Manager) (oom : Bool) (a b : UnitId) (k : UnitDependency)
    (ha : m.valid a) (hp : ¬ (set_put oom (m.deps a k) b).1 < 0)
    (x : UnitId) (j : UnitDependency) (y : UnitId) :
    y ∈ (m.setDeps a k (set_put oom (m.deps a k) b).2).deps x j ↔
      y ∈ m.deps x j ∨ (x = a ∧ j = k ∧ y = b) := by
  rw [deps_setDeps]
  by_cases h : x = a ∧ j = k
  · obtain ⟨rfl, rfl⟩ := h
    simp [ha, mem_set_put, hp]
  · have h1 : ¬ (m.valid a ∧ x = a ∧ j = k) := fun ⟨_, p, q⟩ => h ⟨p, q⟩
    have h2 : ¬ (x = a ∧ j = k ∧ y = b) := fun ⟨p, q, _⟩ => h ⟨p, q⟩
    simp [h1, h2]

theorem mem_cond_remove (c : Prop) [Decidable c] (m : Manager) (a b : UnitId) (k : UnitDependency)
    (x : UnitId) (j : UnitDependency) (y : UnitId) :
    y ∈ (if c then m.setDeps a k (set_remove (m.deps a k) b) else m).deps x j ↔
      y ∈ m.deps x j ∧ ¬ (c ∧ x = a ∧ j = k ∧ y = b) := by
  split_ifs with hc
  · rw [mem_deps_remove]; simp [hc]
  · simp [hc]

theorem fail_spec (m : Manager) (u o : UnitId) (d : UnitDependency) (q v w : Int)
    (hv : v > 0 → inverse_table d ≠ none)
    (x : UnitId) (k : UnitDependency) (y : UnitId) :
    y ∈ (unit_add_dependency_fail m u d o q v w).deps x k ↔
      y ∈ m.deps x k ∧ ¬ (q > 0 ∧ x = u ∧ k = d ∧ y = o) ∧
        ¬ (v > 0 ∧ x = o ∧ inverse_table d = some k ∧ y = u) ∧
        ¬ (w > 0 ∧ x = u ∧ k = .references ∧ y = o) := by
  unfold unit_add_dependency_fail
  cases hi : inverse_table d with
  | none =>
    have hv' : ¬ v > 0 := fun h => hv h hi
    simp only [hv', if_false, mem_cond_remove]
    tauto
  | some i =>
    simp only [mem_cond_remove, Option.some.injEq]
    have : (i = k) ↔ (k = i) := eq_comm
    tauto


theorem set_put_pos_iff (oom : Bool) (s : List UnitId) (x : UnitId)
    (h : ¬ (set_put oom s x).1 < 0) : (set_put oom s x).1 > 0 ↔ x ∉ s := by
  rw [set_put_pos]
  rw [set_put_neg] at h
  constructor
  · exact fun h1 => h1.1
  · intro h1
    refine ⟨h1, ?_⟩
    cases hb : oom
    · rfl
    · exact absurd ⟨h1, hb⟩ h

theorem refs_spec (oom : Nat → Bool) (m0 m m' : Manager) (u o : UnitId) (d : UnitDependency)
    (ar : Bool) (q v r : Int) (hu : m.valid u) (ho : m.valid o) (_hne : u ≠ o)
    (Hq : q > 0 ↔ o ∉ m0.deps u d)
    (Hv : v > 0 ↔ ∃ i, inverse_table d = some i ∧ i ≠ d ∧ u ∉ m0.deps o i)
    (Hcur : ∀ x k y, y ∈ m.deps x k ↔ y ∈ m0.deps x k ∨ (x = u ∧ k = d ∧ y = o) ∨
      (x = o ∧ inverse_table d = some k ∧ k ≠ d ∧ y = u))
    (hres : unit_add_dependency_refs oom m u d o ar q v = some (r, m')) :
    (r < 0 → ∀ x k y, y ∈ m'.deps x k ↔ y ∈ m0.deps x k) ∧
    (¬ r < 0 → r = 0 ∧ ∀ x k y, y ∈ m'.deps x k ↔ (y ∈ m0.deps x k ∨ added u o d ar x k y)) := by
  have hvn : v > 0 → inverse_table d ≠ none := by
    intro h hn
    obtain ⟨i, hi, _⟩ := Hv.1 h
    rw [hn] at hi; cases hi
  -- what the rollback of `q` and `v` gives back
  have back : ∀ x k y, (y ∈ m.deps x k ∧ ¬ (q > 0 ∧ x = u ∧ k = d ∧ y = o) ∧
      ¬ (v > 0 ∧ x = o ∧ inverse_table d = some k ∧ y = u)) ↔ y ∈ m0.deps x k := by
    intro x k y
    rw [Hcur]
    constructor
    · rintro ⟨h1 | ⟨hx, hk, hy⟩ | ⟨hx, hi, hnk, hy⟩, h2, h3⟩
      · exact h1
      · rw [hx, hk, hy]; by_contra hc; exact h2 ⟨Hq.2 hc, hx, hk, hy⟩
      · rw [hx, hy]; by_contra hc; exact h3 ⟨Hv.2 ⟨k, hi, hnk, hc⟩, hx, hi, hy⟩
    · intro h1
      refine ⟨Or.inl h1, ?_, ?_⟩
      · rintro ⟨hq, hx, hk, hy⟩
        rw [hx, hk, hy] at h1; exact Hq.1 hq h1
      · rintro ⟨hv, hx, hi, hy⟩
        obtain ⟨i, hi2, _, hni⟩ := Hv.1 hv
        rw [hi] at hi2; cases hi2
        rw [hx, hy] at h1; exact hni h1
  unfold unit_add_dependency_refs at hres
  cases ar with
  | false =>
    simp only [Bool.false_eq_true, if_false, Option.map_eq_some'] at hres
    obtain ⟨m5, h5, he⟩ := hres
    cases he
    refine ⟨fun h => absurd h (by decide), fun _ => ⟨rfl, ?_⟩⟩
    intro x k y
    rw [deps_dbus_queue _ _ _ h5, Hcur]
    unfold added
    simp only [Bool.false_eq_true, false_and, or_false]
  | true =>
    simp only [if_true] at hres
    by_cases hw : (set_put (oom 6) (m.deps u .references) o).1 < 0
    · simp only [hw, if_true, Option.some.injEq] at hres
      simp only [Prod.mk.injEq] at hres
      obtain ⟨hr, hm⟩ := hres
      refine ⟨fun _ => ?_, fun h => absurd (hr ▸ hw) h⟩
      intro x k y
      rw [← hm, fail_spec _ _ _ _ _ _ _ hvn, ← back x k y]
      exact ⟨fun ⟨a, b, c, _⟩ => ⟨a, b, c⟩, fun ⟨a, b, c⟩ => ⟨a, b, c, fun h => lt_asymm hw h.1⟩⟩
    · simp only [hw, if_false] at hres
      have E3 := mem_deps_put m (oom 6) u o .references hu hw
      have hu3 : (m.setDeps u .references (set_put (oom 6) (m.deps u .references) o).2).valid u :=
        (valid_setDeps _ _ _ _ _).2 hu
      have ho3 : (m.setDeps u .references (set_put (oom 6) (m.deps u .references) o).2).valid o :=
        (valid_setDeps _ _ _ _ _).2 ho
      have Hw := set_put_pos_iff (oom 6) (m.deps u .references) o hw
      by_cases hr7 : (set_put (oom 7) ((m.setDeps u .references
          (set_put (oom 6) (m.deps u .references) o).2).deps o .referenced_by) u).1 < 0
      · simp only [hr7, if_true, Option.some.injEq] at hres
        simp only [Prod.mk.injEq] at hres
        obtain ⟨hr, hm⟩ := hres
        refine ⟨fun _ => ?_, fun h => absurd (hr ▸ hr7) h⟩
        intro x k y
        rw [← hm, fail_spec _ _ _ _ _ _ _ hvn, E3, ← back x k y]
        constructor
        · rintro ⟨h1 | ⟨hx, hk, hy⟩, h2, h3, h4⟩
          · exact ⟨h1, h2, h3⟩
          · have hw2 : ¬ (set_put (oom 6) (m.deps u .references) o).1 > 0 :=
              fun h => h4 ⟨h, hx, hk, hy⟩
            have h5 : o ∈ m.deps u .references := by
              by_contra h6; exact hw2 (Hw.2 h6)
            rw [hx, hk, hy]
            exact ⟨h5, fun h => h2 (by rw [hx, hk, hy]; exact h),
              fun h => h3 (by rw [hx, hk, hy]; exact h)⟩
        · rintro ⟨h1, h2, h3⟩
          refine ⟨Or.inl h1, h2, h3, ?_⟩
          rintro ⟨hw2, hx, hk, hy⟩
          rw [hx, hk, hy] at h1
          exact Hw.1 hw2 h1
      · simp only [hr7, if_false, Option.map_eq_some'] at hres
        obtain ⟨m5, h5, he⟩ := hres
        cases he
        refine ⟨fun h => absurd h (by decide), fun _ => ⟨rfl, ?_⟩⟩
        intro x k y
        rw [deps_dbus_queue _ _ _ h5]
        rw [mem_deps_put (m.setDeps u .references (set_put (oom 6) (m.deps u .references) o).2)
          (oom 7) o u .referenced_by ho3 hr7 x k y, E3, Hcur]
        unfold added
        simp only [true_and, or_assoc]


theorem unit_add_dependency_spec (oom : Nat → Bool) (m m' : Manager) (u other : UnitId)
    (d : UnitDependency) (ar : Bool) (r : Int)
    (h : unit_add_dependency oom m u d other ar = some (r, m')) :
    ∃ u' o', unit_follow_merge m u = some u' ∧ unit_follow_merge m other = some o' ∧
      (r < 0 → ∀ x k y, y ∈ m'.deps x k ↔ y ∈ m.deps x k) ∧
      (¬ r < 0 → r = 0 ∧ ∀ x k y, y ∈ m'.deps x k ↔
        (y ∈ m.deps x k ∨ (u' ≠ o' ∧ ¬ (d = .before ∧ (m.unit o').type = some .device) ∧
          added u' o' d ar x k y))) := by
  unfold unit_add_dependency at h
  cases hfu : unit_follow_merge m u with
  | none => simp [hfu] at h
  | some u' =>
  cases hfo : unit_follow_merge m other with
  | none => simp [hfu, hfo] at h
  | some o' =>
  refine ⟨u', o', rfl, rfl, ?_⟩
  have hu := (unit_follow_merge_valid m u u' hfu).1
  have ho := (unit_follow_merge_valid m other o' hfo).1
  simp only [hfu, hfo] at h
  by_cases h1 : u' = o'
  · simp only [h1, if_true, Option.some.injEq, Prod.mk.injEq] at h
    obtain ⟨rfl, rfl⟩ := h
    exact ⟨fun hn => absurd hn (by decide), fun _ => ⟨rfl, fun x k y =>
      ⟨Or.inl, fun hh => hh.elim id (fun hc => absurd h1 hc.1)⟩⟩⟩
  simp only [h1, if_false] at h
  by_cases h2 : d = .before ∧ (m.unit o').type = some .device
  · simp only [h2, and_self, if_true, Option.some.injEq, Prod.mk.injEq] at h
    obtain ⟨rfl, rfl⟩ := h
    exact ⟨fun hn => absurd hn (by decide), fun _ => ⟨rfl, fun x k y =>
      ⟨Or.inl, fun hh => hh.elim id (fun hc => absurd h2 hc.2.1)⟩⟩⟩
  rw [if_neg h2] at h
  have neg : ∀ {R : Int} {M : Manager}, some (-ENOMEM, m) = some (R, M) →
      (R < 0 → ∀ x k y, y ∈ M.deps x k ↔ y ∈ m.deps x k) ∧
      (¬ R < 0 → R = 0 ∧ ∀ x k y, y ∈ M.deps x k ↔
        (y ∈ m.deps x k ∨ (u' ≠ o' ∧ ¬ (d = .before ∧ (m.unit o').type = some .device) ∧
          added u' o' d ar x k y))) := by
    intro R M e
    simp only [Option.some.injEq, Prod.mk.injEq] at e
    obtain ⟨rfl, rfl⟩ := e
    exact ⟨fun _ _ _ _ => Iff.rfl, fun hn => absurd (by decide) hn⟩
  split_ifs at h with g0 g1 g2 g3 hq
  · exact neg h
  · exact neg h
  · exact neg h
  · exact neg h
  · simp only [Option.some.injEq, Prod.mk.injEq] at h
    obtain ⟨rfl, rfl⟩ := h
    exact ⟨fun _ _ _ _ => Iff.rfl, fun hn => absurd hq hn⟩
  · have E1 := mem_deps_put m (oom 4) u' o' d hu hq
    have Hq := set_put_pos_iff (oom 4) (m.deps u' d) o' hq
    have hu1 : (m.setDeps u' d (set_put (oom 4) (m.deps u' d) o').2).valid u' :=
      (valid_setDeps _ _ _ _ _).2 hu
    have ho1 : (m.setDeps u' d (set_put (oom 4) (m.deps u' d) o').2).valid o' :=
      (valid_setDeps _ _ _ _ _).2 ho
    have fin : ∀ {R : Int} {M : Manager},
        ((R < 0 → ∀ x k y, y ∈ M.deps x k ↔ y ∈ m.deps x k) ∧
          (¬ R < 0 → R = 0 ∧ ∀ x k y, y ∈ M.deps x k ↔ (y ∈ m.deps x k ∨ added u' o' d ar x k y))) →
        (R < 0 → ∀ x k y, y ∈ M.deps x k ↔ y ∈ m.deps x k) ∧
        (¬ R < 0 → R = 0 ∧ ∀ x k y, y ∈ M.deps x k ↔
          (y ∈ m.deps x k ∨ (u' ≠ o' ∧ ¬ (d = .before ∧ (m.unit o').type = some .device) ∧
            added u' o' d ar x k y))) := by
      intro R M hh
      refine ⟨hh.1, fun hn => ⟨(hh.2 hn).1, fun x k y => ?_⟩⟩
      rw [(hh.2 hn).2]
      exact ⟨fun e => e.elim Or.inl (fun a => Or.inr ⟨h1, h2, a⟩), fun e => e.elim Or.inl (fun a => Or.inr a.2.2)⟩
    cases hi : inverse_table d with
    | none =>
      simp only [hi] at h
      refine fin (refs_spec oom m _ m' u' o' d ar _ 0 r hu1 ho1 h1 Hq ?_ ?_ h)
      · simp [hi]
      · intro x k y
        rw [E1]
        simp [hi]
    | some i =>
      simp only [hi] at h
      by_cases hid : i = d
      · simp only [hid, ne_eq, not_true_eq_false, if_false] at h
        refine fin (refs_spec oom m _ m' u' o' d ar _ 0 r hu1 ho1 h1 Hq ?_ ?_ h)
        · simp [hi, hid]
        · intro x k y
          rw [E1]
          simp only [hi, Option.some.injEq, or_assoc]
          constructor
          · rintro (a | a)
            · exact Or.inl a
            · exact Or.inr (Or.inl a)
          · rintro (a | a | ⟨_, e1, e2, _⟩)
            · exact Or.inl a
            · exact Or.inr a
            · exact absurd (e1.symm.trans hid) e2
      · simp only [hid, ne_eq, not_false_eq_true, if_true] at h
        by_cases hv : (set_put (oom 5) ((m.setDeps u' d (set_put (oom 4) (m.deps u' d) o').2).deps o' i) u').1 < 0
        · simp only [hv, if_true, Option.some.injEq, Prod.mk.injEq] at h
          obtain ⟨hr, hm⟩ := h
          refine fin ⟨fun _ x k y => ?_, fun hn => absurd (hr ▸ hv) hn⟩
          rw [← hm, fail_spec _ _ _ _ _ _ _ (fun hp => absurd hp (lt_asymm hv)), E1]
          constructor
          · rintro ⟨a | ⟨hx, hk, hy⟩, h2, _, _⟩
            · exact a
            · rw [hx, hk, hy]; by_contra hc; exact h2 ⟨Hq.2 hc, hx, hk, hy⟩
          · intro a
            refine ⟨Or.inl a, ?_, ?_, ?_⟩
            · rintro ⟨hq', hx, hk, hy⟩
              rw [hx, hk, hy] at a; exact Hq.1 hq' a
            · rintro ⟨hp, _⟩; exact lt_asymm hv hp
            · rintro ⟨hp, _⟩; exact absurd hp (by decide)
        · simp only [hv, if_false] at h
          have E2 := mem_deps_put (m.setDeps u' d (set_put (oom 4) (m.deps u' d) o').2) (oom 5)
            o' u' i ho1 hv
          have Hv := set_put_pos_iff (oom 5)
            ((m.setDeps u' d (set_put (oom 4) (m.deps u' d) o').2).deps o' i) u' hv
          have hmem : u' ∈ (m.setDeps u' d (set_put (oom 4) (m.deps u' d) o').2).deps o' i ↔
              u' ∈ m.deps o' i := by
            rw [E1]
            exact ⟨fun e => e.elim id (fun a => absurd a.1.symm h1), Or.inl⟩
          rw [hmem] at Hv
          refine fin (refs_spec oom m _ m' u' o' d ar _ _ r ((valid_setDeps _ _ _ _ _).2 hu1)
            ((valid_setDeps _ _ _ _ _).2 ho1) h1 Hq ?_ ?_ h)
          · rw [Hv]
            constructor
            · intro a; exact ⟨i, hi, hid, a⟩
            · rintro ⟨j, hj, _, a⟩
              rw [hi] at hj; cases hj; exact a
          · intro x k y
            rw [E2, E1]
            simp only [hi, Option.some.injEq, or_assoc]
            constructor
            · rintro (a | a | ⟨hx, hk, hy⟩)
              · exact Or.inl a
              · exact Or.inr (Or.inl a)
              · exact Or.inr (Or.inr ⟨hx, hk.symm, hk ▸ hid, hy⟩)
            · rintro (a | a | ⟨hx, hk, _, hy⟩)
              · exact Or.inl a
              · exact Or.inr (Or.inl a)
              · exact Or.inr (Or.inr ⟨hx, hk.symm, hy⟩)

/-! ## Adding a dependency: claims C1 to C4 -/

theorem inverse_table_involutive (k k' : UnitDependency) (h : inverse_table k = some k') :
    inverse_table k' = some k := by
  cases k <;> simp only [inverse_table, Option.some.injEq] at h <;> first | (subst h; rfl) | cases h

theorem deps_of_no_dependencies (m : Manager) (h : m.no_dependencies) (x : UnitId)
    (k : UnitDependency) : m.deps x k = [] := by
  unfold Manager.deps Manager.unit
  by_cases hx : x < m.heap.length
  · rw [List.getD_eq_getElem _ _ hx]
    exact h _ (List.getElem_mem hx) k (by cases k <;> decide)
  · rw [List.getD_eq_default _ _ (Nat.le_of_not_lt hx)]; rfl

theorem added_swap (u o : UnitId) (d : UnitDependency) (ar : Bool) (a v : UnitId)
    (k k' : UnitDependency) (hk : inverse_table k = some k') (hne : k' ≠ k)
    (h : added u o d ar a k v) : added u o d ar v k' a := by
  rcases h with ⟨ha, hd, hv⟩ | ⟨ha, hi, hnd, hv⟩ | ⟨har, ha, hr, hv⟩ | ⟨har, ha, hr, hv⟩
  · right; left
    rw [hd] at hk hne
    exact ⟨hv, hk, hne, ha⟩
  · left
    have := inverse_table_involutive d k hi
    rw [hk] at this
    exact ⟨hv, Option.some.inj this, ha⟩
  · right; right; right
    rw [hr] at hk
    exact ⟨har, hv, (Option.some.inj hk).symm, ha⟩
  · right; right; left
    rw [hr] at hk
    exact ⟨har, hv, (Option.some.inj hk).symm, ha⟩

theorem inverse_symmetric_step (oom : Nat → Bool) (m m' : Manager) (u other : UnitId)
    (d : UnitDependency) (ar : Bool) (r : Int)
    (h : unit_add_dependency oom m u d other ar = some (r, m')) (hr : ¬ r < 0)
    (hs : m.inverse_symmetric) : m'.inverse_symmetric := by
  obtain ⟨u', o', _, _, _, h2⟩ := unit_add_dependency_spec oom m m' u other d ar r h
  obtain ⟨_, hm⟩ := h2 hr
  intro a v k k' hk hne
  have hk' := inverse_table_involutive k k' hk
  rw [hm, hm, hs a v k k' hk hne]
  constructor
  · rintro (h1 | ⟨c1, c2, h1⟩)
    · exact Or.inl h1
    · exact Or.inr ⟨c1, c2, added_swap u' o' d ar a v k k' hk hne h1⟩
  · rintro (h1 | ⟨c1, c2, h1⟩)
    · exact Or.inl h1
    · exact Or.inr ⟨c1, c2, added_swap u' o' d ar v a k' k hk' (fun e => hne e.symm) h1⟩

theorem inverse_symmetric_run (calls : List DepCall) (m0 m : Manager)
    (h : run_add_dependency m0 calls = some m) (hs : m0.inverse_symmetric) :
    m.inverse_symmetric := by
  induction calls generalizing m0 with
  | nil =>
    simp only [run_add_dependency, Option.some.injEq] at h
    rw [← h]; exact hs
  | cons c cs ih =>
    unfold run_add_dependency at h
    cases hc : unit_add_dependency c.oom m0 c.u c.d c.other c.add_reference with
    | none => simp [hc] at h
    | some p =>
      obtain ⟨r, m1⟩ := p
      simp only [hc] at h
      by_cases hr : r < 0
      · simp [hr] at h
      · simp only [hr, if_false] at h
        exact ih m1 h (inverse_symmetric_step _ _ _ _ _ _ _ _ hc hr hs)

/-- C1 (amended). In every graph built from units with empty dependency sets by
a sequence of successful `unit_add_dependency` calls, for all units `u`, `v`
and every kind `k` whose inverse-table entry is a valid kind other than `k`
itself: `v` is in `u.dependencies[k]` iff `u` is in `v.dependencies[inverse(k)]`. -/
theorem unit_add_dependency_inverse_symmetry (m0 : Manager) (calls : List DepCall) (m : Manager)
    (hempty : m0.no_dependencies) (hrun : run_add_dependency m0 calls = some m)
    (u v : UnitId) (k k' : UnitDependency) (hk : inverse_table k = some k') (hne : k' ≠ k) :
    v ∈ m.deps u k ↔ u ∈ m.deps v k' := by
  refine inverse_symmetric_run calls m0 m hrun ?_ u v k k' hk hne
  intro a b j j' _ _
  rw [deps_of_no_dependencies m0 hempty, deps_of_no_dependencies m0 hempty]
  simp

/-- An instance of C1 (amended): after `Requires` with a reference from unit 0
to unit 1, unit 0 is in the `RequiredBy` set of unit 1. -/
theorem unit_add_dependency_inverse_symmetry_witness :
    0 ∈ ((run_add_dependency graph2 [⟨0, .requires, 1, true, no_oom⟩]).getD graph2).deps 1 .required_by :=
  (unit_add_dependency_inverse_symmetry graph2 [⟨0, .requires, 1, true, no_oom⟩]
    ((run_add_dependency graph2 [⟨0, .requires, 1, true, no_oom⟩]).getD graph2)
    (by decide) (by decide) 0 1 .requires .required_by (by decide) (by decide)).1 (by decide)

/-- C1 as stated fails: `JoinsNamespaceOf` is its own inverse in the table, and
after a successful `unit_add_dependency(0, JoinsNamespaceOf, 1, false)` on two
fresh units, unit 1 is in the `JoinsNamespaceOf` set of unit 0 while unit 0 is
not in that of unit 1. -/
theorem unit_add_dependency_joins_namespace_of_not_symmetric :
    graph2.no_dependencies ∧
    inverse_table .joins_namespace_of = some .joins_namespace_of ∧
    ∃ m, run_add_dependency graph2 [⟨0, .joins_namespace_of, 1, false, no_oom⟩] = some m ∧
      ¬ (1 ∈ m.deps 0 .joins_namespace_of ↔ 0 ∈ m.deps 1 .joins_namespace_of) := by
  refine ⟨by decide, by decide, _, rfl, ?_⟩
  decide


/-- C2. When `u` and `other` resolve to the same unit after following merges,
`unit_add_dependency` returns 0 and changes nothing, for every kind and either
value of `add_reference`; and whatever the arguments of a call, if no unit is
a member of one of its own dependency sets before it, none is after it. -/
theorem unit_add_dependency_no_self_edge (oom : Nat → Bool) (m : Manager) (u other x : UnitId)
    (d : UnitDependency) (ar : Bool)
    (hu : unit_follow_merge m u = some x) (ho : unit_follow_merge m other = some x) :
    unit_add_dependency oom m u d other ar = some (0, m) ∧
    ∀ (oom1 : Nat → Bool) (u1 other1 : UnitId) (d1 : UnitDependency) (ar1 : Bool) (r : Int)
      (m' : Manager), unit_add_dependency oom1 m u1 d1 other1 ar1 = some (r, m') →
      m.no_self_edges → m'.no_self_edges := by
  constructor
  · unfold unit_add_dependency
    simp only [hu, ho, if_true]
  · intro oom1 u1 other1 d1 ar1 r m' h hs y k hy
    obtain ⟨u', o', _, _, h1, h2⟩ := unit_add_dependency_spec oom1 m m' u1 other1 d1 ar1 r h
    by_cases hr : r < 0
    · exact hs y k ((h1 hr y k y).1 hy)
    · rcases ((h2 hr).2 y k y).1 hy with h3 | ⟨hne, _, h3⟩
      · exact hs y k h3
      · rcases h3 with ⟨a, _, b⟩ | ⟨a, _, _, b⟩ | ⟨_, a, _, b⟩ | ⟨_, a, _, b⟩
        · exact hne (a.symm.trans b)
        · exact hne (b.symm.trans a)
        · exact hne (a.symm.trans b)
        · exact hne (b.symm.trans a)

/-- An instance of C2: unit 2 of `graph_device` is merged into unit 1, a
dependency of unit 1 on unit 2 is dropped, and a later `Wants` from unit 0 to
unit 1 leaves the graph without self-edges. -/
theorem unit_add_dependency_no_self_edge_witness :
    unit_add_dependency no_oom graph_device 1 .requires 2 true = some (0, graph_device) ∧
    ((unit_add_dependency no_oom graph_device 0 .wants 1 true).getD (0, graph_device)).2.no_self_edges :=
  ⟨(unit_add_dependency_no_self_edge no_oom graph_device 1 2 1 .requires true
      (by decide) (by decide)).1,
   (unit_add_dependency_no_self_edge no_oom graph_device 1 2 1 .requires true
      (by decide) (by decide)).2 no_oom 0 1 .wants true 0
      ((unit_add_dependency no_oom graph_device 0 .wants 1 true).getD (0, graph_device)).2
      (by decide)
      (fun y k hy => by
        rw [deps_of_no_dependencies graph_device (by decide)] at hy
        exact absurd hy (List.not_mem_nil y))⟩

/-- C3. When `unit_add_dependency` returns a negative error, every dependency
set of every unit has the members it had before the call. -/
theorem unit_add_dependency_rollback (oom : Nat → Bool) (m m' : Manager) (u other : UnitId)
    (d : UnitDependency) (ar : Bool) (r : Int)
    (h : unit_add_dependency oom m u d other ar = some (r, m')) (hr : r < 0) :
    ∀ (x : UnitId) (k : UnitDependency) (y : UnitId), y ∈ m'.deps x k ↔ y ∈ m.deps x k := by
  obtain ⟨_, _, _, _, h1, _⟩ := unit_add_dependency_spec oom m m' u other d ar r h
  exact h1 hr

/-- An instance of C3: in `graph2_requires` the edge `Requires` from unit 0 to
unit 1 exists; adding it again with a reference fails at the last insertion
(`ReferencedBy`), after `References` was inserted; the old edge stays and the
new reference is gone. -/
theorem unit_add_dependency_rollback_witness :
    unit_add_dependency (oom_at 7) graph2_requires 0 .requires 1 true =
      some (-ENOMEM, graph2_requires) ∧
    ∀ (x : UnitId) (k : UnitDependency) (y : UnitId),
      y ∈ graph2_requires.deps x k ↔ y ∈ graph2_requires.deps x k :=
  ⟨by decide,
    unit_add_dependency_rollback (oom_at 7) graph2_requires graph2_requires 0 1 .requires true
      (-ENOMEM) (by decide) (by decide)⟩

/-- C4. When `other` resolves to a unit of type device,
`unit_add_dependency(u, Before, other, add_reference)` returns 0 and leaves the
manager, hence every dependency set, as it was, also when `add_reference` is
true. -/
theorem unit_add_dependency_before_device (oom : Nat → Bool) (m : Manager)
    (u other u' o' : UnitId) (ar : Bool)
    (hu : unit_follow_merge m u = some u') (ho : unit_follow_merge m other = some o')
    (hdev : (m.unit o').type = some .device) :
    unit_add_dependency oom m u .before other ar = some (0, m) := by
  unfold unit_add_dependency
  simp only [hu, ho, hdev, and_self, if_true, ite_self]

/-- An instance of C4: `Before` from the service unit 0 to unit 2, which is
merged into the device unit 1, with a reference. -/
theorem unit_add_dependency_before_device_witness :
    unit_add_dependency no_oom graph_device 0 .before 2 true = some (0, graph_device) :=
  unit_add_dependency_before_device no_oom graph_device 0 2 0 1 true
    (by decide) (by decide) (by decide)

/-! ## Adding a name: claim C5 -/

theorem unit_add_name_resolve_neg (env : Env) (oom : Nat → Bool) (m : Manager) (u : UnitId)
    (text : String) (r : Int) (h : unit_add_name_resolve env oom m u text = .error r) : r < 0 := by
  unfold unit_add_name_resolve at h
  split_ifs at h with h1 h2
  · cases hi : (m.unit u).inst with
    | none => simp only [hi] at h; cases h; decide
    | some i =>
      simp only [hi] at h
      split_ifs at h with h3
      cases h; exact h3
  · cases h; decide

/-- C5. Let `s` be the name that `unit_add_name(u, text)` registers for `text`
(when no such name can be formed the call fails already), and let it not be
one of the names of `u`. If (a) `s` is registered to a different unit, (b) `u`
has a type and the type of `s` differs, (c) the type of `s` may not be aliased
and `u` has a name, or (d) the registry holds `MANAGER_MAX_NAMES` names, the
call returns a negative error and leaves the whole manager, hence the name
set and type of `u` and the registry, unchanged. The error is `-EEXIST` for
(a), `-EINVAL` for (b) unless (a) holds, and `-EEXIST` for (c), `-E2BIG` for
(d) when the checks before them pass. -/
theorem unit_add_name_errors (env : Env) (oom : Nat → Bool) (m : Manager) (u : UnitId)
    (text : String) (hv : m.valid u) :
    (∀ r, unit_add_name_resolve env oom m u text = .error r →
      r < 0 ∧ unit_add_name env oom m u text = some (r, m)) ∧
    (∀ s, unit_add_name_resolve env oom m u text = .ok s → s ∉ (m.unit u).names →
      (((∃ v, manager_get_unit m s = some v ∧ v ≠ u) ∨
        (∃ t ut, env.unit_name_to_type s = some t ∧ (m.unit u).type = some ut ∧ t ≠ ut) ∨
        (∃ t, env.unit_name_to_type s = some t ∧ env.unit_type_may_alias t = false ∧
          (m.unit u).names ≠ []) ∨
        m.units.length ≥ env.MANAGER_MAX_NAMES) →
          ∃ r, r < 0 ∧ unit_add_name env oom m u text = some (r, m)) ∧
      ((∃ v, manager_get_unit m s = some v ∧ v ≠ u) →
        unit_add_name env oom m u text = some (-EEXIST, m)) ∧
      (manager_get_unit m s = none →
        (∃ t ut, env.unit_name_to_type s = some t ∧ (m.unit u).type = some ut ∧ t ≠ ut) →
        unit_add_name env oom m u text = some (-EINVAL, m)) ∧
      (∀ t, manager_get_unit m s = none →
        env.unit_name_is_valid s (UNIT_NAME_PLAIN ||| UNIT_NAME_INSTANCE) = true →
        env.unit_name_to_type s = some t →
        ((m.unit u).type = none ∨ (m.unit u).type = some t) →
        ¬ (env.unit_name_to_instance s).1 < 0 →
        ((env.unit_name_to_instance s).2.isSome = true → env.unit_type_may_template t = true) →
        ((m.unit u).type = none ∨
          (m.unit u).inst.isNone = (env.unit_name_to_instance s).2.isNone) →
        ((env.unit_type_may_alias t = false ∧ (m.unit u).names ≠ [] →
            unit_add_name env oom m u text = some (-EEXIST, m)) ∧
         (¬ (env.unit_type_may_alias t = false ∧ (m.unit u).names ≠ []) →
            m.units.length ≥ env.MANAGER_MAX_NAMES →
            unit_add_name env oom m u text = some (-E2BIG, m))))) := by
  constructor
  · intro r hr
    refine ⟨unit_add_name_resolve_neg env oom m u text r hr, ?_⟩
    unfold unit_add_name
    simp only [hv, if_true, hr]
  · intro s hs hn
    have hun : unit_add_name env oom m u text = unit_add_name_checked env oom m u s := by
      unfold unit_add_name
      simp only [hv, if_true, hs]
    rw [hun]
    unfold unit_add_name_checked
    simp only [hn, if_false]
    have hE : (-EEXIST : Int) < 0 := by decide
    have hI : (-EINVAL : Int) < 0 := by decide
    have hB : (-E2BIG : Int) < 0 := by decide
    have hreg : ∀ v, manager_get_unit m s = some v → hashmap_contains m.units s = true := by
      intro v hv'
      unfold hashmap_contains
      unfold manager_get_unit at hv'
      rw [hv']; rfl
    have hnreg : manager_get_unit m s = none → hashmap_contains m.units s = false := by
      intro hv'
      unfold hashmap_contains
      unfold manager_get_unit at hv'
      rw [hv']; rfl
    refine ⟨?_, ?_, ?_, ?_⟩
    · intro hcase
      by_cases c1 : hashmap_contains m.units s = true
      · exact ⟨-EEXIST, hE, by rw [if_pos c1]⟩
      rw [if_neg c1]
      by_cases c2 : env.unit_name_is_valid s (UNIT_NAME_PLAIN ||| UNIT_NAME_INSTANCE) = false
      · exact ⟨-EINVAL, hI, by rw [if_pos c2]⟩
      rw [if_neg c2]
      cases ht : env.unit_name_to_type s with
      | none => exact ⟨-EINVAL, hI, rfl⟩
      | some t =>
        simp only []
        by_cases c3 : (m.unit u).type ≠ none ∧ some t ≠ (m.unit u).type
        · exact ⟨-EINVAL, hI, by rw [if_pos c3]⟩
        rw [if_neg c3]
        by_cases c4 : (env.unit_name_to_instance s).1 < 0
        · exact ⟨(env.unit_name_to_instance s).1, c4, by rw [if_pos c4]⟩
        rw [if_neg c4]
        by_cases c5 : (env.unit_name_to_instance s).2.isSome = true ∧
            env.unit_type_may_template t = false
        · exact ⟨-EINVAL, hI, by rw [if_pos c5]⟩
        rw [if_neg c5]
        by_cases c6 : (m.unit u).type ≠ none ∧
            (m.unit u).inst.isNone ≠ (env.unit_name_to_instance s).2.isNone
        · exact ⟨-EINVAL, hI, by rw [if_pos c6]⟩
        rw [if_neg c6]
        by_cases c7 : env.unit_type_may_alias t = false ∧ (m.unit u).names ≠ []
        · exact ⟨-EEXIST, hE, by rw [if_pos c7]⟩
        rw [if_neg c7]
        by_cases c8 : m.units.length ≥ env.MANAGER_MAX_NAMES
        · exact ⟨-E2BIG, hB, by rw [if_pos c8]⟩
        exfalso
        rcases hcase with ⟨v, hv', _⟩ | ⟨t', ut, ht', hut, hne⟩ | ⟨t', ht', hal, hnm⟩ | hfull
        · exact c1 (hreg v hv')
        · rw [ht] at ht'
          cases ht'
          exact c3 ⟨by rw [hut]; exact fun e => Option.noConfusion e,
            by rw [hut]; exact fun e => hne (Option.some.inj e)⟩
        · rw [ht] at ht'
          cases ht'
          exact c7 ⟨hal, hnm⟩
        · exact c8 hfull
    · rintro ⟨v, hv', _⟩
      rw [if_pos (hreg v hv')]
    · rintro hnr ⟨t, ut, ht, hut, hne⟩
      have c1 : ¬ hashmap_contains m.units s = true := by rw [hnreg hnr]; decide
      rw [if_neg c1]
      by_cases c2 : env.unit_name_is_valid s (UNIT_NAME_PLAIN ||| UNIT_NAME_INSTANCE) = false
      · rw [if_pos c2]
      rw [if_neg c2]
      simp only [ht]
      have c3 : (m.unit u).type ≠ none ∧ some t ≠ (m.unit u).type :=
        ⟨by rw [hut]; exact fun e => Option.noConfusion e,
          by rw [hut]; exact fun e => hne (Option.some.inj e)⟩
      rw [if_pos c3]
    · intro t hnr hval ht htype hinst htmpl hsame
      have c1 : ¬ hashmap_contains m.units s = true := by rw [hnreg hnr]; decide
      have c2 : ¬ env.unit_name_is_valid s (UNIT_NAME_PLAIN ||| UNIT_NAME_INSTANCE) = false := by
        rw [hval]; decide
      rw [if_neg c1, if_neg c2]
      simp only [ht]
      have c3 : ¬ ((m.unit u).type ≠ none ∧ some t ≠ (m.unit u).type) := by
        rintro ⟨a, b⟩
        rcases htype with e | e
        · exact a e
        · exact b e.symm
      have c5 : ¬ ((env.unit_name_to_instance s).2.isSome = true ∧
          env.unit_type_may_template t = false) := by
        rintro ⟨a, b⟩
        rw [htmpl a] at b; cases b
      have c6 : ¬ ((m.unit u).type ≠ none ∧
          (m.unit u).inst.isNone ≠ (env.unit_name_to_instance s).2.isNone) := by
        rintro ⟨a, b⟩
        rcases hsame with e | e
        · exact a e
        · exact b e
      rw [if_neg c3, if_neg hinst, if_neg c5, if_neg c6]
      constructor
      · intro c7
        rw [if_pos c7]
      · intro c7 c8
        rw [if_neg c7, if_pos c8]


/-- Instances of C5 in `env0`: (a) `a.service` belongs to unit 0 and is refused
for unit 2; (b) the mount name `e.mount` is refused for the service unit 0;
(c) mounts have no aliases, so `e.mount` is refused for the mount unit 1;
(d) the registry `registry_full` is full. -/
theorem unit_add_name_errors_witness :
    unit_add_name env0 no_oom registry3 2 "a.service" = some (-EEXIST, registry3) ∧
    unit_add_name env0 no_oom registry3 0 "e.mount" = some (-EINVAL, registry3) ∧
    unit_add_name env0 no_oom registry3 1 "e.mount" = some (-EEXIST, registry3) ∧
    unit_add_name env0 no_oom registry_full 4 "d.mount" = some (-E2BIG, registry_full) :=
  ⟨((unit_add_name_errors env0 no_oom registry3 2 "a.service" (by decide)).2 "a.service"
      rfl (by decide)).2.1 ⟨0, by decide, by decide⟩,
   ((unit_add_name_errors env0 no_oom registry3 0 "e.mount" (by decide)).2 "e.mount"
      rfl (by decide)).2.2.1 (by decide) ⟨.mount, .service, by decide, by decide, by decide⟩,
   (((unit_add_name_errors env0 no_oom registry3 1 "e.mount" (by decide)).2 "e.mount"
      rfl (by decide)).2.2.2 .mount (by decide) (by decide) (by decide) (by decide)
      (by decide) (by decide) (by decide)).1 (by decide),
   (((unit_add_name_errors env0 no_oom registry_full 4 "d.mount" (by decide)).2 "d.mount"
      rfl (by decide)).2.2.2 .mount (by decide) (by decide) (by decide) (by decide)
      (by decide) (by decide) (by decide)).2 (by decide) (by decide)⟩

/-! ## The garbage-collection predicate: claim C10 -/

theorem unit_release_resources_unit (env : Env) (m m1 : Manager) (u : UnitId)
    (st : UnitActiveState) (h : unit_release_resources env m u st = some m1) (y : UnitId) :
    m1.unit y = { m.unit y with data := (m1.unit y).data } := by
  unfold unit_release_resources at h
  split_ifs at h
  · cases ht : (m.unit u).type with
    | none => simp [ht] at h
    | some t =>
      simp only [ht] at h
      cases hf : (env.unit_vtable t).release_resources with
      | none => simp only [hf, Option.some.injEq] at h; rw [← h]
      | some f =>
        simp only [hf, Option.some.injEq] at h
        rw [← h, unit_modify]
        split_ifs with hh
        · rw [hh.2]
        · rfl
  · simp only [Option.some.injEq] at h; rw [← h]

theorem unit_release_resources_some (env : Env) (m : Manager) (u : UnitId) (t : UnitType)
    (st : UnitActiveState) (ht : (m.unit u).type = some t) :
    ∃ m1, unit_release_resources env m u st = some m1 := by
  unfold unit_release_resources
  split_ifs
  · simp only [ht]
    cases (env.unit_vtable t).release_resources with
    | none => exact ⟨_, rfl⟩
    | some f => exact ⟨_, rfl⟩
  · exact ⟨_, rfl⟩

/-- C10. For a unit with a type whose active state is defined,
`unit_check_gc(u)` returns, and it returns true if and only if `u` has a job,
or a nop job, or its active state is not inactive, or it is perpetual, or a
`UnitRef` references it, or its bus tracker count is positive, or the
`check_gc` hook of its type exists and returns true (on the state that the
`release_resources` hook left). -/
theorem unit_check_gc_iff (env : Env) (m : Manager) (u : UnitId) (t : UnitType)
    (st : UnitActiveState) (hv : m.valid u) (ht : (m.unit u).type = some t)
    (hst : unit_active_state env m u = some st) :
    ∃ b m1, unit_check_gc env m u = some (b, m1) ∧
      (b = true ↔
        ((m.unit u).job ≠ none ∨ (m.unit u).nop_job ≠ none ∨ st ≠ .inactive ∨
          (m.unit u).perpetual = true ∨ (m.unit u).refs ≠ [] ∨ (m.unit u).bus_track > 0 ∨
          ∃ f, (env.unit_vtable t).check_gc = some f ∧ f (m1.unit u).data = true)) := by
  obtain ⟨m1, hm1⟩ := unit_release_resources_some env m u t st ht
  have hu := unit_release_resources_unit env m m1 u st hm1 u
  have ht1 : (m1.unit u).type = some t := by rw [hu]; exact ht
  have hp : (m1.unit u).perpetual = (m.unit u).perpetual := by rw [hu]
  have hr : (m1.unit u).refs = (m.unit u).refs := by rw [hu]
  have hb : (m1.unit u).bus_track = (m.unit u).bus_track := by rw [hu]
  unfold unit_check_gc
  rw [if_pos hv]
  by_cases c1 : (m.unit u).job.isSome = true
  · rw [if_pos c1]
    refine ⟨true, m, rfl, ?_⟩
    have : (m.unit u).job ≠ none := by
      intro e; rw [e] at c1; cases c1
    exact ⟨fun _ => Or.inl this, fun _ => rfl⟩
  rw [if_neg c1]
  have n1 : ¬ (m.unit u).job ≠ none := by
    intro e
    cases hj : (m.unit u).job with
    | none => exact e hj
    | some j => rw [hj] at c1; exact c1 rfl
  by_cases c2 : (m.unit u).nop_job.isSome = true
  · rw [if_pos c2]
    refine ⟨true, m, rfl, ?_⟩
    have : (m.unit u).nop_job ≠ none := by
      intro e; rw [e] at c2; cases c2
    exact ⟨fun _ => Or.inr (Or.inl this), fun _ => rfl⟩
  rw [if_neg c2]
  have n2 : ¬ (m.unit u).nop_job ≠ none := by
    intro e
    cases hj : (m.unit u).nop_job with
    | none => exact e hj
    | some j => rw [hj] at c2; exact c2 rfl
  simp only [hst, hm1]
  by_cases c3 : st ≠ .inactive
  · rw [if_pos c3]
    exact ⟨true, m1, rfl, fun _ => Or.inr (Or.inr (Or.inl c3)), fun _ => rfl⟩
  rw [if_neg c3]
  by_cases c4 : (m1.unit u).perpetual = true
  · rw [if_pos c4]
    exact ⟨true, m1, rfl, fun _ => Or.inr (Or.inr (Or.inr (Or.inl (hp ▸ c4)))), fun _ => rfl⟩
  rw [if_neg c4]
  by_cases c5 : (m1.unit u).refs ≠ []
  · rw [if_pos c5]
    exact ⟨true, m1, rfl, fun _ => Or.inr (Or.inr (Or.inr (Or.inr (Or.inl (hr ▸ c5))))),
      fun _ => rfl⟩
  rw [if_neg c5]
  by_cases c6 : (m1.unit u).bus_track > 0
  · rw [if_pos c6]
    exact ⟨true, m1, rfl,
      fun _ => Or.inr (Or.inr (Or.inr (Or.inr (Or.inr (Or.inl (hb ▸ c6)))))), fun _ => rfl⟩
  rw [if_neg c6]
  rw [hp] at c4
  rw [hr] at c5
  rw [hb] at c6
  unfold unit_check_gc_hook
  simp only [ht1]
  cases hf : (env.unit_vtable t).check_gc with
  | none =>
    refine ⟨false, m1, rfl, fun e => absurd e (by decide), ?_⟩
    rintro (e | e | e | e | e | e | ⟨f, e, _⟩)
    · exact absurd e n1
    · exact absurd e n2
    · exact absurd e c3
    · exact absurd e c4
    · exact absurd e c5
    · exact absurd e c6
    · cases e
  | some f =>
    refine ⟨f (m1.unit u).data, m1, rfl, fun e => ?_, ?_⟩
    · exact Or.inr (Or.inr (Or.inr (Or.inr (Or.inr (Or.inr ⟨f, rfl, e⟩)))))
    · rintro (e | e | e | e | e | e | ⟨g, e, e2⟩)
      · exact absurd e n1
      · exact absurd e n2
      · exact absurd e c3
      · exact absurd e c4
      · exact absurd e c5
      · exact absurd e c6
      · cases e; exact e2


/-- An instance of C10: unit 0 of `registry3` is an inactive service without
job, reference or tracker, and services of `env0` have no `check_gc` hook. -/
theorem unit_check_gc_iff_witness :
    ∃ b m1, unit_check_gc env0 registry3 0 = some (b, m1) ∧
      (b = true ↔
        ((registry3.unit 0).job ≠ none ∨ (registry3.unit 0).nop_job ≠ none ∨
          UnitActiveState.inactive ≠ .inactive ∨
          (registry3.unit 0).perpetual = true ∨ (registry3.unit 0).refs ≠ [] ∨
          (registry3.unit 0).bus_track > 0 ∨
          ∃ f, (env0.unit_vtable .service).check_gc = some f ∧ f (m1.unit 0).data = true)) :=
  unit_check_gc_iff env0 registry3 0 .service .inactive (by decide) (by decide) (by decide)

/-! ## Merging: claim C7 -/

theorem unit_follow_merge_self (m : Manager) (u : UnitId) (hv : m.valid u)
    (hn : (m.unit u).load_state ≠ .merged) : unit_follow_merge m u = some u := by
  unfold unit_follow_merge follow_merge_loop
  rw [if_pos hv, if_neg hn]

/-- C7. For distinct units `u` (with a type) and `other` (not merged),
`unit_merge(u, other)` returns a negative error and leaves the whole manager
unchanged whenever `other` has a job or a nop job, the load state of `other`
is neither stub nor not-found, the active state of `other` is neither
inactive nor failed, the types differ, exactly one of the two is instanced,
or the type may not be aliased. -/
theorem unit_merge_refused (env : Env) (oom : Nat → Bool) (m : Manager) (u other : UnitId)
    (ut : UnitType) (hu : m.valid u) (ho : m.valid other) (hut : (m.unit u).type = some ut)
    (hnm : (m.unit other).load_state ≠ .merged) (hne : other ≠ u)
    (hc : (m.unit other).job ≠ none ∨ (m.unit other).nop_job ≠ none ∨
      ((m.unit other).load_state ≠ .stub ∧ (m.unit other).load_state ≠ .not_found) ∨
      (∃ st, unit_active_state env m other = some st ∧ UNIT_IS_INACTIVE_OR_FAILED st = false) ∨
      (m.unit other).type ≠ some ut ∨
      (m.unit u).inst.isNone ≠ (m.unit other).inst.isNone ∨
      env.unit_type_may_alias ut = false) :
    ∃ r, r < 0 ∧ unit_merge env oom m u other = some (r, m) := by
  have hE : (-EEXIST : Int) < 0 := by decide
  have hI : (-EINVAL : Int) < 0 := by decide
  unfold unit_merge
  rw [if_pos hu]
  simp only [hut, unit_follow_merge_self m other ho hnm]
  rw [if_neg hne]
  by_cases c1 : some ut ≠ (m.unit other).type
  · exact ⟨-EINVAL, hI, by rw [if_pos c1]⟩
  rw [if_neg c1]
  by_cases c2 : (m.unit u).inst.isNone ≠ (m.unit other).inst.isNone
  · exact ⟨-EINVAL, hI, by rw [if_pos c2]⟩
  rw [if_neg c2]
  by_cases c3 : env.unit_type_may_alias ut = false
  · exact ⟨-EEXIST, hE, by rw [if_pos c3]⟩
  rw [if_neg c3]
  by_cases c4 : (m.unit other).load_state ≠ .stub ∧ (m.unit other).load_state ≠ .not_found
  · exact ⟨-EEXIST, hE, by rw [if_pos c4]⟩
  rw [if_neg c4]
  by_cases c5 : (m.unit other).job.isSome = true
  · exact ⟨-EEXIST, hE, by rw [if_pos c5]⟩
  rw [if_neg c5]
  by_cases c6 : (m.unit other).nop_job.isSome = true
  · exact ⟨-EEXIST, hE, by rw [if_pos c6]⟩
  rw [if_neg c6]
  rcases hc with e | e | e | ⟨st, hst, e⟩ | e | e | e
  · exfalso
    cases hj : (m.unit other).job with
    | none => exact e hj
    | some j => rw [hj] at c5; exact c5 rfl
  · exfalso
    cases hj : (m.unit other).nop_job with
    | none => exact e hj
    | some j => rw [hj] at c6; exact c6 rfl
  · exact absurd e c4
  · simp only [hst]
    exact ⟨-EEXIST, hE, by rw [if_pos e]⟩
  · exact absurd (fun h => e h.symm) c1
  · exact absurd e c2
  · exact absurd e c3

/-- Instances of C7 in `env0`: unit 1 of `merge_busy` has a job and unit 2 is
active; neither is merged into unit 0. -/
theorem unit_merge_refused_witness :
    (∃ r, r < 0 ∧ unit_merge env0 no_oom merge_busy 0 1 = some (r, merge_busy)) ∧
    (∃ r, r < 0 ∧ unit_merge env0 no_oom merge_busy 0 2 = some (r, merge_busy)) :=
  ⟨unit_merge_refused env0 no_oom merge_busy 0 1 .service (by decide) (by decide) (by decide)
      (by decide) (by decide) (Or.inl (by decide)),
   unit_merge_refused env0 no_oom merge_busy 0 2 .service (by decide) (by decide) (by decide)
      (by decide) (by decide)
      (Or.inr (Or.inr (Or.inr (Or.inl ⟨.active, by decide, by decide⟩))))⟩

/-! ## Frame properties of the steps of a merge -/

theorem same_ident_refl (m : Manager) : m.same_ident m := ⟨rfl, rfl, fun _ => rfl⟩

theorem same_ident_trans {a b c : Manager} (h1 : a.same_ident b) (h2 : b.same_ident c) :
    a.same_ident c :=
  ⟨h2.1.trans h1.1, h2.2.1.trans h1.2.1, fun x => (h2.2.2 x).trans (h1.2.2 x)⟩

theorem same_deps_refl (m : Manager) : m.same_deps m := fun _ => rfl

theorem same_deps_trans {a b c : Manager} (h1 : a.same_deps b) (h2 : b.same_deps c) :
    a.same_deps c := fun x => (h2 x).trans (h1 x)

theorem length_modify (m : Manager) (u : UnitId) (f : Unit → Unit) :
    (m.modify u f).heap.length = m.heap.length := by
  simp [Manager.modify]

theorem same_ident_modify (m : Manager) (u : UnitId) (f : Unit → Unit)
    (hf : ∀ x, (f x).ident = x.ident) : m.same_ident (m.modify u f) := by
  refine ⟨rfl, length_modify m u f, fun x => ?_⟩
  rw [unit_modify]
  split_ifs with h
  · rw [hf, h.2]
  · rfl

theorem same_deps_modify (m : Manager) (u : UnitId) (f : Unit → Unit)
    (hf : ∀ x, (f x).dependencies = x.dependencies) : m.same_deps (m.modify u f) := by
  intro x
  rw [unit_modify]
  split_ifs with h
  · rw [hf, h.2]
  · rfl

theorem frame_modify_heap (m m' : Manager) (u : UnitId) (f : Unit → Unit)
    (h1 : m'.units = m.units) (h2 : m'.heap = (m.modify u f).heap)
    (hf : ∀ x, (f x).ident = x.ident ∧ (f x).dependencies = x.dependencies) :
    m.same_ident m' ∧ m.same_deps m' := by
  have e : ∀ x, m'.unit x = (m.modify u f).unit x := fun x => unit_eq_of_heap h2 x
  refine ⟨⟨h1, by rw [h2]; exact length_modify m u f, fun x => ?_⟩, fun x => ?_⟩
  · rw [e, unit_modify]
    split_ifs with h
    · rw [(hf _).1, h.2]
    · rfl
  · rw [e, unit_modify]
    split_ifs with h
    · rw [(hf _).2, h.2]
    · rfl

theorem frame_modify (m : Manager) (u : UnitId) (f : Unit → Unit)
    (hf : ∀ x, (f x).ident = x.ident ∧ (f x).dependencies = x.dependencies) :
    m.same_ident (m.modify u f) ∧ m.same_deps (m.modify u f) :=
  frame_modify_heap m _ u f rfl rfl hf

theorem frame_refl (m : Manager) : m.same_ident m ∧ m.same_deps m :=
  ⟨same_ident_refl m, same_deps_refl m⟩

theorem frame_trans {a b c : Manager} (h1 : a.same_ident b ∧ a.same_deps b)
    (h2 : b.same_ident c ∧ b.same_deps c) : a.same_ident c ∧ a.same_deps c :=
  ⟨same_ident_trans h1.1 h2.1, same_deps_trans h1.2 h2.2⟩

theorem frame_dbus_queue (m m' : Manager) (u : UnitId) (h : unit_add_to_dbus_queue m u = some m') :
    m.same_ident m' ∧ m.same_deps m' := by
  unfold unit_add_to_dbus_queue at h
  split_ifs at h <;> cases h
  · exact frame_refl m
  · exact frame_modify m u _ (fun x => ⟨by rfl, by rfl⟩)
  · exact frame_modify_heap m _ u (fun x => { x with in_dbus_queue := true }) rfl rfl
      (fun _ => ⟨rfl, rfl⟩)

theorem frame_cleanup_queue (m : Manager) (u : UnitId) :
    m.same_ident (unit_add_to_cleanup_queue m u) ∧ m.same_deps (unit_add_to_cleanup_queue m u) := by
  unfold unit_add_to_cleanup_queue
  split_ifs
  · exact frame_refl m
  · exact frame_modify_heap m _ u (fun x => { x with in_cleanup_queue := true }) rfl rfl
      (fun _ => ⟨rfl, rfl⟩)

theorem frame_release_resources (env : Env) (m m1 : Manager) (u : UnitId) (st : UnitActiveState)
    (h : unit_release_resources env m u st = some m1) : m.same_ident m1 ∧ m.same_deps m1 := by
  unfold unit_release_resources at h
  split_ifs at h
  · cases ht : (m.unit u).type with
    | none => simp [ht] at h
    | some t =>
      simp only [ht] at h
      cases hf : (env.unit_vtable t).release_resources with
      | none =>
        simp only [hf, Option.some.injEq] at h; rw [← h]
        exact ⟨same_ident_refl m, same_deps_refl m⟩
      | some f =>
        simp only [hf, Option.some.injEq] at h
        rw [← h]
        exact frame_modify m u _ (fun x => ⟨by rfl, by rfl⟩)
  · simp only [Option.some.injEq] at h; rw [← h]
    exact ⟨same_ident_refl m, same_deps_refl m⟩

theorem frame_check_gc (env : Env) (m m1 : Manager) (u : UnitId) (b : Bool)
    (h : unit_check_gc env m u = some (b, m1)) : m.same_ident m1 ∧ m.same_deps m1 := by
  unfold unit_check_gc at h
  have id0 : m.same_ident m ∧ m.same_deps m := ⟨same_ident_refl m, same_deps_refl m⟩
  split_ifs at h with h0 h1 h2
  · cases h; exact id0
  · cases h; exact id0
  · cases hst : unit_active_state env m u with
    | none => simp [hst] at h
    | some st =>
      simp only [hst] at h
      cases hr : unit_release_resources env m u st with
      | none => simp [hr] at h
      | some m2 =>
        simp only [hr] at h
        have fr := frame_release_resources env m m2 u st hr
        split_ifs at h
        · cases h; exact fr
        · cases h; exact fr
        · cases h; exact fr
        · cases h; exact fr
        · simp only [Option.map_eq_some'] at h
          obtain ⟨_, _, h⟩ := h
          cases h; exact fr

theorem frame_gc_queue (env : Env) (m m1 : Manager) (u : UnitId)
    (h : unit_add_to_gc_queue env m u = some m1) : m.same_ident m1 ∧ m.same_deps m1 := by
  unfold unit_add_to_gc_queue at h
  split_ifs at h
  · cases h; exact ⟨same_ident_refl m, same_deps_refl m⟩
  · cases hc : unit_check_gc env m u with
    | none => simp [hc] at h
    | some p =>
      obtain ⟨b, m2⟩ := p
      have fr := frame_check_gc env m m2 u b hc
      cases b with
      | true =>
        simp only [hc, Option.some.injEq] at h
        rw [← h]; exact fr
      | false =>
        simp only [hc, Option.some.injEq] at h
        rw [← h]
        exact frame_trans fr (frame_modify_heap m2 _ u (fun x => { x with in_gc_queue := true })
          rfl rfl (fun _ => ⟨rfl, rfl⟩))

theorem frame_ref_assign (m : Manager) (ref : Nat) (v : Option UnitId) :
    m.same_ident (unit_ref_assign m ref v) ∧ m.same_deps (unit_ref_assign m ref v) := by
  unfold unit_ref_assign
  split_ifs
  · exact frame_modify m _ (fun x => { x with slice := v }) (fun _ => ⟨rfl, rfl⟩)
  · exact frame_refl m

theorem frame_ref_unset (env : Env) (m m1 : Manager) (ref : Nat) (t : Option UnitId)
    (h : unit_ref_unset env m ref t = some m1) : m.same_ident m1 ∧ m.same_deps m1 := by
  cases t with
  | none =>
    simp only [unit_ref_unset, Option.some.injEq] at h
    rw [← h]; exact frame_refl m
  | some t =>
    simp only [unit_ref_unset, Option.map_eq_some'] at h
    obtain ⟨m2, h2, h⟩ := h
    rw [← h]
    exact frame_trans (frame_gc_queue env m m2 t h2)
      (frame_trans (frame_modify m2 t (fun x => { x with refs := x.refs.erase ref })
        (fun _ => ⟨rfl, rfl⟩)) (frame_ref_assign _ ref none))

theorem frame_ref_set (env : Env) (m m1 : Manager) (other u : UnitId) (ref : Nat)
    (h : unit_ref_set env m other u ref = some m1) : m.same_ident m1 ∧ m.same_deps m1 := by
  unfold unit_ref_set at h
  simp only [Option.map_eq_some'] at h
  obtain ⟨m2, h2, h⟩ := h
  have fr := frame_ref_unset env m m2 ref _ h2
  rw [← h]
  exact frame_trans fr (frame_trans (frame_ref_assign m2 ref (some u))
    (frame_modify _ u (fun x => { x with refs := ref :: x.refs }) (fun _ => ⟨rfl, rfl⟩)))

theorem frame_redirect_refs (env : Env) (u other : UnitId) (refs : List Nat) (m m1 : Manager)
    (h : redirect_refs env m u other refs = some m1) : m.same_ident m1 ∧ m.same_deps m1 := by
  induction refs generalizing m with
  | nil =>
    simp only [redirect_refs, Option.some.injEq] at h
    rw [← h]; exact ⟨same_ident_refl m, same_deps_refl m⟩
  | cons r rs ih =>
    simp only [redirect_refs, Option.bind_eq_some] at h
    obtain ⟨m2, h2, h3⟩ := h
    have f1 := frame_ref_set env m m2 other u r h2
    have f2 := ih m2 h3
    exact ⟨same_ident_trans f1.1 f2.1, same_deps_trans f1.2 f2.2⟩

theorem frame_merge_done (env : Env) (m m1 : Manager) (other : UnitId)
    (h : unit_merge_done env m other = some m1) : m.same_ident m1 ∧ m.same_deps m1 := by
  unfold unit_merge_done at h
  split_ifs at h
  · cases ht : (m.unit other).type with
    | none => simp [ht] at h
    | some t =>
      simp only [ht] at h
      cases hf : (env.unit_vtable t).done with
      | none =>
        simp only [hf, Option.some.injEq] at h; rw [← h]
        exact ⟨same_ident_refl m, same_deps_refl m⟩
      | some f =>
        simp only [hf, Option.some.injEq] at h
        rw [← h]
        exact frame_modify m other _ (fun x => ⟨by rfl, by rfl⟩)
  · simp only [Option.some.injEq] at h; rw [← h]
    exact ⟨same_ident_refl m, same_deps_refl m⟩

theorem same_ident_setDeps (m : Manager) (u : UnitId) (k : UnitDependency) (s : List UnitId) :
    m.same_ident (m.setDeps u k s) :=
  same_ident_modify m u _ (fun _ => rfl)

theorem same_ident_merge_fix (m : Manager) (u other back : UnitId) (k : UnitDependency) :
    m.same_ident (merge_dependencies_fix m u other back k) := by
  unfold merge_dependencies_fix
  dsimp only
  split_ifs <;> exact same_ident_setDeps _ _ _ _

theorem same_ident_foldl {α : Type} (f : Manager → α → Manager)
    (hf : ∀ (a : Manager) (x : α), a.same_ident (f a x)) (l : List α) (m : Manager) :
    m.same_ident (l.foldl f m) := by
  induction l generalizing m with
  | nil => exact same_ident_refl m
  | cons x xs ih => exact same_ident_trans (hf m x) (ih (f m x))

theorem same_ident_merge_dependencies (m m1 : Manager) (u other : UnitId) (d : UnitDependency)
    (h : merge_dependencies m u other d = some m1) : m.same_ident m1 := by
  unfold merge_dependencies at h
  simp only at h
  split_ifs at h
  simp only [Option.some.injEq] at h
  rw [← h]
  refine same_ident_trans (same_ident_trans (same_ident_trans (same_ident_trans ?_
    (same_ident_setDeps _ _ _ _)) (same_ident_setDeps _ _ _ _)) (same_ident_setDeps _ _ _ _))
    (same_ident_setDeps _ _ _ _)
  exact same_ident_foldl _ (fun (a : Manager) (back : UnitId) => same_ident_foldl _
    (fun (a2 : Manager) (k : UnitDependency) => same_ident_merge_fix a2 u other back k) _ a) _ m

theorem same_ident_merge_loop (u other : UnitId) (ds : List UnitDependency) (m m1 : Manager)
    (h : merge_dependencies_loop m u other ds = some m1) : m.same_ident m1 := by
  induction ds generalizing m with
  | nil =>
    simp only [merge_dependencies_loop, Option.some.injEq] at h
    rw [← h]; exact same_ident_refl m
  | cons d ds ih =>
    simp only [merge_dependencies_loop, Option.bind_eq_some] at h
    obtain ⟨m2, h2, h3⟩ := h
    exact same_ident_trans (same_ident_merge_dependencies m m2 u other d h2) (ih m2 h3)

/-! ## The dependency sets after `merge_dependencies` -/

theorem deps_invalid (m : Manager) (x : UnitId) (k : UnitDependency) (h : ¬ m.valid x) :
    m.deps x k = [] := by
  unfold Manager.deps Manager.unit
  rw [List.getD_eq_default _ _ (Nat.le_of_not_lt h)]; rfl

theorem mem_setDeps (m : Manager) (a : UnitId) (k : UnitDependency) (s : List UnitId)
    (hs : ¬ m.valid a → s = [])
    (x : UnitId) (j : UnitDependency) (y : UnitId) :
    y ∈ (m.setDeps a k s).deps x j ↔ if x = a ∧ j = k then y ∈ s else y ∈ m.deps x j := by
  rw [deps_setDeps]
  by_cases h : x = a ∧ j = k
  · obtain ⟨rfl, rfl⟩ := h
    by_cases hv : m.valid x
    · simp [hv]
    · simp [hv, hs hv, deps_invalid m x j hv]
  · have h1 : ¬ (m.valid a ∧ x = a ∧ j = k) := fun ⟨_, p, q⟩ => h ⟨p, q⟩
    simp [h1, h]

theorem set_remove_nil (x : UnitId) : set_remove [] x = [] := rfl

theorem merge_fix_mem (m : Manager) (u o back : UnitId) (k : UnitDependency) (huo : u ≠ o)
    (x : UnitId) (j : UnitDependency) (y : UnitId) :
    y ∈ (merge_dependencies_fix m u o back k).deps x j ↔
      if x = back ∧ j = k then redirected m u o x j y else y ∈ m.deps x j := by
  unfold merge_dependencies_fix
  have hrem : ¬ m.valid back → set_remove (m.deps back k) o = [] := by
    intro hv; rw [deps_invalid m back k hv]; rfl
  by_cases hb : back = u
  · rw [if_pos hb, mem_setDeps _ _ _ _ hrem]
    by_cases h : x = back ∧ j = k
    · obtain ⟨rfl, rfl⟩ := h
      simp only [and_self, if_true, mem_set_remove, redirected]
      constructor
      · exact fun a => Or.inl a
      · rintro (a | ⟨_, _, a⟩)
        · exact a
        · exact absurd hb a
    · simp only [h, if_false]
  · rw [if_neg hb]
    dsimp only
    unfold set_remove_and_put
    by_cases ho : o ∈ m.deps back k
    · have hval : m.valid back := by
        by_contra hv; rw [deps_invalid m back k hv] at ho; exact absurd ho (List.not_mem_nil o)
      by_cases hu : u ∈ m.deps back k
      · simp only [ho, not_true_eq_false, if_false, hu, if_true]
        rw [mem_setDeps _ _ _ _ hrem]
        by_cases h : x = back ∧ j = k
        · obtain ⟨rfl, rfl⟩ := h
          simp only [and_self, if_true, mem_set_remove, redirected]
          constructor
          · exact fun a => Or.inl a
          · rintro (a | ⟨a, _, _⟩)
            · exact a
            · rw [a]; exact ⟨hu, huo⟩
        · simp only [h, if_false]
      · have hne : ¬ ((0 : Int) = -EEXIST) := by decide
        simp only [ho, not_true_eq_false, if_false, hu, hne]
        rw [mem_setDeps _ _ _ _ (fun hv => absurd hval hv)]
        by_cases h : x = back ∧ j = k
        · obtain ⟨rfl, rfl⟩ := h
          simp only [and_self, if_true, List.mem_append, mem_set_remove, List.mem_singleton,
            redirected]
          constructor
          · rintro (a | a)
            · exact Or.inl a
            · exact Or.inr ⟨a, ho, hb⟩
          · rintro (a | ⟨a, _, _⟩)
            · exact Or.inl a
            · exact Or.inr a
        · simp only [h, if_false]
    · have hne : ¬ ((-ENOENT : Int) = -EEXIST) := by decide
      simp only [ho, not_false_eq_true, if_true, hne, if_false]
      rw [mem_setDeps _ _ _ _ (fun hv => deps_invalid m back k hv)]
      by_cases h : x = back ∧ j = k
      · obtain ⟨rfl, rfl⟩ := h
        simp only [and_self, if_true, redirected]
        constructor
        · intro a
          exact Or.inl ⟨a, fun e => ho (e ▸ a)⟩
        · rintro (a | ⟨_, a, _⟩)
          · exact a.1
          · exact absurd a ho
      · simp only [h, if_false]

theorem redirected_idem (m m1 : Manager) (u o x : UnitId) (k : UnitDependency) (huo : u ≠ o)
    (h : ∀ y, y ∈ m1.deps x k ↔ redirected m u o x k y) (y : UnitId) :
    redirected m1 u o x k y ↔ redirected m u o x k y := by
  unfold redirected
  rw [h, h]
  unfold redirected
  constructor
  · rintro (⟨a, _⟩ | ⟨_, a | a, _⟩)
    · exact a
    · exact absurd rfl a.2
    · exact absurd a.1.symm huo
  · intro a
    rcases a with a | a
    · exact Or.inl ⟨Or.inl a, a.2⟩
    · exact Or.inl ⟨Or.inr a, fun e => huo (a.1.symm.trans e)⟩

theorem redirected_congr (m m1 : Manager) (u o x : UnitId) (k : UnitDependency)
    (h : ∀ y, y ∈ m1.deps x k ↔ y ∈ m.deps x k) (y : UnitId) :
    redirected m1 u o x k y ↔ redirected m u o x k y := by
  unfold redirected
  rw [h, h]


theorem merge_fix_kinds (u o back : UnitId) (huo : u ≠ o) (ks : List UnitDependency)
    (m : Manager) (x : UnitId) (j : UnitDependency) (y : UnitId) :
    y ∈ (ks.foldl (fun a k => merge_dependencies_fix a u o back k) m).deps x j ↔
      if x = back ∧ j ∈ ks then redirected m u o x j y else y ∈ m.deps x j := by
  induction ks generalizing m y with
  | nil => simp
  | cons k ks ih =>
    rw [List.foldl_cons, ih]
    have step := merge_fix_mem m u o back k huo x j
    by_cases hx : x = back
    · by_cases hj : j ∈ ks
      · rw [if_pos ⟨hx, hj⟩, if_pos ⟨hx, List.mem_cons_of_mem k hj⟩]
        by_cases hk : j = k
        · apply redirected_idem m _ u o x j huo
          intro z
          rw [step z, if_pos ⟨hx, hk⟩]
        · apply redirected_congr m _ u o x j
          intro z
          rw [step z, if_neg (fun a => hk a.2)]
      · rw [if_neg (fun a => hj a.2), step y]
        by_cases hk : j = k
        · rw [if_pos ⟨hx, hk⟩, if_pos ⟨hx, hk ▸ List.mem_cons_self j ks⟩]
        · rw [if_neg (fun a => hk a.2), if_neg]
          rintro ⟨_, a⟩
          rcases List.mem_cons.1 a with a | a
          · exact hk a
          · exact hj a
    · rw [if_neg (fun a => hx a.1), if_neg (fun a => hx a.1), step y, if_neg (fun a => hx a.1)]

theorem merge_fix_all (u o back : UnitId) (huo : u ≠ o)
    (m : Manager) (x : UnitId) (j : UnitDependency) (y : UnitId) :
    y ∈ (UnitDependency.all.foldl (fun a k => merge_dependencies_fix a u o back k) m).deps x j ↔
      if x = back then redirected m u o x j y else y ∈ m.deps x j := by
  rw [merge_fix_kinds u o back huo]
  have hj : j ∈ UnitDependency.all := by cases j <;> decide
  by_cases hx : x = back
  · rw [if_pos ⟨hx, hj⟩, if_pos hx]
  · rw [if_neg (fun a => hx a.1), if_neg hx]

theorem merge_fix_backs (u o : UnitId) (huo : u ≠ o) (bs : List UnitId)
    (m : Manager) (x : UnitId) (j : UnitDependency) (y : UnitId) :
    y ∈ (bs.foldl (fun acc back =>
        UnitDependency.all.foldl (fun a k => merge_dependencies_fix a u o back k) acc) m).deps x j ↔
      if x ∈ bs then redirected m u o x j y else y ∈ m.deps x j := by
  induction bs generalizing m y with
  | nil => simp
  | cons b bs ih =>
    rw [List.foldl_cons, ih]
    have step := merge_fix_all u o b huo m x j
    by_cases hx : x ∈ bs
    · rw [if_pos hx, if_pos (List.mem_cons_of_mem b hx)]
      by_cases hb : x = b
      · apply redirected_idem m _ u o x j huo
        intro z
        rw [step z, if_pos hb]
      · apply redirected_congr m _ u o x j
        intro z
        rw [step z, if_neg hb]
    · rw [if_neg hx, step y]
      by_cases hb : x = b
      · rw [if_pos hb, if_pos (hb ▸ List.mem_cons_self x bs)]
      · rw [if_neg hb, if_neg]
        intro a
        rcases List.mem_cons.1 a with a | a
        · exact hb a
        · exact hx a

theorem complete_move_mem (s other : List UnitId) (y : UnitId) :
    (complete_move false s other).1 = 0 ∧
      (y ∈ (complete_move false s other).2.1 ↔ y ∈ s ∨ y ∈ other) := by
  unfold complete_move set_move
  by_cases h1 : other = []
  · rw [if_pos h1, h1]
    exact ⟨rfl, by simp⟩
  · rw [if_neg h1]
    by_cases h2 : s ≠ []
    · rw [if_pos h2]
      have h0 : ¬ ((0 : Int) < 0) := by decide
      have hf : ¬ (false = true) := by decide
      refine ⟨rfl, ?_⟩
      show y ∈ s ++ List.filter (fun y => decide (y ∉ s)) other ↔ _
      rw [List.mem_append, List.mem_filter]
      simp only [decide_eq_true_eq]
      constructor
      · rintro (a | a)
        · exact Or.inl a
        · exact Or.inr a.1
      · rintro (a | a)
        · exact Or.inl a
        · by_cases hy : y ∈ s
          · exact Or.inl hy
          · exact Or.inr ⟨a, hy⟩
    · rw [if_neg h2]
      have h3 : s = [] := by
        by_contra e; exact h2 e
      refine ⟨rfl, ?_⟩
      show y ∈ other ↔ _
      rw [h3]
      simp


theorem valid_of_same_ident {m m' : Manager} (h : m.same_ident m') (x : UnitId) :
    m'.valid x ↔ m.valid x := by
  unfold Manager.valid; rw [h.2.1]

theorem merge_dependencies_tail (m1 : Manager) (u o : UnitId) (d : UnitDependency)
    (huo : u ≠ o) (hu : m1.valid u) (ho : m1.valid o)
    (x : UnitId) (k : UnitDependency) (y : UnitId) :
    y ∈ ((((m1.setDeps o d (set_remove (m1.deps o d) u)).setDeps u d
        (complete_move false ((m1.setDeps o d (set_remove (m1.deps o d) u)).deps u d)
          ((m1.setDeps o d (set_remove (m1.deps o d) u)).deps o d)).2.1).setDeps o d
        (complete_move false ((m1.setDeps o d (set_remove (m1.deps o d) u)).deps u d)
          ((m1.setDeps o d (set_remove (m1.deps o d) u)).deps o d)).2.2).setDeps o d []).deps x k ↔
      if x = o ∧ k = d then False
      else if x = u ∧ k = d then y ∈ m1.deps u d ∨ (y ∈ m1.deps o d ∧ y ≠ u)
      else y ∈ m1.deps x k := by
  have v2 : ∀ z, (m1.setDeps o d (set_remove (m1.deps o d) u)).valid z ↔ m1.valid z :=
    fun z => valid_setDeps _ _ _ _ _
  have E2 : ∀ x k y, y ∈ (m1.setDeps o d (set_remove (m1.deps o d) u)).deps x k ↔
      if x = o ∧ k = d then y ∈ set_remove (m1.deps o d) u else y ∈ m1.deps x k :=
    fun x k y => mem_setDeps _ _ _ _ (fun hv => absurd ho hv) x k y
  generalize m1.setDeps o d (set_remove (m1.deps o d) u) = m2 at v2 E2 ⊢
  have hu2 := (v2 u).2 hu
  have ho2 := (v2 o).2 ho
  have hcm := fun y => (complete_move_mem (m2.deps u d) (m2.deps o d) y).2
  generalize (complete_move false (m2.deps u d) (m2.deps o d)).2.1 = s1 at hcm ⊢
  generalize (complete_move false (m2.deps u d) (m2.deps o d)).2.2 = s2
  rw [mem_setDeps _ _ _ _ (fun _ => rfl)]
  by_cases h1 : x = o ∧ k = d
  · rw [if_pos h1, if_pos h1]
    exact ⟨fun a => absurd a (List.not_mem_nil y), False.elim⟩
  · rw [if_neg h1, if_neg h1]
    rw [mem_setDeps _ _ _ _ (fun hv => absurd ((valid_setDeps _ _ _ _ _).2 ho2) hv), if_neg h1]
    rw [mem_setDeps _ _ _ _ (fun hv => absurd hu2 hv)]
    by_cases h2 : x = u ∧ k = d
    · rw [if_pos h2, if_pos h2, hcm, E2 u d y, E2 o d y, if_neg (fun a => huo a.1),
        if_pos ⟨rfl, rfl⟩, mem_set_remove]
    · rw [if_neg h2, if_neg h2, E2, if_neg h1]

theorem merge_dependencies_some (m : Manager) (u o : UnitId) (d : UnitDependency) :
    ∃ m', merge_dependencies m u o d = some m' := by
  unfold merge_dependencies
  dsimp only
  rw [if_pos (complete_move_mem _ _ 0).1]
  exact ⟨_, rfl⟩

theorem merge_dependencies_mem (m m' : Manager) (u o : UnitId) (d : UnitDependency)
    (huo : u ≠ o) (hu : m.valid u) (ho : m.valid o) (hoo : o ∉ m.deps o d)
    (h : merge_dependencies m u o d = some m')
    (x : UnitId) (k : UnitDependency) (y : UnitId) :
    y ∈ m'.deps x k ↔
      if x = o ∧ k = d then False
      else if x = u ∧ k = d then
        (if u ∈ m.deps o d then redirected m u o u d y else y ∈ m.deps u d) ∨
          (y ∈ m.deps o d ∧ y ≠ u)
      else if x ∈ m.deps o d then redirected m u o x k y else y ∈ m.deps x k := by
  unfold merge_dependencies at h
  dsimp only at h
  rw [if_pos (complete_move_mem _ _ 0).1] at h
  simp only [Option.some.injEq] at h
  have E1 := merge_fix_backs u o huo (m.deps o d) m
  have F1 : m.same_ident ((m.deps o d).foldl (fun acc back =>
      UnitDependency.all.foldl (fun a k => merge_dependencies_fix a u o back k) acc) m) :=
    same_ident_foldl _ (fun (a : Manager) (back : UnitId) => same_ident_foldl _
      (fun (a2 : Manager) (k : UnitDependency) => same_ident_merge_fix a2 u o back k) _ a) _ m
  have hu1 := (valid_of_same_ident F1 u).2 hu
  have ho1 := (valid_of_same_ident F1 o).2 ho
  generalize (m.deps o d).foldl (fun acc back =>
      UnitDependency.all.foldl (fun a k => merge_dependencies_fix a u o back k) acc) m = m1
    at h E1 hu1 ho1
  rw [← h, merge_dependencies_tail m1 u o d huo hu1 ho1]
  by_cases h1 : x = o ∧ k = d
  · rw [if_pos h1, if_pos h1]
  · rw [if_neg h1, if_neg h1]
    by_cases h2 : x = u ∧ k = d
    · rw [if_pos h2, if_pos h2, E1, E1, if_neg hoo]
    · rw [if_neg h2, if_neg h2, E1]


theorem merged_spec_step (m0 m m1 : Manager) (u o : UnitId) (huo : u ≠ o)
    (hself : ∀ k, o ∉ m0.deps o k) (P : List UnitDependency) (d : UnitDependency)
    (hm : ∀ x k y, y ∈ m.deps x k ↔ merged_spec m0 u o P x k y)
    (E : ∀ x k y, y ∈ m1.deps x k ↔
      if x = o ∧ k = d then False
      else if x = u ∧ k = d then
        (if u ∈ m.deps o d then redirected m u o u d y else y ∈ m.deps u d) ∨
          (y ∈ m.deps o d ∧ y ≠ u)
      else if x ∈ m.deps o d then redirected m u o x k y else y ∈ m.deps x k)
    (x : UnitId) (k : UnitDependency) (y : UnitId) :
    y ∈ m1.deps x k ↔ merged_spec m0 u o (P ++ [d]) x k y := by
  have hL : ∀ z, z ∈ m.deps o d ↔ d ∉ P ∧ z ∈ m0.deps o d := by
    intro z
    rw [hm]; unfold merged_spec; rw [if_pos rfl]
  have happ : ∀ j, j ∈ P ++ [d] ↔ j ∈ P ∨ j = d := by
    intro j; rw [List.mem_append, List.mem_singleton]
  have hB : ∀ z, (∃ d' ∈ P ++ [d], z ∈ m0.deps o d') ↔
      ((∃ d' ∈ P, z ∈ m0.deps o d') ∨ z ∈ m0.deps o d) := by
    intro z
    constructor
    · rintro ⟨d', h1, h2⟩
      rcases (happ d').1 h1 with h3 | h3
      · exact Or.inl ⟨d', h3, h2⟩
      · exact Or.inr (h3 ▸ h2)
    · rintro (⟨d', h1, h2⟩ | h2)
      · exact ⟨d', (happ d').2 (Or.inl h1), h2⟩
      · exact ⟨d, (happ d).2 (Or.inr rfl), h2⟩
  have hredu : ∀ j z, redirected m u o u j z ↔ (z ∈ m.deps u j ∧ z ≠ o) := by
    intro j z
    unfold redirected
    exact ⟨fun a => a.elim id (fun b => absurd rfl b.2.2), Or.inl⟩
  rw [E]
  unfold merged_spec
  by_cases hxo : x = o
  · rw [if_pos hxo]
    by_cases hk : k = d
    · rw [if_pos ⟨hxo, hk⟩]
      exact ⟨False.elim, fun a => a.1 ((happ k).2 (Or.inr hk))⟩
    · rw [if_neg (fun a => hk a.2), if_neg (fun a => huo (a.1.symm.trans hxo))]
      have hox : ¬ x ∈ m.deps o d := by
        rw [hL, hxo]; exact fun a => hself d a.2
      rw [if_neg hox, hm]
      unfold merged_spec
      rw [if_pos hxo, happ]
      exact ⟨fun a => ⟨fun b => b.elim a.1 hk, a.2⟩, fun a => ⟨fun b => a.1 (Or.inl b), a.2⟩⟩
  · rw [if_neg (fun a => hxo a.1), if_neg hxo]
    by_cases hxu : x = u
    · rw [if_pos hxu]
      have hmu : ∀ j z, z ∈ m.deps u j ↔
          ((z ∈ m0.deps u j ∧ ((∃ d' ∈ P, u ∈ m0.deps o d') → z ≠ o)) ∨
            (j ∈ P ∧ z ∈ m0.deps o j ∧ z ≠ u)) := by
        intro j z
        rw [hm]; unfold merged_spec
        rw [if_neg huo, if_pos rfl]
      -- the part that both cases of `k` share
      have main : ∀ j z, (if u ∈ m.deps o d then redirected m u o u j z else z ∈ m.deps u j) ↔
          ((z ∈ m0.deps u j ∧ ((∃ d' ∈ P ++ [d], u ∈ m0.deps o d') → z ≠ o)) ∨
            (j ∈ P ∧ z ∈ m0.deps o j ∧ z ≠ u)) := by
        intro j z
        by_cases huL : u ∈ m.deps o d
        · rw [if_pos huL, hredu, hmu]
          have hin : ∃ d' ∈ P ++ [d], u ∈ m0.deps o d' := (hB u).2 (Or.inr ((hL u).1 huL).2)
          constructor
          · rintro ⟨a | a, b⟩
            · exact Or.inl ⟨a.1, fun _ => b⟩
            · exact Or.inr a
          · rintro (a | a)
            · exact ⟨Or.inl ⟨a.1, fun _ => a.2 hin⟩, a.2 hin⟩
            · exact ⟨Or.inr a, fun e => hself j (e ▸ a.2.1)⟩
        · rw [if_neg huL, hmu]
          have hiff : (∃ d' ∈ P ++ [d], u ∈ m0.deps o d') ↔ (∃ d' ∈ P, u ∈ m0.deps o d') := by
            rw [hB]
            constructor
            · rintro (a | a)
              · exact a
              · by_cases hd : d ∈ P
                · exact ⟨d, hd, a⟩
                · exact absurd ((hL u).2 ⟨hd, a⟩) huL
            · exact Or.inl
          rw [hiff]
      by_cases hk : k = d
      · subst hk
        rw [if_pos ⟨hxu, rfl⟩, main k y, hL, happ]
        constructor
        · rintro ((a | a) | a)
          · exact Or.inl a
          · exact Or.inr ⟨Or.inl a.1, a.2⟩
          · exact Or.inr ⟨Or.inr rfl, a.1.2, a.2⟩
        · rintro (a | ⟨a | _, b⟩)
          · exact Or.inl (Or.inl a)
          · exact Or.inl (Or.inr ⟨a, b⟩)
          · by_cases hd : k ∈ P
            · exact Or.inl (Or.inr ⟨hd, b⟩)
            · exact Or.inr ⟨⟨hd, b.1⟩, b.2⟩
      · rw [if_neg (fun a => hk a.2), hxu, main k y, happ]
        constructor
        · rintro (a | a)
          · exact Or.inl a
          · exact Or.inr ⟨Or.inl a.1, a.2⟩
        · rintro (a | ⟨a | a, b⟩)
          · exact Or.inl a
          · exact Or.inr ⟨a, b⟩
          · exact absurd a hk
    · rw [if_neg (fun a => hxu a.1), if_neg hxu]
      have hmx : ∀ z, z ∈ m.deps x k ↔
          (if ∃ d' ∈ P, x ∈ m0.deps o d' then redirected m0 u o x k z else z ∈ m0.deps x k) := by
        intro z
        rw [hm]; unfold merged_spec
        rw [if_neg hxo, if_neg hxu]
      by_cases hxL : x ∈ m.deps o d
      · rw [if_pos hxL, if_pos ((hB x).2 (Or.inr ((hL x).1 hxL).2))]
        by_cases hP : ∃ d' ∈ P, x ∈ m0.deps o d'
        · apply redirected_idem m0 m u o x k huo
          intro z
          rw [hmx, if_pos hP]
        · apply redirected_congr m0 m u o x k
          intro z
          rw [hmx, if_neg hP]
      · rw [if_neg hxL, hmx]
        have hiff : (∃ d' ∈ P ++ [d], x ∈ m0.deps o d') ↔ (∃ d' ∈ P, x ∈ m0.deps o d') := by
          rw [hB]
          constructor
          · rintro (a | a)
            · exact a
            · by_cases hd : d ∈ P
              · exact ⟨d, hd, a⟩
              · exact absurd ((hL x).2 ⟨hd, a⟩) hxL
          · exact Or.inl
        by_cases hP : ∃ d' ∈ P, x ∈ m0.deps o d'
        · rw [if_pos hP, if_pos (hiff.2 hP)]
        · rw [if_neg hP, if_neg (fun a => hP (hiff.1 a))]


theorem merged_spec_nil (m0 : Manager) (u o : UnitId) (x : UnitId) (k : UnitDependency)
    (y : UnitId) : merged_spec m0 u o [] x k y ↔ y ∈ m0.deps x k := by
  unfold merged_spec
  by_cases hxo : x = o
  · rw [if_pos hxo, hxo]
    exact ⟨fun a => a.2, fun a => ⟨List.not_mem_nil k, a⟩⟩
  · rw [if_neg hxo]
    by_cases hxu : x = u
    · rw [if_pos hxu, hxu]
      constructor
      · rintro (a | a)
        · exact a.1
        · exact absurd a.1 (List.not_mem_nil k)
      · intro a
        exact Or.inl ⟨a, fun ⟨d, hd, _⟩ => absurd hd (List.not_mem_nil d)⟩
    · rw [if_neg hxu, if_neg]
      rintro ⟨d, hd, _⟩
      exact absurd hd (List.not_mem_nil d)

theorem merge_loop_mem (m0 : Manager) (u o : UnitId) (huo : u ≠ o)
    (hself : ∀ k, o ∉ m0.deps o k) (ds : List UnitDependency) (P : List UnitDependency)
    (m m' : Manager) (hu : m.valid u) (ho : m.valid o)
    (hm : ∀ x k y, y ∈ m.deps x k ↔ merged_spec m0 u o P x k y)
    (h : merge_dependencies_loop m u o ds = some m') :
    ∀ x k y, y ∈ m'.deps x k ↔ merged_spec m0 u o (P ++ ds) x k y := by
  induction ds generalizing P m with
  | nil =>
    simp only [merge_dependencies_loop, Option.some.injEq] at h
    rw [← h, List.append_nil]
    exact hm
  | cons d ds ih =>
    simp only [merge_dependencies_loop, Option.bind_eq_some] at h
    obtain ⟨m1, h1, h2⟩ := h
    have hoo : o ∉ m.deps o d := by
      rw [hm]; unfold merged_spec; rw [if_pos rfl]
      exact fun a => hself d a.2
    have E := merge_dependencies_mem m m1 u o d huo hu ho hoo h1
    have F := same_ident_merge_dependencies m m1 u o d h1
    have step := merged_spec_step m0 m m1 u o huo hself P d hm E
    have := ih (P ++ [d]) m1 ((valid_of_same_ident F u).2 hu) ((valid_of_same_ident F o).2 ho)
      step h2
    rw [List.append_assoc, List.singleton_append] at this
    exact this

theorem merge_loop_some (u o : UnitId) (ds : List UnitDependency) (m : Manager) :
    ∃ m', merge_dependencies_loop m u o ds = some m' := by
  induction ds generalizing m with
  | nil => exact ⟨m, rfl⟩
  | cons d ds ih =>
    obtain ⟨m1, h1⟩ := merge_dependencies_some m u o d
    obtain ⟨m2, h2⟩ := ih m1
    exact ⟨m2, by simp only [merge_dependencies_loop, h1, Option.some_bind, h2]⟩

/-- The dependency sets after the whole loop of `unit_merge`. -/
theorem merge_loop_all (m m' : Manager) (u o : UnitId) (huo : u ≠ o)
    (hself : ∀ k, o ∉ m.deps o k) (hu : m.valid u) (ho : m.valid o)
    (h : merge_dependencies_loop m u o UnitDependency.all = some m') :
    (∀ k, m'.deps o k = []) ∧
    (∀ k y, y ∈ m'.deps u k ↔
      (y ∈ m.deps u k ∧ ((∃ d, u ∈ m.deps o d) → y ≠ o)) ∨ (y ∈ m.deps o k ∧ y ≠ u)) ∧
    (∀ x k y, x ≠ o → x ≠ u →
      ((∃ d, x ∈ m.deps o d) → (y ∈ m'.deps x k ↔ redirected m u o x k y)) ∧
      ((¬ ∃ d, x ∈ m.deps o d) → (y ∈ m'.deps x k ↔ y ∈ m.deps x k))) := by
  have key := merge_loop_mem m u o huo hself UnitDependency.all [] m m' hu ho
    (fun x k y => (merged_spec_nil m u o x k y).symm) h
  rw [List.nil_append] at key
  have hall : ∀ k : UnitDependency, k ∈ UnitDependency.all := by
    intro k; cases k <;> decide
  have hex : ∀ x, (∃ d ∈ UnitDependency.all, x ∈ m.deps o d) ↔ ∃ d, x ∈ m.deps o d :=
    fun x => ⟨fun ⟨d, _, a⟩ => ⟨d, a⟩, fun ⟨d, a⟩ => ⟨d, hall d, a⟩⟩
  refine ⟨fun k => ?_, fun k y => ?_, fun x k y hxo hxu => ?_⟩
  · apply List.eq_nil_iff_forall_not_mem.2
    intro y hy
    rw [key] at hy
    unfold merged_spec at hy
    rw [if_pos rfl] at hy
    exact hy.1 (hall k)
  · rw [key]
    unfold merged_spec
    rw [if_neg huo, if_pos rfl, hex]
    constructor
    · rintro (a | a)
      · exact Or.inl a
      · exact Or.inr a.2
    · rintro (a | a)
      · exact Or.inl a
      · exact Or.inr ⟨hall k, a⟩
  · rw [key]
    unfold merged_spec
    rw [if_neg hxo, if_neg hxu]
    constructor
    · intro hP
      rw [if_pos ((hex x).2 hP)]
    · intro hP
      rw [if_neg (fun a => hP ((hex x).1 a))]

/-! ## Merging: names, registry and dependency sets (claims C8 and C9) -/

theorem lookup_replace_map (h : List (String × UnitId)) (t k : String) (u : UnitId) :
    (h.map (fun e => if e.1 = t then (t, u) else e)).lookup k =
      if k = t then (h.lookup k).map (fun _ => u) else h.lookup k := by
  induction h with
  | nil => simp
  | cons e es ih =>
    obtain ⟨a, b⟩ := e
    simp only [List.map_cons]
    by_cases hat : a = t
    · simp only [hat, if_true]
      by_cases hk : k = t
      · simp [hk, List.lookup_cons]
      · have hkb : (k == t) = false := by simpa using hk
        rw [List.lookup_cons, hkb, List.lookup_cons, hkb]
        simp only [ih, hk, if_false]
    · simp only [hat, if_false]
      by_cases hka : k = a
      · have hkt : ¬ k = t := fun e => hat (hka ▸ e)
        simp [hka, List.lookup_cons, hat]
      · have hkb : (k == a) = false := by simpa using hka
        rw [List.lookup_cons, hkb, List.lookup_cons, hkb]
        exact ih

theorem hashmap_replace_contained (h : List (String × UnitId)) (t : String) (u : UnitId)
    (hc : hashmap_contains h t = true) :
    (hashmap_replace false h t u).2 = h.map (fun e => if e.1 = t then (t, u) else e) := by
  unfold hashmap_replace
  unfold hashmap_contains at hc
  cases hg : hashmap_get h t with
  | none => rw [hg] at hc; cases hc
  | some v => rfl

theorem hashmap_get_replace (h : List (String × UnitId)) (t k : String) (u : UnitId)
    (hc : hashmap_contains h t = true) :
    hashmap_get (hashmap_replace false h t u).2 k = if k = t then some u else hashmap_get h k := by
  rw [hashmap_replace_contained h t u hc]
  unfold hashmap_get
  rw [lookup_replace_map]
  by_cases hk : k = t
  · rw [if_pos hk, if_pos hk]
    unfold hashmap_contains hashmap_get at hc
    rw [hk]
    cases hl : h.lookup t with
    | none => rw [hl] at hc; cases hc
    | some v => rfl
  · rw [if_neg hk, if_neg hk]

theorem hashmap_get_replace_fold (u : UnitId) (names : List String) (h : List (String × UnitId))
    (hc : ∀ t ∈ names, hashmap_contains h t = true) (k : String) :
    hashmap_get (names.foldl (fun h t => (hashmap_replace false h t u).2) h) k =
      if k ∈ names then some u else hashmap_get h k := by
  induction names generalizing h with
  | nil => simp
  | cons t ts ih =>
    rw [List.foldl_cons]
    have hct := hc t (List.mem_cons_self t ts)
    have hc' : ∀ t' ∈ ts, hashmap_contains (hashmap_replace false h t u).2 t' = true := by
      intro t' ht'
      unfold hashmap_contains
      rw [hashmap_get_replace h t t' u hct]
      by_cases e : t' = t
      · rw [if_pos e]; rfl
      · rw [if_neg e]; exact hc t' (List.mem_cons_of_mem t ht')
    rw [ih _ hc', hashmap_get_replace h t k u hct]
    by_cases hk : k ∈ ts
    · rw [if_pos hk, if_pos (List.mem_cons_of_mem t hk)]
    · rw [if_neg hk]
      by_cases e : k = t
      · rw [if_pos e, if_pos (e ▸ List.mem_cons_self k ts)]
      · rw [if_neg e, if_neg]
        intro a
        rcases List.mem_cons.1 a with a | a
        · exact e a
        · exact hk a


theorem complete_move_ok {α : Type} [DecidableEq α] (oom : Bool) (s other : List α)
    (h : ¬ (complete_move oom s other).1 < 0) :
    (complete_move oom s other).1 = 0 ∧
      ∀ y, y ∈ (complete_move oom s other).2.1 ↔ y ∈ s ∨ y ∈ other := by
  unfold complete_move set_move at h ⊢
  by_cases h1 : other = []
  · rw [if_pos h1, h1]
    exact ⟨rfl, fun y => by simp⟩
  · rw [if_neg h1] at h ⊢
    have hneg : (-ENOMEM : Int) < 0 := by decide
    cases oom with
    | true =>
      exfalso
      by_cases h2 : s ≠ []
      · rw [if_pos h2] at h
        exact h hneg
      · rw [if_neg h2] at h
        exact h hneg
    | false =>
      by_cases h2 : s ≠ []
      · rw [if_pos h2]
        refine ⟨rfl, fun y => ?_⟩
        show y ∈ s ++ List.filter (fun y => decide (y ∉ s)) other ↔ _
        rw [List.mem_append, List.mem_filter]
        simp only [decide_eq_true_eq]
        constructor
        · rintro (a | a)
          · exact Or.inl a
          · exact Or.inr a.1
        · rintro (a | a)
          · exact Or.inl a
          · by_cases hy : y ∈ s
            · exact Or.inl hy
            · exact Or.inr ⟨a, hy⟩
      · rw [if_neg h2]
        have h3 : s = [] := by
          by_contra e; exact h2 e
        refine ⟨rfl, fun y => ?_⟩
        show y ∈ other ↔ _
        rw [h3]
        simp

theorem merge_names_spec (oom : Bool) (m m1 : Manager) (u o : UnitId) (r : Int)
    (huo : u ≠ o) (hu : m.valid u) (ho : m.valid o)
    (h : merge_names oom m u o = some (r, m1)) :
    (r < 0 → m1 = m) ∧
    (¬ r < 0 → r = 0 ∧ m1.heap.length = m.heap.length ∧
      (∀ x, (m1.unit x).dependencies = (m.unit x).dependencies ∧
        (m1.unit x).type = (m.unit x).type ∧ (m1.unit x).inst = (m.unit x).inst ∧
        (m1.unit x).load_state = (m.unit x).load_state ∧
        (m1.unit x).merged_into = (m.unit x).merged_into) ∧
      (∀ x, x ≠ u → x ≠ o → m1.unit x = m.unit x) ∧
      (∀ n, n ∈ (m1.unit u).names ↔ n ∈ (m.unit u).names ∨ n ∈ (m.unit o).names) ∧
      (m1.unit u).id = (m.unit u).id ∧
      (m1.unit o).names = [] ∧ (m1.unit o).id = none ∧
      (∀ n, manager_get_unit m1 n =
        if n ∈ (m1.unit u).names then some u else manager_get_unit m n)) := by
  unfold merge_names at h
  dsimp only at h
  by_cases hr : (complete_move oom (m.unit u).names (m.unit o).names).1 < 0
  · rw [if_pos hr] at h
    simp only [Option.some.injEq, Prod.mk.injEq] at h
    obtain ⟨h1, h2⟩ := h
    exact ⟨fun _ => h2.symm, fun a => absurd (h1 ▸ hr) a⟩
  · rw [if_neg hr] at h
    obtain ⟨hz, hmem⟩ := complete_move_ok oom _ _ hr
    generalize (complete_move oom (m.unit u).names (m.unit o).names).2.1 = nn at h hmem
    have hv1 : (m.modify u (fun x => { x with names := nn })).valid o :=
      (valid_modify _ _ _ _).2 ho
    -- the unit objects after the two writes
    have U : ∀ x, ((m.modify u (fun x => { x with names := nn })).modify o
        (fun x => { x with names := [], id := none })).unit x =
        if x = o then { m.unit o with names := [], id := none }
        else if x = u then { m.unit u with names := nn } else m.unit x := by
      intro x
      rw [unit_modify]
      by_cases hxo : x = o
      · rw [if_pos ⟨hv1, hxo⟩, if_pos hxo, unit_modify, if_neg (fun a => huo a.2.symm)]
      · rw [if_neg (fun a => hxo a.2), if_neg hxo, unit_modify]
        by_cases hxu : x = u
        · rw [if_pos ⟨hu, hxu⟩, if_pos hxu]
        · rw [if_neg (fun a => hxu a.2), if_neg hxu]
    have hlen : ((m.modify u (fun x => { x with names := nn })).modify o
        (fun x => { x with names := [], id := none })).heap.length = m.heap.length := by
      rw [length_modify, length_modify]
    have hun : ((m.modify u (fun x => { x with names := nn })).modify o
        (fun x => { x with names := [], id := none })).units = m.units := rfl
    generalize (m.modify u (fun x => { x with names := nn })).modify o
        (fun x => { x with names := [], id := none }) = mm at h U hlen hun
    have Uu : mm.unit u = { m.unit u with names := nn } := by
      rw [U, if_neg huo, if_pos rfl]
    have Uo : mm.unit o = { m.unit o with names := [], id := none } := by
      rw [U, if_pos rfl]
    by_cases hall : (mm.unit u).names.all (fun t => hashmap_contains mm.units t) = true
    · rw [if_pos hall] at h
      simp only [Option.some.injEq, Prod.mk.injEq] at h
      obtain ⟨h1, h2⟩ := h
      have hheap : m1.heap = mm.heap := by rw [← h2]
      have hu1 : ∀ x, m1.unit x = mm.unit x := fun x => unit_eq_of_heap hheap x
      refine ⟨fun a => absurd a (h1 ▸ (by decide)), fun _ => ⟨h1.symm, ?_, ?_, ?_, ?_, ?_, ?_, ?_, ?_⟩⟩
      · rw [hheap, hlen]
      · intro x
        rw [hu1, U]
        by_cases hxo : x = o
        · rw [if_pos hxo, hxo]
          exact ⟨rfl, rfl, rfl, rfl, rfl⟩
        · rw [if_neg hxo]
          by_cases hxu : x = u
          · rw [if_pos hxu, hxu]
            exact ⟨rfl, rfl, rfl, rfl, rfl⟩
          · rw [if_neg hxu]
            exact ⟨rfl, rfl, rfl, rfl, rfl⟩
      · intro x hxu hxo
        rw [hu1, U, if_neg hxo, if_neg hxu]
      · intro n
        rw [hu1, Uu]
        exact hmem n
      · rw [hu1, Uu]
      · rw [hu1, Uo]
      · rw [hu1, Uo]
      · intro n
        have hc : ∀ t ∈ (mm.unit u).names, hashmap_contains mm.units t = true := by
          intro t ht
          exact List.all_eq_true.1 hall t ht
        have := hashmap_get_replace_fold u (mm.unit u).names mm.units hc n
        unfold manager_get_unit
        rw [hu1, ← hun, ← this, ← h2]
    · rw [if_neg hall] at h
      cases h


theorem reserve_loop_le (oom : Nat → Bool) (m : Manager) (u o : UnitId)
    (ds : List UnitDependency) (n : Nat) : reserve_loop oom m u o ds n ≤ 0 := by
  induction ds generalizing n with
  | nil => exact le_refl 0
  | cons d ds ih =>
    unfold reserve_loop
    dsimp only
    split_ifs with h
    · exact le_of_lt h
    · exact ih (n + 1)

theorem unit_merge_steps (env : Env) (oom : Nat → Bool) (m m' : Manager) (u other o : UnitId)
    (r : Int) (h : unit_merge env oom m u other = some (r, m')) (hr : ¬ r < 0)
    (ho : unit_follow_merge m other = some o) (hne : o ≠ u) :
    r = 0 ∧ m.valid u ∧ m.valid o ∧ (m.unit u).type = (m.unit o).type ∧
    (m.unit u).type ≠ none ∧
    ∃ m1 m2 m3, merge_names (oom 22) m u o = some (0, m1) ∧
      (m1.same_ident m2 ∧ m1.same_deps m2) ∧
      merge_dependencies_loop m2 u o UnitDependency.all = some m3 ∧
      ((m3.modify o (fun x => { x with load_state := .merged, merged_into := some u })).same_ident m' ∧
       (m3.modify o (fun x => { x with load_state := .merged, merged_into := some u })).same_deps m') := by
  have hvo := (unit_follow_merge_valid m other o ho).1
  have hE : (-EEXIST : Int) < 0 := by decide
  have hI : (-EINVAL : Int) < 0 := by decide
  have bad : ∀ {e : Int}, e < 0 → some (e, m) = some (r, m') → False := by
    intro e he hh
    simp only [Option.some.injEq, Prod.mk.injEq] at hh
    exact hr (hh.1 ▸ he)
  unfold unit_merge at h
  by_cases hv : m.valid u
  · rw [if_pos hv] at h
    cases hut : (m.unit u).type with
    | none => simp only [hut] at h; cases h
    | some ut =>
      simp only [hut, ho] at h
      rw [if_neg hne] at h
      by_cases c1 : some ut ≠ (m.unit o).type
      · rw [if_pos c1] at h; exact (bad hI h).elim
      rw [if_neg c1] at h
      by_cases c2 : (m.unit u).inst.isNone ≠ (m.unit o).inst.isNone
      · rw [if_pos c2] at h; exact (bad hI h).elim
      rw [if_neg c2] at h
      by_cases c3 : env.unit_type_may_alias ut = false
      · rw [if_pos c3] at h; exact (bad hE h).elim
      rw [if_neg c3] at h
      by_cases c4 : (m.unit o).load_state ≠ .stub ∧ (m.unit o).load_state ≠ .not_found
      · rw [if_pos c4] at h; exact (bad hE h).elim
      rw [if_neg c4] at h
      by_cases c5 : (m.unit o).job.isSome = true
      · rw [if_pos c5] at h; exact (bad hE h).elim
      rw [if_neg c5] at h
      by_cases c6 : (m.unit o).nop_job.isSome = true
      · rw [if_pos c6] at h; exact (bad hE h).elim
      rw [if_neg c6] at h
      · cases hst : unit_active_state env m o with
        | none => simp only [hst] at h; cases h
        | some st =>
          simp only [hst] at h
          by_cases c7 : UNIT_IS_INACTIVE_OR_FAILED st = false
          · rw [if_pos c7] at h; exact (bad hE h).elim
          rw [if_neg c7] at h
          by_cases c8 : reserve_loop oom m u o UnitDependency.all 0 < 0
          · rw [if_pos c8] at h; exact (bad c8 h).elim
          rw [if_neg c8] at h
          · unfold unit_merge_commit at h
            cases hmn : merge_names (oom 22) m u o with
            | none => simp only [hmn] at h; cases h
            | some p =>
              obtain ⟨r1, m1⟩ := p
              simp only [hmn] at h
              by_cases hr1 : r1 < 0
              · rw [if_pos hr1] at h
                simp only [Option.some.injEq, Prod.mk.injEq] at h
                exact absurd (h.1 ▸ hr1) hr
              · rw [if_neg hr1] at h
                have hr10 := ((merge_names_spec (oom 22) m m1 u o r1 (fun e => hne e.symm) hv hvo
                  hmn).2 hr1).1
                simp only [Option.bind_eq_some, Option.map_eq_some', Prod.mk.injEq] at h
                obtain ⟨m2, h2, m3, h3, m5, h5, m6, h6, h7, h8⟩ := h
                refine ⟨h7.symm, hv, hvo, ?_, fun e => Option.noConfusion e,
                  m1, m2, m3, by rw [hr10], frame_redirect_refs env u o _ m1 m2 h2, h3, ?_⟩
                · by_contra e
                  exact c1 e
                · rw [← h8]
                  exact frame_trans (frame_trans (frame_merge_done env _ m5 o h5)
                    (frame_dbus_queue m5 m6 u h6)) (frame_cleanup_queue m6 o)
  · rw [if_neg hv] at h
    cases h


theorem ident_fields {x y : Unit} (h : x.ident = y.ident) :
    x.names = y.names ∧ x.id = y.id ∧ x.inst = y.inst ∧ x.type = y.type ∧
      x.load_state = y.load_state ∧ x.merged_into = y.merged_into := by
  unfold Unit.ident at h
  simp only [Prod.mk.injEq] at h
  exact ⟨h.1, h.2.1, h.2.2.1, h.2.2.2.1, h.2.2.2.2.1, h.2.2.2.2.2.1⟩

theorem ident_fragment_path {x y : Unit} (h : x.ident = y.ident) :
    x.fragment_path = y.fragment_path := by
  unfold Unit.ident at h
  simp only [Prod.mk.injEq] at h
  exact h.2.2.2.2.2.2

theorem deps_of_same_deps {a b : Manager} (h : a.same_deps b) (x : UnitId) (k : UnitDependency) :
    b.deps x k = a.deps x k := by
  unfold Manager.deps; rw [h x]

/-- What a successful `unit_merge(u, other)` that merges `o` into `u` does to
the identities of the units and to the registry. -/
theorem unit_merge_ident (env : Env) (oom : Nat → Bool) (m m' : Manager) (u other o : UnitId)
    (r : Int) (h : unit_merge env oom m u other = some (r, m')) (hr : ¬ r < 0)
    (ho : unit_follow_merge m other = some o) (hne : o ≠ u) :
    m'.heap.length = m.heap.length ∧
    (∀ x, (m'.unit x).type = (m.unit x).type) ∧
    (∀ x, x ≠ o → (m'.unit x).load_state = (m.unit x).load_state ∧
      (m'.unit x).merged_into = (m.unit x).merged_into) ∧
    ((m'.unit o).load_state = .merged ∧ (m'.unit o).merged_into = some u) ∧
    (∀ x, x ≠ u → x ≠ o → (m'.unit x).names = (m.unit x).names) ∧
    (∀ n, n ∈ (m'.unit u).names ↔ n ∈ (m.unit u).names ∨ n ∈ (m.unit o).names) ∧
    ((m'.unit o).names = [] ∧ (m'.unit o).id = none) ∧
    (∀ n, manager_get_unit m' n =
      if n ∈ (m'.unit u).names then some u else manager_get_unit m n) := by
  obtain ⟨_, hv, hvo, _, _, m1, m2, m3, h1, f12, h3, f4⟩ :=
    unit_merge_steps env oom m m' u other o r h hr ho hne
  have N := (merge_names_spec (oom 22) m m1 u o 0 (fun e => hne e.symm) hv hvo h1).2 (by decide)
  obtain ⟨_, n1, n2, n3, n4, _, n6, n7, n8⟩ := N
  have f23 := same_ident_merge_loop u o _ m2 m3 h3
  have f13 := same_ident_trans f12.1 f23
  have hvo3 : m3.valid o := by
    unfold Manager.valid; rw [f13.2.1, n1]; exact hvo
  have U4 := unit_modify m3 o
  have I4 : ∀ x, (m'.unit x).ident =
      ((m3.modify o (fun x => { x with load_state := .merged, merged_into := some u })).unit x).ident :=
    fun x => f4.1.2.2 x
  have I3 : ∀ x, (m3.unit x).ident = (m1.unit x).ident := fun x => f13.2.2 x
  -- fields of units other than `o`
  have hx : ∀ x, x ≠ o → (m'.unit x).ident = (m1.unit x).ident := by
    intro x hxo
    rw [I4, U4, if_neg (fun a => hxo a.2), I3]
  have ho' : (m'.unit o).ident =
      ({ m3.unit o with load_state := .merged, merged_into := some u } : Unit).ident := by
    rw [I4, U4, if_pos ⟨hvo3, rfl⟩]
  have ho3 := ident_fields (I3 o)
  have ho4 := ident_fields ho'
  refine ⟨?_, ?_, ?_, ?_, ?_, ?_, ?_, ?_⟩
  · rw [f4.1.2.1, length_modify, f13.2.1, n1]
  · intro x
    by_cases hxo : x = o
    · rw [hxo, ho4.2.2.2.1]
      show (m3.unit o).type = _
      rw [ho3.2.2.2.1, (n2 o).2.1]
    · rw [(ident_fields (hx x hxo)).2.2.2.1, (n2 x).2.1]
  · intro x hxo
    have := ident_fields (hx x hxo)
    rw [this.2.2.2.2.1, this.2.2.2.2.2, (n2 x).2.2.2.1, (n2 x).2.2.2.2]
    exact ⟨rfl, rfl⟩
  · exact ⟨ho4.2.2.2.2.1, ho4.2.2.2.2.2⟩
  · intro x hxu hxo
    rw [(ident_fields (hx x hxo)).1, n3 x hxu hxo]
  · intro n
    rw [(ident_fields (hx u (fun e => hne e.symm))).1]
    exact n4 n
  · constructor
    · rw [ho4.1]
      show (m3.unit o).names = _
      rw [ho3.1, n6]
    · rw [ho4.2.1]
      show (m3.unit o).id = _
      rw [ho3.2.1, n7]
  · intro n
    have hun : m'.units = m1.units := by
      rw [f4.1.1]
      show m3.units = _
      rw [f13.1]
    unfold manager_get_unit
    rw [hun, (ident_fields (hx u (fun e => hne e.symm))).1]
    exact n8 n

/-- C8 (amended). Let `unit_merge(u, other)` succeed, where `u` is not in
merged state and `o`, the unit that `other` resolves to by following merges
(`other` itself when it is not merged), is distinct from `u`. Then every name
that belonged to `u` or to `o` is resolved by `manager_get_unit` to `u`,
`u.names` is the union of the two former name sets, `o` has no names and no
id, `o.load_state` is merged with `merged_into = u`, and
`unit_follow_merge(o) = u`. -/
theorem unit_merge_names (env : Env) (oom : Nat → Bool) (m m' : Manager) (u other o : UnitId)
    (r : Int) (h : unit_merge env oom m u other = some (r, m')) (hr : ¬ r < 0)
    (ho : unit_follow_merge m other = some o) (hne : o ≠ u)
    (hum : (m.unit u).load_state ≠ .merged) :
    (∀ n, n ∈ (m.unit u).names ∨ n ∈ (m.unit o).names → manager_get_unit m' n = some u) ∧
    (∀ n, n ∈ (m'.unit u).names ↔ n ∈ (m.unit u).names ∨ n ∈ (m.unit o).names) ∧
    (m'.unit o).names = [] ∧ (m'.unit o).id = none ∧
    (m'.unit o).load_state = .merged ∧ (m'.unit o).merged_into = some u ∧
    unit_follow_merge m' o = some u := by
  obtain ⟨hlen, _, hls, hmo, _, hnu, hno, hreg⟩ :=
    unit_merge_ident env oom m m' u other o r h hr ho hne
  obtain ⟨_, hv, hvo, _⟩ := unit_merge_steps env oom m m' u other o r h hr ho hne
  refine ⟨fun n hn => ?_, hnu, hno.1, hno.2, hmo.1, hmo.2, ?_⟩
  · rw [hreg n, if_pos ((hnu n).2 hn)]
  · have hv' : m'.valid u := by unfold Manager.valid; rw [hlen]; exact hv
    have hvo' : m'.valid o := by unfold Manager.valid; rw [hlen]; exact hvo
    have hum' : (m'.unit u).load_state ≠ .merged := by
      rw [(hls u (fun e => hne e.symm)).1]; exact hum
    unfold unit_follow_merge
    have hpos : m'.heap.length = (m'.heap.length - 1) + 1 :=
      (Nat.sub_add_cancel (Nat.lt_of_le_of_lt (Nat.zero_le u) hv')).symm
    rw [hpos]
    unfold follow_merge_loop
    rw [if_pos hvo', if_pos hmo.1]
    simp only [hmo.2]
    unfold follow_merge_loop
    rw [if_pos hv', if_neg hum']


/-- C9 (amended). Let the graph have no self-edges and let every edge have a
reverse edge of some kind. After a successful `unit_merge(u, other)` in which
`o`, the unit that `other` resolves to by following merges, is distinct from
`u`, for every kind `d`: `u.dependencies[d]` is the union of the former
`u.dependencies[d]` and `o.dependencies[d]` with `u` and `o` removed, all
dependency sets of `o` are empty, and every third unit `b` that had `o` in
`b.dependencies[k]` has `u` there instead. -/
theorem unit_merge_dependencies (env : Env) (oom : Nat → Bool) (m m' : Manager)
    (u other o : UnitId) (r : Int)
    (hself : m.no_self_edges)
    (hrev : ∀ x k y, y ∈ m.deps x k → ∃ k', x ∈ m.deps y k')
    (h : unit_merge env oom m u other = some (r, m')) (hr : ¬ r < 0)
    (ho : unit_follow_merge m other = some o) (hne : o ≠ u) :
    (∀ d y, y ∈ m'.deps u d ↔ (y ∈ m.deps u d ∨ y ∈ m.deps o d) ∧ y ≠ u ∧ y ≠ o) ∧
    (∀ d, m'.deps o d = []) ∧
    (∀ b k, b ≠ u → b ≠ o → o ∈ m.deps b k → u ∈ m'.deps b k ∧ o ∉ m'.deps b k) := by
  obtain ⟨_, hv, hvo, _, _, m1, m2, m3, h1, f12, h3, f4⟩ :=
    unit_merge_steps env oom m m' u other o r h hr ho hne
  have huo : u ≠ o := fun e => hne e.symm
  have N := (merge_names_spec (oom 22) m m1 u o 0 huo hv hvo h1).2 (by decide)
  obtain ⟨_, n1, n2, _⟩ := N
  -- the dependency sets before the loop are those of `m`
  have D2 : ∀ x k, m2.deps x k = m.deps x k := by
    intro x k
    rw [deps_of_same_deps f12.2]
    unfold Manager.deps
    rw [(n2 x).1]
  have hv2 : ∀ x, m2.valid x ↔ m.valid x := by
    intro x
    unfold Manager.valid
    rw [f12.1.2.1, n1]
  have L := merge_loop_all m2 m3 u o huo (fun k => by rw [D2]; exact hself o k)
    ((hv2 u).2 hv) ((hv2 o).2 hvo) h3
  -- the dependency sets at the end are those after the loop
  have D4 : ∀ x k, m'.deps x k = m3.deps x k := by
    intro x k
    rw [deps_of_same_deps f4.2]
    unfold Manager.deps
    rw [unit_modify]
    split_ifs with hh
    · rw [hh.2]
    · rfl
  obtain ⟨L1, L2, L3⟩ := L
  refine ⟨fun d y => ?_, fun d => ?_, fun b k hbu hbo hob => ?_⟩
  · rw [D4, L2, D2, D2]
    constructor
    · rintro (⟨a, b⟩ | ⟨a, b⟩)
      · refine ⟨Or.inl a, fun e => hself u d (e ▸ a), ?_⟩
        intro e
        obtain ⟨k', hk'⟩ := hrev u d y a
        rw [e] at hk'
        exact b ⟨k', by rw [D2]; exact hk'⟩ e
      · exact ⟨Or.inr a, b, fun e => hself o d (e ▸ a)⟩
    · rintro ⟨a | a, b, c⟩
      · exact Or.inl ⟨a, fun _ => c⟩
      · exact Or.inr ⟨a, b⟩
  · rw [D4, L1]
  · obtain ⟨k', hk'⟩ := hrev b k o hob
    have hin : ∃ d, b ∈ m2.deps o d := ⟨k', by rw [D2]; exact hk'⟩
    have hb := fun y => (L3 b k y hbo hbu).1 hin
    constructor
    · rw [D4, hb]
      unfold redirected
      exact Or.inr ⟨rfl, by rw [D2]; exact hob, hbu⟩
    · rw [D4, hb]
      unfold redirected
      rintro (a | a)
      · exact a.2 rfl
      · exact hne a.1

/-! ## Merging: instances and counterexamples for claims C8 and C9 -/

theorem no_self_edges_of_heap (m : Manager) (h : m.no_self_edges_in_heap) : m.no_self_edges := by
  intro x k hx
  by_cases hv : x < m.heap.length
  · exact h x hv k (by cases k <;> decide) hx
  · rw [deps_invalid m x k hv] at hx
    exact absurd hx (List.not_mem_nil x)

theorem reverse_edges_of_heap (m : Manager) (h : m.reverse_edges_in_heap) :
    ∀ x k y, y ∈ m.deps x k → ∃ k', x ∈ m.deps y k' := by
  intro x k y hy
  by_cases hv : x < m.heap.length
  · obtain ⟨k', _, hk'⟩ := h x hv k (by cases k <;> decide) y hy
    exact ⟨k', hk'⟩
  · rw [deps_invalid m x k hv] at hy
    exact absurd hy (List.not_mem_nil y)

set_option maxRecDepth 100000 in
/-- An instance of C8 (amended): `unit_merge(0, 1)` on `merge_graph` moves
`b.service` to unit 0 and leaves unit 1 merged into unit 0. -/
theorem unit_merge_names_witness :
    manager_get_unit (state_after merge_graph (unit_merge env0 no_oom merge_graph 0 1))
      "b.service" = some 0 ∧
    ((state_after merge_graph (unit_merge env0 no_oom merge_graph 0 1)).unit 1).names = [] ∧
    ((state_after merge_graph (unit_merge env0 no_oom merge_graph 0 1)).unit 1).merged_into =
      some 0 ∧
    unit_follow_merge (state_after merge_graph (unit_merge env0 no_oom merge_graph 0 1)) 1 =
      some 0 :=
  have T := unit_merge_names env0 no_oom merge_graph
    (state_after merge_graph (unit_merge env0 no_oom merge_graph 0 1)) 0 1 1 0
    (by decide) (by decide) (by decide) (by decide) (by decide)
  ⟨T.1 "b.service" (Or.inr (by decide)), T.2.2.1, T.2.2.2.2.2.1, T.2.2.2.2.2.2⟩

set_option maxRecDepth 100000 in
/-- C8 as stated fails. The state `merge_graph_chain` is what `unit_merge(2, 1)`
leaves from `merge_graph`: unit 1 is merged into unit 2. A later
`unit_merge(0, 1)` succeeds, unit 1 is distinct from unit 0, but it is unit 2
that is merged: `merged_into` of unit 1 is still unit 2, and unit 0 receives
`c.service`, a name that neither unit 0 nor unit 1 had. And `unit_merge(1, 2)`,
into the merged unit 1, succeeds too, after which `unit_follow_merge(2)` no
longer returns. -/
theorem unit_merge_of_merged_units :
    unit_merge env0 no_oom merge_graph 2 1 = some (0, merge_graph_chain) ∧
    (unit_merge env0 no_oom merge_graph_chain 0 1).map Prod.fst = some 0 ∧
    ((state_after merge_graph_chain (unit_merge env0 no_oom merge_graph_chain 0 1)).unit 1).merged_into
      = some 2 ∧
    "c.service" ∈
      ((state_after merge_graph_chain (unit_merge env0 no_oom merge_graph_chain 0 1)).unit 0).names ∧
    "c.service" ∉ (merge_graph_chain.unit 0).names ∧
    "c.service" ∉ (merge_graph_chain.unit 1).names ∧
    (unit_merge env0 no_oom merge_graph_chain 1 2).map Prod.fst = some 0 ∧
    unit_follow_merge
      (state_after merge_graph_chain (unit_merge env0 no_oom merge_graph_chain 1 2)) 2 = none := by
  refine ⟨?_, ?_, ?_, ?_, ?_, ?_, ?_, ?_⟩ <;> decide

set_option maxRecDepth 100000 in
/-- An instance of C9 (amended): `unit_merge(0, 1)` on `merge_graph` gives
unit 0 the `Wants` edge of unit 1 to unit 3, empties the sets of unit 1, and
puts unit 0 in place of unit 1 in the `WantedBy` set of unit 3. -/
theorem unit_merge_dependencies_witness :
    3 ∈ (state_after merge_graph (unit_merge env0 no_oom merge_graph 0 1)).deps 0 .wants ∧
    (state_after merge_graph (unit_merge env0 no_oom merge_graph 0 1)).deps 1 .wants = [] ∧
    0 ∈ (state_after merge_graph (unit_merge env0 no_oom merge_graph 0 1)).deps 3 .wanted_by ∧
    1 ∉ (state_after merge_graph (unit_merge env0 no_oom merge_graph 0 1)).deps 3 .wanted_by :=
  have T := unit_merge_dependencies env0 no_oom merge_graph
    (state_after merge_graph (unit_merge env0 no_oom merge_graph 0 1)) 0 1 1 0
    (no_self_edges_of_heap merge_graph (by decide))
    (reverse_edges_of_heap merge_graph (by decide))
    (by decide) (by decide) (by decide) (by decide)
  ⟨(T.1 .wants 3).2 ⟨Or.inr (by decide), by decide, by decide⟩, T.2.1 .wants,
    (T.2.2 3 .wanted_by (by decide) (by decide) (by decide)).1,
    (T.2.2 3 .wanted_by (by decide) (by decide) (by decide)).2⟩

set_option maxRecDepth 100000 in
/-- C9 as stated fails. On `merge_graph`, which has no self-edges and a reverse
edge for every edge, `unit_merge(0, 0)` succeeds and changes nothing, so the
sets of `other` are not empty. On `merge_graph_chain`, which has these
properties too and in which unit 1 is merged into unit 2, `unit_merge(0, 1)`
succeeds and gives unit 0 the edge `Wants` to unit 3, which neither unit 0 nor
unit 1 had. -/
theorem unit_merge_dependencies_of_same_or_merged :
    merge_graph.no_self_edges_in_heap ∧ merge_graph.reverse_edges_in_heap ∧
    unit_merge env0 no_oom merge_graph 0 0 = some (0, merge_graph) ∧
    merge_graph.deps 0 .before ≠ [] ∧
    merge_graph_chain.no_self_edges_in_heap ∧ merge_graph_chain.reverse_edges_in_heap ∧
    (unit_merge env0 no_oom merge_graph_chain 0 1).map Prod.fst = some 0 ∧
    3 ∈ (state_after merge_graph_chain (unit_merge env0 no_oom merge_graph_chain 0 1)).deps 0 .wants ∧
    3 ∉ merge_graph_chain.deps 0 .wants ∧ 3 ∉ merge_graph_chain.deps 1 .wants := by
  refine ⟨?_, ?_, ?_, ?_, ?_, ?_, ?_, ?_, ?_, ?_⟩ <;> decide

/-! ## Names and types: what the calls do (claim C6) -/

theorem frame_unit_init (env : Env) (m m1 : Manager) (u : UnitId)
    (h : unit_init env m u = some m1) : m.same_ident m1 ∧ m.same_deps m1 := by
  unfold unit_init at h
  cases ht : (m.unit u).type with
  | none => simp only [ht] at h; cases h
  | some t =>
    simp only [ht] at h
    cases hf : (env.unit_vtable t).init with
    | none =>
      simp only [hf, Option.some.injEq] at h; rw [← h]
      exact frame_refl m
    | some f =>
      simp only [hf, Option.some.injEq] at h
      rw [← h]
      exact frame_modify m u _ (fun x => ⟨by rfl, by rfl⟩)

theorem unit_add_name_commit_spec (env : Env) (oom : Nat → Bool) (m m1 : Manager) (u : UnitId)
    (s : String) (t : UnitType) (i : Option String) (r : Int) (hv : m.valid u)
    (hs : s ∉ (m.unit u).names) (hg : hashmap_get m.units s = none)
    (ht : (m.unit u).type = none ∨ (m.unit u).type = some t)
    (h : unit_add_name_commit env oom m u s t i = some (r, m1)) :
    (∀ x, x ≠ u → (m1.unit x).names = (m.unit x).names ∧ (m1.unit x).type = (m.unit x).type) ∧
    (((∀ n, n ∈ (m1.unit u).names ↔ n ∈ (m.unit u).names) ∧
        (m1.unit u).type = (m.unit u).type ∧ m1.units = m.units ∧ r < 0) ∨
     ((∀ n, n ∈ (m1.unit u).names ↔ n ∈ (m.unit u).names ∨ n = s) ∧
        (m1.unit u).type = some t ∧ m1.units = m.units ++ [(s, u)] ∧ r = 0)) := by
  unfold unit_add_name_commit at h
  have hneg : (-ENOMEM : Int) < 0 := by decide
  by_cases h1 : oom 1 = true
  · rw [if_pos h1] at h
    simp only [Option.some.injEq, Prod.mk.injEq] at h
    obtain ⟨rfl, rfl⟩ := h
    exact ⟨fun x _ => ⟨rfl, rfl⟩, Or.inl ⟨fun _ => Iff.rfl, rfl, rfl, hneg⟩⟩
  rw [if_neg h1] at h
  dsimp only at h
  have U1 := unit_modify m u
  have hun1 : (m.modify u (fun x => { x with names := x.names ++ [s] })).units = m.units := rfl
  have hv1 : (m.modify u (fun x => { x with names := x.names ++ [s] })).valid u :=
    (valid_modify _ _ _ _).2 hv
  unfold hashmap_put at h
  rw [hun1, hg] at h
  dsimp only at h
  by_cases h2 : oom 2 = true
  · rw [if_pos h2, if_pos hneg] at h
    simp only [Option.some.injEq, Prod.mk.injEq] at h
    obtain ⟨rfl, rfl⟩ := h
    refine ⟨fun x hx => ?_, Or.inl ⟨fun n => ?_, ?_, rfl, hneg⟩⟩
    · rw [unit_modify, if_neg (fun a => hx a.2), U1, if_neg (fun a => hx a.2)]
      exact ⟨rfl, rfl⟩
    · rw [unit_modify, if_pos ⟨hv1, rfl⟩, U1, if_pos ⟨hv, rfl⟩]
      show n ∈ List.filter (fun n => decide (n ≠ s)) ((m.unit u).names ++ [s]) ↔ _
      rw [List.mem_filter, List.mem_append, List.mem_singleton]
      simp only [decide_eq_true_eq]
      constructor
      · rintro ⟨a | a, b⟩
        · exact a
        · exact absurd a b
      · intro a
        exact ⟨Or.inl a, fun e => hs (e ▸ a)⟩
    · rw [unit_modify, if_pos ⟨hv1, rfl⟩, U1, if_pos ⟨hv, rfl⟩]
  · have h10 : ¬ ((1 : Int) < 0) := by decide
    rw [if_neg h2, if_neg h10] at h
    -- the state after the two insertions
    have hum : ∀ x, ({ m.modify u (fun x => { x with names := x.names ++ [s] }) with
        units := m.units ++ [(s, u)] } : Manager).unit x =
        if x = u then { m.unit u with names := (m.unit u).names ++ [s] } else m.unit x := by
      intro x
      show (m.modify u (fun x => { x with names := x.names ++ [s] })).unit x = _
      rw [unit_modify]
      by_cases hx : x = u
      · rw [if_pos ⟨hv, hx⟩, if_pos hx]
      · rw [if_neg (fun a => hx a.2), if_neg hx]
    have hvm : ({ m.modify u (fun x => { x with names := x.names ++ [s] }) with
        units := m.units ++ [(s, u)] } : Manager).valid u := hv1
    have hunm : ({ m.modify u (fun x => { x with names := x.names ++ [s] }) with
        units := m.units ++ [(s, u)] } : Manager).units = m.units ++ [(s, u)] := rfl
    generalize ({ m.modify u (fun x => { x with names := x.names ++ [s] }) with
        units := m.units ++ [(s, u)] } : Manager) = m2 at h hum hvm hunm
    have hm2u : m2.unit u = { m.unit u with names := (m.unit u).names ++ [s] } := by
      rw [hum, if_pos rfl]
    by_cases h3 : (m2.unit u).type = none
    · rw [if_pos h3] at h
      simp only [Option.bind_eq_some, Option.map_eq_some'] at h
      obtain ⟨m4, h4, m5, h5, h6⟩ := h
      simp only [Prod.mk.injEq] at h6
      obtain ⟨rfl, rfl⟩ := h6
      have f4 := frame_unit_init env _ m4 u h4
      have f5 := frame_dbus_queue m4 m5 u h5
      have f := same_ident_trans f4.1 f5.1
      have hid : ∀ x, (m5.unit x).ident = (({ m2.modify u (fun x =>
          { x with type := some t, id := some s, inst := i }) with
          units_by_type := (t, u) :: m2.units_by_type } : Manager).unit x).ident := f.2.2
      have hu3 : ∀ x, ({ m2.modify u (fun x =>
          { x with type := some t, id := some s, inst := i }) with
          units_by_type := (t, u) :: m2.units_by_type } : Manager).unit x =
          if x = u then { m2.unit u with type := some t, id := some s, inst := i }
          else m2.unit x := by
        intro x
        show (m2.modify u (fun x =>
          { x with type := some t, id := some s, inst := i })).unit x = _
        rw [unit_modify]
        by_cases hx : x = u
        · rw [if_pos ⟨hvm, hx⟩, if_pos hx]
        · rw [if_neg (fun a => hx a.2), if_neg hx]
      refine ⟨fun x hx => ?_, Or.inr ⟨fun n => ?_, ?_, ?_, rfl⟩⟩
      · have := ident_fields (hid x)
        rw [this.1, this.2.2.2.1, hu3, if_neg hx, hum, if_neg hx]
        exact ⟨rfl, rfl⟩
      · have := ident_fields (hid u)
        rw [this.1, hu3, if_pos rfl, hm2u]
        show n ∈ (m.unit u).names ++ [s] ↔ _
        rw [List.mem_append, List.mem_singleton]
      · have := ident_fields (hid u)
        rw [this.2.2.2.1, hu3, if_pos rfl]
      · rw [f.1]
        exact hunm
    · rw [if_neg h3] at h
      simp only [Option.map_eq_some'] at h
      obtain ⟨m5, h5, h6⟩ := h
      simp only [Prod.mk.injEq] at h6
      obtain ⟨rfl, rfl⟩ := h6
      have f5 := frame_dbus_queue m2 m5 u h5
      have hid : ∀ x, (m5.unit x).ident = (m2.unit x).ident := f5.1.2.2
      have htm : (m.unit u).type = some t := by
        rcases ht with e | e
        · exfalso
          apply h3
          rw [hm2u]
          exact e
        · exact e
      refine ⟨fun x hx => ?_, Or.inr ⟨fun n => ?_, ?_, ?_, rfl⟩⟩
      · have := ident_fields (hid x)
        rw [this.1, this.2.2.2.1, hum, if_neg hx]
        exact ⟨rfl, rfl⟩
      · have := ident_fields (hid u)
        rw [this.1, hm2u]
        show n ∈ (m.unit u).names ++ [s] ↔ _
        rw [List.mem_append, List.mem_singleton]
      · have := ident_fields (hid u)
        rw [this.2.2.2.1, hm2u]
        exact htm
      · rw [f5.1.1]
        exact hunm

/-- What a call of `unit_add_name` that returns does to names, types and the
registry: nothing, or (with return value 0) the name `s` is added. -/
theorem unit_add_name_spec (env : Env) (oom : Nat → Bool) (m m1 : Manager) (u : UnitId)
    (text : String) (r : Int) (h : unit_add_name env oom m u text = some (r, m1)) :
    m.valid u ∧
    (∀ x, x ≠ u → (m1.unit x).names = (m.unit x).names ∧ (m1.unit x).type = (m.unit x).type) ∧
    (((∀ n, n ∈ (m1.unit u).names ↔ n ∈ (m.unit u).names) ∧
        (m1.unit u).type = (m.unit u).type ∧ m1.units = m.units ∧
        (¬ r < 0 → ∃ s, unit_add_name_resolve env oom m u text = .ok s ∧ s ∈ (m.unit u).names)) ∨
     (∃ s t, unit_add_name_resolve env oom m u text = .ok s ∧ s ∉ (m.unit u).names ∧
        hashmap_get m.units s = none ∧ env.unit_name_to_type s = some t ∧
        ((m.unit u).type = none ∨ (m.unit u).type = some t) ∧
        (∀ n, n ∈ (m1.unit u).names ↔ n ∈ (m.unit u).names ∨ n = s) ∧
        (m1.unit u).type = some t ∧ m1.units = m.units ++ [(s, u)] ∧ r = 0)) := by
  unfold unit_add_name at h
  by_cases hv : m.valid u
  · rw [if_pos hv] at h
    refine ⟨hv, ?_⟩
    have unch : ∀ e : Int, (¬ e < 0 → ∃ s, unit_add_name_resolve env oom m u text = .ok s ∧
        s ∈ (m.unit u).names) → some (e, m) = some (r, m1) →
        (∀ x, x ≠ u → (m1.unit x).names = (m.unit x).names ∧ (m1.unit x).type = (m.unit x).type) ∧
        (((∀ n, n ∈ (m1.unit u).names ↔ n ∈ (m.unit u).names) ∧
          (m1.unit u).type = (m.unit u).type ∧ m1.units = m.units ∧
          (¬ r < 0 → ∃ s, unit_add_name_resolve env oom m u text = .ok s ∧ s ∈ (m.unit u).names)) ∨
         (∃ s t, unit_add_name_resolve env oom m u text = .ok s ∧ s ∉ (m.unit u).names ∧
          hashmap_get m.units s = none ∧ env.unit_name_to_type s = some t ∧
          ((m.unit u).type = none ∨ (m.unit u).type = some t) ∧
          (∀ n, n ∈ (m1.unit u).names ↔ n ∈ (m.unit u).names ∨ n = s) ∧
          (m1.unit u).type = some t ∧ m1.units = m.units ++ [(s, u)] ∧ r = 0)) := by
      intro e he hh
      simp only [Option.some.injEq, Prod.mk.injEq] at hh
      obtain ⟨rfl, rfl⟩ := hh
      exact ⟨fun x _ => ⟨rfl, rfl⟩, Or.inl ⟨fun _ => Iff.rfl, rfl, rfl, he⟩⟩
    have hE : (-EEXIST : Int) < 0 := by decide
    have hI : (-EINVAL : Int) < 0 := by decide
    have hB : (-E2BIG : Int) < 0 := by decide
    have hcase : (∃ e, unit_add_name_resolve env oom m u text = .error e) ∨
        (∃ s, unit_add_name_resolve env oom m u text = .ok s) := by
      cases unit_add_name_resolve env oom m u text with
      | error e => exact Or.inl ⟨e, rfl⟩
      | ok s => exact Or.inr ⟨s, rfl⟩
    rcases hcase with ⟨e, hres⟩ | ⟨s, hres⟩
    · simp only [hres] at h
      exact unch e (fun a => absurd (unit_add_name_resolve_neg env oom m u text e hres) a) h
    · simp only [hres] at h
      unfold unit_add_name_checked at h
      by_cases c0 : s ∈ (m.unit u).names
      · rw [if_pos c0] at h
        exact unch 0 (fun _ => ⟨s, hres, c0⟩) h
      rw [if_neg c0] at h
      by_cases c1 : hashmap_contains m.units s = true
      · rw [if_pos c1] at h
        exact unch _ (fun a => absurd hE a) h
      rw [if_neg c1] at h
      by_cases c2 : env.unit_name_is_valid s (UNIT_NAME_PLAIN ||| UNIT_NAME_INSTANCE) = false
      · rw [if_pos c2] at h
        exact unch _ (fun a => absurd hI a) h
      rw [if_neg c2] at h
      cases ht : env.unit_name_to_type s with
      | none =>
        simp only [ht] at h
        exact unch _ (fun a => absurd hI a) h
      | some t =>
        simp only [ht] at h
        by_cases c3 : (m.unit u).type ≠ none ∧ some t ≠ (m.unit u).type
        · rw [if_pos c3] at h
          exact unch _ (fun a => absurd hI a) h
        rw [if_neg c3] at h
        by_cases c4 : (env.unit_name_to_instance s).1 < 0
        · rw [if_pos c4] at h
          exact unch _ (fun a => absurd c4 a) h
        rw [if_neg c4] at h
        by_cases c5 : (env.unit_name_to_instance s).2.isSome = true ∧
            env.unit_type_may_template t = false
        · rw [if_pos c5] at h
          exact unch _ (fun a => absurd hI a) h
        rw [if_neg c5] at h
        by_cases c6 : (m.unit u).type ≠ none ∧
            (m.unit u).inst.isNone ≠ (env.unit_name_to_instance s).2.isNone
        · rw [if_pos c6] at h
          exact unch _ (fun a => absurd hI a) h
        rw [if_neg c6] at h
        by_cases c7 : env.unit_type_may_alias t = false ∧ (m.unit u).names ≠ []
        · rw [if_pos c7] at h
          exact unch _ (fun a => absurd hE a) h
        rw [if_neg c7] at h
        by_cases c8 : m.units.length ≥ env.MANAGER_MAX_NAMES
        · rw [if_pos c8] at h
          exact unch _ (fun a => absurd hB a) h
        rw [if_neg c8] at h
        have hg : hashmap_get m.units s = none := by
          unfold hashmap_contains at c1
          cases hgg : hashmap_get m.units s with
          | none => rfl
          | some v => rw [hgg] at c1; exact absurd rfl c1
        have htt : (m.unit u).type = none ∨ (m.unit u).type = some t := by
          by_cases e : (m.unit u).type = none
          · exact Or.inl e
          · right
            by_contra e2
            exact c3 ⟨e, fun e3 => e2 e3.symm⟩
        obtain ⟨k1, k2⟩ := unit_add_name_commit_spec env oom m m1 u s t _ r hv c0 hg htt h
        refine ⟨k1, ?_⟩
        rcases k2 with ⟨a, b, c, d⟩ | ⟨a, b, c, d⟩
        · exact Or.inl ⟨a, b, c, fun e => absurd d e⟩
        · exact Or.inr ⟨s, t, hres, c0, hg, ht, htt, a, b, c, d⟩
  · rw [if_neg hv] at h
    cases h

theorem names_consistent_of_heap (env : Env) (m : Manager) (h : m.names_consistent_in_heap env) :
    m.names_consistent env := by
  intro x n hn
  by_cases hv : x < m.heap.length
  · exact h x hv n hn
  · have : m.unit x = default := by
      unfold Manager.unit
      rw [List.getD_eq_getElem?_getD, List.getElem?_eq_none (Nat.le_of_not_lt hv)]
      rfl
    rw [this] at hn
    exact absurd hn (List.not_mem_nil n)

theorem hashmap_get_append (h : List (String × UnitId)) (s n : String) (u : UnitId) :
    hashmap_get (h ++ [(s, u)]) n =
      (hashmap_get h n).or (if n = s then some u else none) := by
  unfold hashmap_get
  rw [List.lookup_append]
  congr 1
  by_cases e : n = s
  · subst e
    simp [List.lookup]
  · have e2 : (n == s) = false := by simp [e]
    rw [if_neg e]
    simp [List.lookup, e2]

/-- A call of `unit_add_name` that returns keeps the names consistent and the
types that are set; it sets a type only when it succeeds on a unit without
type, to the type of the name it registers. -/
theorem unit_add_name_step (env : Env) (oom : Nat → Bool) (m m1 : Manager) (u : UnitId)
    (text : String) (r : Int) (hc : m.names_consistent env)
    (h : unit_add_name env oom m u text = some (r, m1)) :
    m1.names_consistent env ∧
    (∀ x, (m.unit x).type ≠ none → (m1.unit x).type = (m.unit x).type) ∧
    (∀ x, (m.unit x).type = none → (x = u → r < 0) → (m1.unit x).type = none) ∧
    ((m.unit u).type = none → ¬ r < 0 →
      ∃ s, unit_add_name_resolve env oom m u text = .ok s ∧
        (m1.unit u).type = env.unit_name_to_type s ∧ (m1.unit u).type ≠ none) := by
  obtain ⟨hv, hx, hu⟩ := unit_add_name_spec env oom m m1 u text r h
  rcases hu with ⟨a, b, c, d⟩ | ⟨s, t, hs, hns, hg, hts, htt, a, b, c, d⟩
  · refine ⟨?_, ?_, ?_, ?_⟩
    · intro x n hn
      have hget : manager_get_unit m1 n = manager_get_unit m n := by
        unfold manager_get_unit; rw [c]
      by_cases e : x = u
      · subst e
        rw [b, hget]
        exact hc x n ((a n).1 hn)
      · rw [(hx x e).1] at hn
        rw [(hx x e).2, hget]
        exact hc x n hn
    · intro x _
      by_cases e : x = u
      · subst e; exact b
      · exact (hx x e).2
    · intro x h0 _
      by_cases e : x = u
      · subst e; rw [b]; exact h0
      · rw [(hx x e).2]; exact h0
    · intro h0 hr
      obtain ⟨s, hs, hm⟩ := d hr
      exact absurd h0 (hc u s hm).1
  · have hget : ∀ n, manager_get_unit m1 n =
        (manager_get_unit m n).or (if n = s then some u else none) := by
      intro n
      unfold manager_get_unit
      rw [c, hashmap_get_append]
    refine ⟨?_, ?_, ?_, ?_⟩
    · intro x n hn
      by_cases e : x = u
      · subst e
        rw [b]
        refine ⟨(fun q => by cases q), ?_, ?_⟩
        · rcases (a n).1 hn with hn | hn
          · have k := hc x n hn
            rcases htt with q | q
            · exact absurd q k.1
            · rw [k.2.1, q]
          · rw [hn]; exact hts
        · rw [hget]
          rcases (a n).1 hn with hn | hn
          · rw [(hc x n hn).2.2]; rfl
          · rw [hn]
            unfold manager_get_unit
            rw [hg, if_pos rfl]; rfl
      · rw [(hx x e).1] at hn
        rw [(hx x e).2, hget, (hc x n hn).2.2]
        exact ⟨(hc x n hn).1, (hc x n hn).2.1, rfl⟩
    · intro x h0
      by_cases e : x = u
      · subst e
        rw [b]
        rcases htt with q | q
        · exact absurd q h0
        · exact q.symm
      · exact (hx x e).2
    · intro x h0 hr
      by_cases e : x = u
      · have := hr e
        rw [d] at this
        exact absurd this (by decide)
      · rw [(hx x e).2]; exact h0
    · intro _ _
      exact ⟨s, hs, (by rw [b, hts]), (by rw [b]; exact fun q => by cases q)⟩

/-- A call of `unit_merge` that fails, or whose `other` is `u` itself after
the merge links are followed, changes nothing. -/
theorem unit_merge_unchanged (env : Env) (oom : Nat → Bool) (m m1 : Manager) (u other : UnitId)
    (r : Int) (h : unit_merge env oom m u other = some (r, m1))
    (hr : r < 0 ∨ unit_follow_merge m other = some u) : m1 = m := by
  have same : ∀ e : Int, some (e, m) = some (r, m1) → m1 = m := by
    intro e hh
    simp only [Option.some.injEq, Prod.mk.injEq] at hh
    exact hh.2.symm
  unfold unit_merge at h
  by_cases hv : m.valid u
  · rw [if_pos hv] at h
    cases hut : (m.unit u).type with
    | none => simp only [hut] at h; cases h
    | some ut =>
      simp only [hut] at h
      cases ho : unit_follow_merge m other with
      | none => simp only [ho] at h; cases h
      | some o =>
        simp only [ho] at h
        by_cases hne : o = u
        · rw [if_pos hne] at h; exact same _ h
        rw [if_neg hne] at h
        have hr : r < 0 := by
          rcases hr with q | q
          · exact q
          · rw [ho] at q
            exact absurd (Option.some.inj q) hne
        by_cases c1 : some ut ≠ (m.unit o).type
        · rw [if_pos c1] at h; exact same _ h
        rw [if_neg c1] at h
        by_cases c2 : (m.unit u).inst.isNone ≠ (m.unit o).inst.isNone
        · rw [if_pos c2] at h; exact same _ h
        rw [if_neg c2] at h
        by_cases c3 : env.unit_type_may_alias ut = false
        · rw [if_pos c3] at h; exact same _ h
        rw [if_neg c3] at h
        by_cases c4 : (m.unit o).load_state ≠ .stub ∧ (m.unit o).load_state ≠ .not_found
        · rw [if_pos c4] at h; exact same _ h
        rw [if_neg c4] at h
        by_cases c5 : (m.unit o).job.isSome = true
        · rw [if_pos c5] at h; exact same _ h
        rw [if_neg c5] at h
        by_cases c6 : (m.unit o).nop_job.isSome = true
        · rw [if_pos c6] at h; exact same _ h
        rw [if_neg c6] at h
        cases hst : unit_active_state env m o with
        | none => simp only [hst] at h; cases h
        | some st =>
          simp only [hst] at h
          by_cases c7 : UNIT_IS_INACTIVE_OR_FAILED st = false
          · rw [if_pos c7] at h; exact same _ h
          rw [if_neg c7] at h
          by_cases c8 : reserve_loop oom m u o UnitDependency.all 0 < 0
          · rw [if_pos c8] at h; exact same _ h
          rw [if_neg c8] at h
          unfold unit_merge_commit at h
          have hvo := (unit_follow_merge_valid m other o ho).1
          cases hmn : merge_names (oom 22) m u o with
          | none => simp only [hmn] at h; cases h
          | some p =>
            obtain ⟨r1, m2⟩ := p
            simp only [hmn] at h
            by_cases c9 : r1 < 0
            · rw [if_pos c9] at h
              simp only [Option.some.injEq, Prod.mk.injEq] at h
              rw [← h.2]
              exact (merge_names_spec (oom 22) m m2 u o r1 (fun e => hne e.symm) hv hvo hmn).1 c9
            · rw [if_neg c9] at h
              simp only [Option.bind_eq_some, Option.map_eq_some'] at h
              obtain ⟨_, _, _, _, _, _, _, _, h9⟩ := h
              simp only [Prod.mk.injEq] at h9
              rw [← h9.1] at hr
              exact absurd hr (by decide)
  · rw [if_neg hv] at h; cases h

/-- A call of `unit_merge` that returns keeps the names consistent and changes
no type. -/
theorem unit_merge_step (env : Env) (oom : Nat → Bool) (m m1 : Manager) (u other : UnitId)
    (r : Int) (hc : m.names_consistent env)
    (h : unit_merge env oom m u other = some (r, m1)) :
    m1.names_consistent env ∧ (∀ x, (m1.unit x).type = (m.unit x).type) := by
  have hsome : ∃ o, unit_follow_merge m other = some o := by
    unfold unit_merge at h
    by_cases hv : m.valid u
    · rw [if_pos hv] at h
      cases hut : (m.unit u).type with
      | none => simp only [hut] at h; cases h
      | some ut =>
        simp only [hut] at h
        cases ho : unit_follow_merge m other with
        | none => simp only [ho] at h; cases h
        | some o => exact ⟨o, rfl⟩
    · rw [if_neg hv] at h; cases h
  obtain ⟨o, ho⟩ := hsome
  by_cases hun : r < 0 ∨ o = u
  · have e : m1 = m := unit_merge_unchanged env oom m m1 u other r h
      (hun.elim Or.inl (fun q => Or.inr (q ▸ ho)))
    rw [e]
    exact ⟨hc, fun _ => rfl⟩
  · have hr : ¬ r < 0 := fun q => hun (Or.inl q)
    have hne : o ≠ u := fun q => hun (Or.inr q)
    obtain ⟨_, _, _, hty, hty0, _⟩ := unit_merge_steps env oom m m1 u other o r h hr ho hne
    obtain ⟨_, ht, _, _, hx, hu, ho1, hg⟩ := unit_merge_ident env oom m m1 u other o r h hr ho hne
    refine ⟨?_, ht⟩
    intro x n hn
    rw [ht, hg]
    by_cases e : x = u
    · subst e
      rw [if_pos hn]
      rcases (hu n).1 hn with q | q
      · exact ⟨(hc x n q).1, (hc x n q).2.1, rfl⟩
      · exact ⟨hty0, by rw [(hc o n q).2.1, hty], rfl⟩
    · by_cases e2 : x = o
      · subst e2
        rw [ho1.1] at hn
        exact absurd hn (List.not_mem_nil n)
      · rw [hx x e e2] at hn
        have k := hc x n hn
        have : n ∉ (m1.unit u).names := by
          intro q
          rcases (hu n).1 q with q | q
          · have := (hc u n q).2.2
            rw [k.2.2] at this
            exact e (Option.some.inj this)
          · have := (hc o n q).2.2
            rw [k.2.2] at this
            exact e2 (Option.some.inj this)
        rw [if_neg this]
        exact k

theorem NameCall.run_step (env : Env) (m m1 : Manager) (c : NameCall) (r : Int)
    (hc : m.names_consistent env) (h : c.run env m = some (r, m1)) :
    m1.names_consistent env ∧
    (∀ x, (m.unit x).type ≠ none → (m1.unit x).type = (m.unit x).type) ∧
    (∀ x, (m.unit x).type = none → (c.adds_name_to x = true → r < 0) →
      (m1.unit x).type = none) := by
  cases c with
  | add_name u text oom =>
    obtain ⟨a, b, c, _⟩ := unit_add_name_step env oom m m1 u text r hc h
    refine ⟨a, b, fun x h0 hr => c x h0 (fun e => hr ?_)⟩
    unfold NameCall.adds_name_to
    exact decide_eq_true e.symm
  | merge u other oom =>
    obtain ⟨a, b⟩ := unit_merge_step env oom m m1 u other r hc h
    exact ⟨a, fun x _ => b x, fun x h0 _ => by rw [b x]; exact h0⟩

theorem run_name_calls_spec (env : Env) (cs : List NameCall) :
    ∀ (m0 m : Manager), m0.names_consistent env → run_name_calls env m0 cs = some m →
    m.names_consistent env ∧
    (∀ x, (m0.unit x).type ≠ none → (m.unit x).type = (m0.unit x).type) ∧
    (∀ x, (m0.unit x).type = none → no_name_added env x m0 cs = true → (m.unit x).type = none) := by
  induction cs with
  | nil =>
    intro m0 m hc h
    unfold run_name_calls at h
    simp only [Option.some.injEq] at h
    subst h
    exact ⟨hc, fun _ _ => rfl, fun _ h0 _ => h0⟩
  | cons c cs ih =>
    intro m0 m hc h
    unfold run_name_calls at h
    cases hrun : c.run env m0 with
    | none => simp only [hrun] at h; cases h
    | some p =>
      obtain ⟨r, m1⟩ := p
      simp only [hrun] at h
      obtain ⟨a, b, d⟩ := NameCall.run_step env m0 m1 c r hc hrun
      obtain ⟨a2, b2, d2⟩ := ih m1 m a h
      refine ⟨a2, ?_, ?_⟩
      · intro x h0
        rw [← b x h0]
        apply b2
        rw [b x h0]
        exact h0
      · intro x h0 hn
        unfold no_name_added at hn
        simp only [hrun, Bool.and_eq_true, Bool.or_eq_true, Bool.not_eq_true',
          decide_eq_true_eq] at hn
        refine d2 x (d x h0 (fun q => ?_)) hn.2
        rcases hn.1 with w | w
        · rw [q] at w; cases w
        · exact w

/-- Claim C6. From a state in which every name of every unit has the type of
the unit and is mapped to the unit by the registry, after every sequence of
calls of `unit_add_name` and `unit_merge` that return (successfully or not,
on any units, with any allocation failures): the names are consistent in this
sense again; every unit that had a type still has this type; and for a unit
`u` that had no type, when no call of the sequence was a successful
`unit_add_name` on `u`, a `unit_add_name` on `u` that succeeds now, the first
successful one, sets the type of `u` to the type of the name it registers. -/
theorem unit_type_fixed_and_names_consistent (env : Env) (m0 m : Manager) (cs : List NameCall)
    (h0 : m0.names_consistent env) (hrun : run_name_calls env m0 cs = some m) :
    m.names_consistent env ∧
    (∀ x, (m0.unit x).type ≠ none → (m.unit x).type = (m0.unit x).type) ∧
    (∀ u text oom r m1, (m0.unit u).type = none → no_name_added env u m0 cs = true →
      unit_add_name env oom m u text = some (r, m1) → ¬ r < 0 →
      ∃ s, unit_add_name_resolve env oom m u text = .ok s ∧
        (m1.unit u).type = env.unit_name_to_type s ∧ (m1.unit u).type ≠ none) := by
  obtain ⟨a, b, c⟩ := run_name_calls_spec env cs m0 m h0 hrun
  refine ⟨a, b, ?_⟩
  intro u text oom r m1 hu hn h hr
  exact (unit_add_name_step env oom m m1 u text r a h).2.2.2 (c u hu hn) hr

set_option maxRecDepth 100000 in
/-- An instance of C6: the calls `name_calls` on `names_fresh` leave
`names_merged`, whose names are consistent; unit 0 keeps its type; and the
registration of `d.mount` on unit 2, the first that succeeds on this unit,
gives it the type of `d.mount`. -/
theorem unit_type_fixed_and_names_consistent_witness :
    names_fresh.names_consistent env0 ∧
    run_name_calls env0 names_fresh name_calls = some names_merged ∧
    names_merged.names_consistent env0 ∧
    (names_merged.unit 0).type = (names_fresh.unit 0).type ∧
    ∃ s, unit_add_name_resolve env0 no_oom names_merged 2 "d.mount" = .ok s ∧
      ((state_after names_merged (unit_add_name env0 no_oom names_merged 2 "d.mount")).unit 2).type
        = env0.unit_name_to_type s ∧
      ((state_after names_merged (unit_add_name env0 no_oom names_merged 2 "d.mount")).unit 2).type
        ≠ none :=
  have h0 := names_consistent_of_heap env0 names_fresh (by decide)
  have hrun : run_name_calls env0 names_fresh name_calls = some names_merged := by decide
  have T := unit_type_fixed_and_names_consistent env0 names_fresh names_merged name_calls h0 hrun
  ⟨h0, hrun, T.1, T.2.1 0 (by decide),
    T.2.2 2 "d.mount" no_oom 0
      (state_after names_merged (unit_add_name env0 no_oom names_merged 2 "d.mount"))
      (by decide) (by decide) (by decide) (by decide)⟩

/-! ## Jobs: claims C14 to C16 -/

/-- C14. For every manager state, every unit whose `allow_isolate` flag is
false and every job type, `manager_add_job` with mode isolate returns the
error that `sd_bus_error_setf` makes of the name no-isolation when the type is
start and of the name invalid-arguments when it is not; the transaction
engine and the allocation oracle have no part in the result, and the whole
manager state, with its job table and the job fields of all units, is
unchanged. -/
theorem manager_add_job_isolate_refused (jenv : JobEnv) (oom : Nat → Bool) (m : Manager)
    (type : JobType) (unit : UnitId) (hv : m.valid unit)
    (ha : (m.unit unit).allow_isolate = false) :
    manager_add_job jenv oom m type unit .isolate =
      some ({ r := jenv.sd_bus_error_setf (if type = .start then .no_isolation else .invalid_args),
              e := some (if type = .start then .no_isolation else .invalid_args) }, m) := by
  unfold manager_add_job
  rw [if_pos hv]
  by_cases ht : type = .start
  · rw [if_neg (fun h => h.2 ht), if_pos ⟨rfl, ha⟩, if_pos ht]
  · rw [if_pos ⟨rfl, ht⟩, if_neg ht]

/-- An instance of C14: a start job and a stop job in mode isolate on
`a.service` of `registry3`, which does not allow isolation. -/
theorem manager_add_job_isolate_refused_witness :
    manager_add_job jenv0 no_oom registry3 .start 0 .isolate =
      some ({ r := -1, e := some .no_isolation }, registry3) ∧
    manager_add_job jenv0 no_oom registry3 .stop 0 .isolate =
      some ({ r := -EINVAL, e := some .invalid_args }, registry3) :=
  ⟨manager_add_job_isolate_refused jenv0 no_oom registry3 .start 0 (by decide) (by decide),
   manager_add_job_isolate_refused jenv0 no_oom registry3 .stop 0 (by decide) (by decide)⟩

theorem finished_append (a b : List Call) (j : Nat) :
    finished (a ++ b) j = finished a j ++ finished b j := by
  unfold finished
  rw [List.filterMap_append]

theorem finished_retroactive (m : Manager) (u : UnitId) (os ns : UnitActiveState) (x : Bool)
    (j : Nat) : finished (unit_notify_retroactive m u os ns x) j = [] := by
  unfold unit_notify_retroactive
  split_ifs <;> rfl

theorem finished_special (s : List Call × Manager) (u : UnitId) (os ns : UnitActiveState)
    (j : Nat) : finished (unit_notify_special s u os ns).1 j = finished s.1 j := by
  unfold unit_notify_special
  dsimp only
  split_ifs <;> simp only [finished_append, List.append_nil, List.append_assoc] <;>
    first
    | rfl
    | (simp [finished])

theorem job_modify (m : Manager) (u : UnitId) (f : Unit → Unit) (hf : ∀ x, (f x).job = x.job)
    (y : UnitId) : ((m.modify u f).unit y).job = (m.unit y).job := by
  rw [unit_modify]
  by_cases h : m.valid u ∧ y = u
  · rw [if_pos h, hf, h.2]
  · rw [if_neg h]

theorem unit_notify_timestamps_frame (now : dual_timestamp) (m : Manager) (u : UnitId)
    (os ns : UnitActiveState) :
    (m.same_ident (unit_notify_timestamps now m u os ns) ∧
      m.same_deps (unit_notify_timestamps now m u os ns)) ∧
    (unit_notify_timestamps now m u os ns).job_heap = m.job_heap ∧
    ∀ y, ((unit_notify_timestamps now m u os ns).unit y).job = (m.unit y).job := by
  unfold unit_notify_timestamps
  by_cases hr : MANAGER_IS_RELOADING m = true
  · rw [if_pos hr]
    exact ⟨frame_refl m, rfl, fun _ => rfl⟩
  rw [if_neg hr]
  dsimp only
  have s1 : ∀ (a : Manager) (f : Unit → Unit),
      (∀ x, ((f x).ident = x.ident ∧ (f x).dependencies = x.dependencies) ∧ (f x).job = x.job) →
      ((m.same_ident a ∧ m.same_deps a) ∧ a.job_heap = m.job_heap ∧
        ∀ y, (a.unit y).job = (m.unit y).job) →
      ((m.same_ident (a.modify u f) ∧ m.same_deps (a.modify u f)) ∧
        (a.modify u f).job_heap = m.job_heap ∧
        ∀ y, ((a.modify u f).unit y).job = (m.unit y).job) := by
    intro a f hf ha
    refine ⟨frame_trans ha.1 (frame_modify a u f (fun x => (hf x).1)), ha.2.1, fun y => ?_⟩
    rw [job_modify a u f (fun x => (hf x).2), ha.2.2]
  have k0 : (m.same_ident m ∧ m.same_deps m) ∧ m.job_heap = m.job_heap ∧
      ∀ y, (m.unit y).job = (m.unit y).job := ⟨frame_refl m, rfl, fun _ => rfl⟩
  have k1 := s1 m (fun x => { x with state_change_timestamp := now })
    (fun _ => ⟨⟨rfl, rfl⟩, rfl⟩) k0
  split_ifs
  all_goals first
    | exact k1
    | exact s1 _ _ (fun _ => ⟨⟨rfl, rfl⟩, rfl⟩) k1
    | exact s1 _ _ (fun _ => ⟨⟨rfl, rfl⟩, rfl⟩) (s1 _ _ (fun _ => ⟨⟨rfl, rfl⟩, rfl⟩) k1)

theorem unit_notify_console_frame (jenv : JobEnv) (m : Manager) (u : UnitId)
    (os ns : UnitActiveState) :
    (unit_notify_console jenv m u os ns).heap = m.heap ∧
    (unit_notify_console jenv m u os ns).units = m.units ∧
    (unit_notify_console jenv m u os ns).job_heap = m.job_heap := by
  unfold unit_notify_console
  split_ifs <;> exact ⟨rfl, rfl, rfl⟩

theorem same_ident_of_heap {m m' : Manager} (h1 : m'.heap = m.heap) (h2 : m'.units = m.units) :
    m.same_ident m' ∧ m.same_deps m' :=
  ⟨⟨h2, by rw [h1], fun x => by rw [unit_eq_of_heap h1]⟩, fun x => by rw [unit_eq_of_heap h1]⟩

theorem unit_add_to_dbus_queue_some (m : Manager) (u : UnitId) (ht : (m.unit u).type ≠ none) :
    ∃ m', unit_add_to_dbus_queue m u = some m' := by
  unfold unit_add_to_dbus_queue
  rw [if_neg ht]
  split_ifs <;> exact ⟨_, rfl⟩

theorem unit_check_gc_some (env : Env) (m : Manager) (u : UnitId) (hv : m.valid u)
    (ht : (m.unit u).type ≠ none) (hl : (m.unit u).load_state ≠ .merged) :
    ∃ b m', unit_check_gc env m u = some (b, m') := by
  unfold unit_check_gc
  rw [if_pos hv]
  by_cases h1 : (m.unit u).job.isSome = true
  · rw [if_pos h1]; exact ⟨_, _, rfl⟩
  rw [if_neg h1]
  by_cases h2 : (m.unit u).nop_job.isSome = true
  · rw [if_pos h2]; exact ⟨_, _, rfl⟩
  rw [if_neg h2]
  obtain ⟨t, ht'⟩ := Option.ne_none_iff_exists'.mp ht
  have ha : unit_active_state env m u = some ((env.unit_vtable t).active_state (m.unit u).data) := by
    unfold unit_active_state
    rw [unit_follow_merge_self m u hv hl]
    simp only [ht']
  rw [ha]
  dsimp only
  obtain ⟨m1, hm1⟩ := unit_release_resources_some env m u t
    ((env.unit_vtable t).active_state (m.unit u).data) ht'
  rw [hm1]
  dsimp only
  have ht1 : (m1.unit u).type = some t := by
    have := (frame_release_resources env m m1 u _ hm1).1.2.2 u
    rw [← ht', (ident_fields this).2.2.2.1]
  split_ifs
  · exact ⟨_, _, rfl⟩
  · exact ⟨_, _, rfl⟩
  · exact ⟨_, _, rfl⟩
  · exact ⟨_, _, rfl⟩
  · unfold unit_check_gc_hook
    simp only [ht1]
    cases (env.unit_vtable t).check_gc <;> exact ⟨_, _, rfl⟩

theorem unit_add_to_gc_queue_some (env : Env) (m : Manager) (u : UnitId) (hv : m.valid u)
    (ht : (m.unit u).type ≠ none) (hl : (m.unit u).load_state ≠ .merged) :
    ∃ m', unit_add_to_gc_queue env m u = some m' := by
  unfold unit_add_to_gc_queue
  split_ifs
  · exact ⟨_, rfl⟩
  · obtain ⟨b, m1, h⟩ := unit_check_gc_some env m u hv ht hl
    rw [h]
    cases b <;> exact ⟨_, rfl⟩

theorem frame_job_finish (m : Manager) (u : UnitId) (j : Nat) :
    m.same_ident (job_finish_and_invalidate m u j) ∧
      m.same_deps (job_finish_and_invalidate m u j) :=
  frame_modify_heap m _ u (fun x => { x with job := none }) rfl rfl (fun _ => ⟨rfl, rfl⟩)

theorem unit_notify_switch_some (s : List Call × Manager) (u : UnitId) (j : Nat) (type : JobType)
    (state : JobState) (ns : UnitActiveState) (rs : Bool) (hn : type ≠ .nop) :
    ∃ x s', unit_notify_switch s u j type state ns rs = some (x, s') ∧
      (s.2.same_ident s'.2 ∧ s.2.same_deps s'.2) := by
  have f0 := frame_refl s.2
  have f1 := frame_job_finish s.2 u j
  unfold unit_notify_switch
  cases type
  case nop => exact absurd rfl hn
  all_goals
    dsimp only
    split_ifs
    all_goals first
      | exact ⟨_, _, rfl, f0⟩
      | exact ⟨_, _, rfl, f1⟩

theorem frame_unit_notify_special (s : List Call × Manager) (u : UnitId)
    (os ns : UnitActiveState) :
    s.2.same_ident (unit_notify_special s u os ns).2 ∧
      s.2.same_deps (unit_notify_special s u os ns).2 := by
  unfold unit_notify_special
  dsimp only
  split_ifs
  all_goals first
    | exact frame_refl _
    | exact frame_modify _ _ _ (fun _ => ⟨rfl, rfl⟩)

/-- A call of `unit_notify` on a unit with a job returns, and the record of
its calls finishes the job as the `switch` on the job type does. -/
theorem unit_notify_finished (env : Env) (jenv : JobEnv) (now : dual_timestamp) (m : Manager)
    (u : UnitId) (os ns : UnitActiveState) (rs : Bool) (j : Nat) (job : Job)
    (hv : m.valid u) (ht : (m.unit u).type ≠ none) (hl : (m.unit u).load_state ≠ .merged)
    (hj : (m.unit u).job = some j) (hjob : m.job j = some job) (hn : job.type ≠ .nop) :
    ∃ calls m' pre m2 x s', unit_notify env jenv now m u os ns rs = some (calls, m') ∧
      unit_notify_switch (pre, m2) u j job.type job.state ns rs = some (x, s') ∧
      finished pre j = [] ∧ finished calls j = finished s'.1 j := by
  obtain ⟨fT, hT1, hT2⟩ := unit_notify_timestamps_frame now m u os ns
  obtain ⟨hC1, hC2, hC3⟩ := unit_notify_console_frame jenv (unit_notify_timestamps now m u os ns) u os ns
  have fC := same_ident_of_heap hC1 hC2
  have f2 := frame_trans fT fC
  have hj2 : ((unit_notify_console jenv (unit_notify_timestamps now m u os ns) u os ns).unit u).job
      = some j := by
    rw [unit_eq_of_heap hC1, hT2, hj]
  have hjob2 : (unit_notify_console jenv (unit_notify_timestamps now m u os ns) u os ns).job j
      = some job := by
    unfold Manager.job at hjob ⊢
    rw [hC3, hT1, hjob]
  unfold unit_notify
  rw [if_pos hv]
  dsimp only
  generalize unit_notify_console jenv (unit_notify_timestamps now m u os ns) u os ns = m2
    at hj2 hjob2 f2
  generalize hc1 : ([Call.manager_update_failed_units u (decide (ns = .failed))] ++
      (if UNIT_IS_INACTIVE_OR_FAILED ns = true then [Call.unit_prune_cgroup u] else [])) = c1
  have hfc1 : finished c1 j = [] := by
    rw [← hc1]
    split_ifs <;> rfl
  unfold unit_notify_job
  dsimp only
  rw [hj2]
  dsimp only
  rw [hjob2]
  dsimp only
  generalize hs1 : (if job.state = .waiting then (c1 ++ [Call.job_add_to_run_queue j], m2)
      else (c1, m2)) = s1
  have hs1f : finished s1.1 j = [] ∧ s1.2 = m2 := by
    rw [← hs1]
    split_ifs
    · refine ⟨?_, rfl⟩
      show finished (c1 ++ _) j = []
      rw [finished_append, hfc1]; rfl
    · exact ⟨hfc1, rfl⟩
  obtain ⟨x, s', hsw, fsw⟩ := unit_notify_switch_some s1 u j job.type job.state ns rs hn
  rw [hsw, Option.some_bind]
  dsimp only
  have f3 : m.same_ident s'.2 ∧ m.same_deps s'.2 := by
    have := frame_trans f2 (hs1f.2 ▸ fsw)
    exact this
  generalize hs3 : ((s'.1 ++ unit_notify_retroactive s'.2 u os ns x, s'.2) : List Call × Manager)
    = s3
  have hs3f : finished s3.1 j = finished s'.1 j ∧ s3.2 = s'.2 := by
    rw [← hs3]
    refine ⟨?_, rfl⟩
    show finished (s'.1 ++ _) j = _
    rw [finished_append, finished_retroactive, List.append_nil]
  have f4 : m.same_ident (unit_notify_special s3 u os ns).2 ∧
      m.same_deps (unit_notify_special s3 u os ns).2 :=
    frame_trans (hs3f.2 ▸ f3) (frame_unit_notify_special s3 u os ns)
  have h4f := finished_special s3 u os ns j
  generalize unit_notify_special s3 u os ns = s4 at f4 h4f
  have t4 : (s4.2.unit u).type ≠ none := by
    rw [(ident_fields (f4.1.2.2 u)).2.2.2.1]; exact ht
  obtain ⟨m6, h6⟩ := unit_add_to_dbus_queue_some s4.2 u t4
  rw [h6, Option.some_bind]
  have f6 := frame_trans f4 (frame_dbus_queue s4.2 m6 u h6)
  have i6 := ident_fields (f6.1.2.2 u)
  obtain ⟨m7, h7⟩ := unit_add_to_gc_queue_some env m6 u ((valid_of_same_ident f6.1 u).2 hv)
    (by rw [i6.2.2.2.1]; exact ht) (by rw [i6.2.2.2.2.1]; exact hl)
  rw [h7]
  refine ⟨_, _, s1.1, s1.2, x, s', rfl, hsw, hs1f.1, ?_⟩
  show finished (s4.1 ++ _) j = _
  rw [finished_append, h4f, hs3f.1]
  have : finished ([Call.manager_recheck_journal, Call.unit_trigger_notify u] ++
      (if MANAGER_IS_RELOADING s4.2 = false then
        [Call.unit_check_unneeded u, Call.unit_check_binds_to u] else [])) j = [] := by
    split_ifs <;> rfl
  rw [this, List.append_nil]

/-- C15 (amended). For every unit with a running Start or Verify-Active job,
a call of `unit_notify` with a new state `ns` that is inactive or failed
returns and finishes the job, once: with result failed when `ns` is failed,
and with result done when `ns` is inactive. -/
theorem unit_notify_running_start_job (env : Env) (jenv : JobEnv) (now : dual_timestamp)
    (m : Manager) (u : UnitId) (os ns : UnitActiveState) (rs : Bool) (j : Nat) (job : Job)
    (hv : m.valid u) (ht : (m.unit u).type ≠ none) (hl : (m.unit u).load_state ≠ .merged)
    (hj : (m.unit u).job = some j) (hjob : m.job j = some job)
    (hty : job.type = .start ∨ job.type = .verify_active) (hst : job.state = .running)
    (hns : ns = .inactive ∨ ns = .failed) :
    ∃ calls m', unit_notify env jenv now m u os ns rs = some (calls, m') ∧
      finished calls j = [if ns = .failed then JobResult.failed else JobResult.done] := by
  have hn : job.type ≠ .nop := by
    rcases hty with h | h <;> rw [h] <;> decide
  obtain ⟨calls, m', pre, m2, x, s', h1, h2, h3, h4⟩ :=
    unit_notify_finished env jenv now m u os ns rs j job hv ht hl hj hjob hn
  refine ⟨calls, m', h1, ?_⟩
  rw [h4]
  have e : s'.1 = pre ++ [Call.job_finish_and_invalidate j
      (if ns = .failed then JobResult.failed else JobResult.done) true false] := by
    unfold unit_notify_switch at h2
    rw [hst] at h2
    rcases hty with h | h <;> rcases hns with k | k <;> rw [h, k] at h2 <;>
      simp [UNIT_IS_ACTIVE_OR_RELOADING, UNIT_IS_INACTIVE_OR_FAILED, unit_notify_finish] at h2 <;>
      rw [← h2.2, k] <;> rfl
  rw [e, finished_append, h3]
  simp [finished]

/-- An instance of C15 (amended): `a.service` of `notify_jobs` fails while its
start job runs. -/
theorem unit_notify_running_start_job_witness :
    ∃ calls m', unit_notify env0 jenv0 {} notify_jobs 0 .activating .failed true =
        some (calls, m') ∧
      finished calls 0 = [if UnitActiveState.failed = .failed then JobResult.failed
        else JobResult.done] :=
  unit_notify_running_start_job env0 jenv0 {} notify_jobs 0 .activating .failed true 0
    { id := 1, unit := 0, type := .start, state := .running }
    (by decide) (by decide) (by decide) (by decide) (by decide) (by decide) (by decide)
    (by decide)

/-- C15 as stated fails: `a.service` of `notify_jobs` has a running start job;
when it becomes inactive, `unit_notify` finishes the job with result done, not
with result failed. -/
theorem unit_notify_inactive_finishes_done :
    (notify_jobs.unit 0).job = some 0 ∧
    notify_jobs.job 0 = some { id := 1, unit := 0, type := .start, state := .running } ∧
    finished (calls_of (unit_notify env0 jenv0 {} notify_jobs 0 .activating .inactive true)) 0
      = [.done] := by
  refine ⟨?_, ?_, ?_⟩ <;> decide

/-- C16. For every unit with a job, a call of `unit_notify` returns and
finishes the job, once, with result done whenever the job is Start or
Verify-Active and the new state `ns` is active or reloading, and whenever the
job is Stop, Restart or Try-Restart and `ns` is inactive or failed, whatever
the state of the job (waiting or running); it finishes a running Stop, Restart
or Try-Restart job with result failed when `ns` is neither inactive, failed
nor deactivating. -/
theorem unit_notify_finishes_job (env : Env) (jenv : JobEnv) (now : dual_timestamp)
    (m : Manager) (u : UnitId) (os ns : UnitActiveState) (rs : Bool) (j : Nat) (job : Job)
    (hv : m.valid u) (ht : (m.unit u).type ≠ none) (hl : (m.unit u).load_state ≠ .merged)
    (hj : (m.unit u).job = some j) (hjob : m.job j = some job) :
    ((((job.type = .start ∨ job.type = .verify_active) ∧ (ns = .active ∨ ns = .reloading)) ∨
        ((job.type = .stop ∨ job.type = .restart ∨ job.type = .try_restart) ∧
          (ns = .inactive ∨ ns = .failed))) →
      ∃ calls m', unit_notify env jenv now m u os ns rs = some (calls, m') ∧
        finished calls j = [.done]) ∧
    ((job.type = .stop ∨ job.type = .restart ∨ job.type = .try_restart) ∧
        job.state = .running ∧ ns ≠ .inactive ∧ ns ≠ .failed ∧ ns ≠ .deactivating →
      ∃ calls m', unit_notify env jenv now m u os ns rs = some (calls, m') ∧
        finished calls j = [.failed]) := by
  have main : ∀ res : JobResult, job.type ≠ .nop →
      (∀ pre m2 x s', unit_notify_switch (pre, m2) u j job.type job.state ns rs = some (x, s') →
        s'.1 = pre ++ [Call.job_finish_and_invalidate j res true false]) →
      ∃ calls m', unit_notify env jenv now m u os ns rs = some (calls, m') ∧
        finished calls j = [res] := by
    intro res hn hsw
    obtain ⟨calls, m', pre, m2, x, s', h1, h2, h3, h4⟩ :=
      unit_notify_finished env jenv now m u os ns rs j job hv ht hl hj hjob hn
    refine ⟨calls, m', h1, ?_⟩
    rw [h4, hsw pre m2 x s' h2, finished_append, h3]
    simp [finished]
  constructor
  · intro h
    rcases h with ⟨hty, hns⟩ | ⟨hty, hns⟩
    · refine main .done (by rcases hty with h | h <;> rw [h] <;> decide) ?_
      intro pre m2 x s' h2
      unfold unit_notify_switch at h2
      rcases hty with h | h <;> rcases hns with k | k <;> rw [h, k] at h2 <;>
        simp [UNIT_IS_ACTIVE_OR_RELOADING, unit_notify_finish] at h2 <;>
        rw [← h2.2]
    · refine main .done (by rcases hty with h | h | h <;> rw [h] <;> decide) ?_
      intro pre m2 x s' h2
      unfold unit_notify_switch at h2
      rcases hty with h | h | h <;> rcases hns with k | k <;> rw [h, k] at h2 <;>
        simp [UNIT_IS_INACTIVE_OR_FAILED, unit_notify_finish] at h2 <;>
        rw [← h2.2]
  · rintro ⟨hty, hst, n1, n2, n3⟩
    refine main .failed (by rcases hty with h | h | h <;> rw [h] <;> decide) ?_
    intro pre m2 x s' h2
    have hif : UNIT_IS_INACTIVE_OR_FAILED ns = false := by
      cases ns
      all_goals first
        | rfl
        | exact absurd rfl n1
        | exact absurd rfl n2
    unfold unit_notify_switch at h2
    rcases hty with h | h | h <;> rw [h, hst] at h2 <;>
      simp [hif, n3, unit_notify_finish] at h2 <;>
      rw [← h2.2]

/-- An instance of C16: `b.service` of `notify_jobs` becomes inactive while its
stop job still waits; `a.service` becomes active while its start job runs. -/
theorem unit_notify_finishes_job_witness :
    (∃ calls m', unit_notify env0 jenv0 {} notify_jobs 1 .deactivating .inactive true =
        some (calls, m') ∧ finished calls 1 = [.done]) ∧
    (∃ calls m', unit_notify env0 jenv0 {} notify_jobs 0 .activating .active true =
        some (calls, m') ∧ finished calls 0 = [.done]) :=
  ⟨(unit_notify_finishes_job env0 jenv0 {} notify_jobs 1 .deactivating .inactive true 1
      { id := 2, unit := 1, type := .stop, state := .waiting }
      (by decide) (by decide) (by decide) (by decide) (by decide)).1
      (Or.inr ⟨Or.inl rfl, Or.inl rfl⟩),
   (unit_notify_finishes_job env0 jenv0 {} notify_jobs 0 .activating .active true 0
      { id := 1, unit := 0, type := .start, state := .running }
      (by decide) (by decide) (by decide) (by decide) (by decide)).1
      (Or.inl ⟨Or.inl rfl, Or.inl rfl⟩)⟩

/-! ## Default dependencies on targets: claim C19 -/

theorem type_setDeps (m : Manager) (u : UnitId) (k : UnitDependency) (s : List UnitId)
    (y : UnitId) : ((m.setDeps u k s).unit y).type = (m.unit y).type :=
  (ident_fields ((same_ident_setDeps m u k s).2.2 y)).2.2.2.1

theorem set_put_cases (oom : Bool) (s : List UnitId) (x : UnitId) :
    (set_put oom s x).1 = 0 ∨ (set_put oom s x).1 = 1 ∨
      ((set_put oom s x).1 = -ENOMEM ∧ oom = true) := by
  unfold set_put
  split_ifs with h1 h2
  · exact Or.inl rfl
  · exact Or.inr (Or.inr ⟨rfl, h2⟩)
  · exact Or.inr (Or.inl rfl)

theorem unit_add_dependency_refs_total (oom : Nat → Bool) (m : Manager) (u o : UnitId)
    (d : UnitDependency) (ar : Bool) (q v : Int) (ht : (m.unit u).type ≠ none) :
    ∃ r m', unit_add_dependency_refs oom m u d o ar q v = some (r, m') ∧
      (r = 0 ∨ (r = -ENOMEM ∧ ∃ n, oom n = true)) := by
  unfold unit_add_dependency_refs
  have neg : (-ENOMEM : Int) < 0 := by decide
  by_cases har : ar = true
  · rw [if_pos har]
    dsimp only
    rcases set_put_cases (oom 6) (m.deps u .references) o with h | h | ⟨h, ho⟩
    · rw [if_neg (by rw [h]; decide)]
      rcases set_put_cases (oom 7) ((m.setDeps u .references
          (set_put (oom 6) (m.deps u .references) o).2).deps o .referenced_by) u
        with k | k | ⟨k, ko⟩
      · rw [if_neg (by rw [k]; decide)]
        obtain ⟨m5, h5⟩ := unit_add_to_dbus_queue_some ((m.setDeps u .references
          (set_put (oom 6) (m.deps u .references) o).2).setDeps o .referenced_by
          (set_put (oom 7) ((m.setDeps u .references
          (set_put (oom 6) (m.deps u .references) o).2).deps o .referenced_by) u).2) u
          (by rw [type_setDeps, type_setDeps]; exact ht)
        rw [h5]
        exact ⟨_, _, rfl, Or.inl rfl⟩
      · rw [if_neg (by rw [k]; decide)]
        obtain ⟨m5, h5⟩ := unit_add_to_dbus_queue_some ((m.setDeps u .references
          (set_put (oom 6) (m.deps u .references) o).2).setDeps o .referenced_by
          (set_put (oom 7) ((m.setDeps u .references
          (set_put (oom 6) (m.deps u .references) o).2).deps o .referenced_by) u).2) u
          (by rw [type_setDeps, type_setDeps]; exact ht)
        rw [h5]
        exact ⟨_, _, rfl, Or.inl rfl⟩
      · rw [if_pos (by rw [k]; exact neg)]
        exact ⟨_, _, rfl, Or.inr ⟨k, 7, ko⟩⟩
    · rw [if_neg (by rw [h]; decide)]
      rcases set_put_cases (oom 7) ((m.setDeps u .references
          (set_put (oom 6) (m.deps u .references) o).2).deps o .referenced_by) u
        with k | k | ⟨k, ko⟩
      · rw [if_neg (by rw [k]; decide)]
        obtain ⟨m5, h5⟩ := unit_add_to_dbus_queue_some ((m.setDeps u .references
          (set_put (oom 6) (m.deps u .references) o).2).setDeps o .referenced_by
          (set_put (oom 7) ((m.setDeps u .references
          (set_put (oom 6) (m.deps u .references) o).2).deps o .referenced_by) u).2) u
          (by rw [type_setDeps, type_setDeps]; exact ht)
        rw [h5]
        exact ⟨_, _, rfl, Or.inl rfl⟩
      · rw [if_neg (by rw [k]; decide)]
        obtain ⟨m5, h5⟩ := unit_add_to_dbus_queue_some ((m.setDeps u .references
          (set_put (oom 6) (m.deps u .references) o).2).setDeps o .referenced_by
          (set_put (oom 7) ((m.setDeps u .references
          (set_put (oom 6) (m.deps u .references) o).2).deps o .referenced_by) u).2) u
          (by rw [type_setDeps, type_setDeps]; exact ht)
        rw [h5]
        exact ⟨_, _, rfl, Or.inl rfl⟩
      · rw [if_pos (by rw [k]; exact neg)]
        exact ⟨_, _, rfl, Or.inr ⟨k, 7, ko⟩⟩
    · rw [if_pos (by rw [h]; exact neg)]
      exact ⟨_, _, rfl, Or.inr ⟨h, 6, ho⟩⟩
  · rw [if_neg har]
    obtain ⟨m5, h5⟩ := unit_add_to_dbus_queue_some m u ht
    rw [h5]
    exact ⟨_, _, rfl, Or.inl rfl⟩

theorem set_ensure_allocated_cases (oom : Bool) (s : List UnitId) :
    ¬ set_ensure_allocated oom s < 0 ∨ oom = true := by
  unfold set_ensure_allocated
  split_ifs with h1 h2
  · exact Or.inl (by decide)
  · exact Or.inr h2
  · exact Or.inl (by decide)

/-- A call of `unit_add_dependency` on units that resolve returns, with 0 or,
after an allocation failure, with `-ENOMEM`. -/
theorem unit_add_dependency_total (oom : Nat → Bool) (m : Manager) (u other u1 o1 : UnitId)
    (d : UnitDependency) (ar : Bool)
    (hu : unit_follow_merge m u = some u1) (ho : unit_follow_merge m other = some o1)
    (ht : (m.unit u1).type ≠ none) :
    ∃ r m', unit_add_dependency oom m u d other ar = some (r, m') ∧
      (r = 0 ∨ (r = -ENOMEM ∧ ∃ n, oom n = true)) := by
  unfold unit_add_dependency
  simp only [hu, ho]
  have neg : (-ENOMEM : Int) < 0 := by decide
  by_cases h1 : u1 = o1
  · rw [if_pos h1]; exact ⟨_, _, rfl, Or.inl rfl⟩
  rw [if_neg h1]
  by_cases h2 : d = .before ∧ (m.unit o1).type = some .device
  · rw [if_pos h2]; exact ⟨_, _, rfl, Or.inl rfl⟩
  rw [if_neg h2]
  by_cases g0 : set_ensure_allocated (oom 0) (m.deps u1 d) < 0
  · rw [if_pos g0]
    refine ⟨_, _, rfl, Or.inr ⟨rfl, 0, ?_⟩⟩
    exact (set_ensure_allocated_cases (oom 0) (m.deps u1 d)).resolve_left (fun h => h g0)
  rw [if_neg g0]
  by_cases g1 : (inverse_table d).any
      (fun i => decide (set_ensure_allocated (oom 1) (m.deps o1 i) < 0)) = true
  · rw [if_pos g1]
    refine ⟨_, _, rfl, Or.inr ⟨rfl, 1, ?_⟩⟩
    cases hi : inverse_table d with
    | none => rw [hi] at g1; cases g1
    | some i =>
      rw [hi] at g1
      simp only [Option.any_some, decide_eq_true_eq] at g1
      exact (set_ensure_allocated_cases (oom 1) (m.deps o1 i)).resolve_left (fun h => h g1)
  rw [if_neg g1]
  by_cases g2 : ar = true ∧ set_ensure_allocated (oom 2) (m.deps u1 .references) < 0
  · rw [if_pos g2]
    refine ⟨_, _, rfl, Or.inr ⟨rfl, 2, ?_⟩⟩
    exact (set_ensure_allocated_cases (oom 2) _).resolve_left (fun h => h g2.2)
  rw [if_neg g2]
  by_cases g3 : ar = true ∧ set_ensure_allocated (oom 3) (m.deps o1 .referenced_by) < 0
  · rw [if_pos g3]
    refine ⟨_, _, rfl, Or.inr ⟨rfl, 3, ?_⟩⟩
    exact (set_ensure_allocated_cases (oom 3) _).resolve_left (fun h => h g3.2)
  rw [if_neg g3]
  have hq := set_put_cases (oom 4) (m.deps u1 d) o1
  by_cases q0 : (set_put (oom 4) (m.deps u1 d) o1).1 < 0
  · rw [if_pos q0]
    rcases hq with h | h | ⟨h, hh⟩
    · rw [h] at q0; exact absurd q0 (by decide)
    · rw [h] at q0; exact absurd q0 (by decide)
    · exact ⟨_, _, rfl, Or.inr ⟨h, 4, hh⟩⟩
  rw [if_neg q0]
  have t1 : ((m.setDeps u1 d (set_put (oom 4) (m.deps u1 d) o1).2).unit u1).type ≠ none := by
    rw [type_setDeps]; exact ht
  cases hi : inverse_table d with
  | none =>
    exact unit_add_dependency_refs_total oom _ u1 o1 d ar _ 0 t1
  | some i =>
    dsimp only
    by_cases hid : i ≠ d
    · rw [if_pos hid]
      have hv := set_put_cases (oom 5)
        ((m.setDeps u1 d (set_put (oom 4) (m.deps u1 d) o1).2).deps o1 i) u1
      by_cases v0 : (set_put (oom 5)
          ((m.setDeps u1 d (set_put (oom 4) (m.deps u1 d) o1).2).deps o1 i) u1).1 < 0
      · rw [if_pos v0]
        rcases hv with h | h | ⟨h, hh⟩
        · rw [h] at v0; exact absurd v0 (by decide)
        · rw [h] at v0; exact absurd v0 (by decide)
        · exact ⟨_, _, rfl, Or.inr ⟨h, 5, hh⟩⟩
      · rw [if_neg v0]
        exact unit_add_dependency_refs_total oom _ u1 o1 d ar _ _
          (by rw [type_setDeps]; exact t1)
    · rw [if_neg hid]
      exact unit_add_dependency_refs_total oom _ u1 o1 d ar _ 0 t1

/-- C19. When `target` has type target, both units are loaded, both have
`default_dependencies` set, `u` is not in the `Before` set of `target` and `u`
is not `target` itself, `unit_add_default_target_dependency(u, target)`
inserts `u` into the `After` set of `target` and `target` into the `Before`
set of `u` and returns 0, unless an allocation fails, when it returns
`-ENOMEM` with all dependency sets as before; in every other case it returns
0 and leaves the manager, with all dependency sets, unchanged. In all cases a
unit that is then in both the `Before` and the `After` set of `target` was in
both already. -/
theorem unit_add_default_target_dependency_spec (oom : Nat → Bool) (m : Manager)
    (u target : UnitId) (hu : m.valid u) (ht : m.valid target) :
    ∃ r m', unit_add_default_target_dependency oom m u target = some (r, m') ∧
      (((m.unit target).type = some .target ∧ (m.unit u).load_state = .loaded ∧
          (m.unit target).load_state = .loaded ∧ (m.unit u).default_dependencies = true ∧
          (m.unit target).default_dependencies = true ∧ u ∉ m.deps target .before ∧
          u ≠ target) →
        ((r = 0 ∧ u ∈ m'.deps target .after ∧ target ∈ m'.deps u .before) ∨
         (r = -ENOMEM ∧ (∃ n, oom n = true) ∧
            ∀ x k y, y ∈ m'.deps x k ↔ y ∈ m.deps x k)) ∧
        ((∀ n, oom n = false) → r = 0)) ∧
      (¬ ((m.unit target).type = some .target ∧ (m.unit u).load_state = .loaded ∧
          (m.unit target).load_state = .loaded ∧ (m.unit u).default_dependencies = true ∧
          (m.unit target).default_dependencies = true ∧ u ∉ m.deps target .before ∧
          u ≠ target) → r = 0 ∧ m' = m) ∧
      (∀ x, x ∈ m'.deps target .before → x ∈ m'.deps target .after →
        x ∈ m.deps target .before ∧ x ∈ m.deps target .after) := by
  unfold unit_add_default_target_dependency
  rw [if_pos ⟨hu, ht⟩]
  have same : ∃ r m', (some ((0 : Int), m) : Option (Int × Manager)) = some (r, m') ∧
      r = 0 ∧ m' = m := ⟨0, m, rfl, rfl, rfl⟩
  by_cases c1 : (m.unit target).type ≠ some .target
  · rw [if_pos c1]
    exact ⟨0, m, rfl, fun h => absurd h.1 c1, fun _ => ⟨rfl, rfl⟩, fun x a b => ⟨a, b⟩⟩
  rw [if_neg c1]
  by_cases c2 : (m.unit u).load_state ≠ .loaded ∨ (m.unit target).load_state ≠ .loaded
  · rw [if_pos c2]
    exact ⟨0, m, rfl, fun h => (c2.elim (fun a => a h.2.1) (fun a => a h.2.2.1)).elim,
      fun _ => ⟨rfl, rfl⟩, fun x a b => ⟨a, b⟩⟩
  rw [if_neg c2]
  by_cases c3 : (m.unit u).default_dependencies = false ∨
      (m.unit target).default_dependencies = false
  · rw [if_pos c3]
    refine ⟨0, m, rfl, fun h => ?_, fun _ => ⟨rfl, rfl⟩, fun x a b => ⟨a, b⟩⟩
    rcases c3 with a | a
    · rw [h.2.2.2.1] at a; cases a
    · rw [h.2.2.2.2.1] at a; cases a
  rw [if_neg c3]
  by_cases c4 : u ∈ m.deps target .before
  · rw [if_pos c4]
    exact ⟨0, m, rfl, fun h => absurd c4 h.2.2.2.2.2.1, fun _ => ⟨rfl, rfl⟩,
      fun x a b => ⟨a, b⟩⟩
  rw [if_neg c4]
  -- the guards are passed: both units are loaded, hence not merged
  have l1 : (m.unit u).load_state = .loaded := by
    by_contra a; exact c2 (Or.inl a)
  have l2 : (m.unit target).load_state = .loaded := by
    by_contra a; exact c2 (Or.inr a)
  have f1 : unit_follow_merge m target = some target :=
    unit_follow_merge_self m target ht (by rw [l2]; decide)
  have f2 : unit_follow_merge m u = some u :=
    unit_follow_merge_self m u hu (by rw [l1]; decide)
  have tt : (m.unit target).type = some .target := by
    by_contra a; exact c1 a
  obtain ⟨r, m', h, hr⟩ := unit_add_dependency_total oom m target u target u .after true f1 f2
    (by rw [tt]; exact fun a => by cases a)
  obtain ⟨u', o', e1, e2, s1, s2⟩ := unit_add_dependency_spec oom m m' target u .after true r h
  rw [f1] at e1
  rw [f2] at e2
  have e1 := Option.some.inj e1
  have e2 := Option.some.inj e2
  subst e1 e2
  refine ⟨r, m', h, ?_, ?_, ?_⟩
  · intro hc
    have hne : target ≠ u := fun a => hc.2.2.2.2.2.2 a.symm
    refine ⟨?_, ?_⟩
    · rcases hr with hr | ⟨hr, ho⟩
      · left
        have hr0 : ¬ r < 0 := by rw [hr]; decide
        have key := (s2 hr0).2
        refine ⟨hr, ?_, ?_⟩
        · rw [key]
          exact Or.inr ⟨hne, (fun a => by cases a.1), Or.inl ⟨rfl, rfl, rfl⟩⟩
        · rw [key]
          exact Or.inr ⟨hne, (fun a => by cases a.1),
            Or.inr (Or.inl ⟨rfl, rfl, (fun a => by cases a), rfl⟩)⟩
      · right
        exact ⟨hr, ho, s1 (by rw [hr]; decide)⟩
    · intro hno
      rcases hr with hr | ⟨_, n, hn⟩
      · exact hr
      · rw [hno n] at hn; cases hn
  · intro hc
    have hut : u = target := by
      by_contra a
      apply hc
      refine ⟨tt, l1, l2, ?_, ?_, c4, a⟩
      · cases hd : (m.unit u).default_dependencies
        · exact absurd (Or.inl hd) c3
        · rfl
      · cases hd : (m.unit target).default_dependencies
        · exact absurd (Or.inr hd) c3
        · rfl
    subst hut
    unfold unit_add_dependency at h
    simp only [f1, if_true] at h
    simp only [Option.some.injEq, Prod.mk.injEq] at h
    exact ⟨h.1.symm, h.2.symm⟩
  · intro x hb ha
    by_cases hr0 : r < 0
    · exact ⟨(s1 hr0 target .before x).1 hb, (s1 hr0 target .after x).1 ha⟩
    · have key := (s2 hr0).2
      have hb' : x ∈ m.deps target .before := by
        rcases (key target .before x).1 hb with a | ⟨hne, _, a⟩
        · exact a
        · unfold added at a
          rcases a with a | a | a | a
          · cases a.2.1
          · exact absurd a.1 hne
          · cases a.2.2.1
          · exact absurd a.2.1 hne
      refine ⟨hb', ?_⟩
      rcases (key target .after x).1 ha with a | ⟨hne, _, a⟩
      · exact a
      · unfold added at a
        rcases a with a | a | a | a
        · rw [a.2.2] at hb'; exact absurd hb' c4
        · exact absurd a.1 hne
        · cases a.2.2.1
        · exact absurd a.2.1 hne

/-- An instance of C19: the service and the target of `graph_target`. -/
theorem unit_add_default_target_dependency_spec_witness :
    ∃ r m', unit_add_default_target_dependency no_oom graph_target 0 1 = some (r, m') ∧
      r = 0 ∧ 0 ∈ m'.deps 1 .after ∧ 1 ∈ m'.deps 0 .before := by
  obtain ⟨r, m', h, h1, _, _⟩ :=
    unit_add_default_target_dependency_spec no_oom graph_target 0 1 (by decide) (by decide)
  have h2 := h1 ⟨by decide, by decide, by decide, by decide, by decide, by decide, by decide⟩
  have hr := h2.2 (fun _ => rfl)
  rcases h2.1 with a | a
  · exact ⟨r, m', h, a⟩
  · rw [hr] at a
    exact absurd a.1 (by decide)

/-! ## Freeing a unit: claim C18 -/

theorem set_remove_invalid (m : Manager) (a : UnitId) (k : UnitDependency) (u : UnitId) :
    ¬ m.valid a → set_remove (m.deps a k) u = [] := by
  intro h
  rw [deps_invalid m a k h]
  rfl

/-- The inner loop of `bidi_set_free` takes `u` out of all sets of `other`. -/
theorem bidi_remove_mem (u other : UnitId) (ds : List UnitDependency) (m : Manager) :
    m.same_ident (ds.foldl (fun a d => a.setDeps other d (set_remove (a.deps other d) u)) m) ∧
    ∀ x k y, y ∈ (ds.foldl (fun a d => a.setDeps other d (set_remove (a.deps other d) u)) m).deps x k
      ↔ y ∈ m.deps x k ∧ ¬ (x = other ∧ k ∈ ds ∧ y = u) := by
  induction ds generalizing m with
  | nil =>
    refine ⟨same_ident_refl m, fun x k y => ?_⟩
    simp
  | cons d ds ih =>
    rw [List.foldl_cons]
    obtain ⟨i1, i2⟩ := ih (m.setDeps other d (set_remove (m.deps other d) u))
    refine ⟨same_ident_trans (same_ident_setDeps _ _ _ _) i1, fun x k y => ?_⟩
    rw [i2, mem_setDeps m other d _ (set_remove_invalid m other d u)]
    by_cases h : x = other ∧ k = d
    · rw [if_pos h, mem_set_remove]
      obtain ⟨rfl, rfl⟩ := h
      constructor
      · rintro ⟨⟨a, b⟩, _⟩
        exact ⟨a, fun c => b c.2.2⟩
      · rintro ⟨a, b⟩
        have : y ≠ u := fun c => b ⟨rfl, List.mem_cons_self _ _, c⟩
        exact ⟨⟨a, this⟩, fun c => this c.2.2⟩
    · rw [if_neg h]
      constructor
      · rintro ⟨a, b⟩
        refine ⟨a, fun c => ?_⟩
        rcases List.mem_cons.1 c.2.1 with e | e
        · exact h ⟨c.1, e⟩
        · exact b ⟨c.1, e, c.2.2⟩
      · rintro ⟨a, b⟩
        exact ⟨a, fun c => b ⟨c.1, List.mem_cons_of_mem _ c.2.1, c.2.2⟩⟩

theorem bidi_set_free_other_spec (env : Env) (m m1 : Manager) (u other : UnitId)
    (h : bidi_set_free_other env m u other = some m1) :
    m.same_ident m1 ∧
    ∀ x k y, y ∈ m1.deps x k ↔ y ∈ m.deps x k ∧ ¬ (x = other ∧ y = u) := by
  unfold bidi_set_free_other at h
  split_ifs at h with hv
  obtain ⟨i1, i2⟩ := bidi_remove_mem u other UnitDependency.all m
  obtain ⟨g1, g2⟩ := frame_gc_queue env _ m1 other h
  refine ⟨same_ident_trans i1 g1, fun x k y => ?_⟩
  rw [deps_of_same_deps g2, i2]
  have hk : k ∈ UnitDependency.all := by cases k <;> decide
  constructor
  · rintro ⟨a, b⟩
    exact ⟨a, fun c => b ⟨c.1, hk, c.2⟩⟩
  · rintro ⟨a, b⟩
    exact ⟨a, fun c => b ⟨c.1, c.2.2⟩⟩

theorem bidi_set_free_spec (env : Env) (u : UnitId) (s : List UnitId) (m m1 : Manager)
    (h : bidi_set_free env u m s = some m1) :
    m.same_ident m1 ∧
    ∀ x k y, y ∈ m1.deps x k ↔ y ∈ m.deps x k ∧ ¬ (x ∈ s ∧ y = u) := by
  induction s generalizing m with
  | nil =>
    simp only [bidi_set_free, Option.some.injEq] at h
    subst h
    exact ⟨same_ident_refl m, fun x k y => by simp⟩
  | cons o rest ih =>
    unfold bidi_set_free at h
    simp only [Option.bind_eq_some] at h
    obtain ⟨m2, h2, h3⟩ := h
    obtain ⟨a1, a2⟩ := bidi_set_free_other_spec env m m2 u o h2
    obtain ⟨b1, b2⟩ := ih m2 h3
    refine ⟨same_ident_trans a1 b1, fun x k y => ?_⟩
    rw [b2, a2]
    constructor
    · rintro ⟨⟨a, b⟩, c⟩
      refine ⟨a, fun e => ?_⟩
      rcases List.mem_cons.1 e.1 with e1 | e1
      · exact b ⟨e1, e.2⟩
      · exact c ⟨e1, e.2⟩
    · rintro ⟨a, b⟩
      exact ⟨⟨a, fun e => b ⟨e.1 ▸ List.mem_cons_self _ _, e.2⟩⟩,
        fun e => b ⟨List.mem_cons_of_mem _ e.1, e.2⟩⟩

theorem unit_free_dependencies_spec (env : Env) (u : UnitId) (ds : List UnitDependency)
    (m m1 : Manager) (hs : ∀ k, u ∉ m.deps u k)
    (h : unit_free_dependencies env u m ds = some m1) :
    m.same_ident m1 ∧
    ∀ x k y, y ∈ m1.deps x k ↔ y ∈ m.deps x k ∧ ¬ (y = u ∧ ∃ d ∈ ds, x ∈ m.deps u d) := by
  induction ds generalizing m with
  | nil =>
    simp only [unit_free_dependencies, Option.some.injEq] at h
    subst h
    exact ⟨same_ident_refl m, fun x k y => by simp⟩
  | cons d ds ih =>
    unfold unit_free_dependencies at h
    simp only [Option.bind_eq_some] at h
    obtain ⟨m2, h2, h3⟩ := h
    obtain ⟨a1, a2⟩ := bidi_set_free_spec env u (m.deps u d) m m2 h2
    have hu : ∀ k x, x ∈ m2.deps u k ↔ x ∈ m.deps u k := by
      intro k x
      rw [a2]
      constructor
      · exact fun a => a.1
      · intro a
        exact ⟨a, fun e => hs k (e.2 ▸ a)⟩
    obtain ⟨b1, b2⟩ := ih m2 (fun k a => hs k ((hu k u).1 a)) h3
    refine ⟨same_ident_trans a1 b1, fun x k y => ?_⟩
    rw [b2, a2]
    constructor
    · rintro ⟨⟨a, b⟩, c⟩
      refine ⟨a, ?_⟩
      rintro ⟨e, d', hd', hx⟩
      rcases List.mem_cons.1 hd' with e1 | e1
      · exact b ⟨e1 ▸ hx, e⟩
      · exact c ⟨e, d', e1, (hu d' x).2 hx⟩
    · rintro ⟨a, b⟩
      refine ⟨⟨a, fun e => b ⟨e.2, d, List.mem_cons_self _ _, e.1⟩⟩, ?_⟩
      rintro ⟨e, d', hd', hx⟩
      exact b ⟨e, d', List.mem_cons_of_mem _ hd', (hu d' x).1 hx⟩

theorem hashmap_get_filter (h : List (String × UnitId)) (t n : String) :
    hashmap_get (h.filter (fun e => decide (e.1 ≠ t))) n = if n = t then none else hashmap_get h n := by
  unfold hashmap_get
  induction h with
  | nil => simp
  | cons e es ih =>
    obtain ⟨k, v⟩ := e
    by_cases hk : k = t
    · subst hk
      rw [List.filter_cons_of_neg (by simp), ih]
      by_cases hn : n = k
      · rw [if_pos hn, if_pos hn]
      · have : (n == k) = false := by simp [hn]
        rw [if_neg hn, if_neg hn, List.lookup_cons, this]
    · rw [List.filter_cons_of_pos (by simp [hk]), List.lookup_cons, List.lookup_cons, ih]
      by_cases hn : n = k
      · have : (n == k) = true := by simp [hn]
        rw [this]
        dsimp only
        rw [if_neg (fun e => hk (hn ▸ e))]
      · have : (n == k) = false := by simp [hn]
        rw [this]

theorem hashmap_get_remove_value (h : List (String × UnitId)) (t n : String) (u : UnitId) :
    hashmap_get (hashmap_remove_value h t u) n =
      if n = t ∧ hashmap_get h t = some u then none else hashmap_get h n := by
  unfold hashmap_remove_value
  by_cases hg : hashmap_get h t = some u
  · rw [if_pos hg, hashmap_get_filter]
    by_cases hn : n = t
    · rw [if_pos hn, if_pos ⟨hn, hg⟩]
    · rw [if_neg hn, if_neg (fun a => hn a.1)]
  · rw [if_neg hg, if_neg (fun a => hg a.2)]

theorem hashmap_get_remove_fold (u : UnitId) (names : List String) (h : List (String × UnitId))
    (n : String) :
    hashmap_get (names.foldl (fun h t => hashmap_remove_value h t u) h) n =
      if n ∈ names ∧ hashmap_get h n = some u then none else hashmap_get h n := by
  induction names generalizing h with
  | nil => simp
  | cons t ts ih =>
    rw [List.foldl_cons, ih, hashmap_get_remove_value]
    by_cases hn : n = t
    · subst hn
      by_cases hg : hashmap_get h n = some u
      · simp [hg]
      · simp [hg]
    · simp [hn]

theorem frame_unit_done (env : Env) (m : Manager) (u : UnitId) :
    m.same_ident (unit_done env m u) ∧ m.same_deps (unit_done env m u) := by
  unfold unit_done
  cases (m.unit u).type with
  | none => exact frame_refl m
  | some t =>
    dsimp only
    cases (env.unit_vtable t).done with
    | none => exact frame_refl m
    | some f => exact frame_modify m u _ (fun _ => ⟨rfl, rfl⟩)

theorem frame_job_uninstall (m : Manager) (u : UnitId) (j : Nat) (nop : Bool) :
    m.same_ident (job_uninstall m u j nop) ∧ m.same_deps (job_uninstall m u j nop) := by
  unfold job_uninstall
  refine frame_modify_heap m _ u
    (fun x => if nop = true then { x with nop_job := none } else { x with job := none })
    rfl rfl (fun x => ?_)
  cases nop
  · exact ⟨rfl, rfl⟩
  · exact ⟨rfl, rfl⟩

theorem frame_unit_free_refs (env : Env) (u : UnitId) (refs : List Nat) (m m1 : Manager)
    (h : unit_free_refs env u m refs = some m1) : m.same_ident m1 ∧ m.same_deps m1 := by
  induction refs generalizing m with
  | nil =>
    simp only [unit_free_refs, Option.some.injEq] at h
    rw [← h]; exact frame_refl m
  | cons r rs ih =>
    unfold unit_free_refs at h
    simp only [Option.bind_eq_some] at h
    obtain ⟨m2, h2, h3⟩ := h
    exact frame_trans (frame_ref_unset env m m2 r _ h2) (ih _ h3)

/-- What `unit_free(u)` does to the registry and to the dependency sets, when
`u` is not a member of one of its own sets. -/
theorem unit_free_spec (env : Env) (m m' : Manager) (u : UnitId)
    (hs : ∀ k, u ∉ m.deps u k) (h : unit_free env m u = some m') :
    m.valid u ∧
    (∀ n, manager_get_unit m' n =
      if n ∈ (m.unit u).names ∧ manager_get_unit m n = some u then none
      else manager_get_unit m n) ∧
    (∀ x k y, y ∈ m'.deps x k ↔
      x ≠ u ∧ y ∈ m.deps x k ∧ ¬ (y = u ∧ ∃ d, x ∈ m.deps u d)) ∧
    m'.heap.length = m.heap.length ∧
    (∀ x, x ≠ u → (m'.unit x).ident = (m.unit x).ident) ∧ m'.unit u = {} := by
  unfold unit_free at h
  by_cases hv : m.valid u
  swap
  · rw [if_neg hv] at h; cases h
  rw [if_pos hv] at h
  refine ⟨hv, ?_⟩
  dsimp only at h
  have f1 := frame_unit_done env m u
  have f2 := frame_trans f1 (frame_modify (unit_done env m u) u
    (fun x => { x with deserialized_refs := [], requires_mounts_for := [] })
    (fun _ => ⟨rfl, rfl⟩))
  generalize (unit_done env m u).modify u
    (fun x => { x with deserialized_refs := [], requires_mounts_for := [] }) = m2 at h f2
  have hnames : (m2.unit u).names = (m.unit u).names := (ident_fields (f2.1.2.2 u)).1
  have hreg : ∀ n, hashmap_get
      ((m2.unit u).names.foldl (fun h t => hashmap_remove_value h t u) m2.units) n =
      if n ∈ (m.unit u).names ∧ manager_get_unit m n = some u then none
      else manager_get_unit m n := by
    intro n
    rw [hashmap_get_remove_fold, hnames, f2.1.1]
    rfl
  have u3 : ∀ x, (unit_free_names m2 u).unit x = m2.unit x := fun x => rfl
  have r3 : ∀ n, manager_get_unit (unit_free_names m2 u) n =
      if n ∈ (m.unit u).names ∧ manager_get_unit m n = some u then none
      else manager_get_unit m n := hreg
  have d3 : ∀ x k, (unit_free_names m2 u).deps x k = m.deps x k := by
    intro x k
    unfold Manager.deps
    rw [u3, f2.2 x]
  have l3 : (unit_free_names m2 u).heap.length = m.heap.length := f2.1.2.1
  generalize unit_free_names m2 u = m3 at h u3 r3 d3 l3
  have f5' : m3.same_ident (unit_free_jobs m3 u) ∧ m3.same_deps (unit_free_jobs m3 u) := by
    unfold unit_free_jobs
    dsimp only
    have f4 : ∀ a : Manager, a.same_ident (match (a.unit u).job with
        | some j => job_uninstall a u j false
        | none => a) ∧ a.same_deps (match (a.unit u).job with
        | some j => job_uninstall a u j false
        | none => a) := by
      intro a
      cases (a.unit u).job with
      | none => exact frame_refl a
      | some j => exact frame_job_uninstall a u j false
    have f5 : ∀ a : Manager, a.same_ident (match (a.unit u).nop_job with
        | some j => job_uninstall a u j true
        | none => a) ∧ a.same_deps (match (a.unit u).nop_job with
        | some j => job_uninstall a u j true
        | none => a) := by
      intro a
      cases (a.unit u).nop_job with
      | none => exact frame_refl a
      | some j => exact frame_job_uninstall a u j true
    exact frame_trans (f4 m3) (f5 _)
  generalize unit_free_jobs m3 u = m5 at h f5'
  simp only [Option.bind_eq_some, Option.map_eq_some'] at h
  obtain ⟨m6, h6, m7s, h7s, m8, h8, h9⟩ := h
  have d5 : ∀ x k, m5.deps x k = m.deps x k := fun x k => by
    rw [deps_of_same_deps f5'.2, d3]
  obtain ⟨i6, s6⟩ := unit_free_dependencies_spec env u UnitDependency.all m5 m6
    (fun k => by rw [d5]; exact hs k) h6
  have hq : ∀ q : Manager, q.heap = m6.heap → q.units = m6.units →
      m6.same_ident q ∧ m6.same_deps q := fun q a b => same_ident_of_heap a b
  have f7 := frame_trans
    (hq { unit_free_queues m6 u with
          startup_units := set_remove (unit_free_queues m6 u).startup_units u } rfl rfl)
    (frame_ref_unset env _ m7s _ _ h7s)
  have f8 := frame_trans f7 (frame_unit_free_refs env u _ m7s m8 h8)
  have units8 : m8.units = m3.units := by
    rw [f8.1.1, i6.1, f5'.1.1]
  have len8 : m8.heap.length = m.heap.length := by
    rw [f8.1.2.1, i6.2.1, f5'.1.2.1, l3]
  subst h9
  have hu8 : ∀ x, (({ m8 with heap := m8.heap.set u {} } : Manager).unit x) =
      if x = u then {} else m8.unit x := by
    intro x
    have := unit_modify m8 u x (fun _ => {})
    have hv8 : m8.valid u := by unfold Manager.valid; rw [len8]; exact hv
    by_cases hx : x = u
    · rw [if_pos hx]
      rw [if_pos ⟨hv8, hx⟩] at this
      exact this
    · rw [if_neg hx]
      rw [if_neg (fun a => hx a.2)] at this
      exact this
  refine ⟨fun n => ?_, fun x k y => ?_, ?_, fun x hx => ?_, ?_⟩
  rotate_left
  · unfold Manager.deps at s6 d5 ⊢
    rw [hu8 x]
    by_cases hx : x = u
    · rw [if_pos hx]
      constructor
      · intro a; exact absurd a (List.not_mem_nil y)
      · intro a; exact absurd hx a.1
    · rw [if_neg hx, f8.2 x, s6, d5]
      have hk : ∀ d : UnitDependency, d ∈ UnitDependency.all := by
        intro d; cases d <;> decide
      constructor
      · rintro ⟨a, b⟩
        refine ⟨hx, a, ?_⟩
        rintro ⟨e, d, hd⟩
        exact b ⟨e, d, hk d, by rw [d5]; exact hd⟩
      · rintro ⟨_, a, b⟩
        refine ⟨a, ?_⟩
        rintro ⟨e, d, _, hd⟩
        rw [d5] at hd
        exact b ⟨e, d, hd⟩
  · show (m8.heap.set u {}).length = m.heap.length
    rw [List.length_set]; exact len8
  · rw [hu8 x, if_neg hx, f8.1.2.2 x, i6.2.2 x, f5'.1.2.2 x, u3 x, f2.1.2.2 x]
  · rw [hu8 u, if_pos rfl]
  · rw [← r3 n]
    unfold manager_get_unit
    show hashmap_get m8.units n = _
    rw [units8]

theorem no_self_edges_step (oom : Nat → Bool) (m m' : Manager) (u other : UnitId)
    (d : UnitDependency) (ar : Bool) (r : Int)
    (h : unit_add_dependency oom m u d other ar = some (r, m')) (hs : m.no_self_edges) :
    m'.no_self_edges := by
  intro y k hy
  obtain ⟨u', o', _, _, h1, h2⟩ := unit_add_dependency_spec oom m m' u other d ar r h
  by_cases hr : r < 0
  · exact hs y k ((h1 hr y k y).1 hy)
  · rcases ((h2 hr).2 y k y).1 hy with a | ⟨hne, _, a⟩
    · exact hs y k a
    · unfold added at a
      rcases a with a | a | a | a
      · exact hne (a.1.symm.trans a.2.2)
      · exact hne (a.2.2.2.symm.trans a.1)
      · exact hne (a.2.1.symm.trans a.2.2.2)
      · exact hne (a.2.2.2.symm.trans a.2.1)

theorem reverse_edges_step (oom : Nat → Bool) (m m' : Manager) (u other : UnitId)
    (d : UnitDependency) (ar : Bool) (r : Int)
    (h : unit_add_dependency oom m u d other ar = some (r, m')) (hr : ¬ r < 0)
    (hc : (ar || (inverse_table d).any (fun i => decide (i ≠ d))) = true)
    (hs : ∀ x k y, y ∈ m.deps x k → ∃ k', x ∈ m.deps y k') :
    ∀ x k y, y ∈ m'.deps x k → ∃ k', x ∈ m'.deps y k' := by
  obtain ⟨u', o', _, _, _, h2⟩ := unit_add_dependency_spec oom m m' u other d ar r h
  have key := (h2 hr).2
  intro x k y hy
  rcases (key x k y).1 hy with a | ⟨hne, hdev, a⟩
  · obtain ⟨k', hk'⟩ := hs x k y a
    exact ⟨k', (key y k' x).2 (Or.inl hk')⟩
  · have put : ∀ (a b : UnitId) (j : UnitDependency), added u' o' d ar a j b → b ∈ m'.deps a j :=
      fun a b j hh => (key a j b).2 (Or.inr ⟨hne, hdev, hh⟩)
    have fwd : o' ∈ m'.deps u' d := put u' o' d (Or.inl ⟨rfl, rfl, rfl⟩)
    have bwd : ∃ k', u' ∈ m'.deps o' k' := by
      rw [Bool.or_eq_true] at hc
      rcases hc with hc | hc
      · exact ⟨.referenced_by, put o' u' .referenced_by (Or.inr (Or.inr (Or.inr ⟨hc, rfl, rfl, rfl⟩)))⟩
      · cases hi : inverse_table d with
        | none => rw [hi] at hc; cases hc
        | some i =>
          rw [hi] at hc
          simp only [Option.any_some, decide_eq_true_eq] at hc
          exact ⟨i, put o' u' i (Or.inr (Or.inl ⟨rfl, hi, hc, rfl⟩))⟩
    unfold added at a
    rcases a with a | a | a | a
    · obtain ⟨rfl, _, rfl⟩ := a
      exact bwd
    · obtain ⟨rfl, _, _, rfl⟩ := a
      exact ⟨d, fwd⟩
    · obtain ⟨_, rfl, _, rfl⟩ := a
      exact bwd
    · obtain ⟨_, rfl, _, rfl⟩ := a
      exact ⟨d, fwd⟩

theorem reverse_edges_run (calls : List DepCall) (m0 m : Manager)
    (h : run_add_dependency m0 calls = some m)
    (hc : ∀ c ∈ calls, c.has_reverse = true)
    (hs : m0.no_self_edges ∧ ∀ x k y, y ∈ m0.deps x k → ∃ k', x ∈ m0.deps y k') :
    m.no_self_edges ∧ ∀ x k y, y ∈ m.deps x k → ∃ k', x ∈ m.deps y k' := by
  induction calls generalizing m0 with
  | nil =>
    simp only [run_add_dependency, Option.some.injEq] at h
    rw [← h]; exact hs
  | cons c cs ih =>
    unfold run_add_dependency at h
    cases hcall : unit_add_dependency c.oom m0 c.u c.d c.other c.add_reference with
    | none => simp [hcall] at h
    | some p =>
      obtain ⟨r, m1⟩ := p
      simp only [hcall] at h
      by_cases hr : r < 0
      · simp [hr] at h
      · simp only [hr, if_false] at h
        refine ih m1 h (fun c' hc' => hc c' (List.mem_cons_of_mem _ hc')) ⟨?_, ?_⟩
        · exact no_self_edges_step _ _ _ _ _ _ _ _ hcall hs.1
        · exact reverse_edges_step _ _ _ _ _ _ _ _ hcall hr
            (hc c (List.mem_cons_self _ _)) hs.2

/-- C18 (amended). Take a graph built from units with empty dependency sets
by successful `unit_add_dependency` calls of which each passes `add_reference`
true or has a kind whose inverse is another kind (any kind but `OnFailure` and
`JoinsNamespaceOf`), and a unit `u` whose names the registry maps to `u`.
After `unit_free(u)` none of the former names of `u` is registered and no unit
has `u` in any of its dependency sets. -/
theorem unit_free_unregisters (env : Env) (m0 m m' : Manager) (calls : List DepCall)
    (u : UnitId) (hempty : m0.no_dependencies) (hrun : run_add_dependency m0 calls = some m)
    (hrev : ∀ c ∈ calls, c.has_reverse = true)
    (hreg : ∀ n ∈ (m.unit u).names, manager_get_unit m n = some u)
    (hfree : unit_free env m u = some m') :
    (∀ n ∈ (m.unit u).names, manager_get_unit m' n = none) ∧
    ∀ x k, u ∉ m'.deps x k := by
  have h0 : m0.no_self_edges ∧ ∀ x k y, y ∈ m0.deps x k → ∃ k', x ∈ m0.deps y k' := by
    constructor
    · intro x k hx
      rw [deps_of_no_dependencies m0 hempty] at hx
      exact absurd hx (List.not_mem_nil x)
    · intro x k y hy
      rw [deps_of_no_dependencies m0 hempty] at hy
      exact absurd hy (List.not_mem_nil y)
  obtain ⟨hs, hr⟩ := reverse_edges_run calls m0 m hrun hrev h0
  obtain ⟨_, f1, f2, _⟩ := unit_free_spec env m m' u (fun k => hs u k) hfree
  refine ⟨fun n hn => ?_, fun x k hx => ?_⟩
  · rw [f1, if_pos ⟨hn, hreg n hn⟩]
  · obtain ⟨_, a, b⟩ := (f2 x k u).1 hx
    obtain ⟨k', hk'⟩ := hr x k u a
    exact b ⟨rfl, k', hk'⟩

set_option maxRecDepth 100000 in
/-- An instance of C18 (amended): unit 1 of `graph2_requires`, the graph that
`unit_add_dependency(0, Requires, 1, true)` builds from `graph2` up to the
references, is freed. -/
theorem unit_free_unregisters_witness :
    (∀ n ∈ (((run_add_dependency graph2 [⟨0, .requires, 1, true, no_oom⟩]).getD graph2).unit 1).names,
      manager_get_unit ((unit_free env0
        ((run_add_dependency graph2 [⟨0, .requires, 1, true, no_oom⟩]).getD graph2) 1).getD graph2) n
        = none) ∧
    ∀ x k, 1 ∉ ((unit_free env0
      ((run_add_dependency graph2 [⟨0, .requires, 1, true, no_oom⟩]).getD graph2) 1).getD graph2).deps x k :=
  unit_free_unregisters env0 graph2
    ((run_add_dependency graph2 [⟨0, .requires, 1, true, no_oom⟩]).getD graph2)
    ((unit_free env0
      ((run_add_dependency graph2 [⟨0, .requires, 1, true, no_oom⟩]).getD graph2) 1).getD graph2)
    [⟨0, .requires, 1, true, no_oom⟩] 1 (by decide) (by decide) (by decide) (by decide) (by decide)

set_option maxRecDepth 100000 in
/-- C18 as stated fails. The call `unit_add_dependency(0, OnFailure, 1, false)`
builds `graph2_on_failure` from `graph2`: the edge has no inverse and no
reference. After `unit_free(1)` unit 0 still has unit 1 in its `OnFailure`
set. -/
theorem unit_free_leaves_on_failure_edge :
    graph2.no_dependencies ∧
    run_add_dependency graph2 [⟨0, .on_failure, 1, false, no_oom⟩] = some graph2_on_failure ∧
    (unit_free env0 graph2_on_failure 1).isSome = true ∧
    1 ∈ ((unit_free env0 graph2_on_failure 1).getD graph2_on_failure).deps 0 .on_failure := by
  refine ⟨?_, ?_, ?_, ?_⟩ <;> decide

/-! ## Deserialization of a unit: claim C17 -/

set_option maxRecDepth 100000 in
/-- C17 fails on a stream that ends without the end marker. The stream holds
the item `transient=yes` and then ends; `unit_deserialize` returns 0 at the
end of the stream (unit.c:2893) without reaching the code that takes the
current time: the state-change timestamp of unit 0 of `registry3` stays unset,
while the claim wants the current time `(5, 5)`. With the end marker (an empty
line) after the item the timestamp is the current time, and a serialized
value `1 1` before the marker is kept. -/
theorem unit_deserialize_eof_keeps_timestamp_unset :
    (unit_deserialize env0 senv0 { realtime := 5, monotonic := 5 } no_oom registry3 0
        { lines := ["transient=yes\n"] }).map Prod.fst = some 0 ∧
    ((state_after registry3 (unit_deserialize env0 senv0 { realtime := 5, monotonic := 5 } no_oom
        registry3 0 { lines := ["transient=yes\n"] })).unit 0).state_change_timestamp = {} ∧
    ((state_after registry3 (unit_deserialize env0 senv0 { realtime := 5, monotonic := 5 } no_oom
        registry3 0 { lines := ["transient=yes\n"] })).unit 0).transient = true ∧
    senv0.dual_timestamp_is_set {} = false ∧
    ((state_after registry3 (unit_deserialize env0 senv0 { realtime := 5, monotonic := 5 } no_oom
        registry3 0 { lines := ["transient=yes\n", "\n"] })).unit 0).state_change_timestamp
      = { realtime := 5, monotonic := 5 } ∧
    ((state_after registry3 (unit_deserialize env0 senv0 { realtime := 5, monotonic := 5 } no_oom
        registry3 0 { lines := ["state-change-timestamp=1 1\n", "\n"] })).unit 0).state_change_timestamp
      = { realtime := 1, monotonic := 1 } := by
  refine ⟨?_, ?_, ?_, ?_, ?_, ?_⟩ <;> decide

/-! ## Mount dependencies: claim C20 -/

theorem same_ident_add_dependency_fail (m : Manager) (u : UnitId) (d : UnitDependency)
    (other : UnitId) (q v w : Int) : m.same_ident (unit_add_dependency_fail m u d other q v w) := by
  unfold unit_add_dependency_fail
  dsimp only
  have s1 : ∀ a : Manager, a.same_ident (match inverse_table d with
      | some i => a.setDeps other i (set_remove (a.deps other i) u)
      | none => a) := by
    intro a
    cases inverse_table d with
    | none => exact same_ident_refl a
    | some i => exact same_ident_setDeps _ _ _ _
  by_cases hq : q > 0 <;> by_cases hv : v > 0 <;> by_cases hw : w > 0 <;>
    simp only [hq, hv, hw, if_true, if_false]
  · exact same_ident_trans (same_ident_setDeps _ _ _ _)
      (same_ident_trans (s1 _) (same_ident_setDeps _ _ _ _))
  · exact same_ident_trans (same_ident_setDeps _ _ _ _) (s1 _)
  · exact same_ident_trans (same_ident_setDeps _ _ _ _) (same_ident_setDeps _ _ _ _)
  · exact same_ident_setDeps _ _ _ _
  · exact same_ident_trans (s1 _) (same_ident_setDeps _ _ _ _)
  · exact s1 _
  · exact same_ident_setDeps _ _ _ _
  · exact same_ident_refl m

theorem same_ident_add_dependency_refs (oom : Nat → Bool) (m m' : Manager) (u other : UnitId)
    (d : UnitDependency) (ar : Bool) (q v : Int) (r : Int)
    (h : unit_add_dependency_refs oom m u d other ar q v = some (r, m')) : m.same_ident m' := by
  unfold unit_add_dependency_refs at h
  by_cases har : ar = true
  · rw [if_pos har] at h
    dsimp only at h
    split_ifs at h
    · simp only [Option.some.injEq, Prod.mk.injEq] at h
      rw [← h.2]
      exact same_ident_add_dependency_fail _ _ _ _ _ _ _
    · simp only [Option.some.injEq, Prod.mk.injEq] at h
      rw [← h.2]
      exact same_ident_trans (same_ident_setDeps _ _ _ _)
        (same_ident_add_dependency_fail _ _ _ _ _ _ _)
    · simp only [Option.map_eq_some'] at h
      obtain ⟨m5, h5, h6⟩ := h
      simp only [Prod.mk.injEq] at h6
      rw [← h6.2]
      exact same_ident_trans (same_ident_setDeps _ _ _ _)
        (same_ident_trans (same_ident_setDeps _ _ _ _) (frame_dbus_queue _ _ _ h5).1)
  · rw [if_neg har] at h
    simp only [Option.map_eq_some'] at h
    obtain ⟨m5, h5, h6⟩ := h
    simp only [Prod.mk.injEq] at h6
    rw [← h6.2]
    exact (frame_dbus_queue _ _ _ h5).1

/-- A call of `unit_add_dependency` changes no name, type, load state, merge
link or fragment path, and nothing in the registry. -/
theorem same_ident_add_dependency (oom : Nat → Bool) (m m' : Manager) (u other : UnitId)
    (d : UnitDependency) (ar : Bool) (r : Int)
    (h : unit_add_dependency oom m u d other ar = some (r, m')) : m.same_ident m' := by
  unfold unit_add_dependency at h
  cases hfu : unit_follow_merge m u with
  | none => simp [hfu] at h
  | some u' =>
  cases hfo : unit_follow_merge m other with
  | none => simp [hfu, hfo] at h
  | some o' =>
  simp only [hfu, hfo] at h
  have same : ∀ e : Int, some (e, m) = some (r, m') → m.same_ident m' := by
    intro e hh
    simp only [Option.some.injEq, Prod.mk.injEq] at hh
    rw [← hh.2]; exact same_ident_refl m
  split_ifs at h with g1 g2 g3 g4 g5 g6 g7
  · exact same _ h
  · exact same _ h
  · exact same _ h
  · exact same _ h
  · exact same _ h
  · exact same _ h
  · exact same _ h
  · cases hi : inverse_table d with
    | none =>
      simp only [hi] at h
      exact same_ident_trans (same_ident_setDeps _ _ _ _)
        (same_ident_add_dependency_refs _ _ _ _ _ _ _ _ _ _ h)
    | some i =>
      simp only [hi] at h
      split_ifs at h
      · simp only [Option.some.injEq, Prod.mk.injEq] at h
        rw [← h.2]
        exact same_ident_trans (same_ident_setDeps _ _ _ _)
          (same_ident_add_dependency_fail _ _ _ _ _ _ _)
      · exact same_ident_trans (same_ident_setDeps _ _ _ _)
          (same_ident_trans (same_ident_setDeps _ _ _ _)
            (same_ident_add_dependency_refs _ _ _ _ _ _ _ _ _ _ h))
      · exact same_ident_trans (same_ident_setDeps _ _ _ _)
          (same_ident_add_dependency_refs _ _ _ _ _ _ _ _ _ _ h)

theorem touches_refl (m : Manager) (u : UnitId) : m.touches m u := ⟨rfl, fun _ _ => rfl, rfl⟩

theorem touches_trans {a b c : Manager} {u : UnitId} (h1 : a.touches b u) (h2 : b.touches c u) :
    a.touches c u :=
  ⟨h2.1.trans h1.1, fun x hx => (h2.2.1 x hx).trans (h1.2.1 x hx), h2.2.2.trans h1.2.2⟩

theorem touches_modify_heap (m m' : Manager) (u : UnitId) (f : Unit → Unit)
    (h2 : m'.heap = (m.modify u f).heap) (hf : ∀ x, (f x).rest = x.rest) : m.touches m' u := by
  have e : ∀ x, m'.unit x = (m.modify u f).unit x := fun x => unit_eq_of_heap h2 x
  refine ⟨by rw [h2]; exact length_modify m u f, fun x hx => ?_, ?_⟩
  · rw [e, unit_modify, if_neg (fun a => hx a.2)]
  · rw [e, unit_modify]
    split_ifs with h
    · exact hf _
    · rfl

theorem touches_modify (m : Manager) (u : UnitId) (f : Unit → Unit)
    (hf : ∀ x, (f x).rest = x.rest) : m.touches (m.modify u f) u :=
  touches_modify_heap m _ u f rfl hf

theorem touches_dbus_queue (m m' : Manager) (u : UnitId)
    (h : unit_add_to_dbus_queue m u = some m') : m.touches m' u := by
  unfold unit_add_to_dbus_queue at h
  split_ifs at h <;> cases h
  · exact touches_refl m u
  · exact touches_modify m u _ (fun x => rfl)
  · exact touches_modify_heap m _ u (fun x => { x with in_dbus_queue := true }) rfl
      (fun _ => rfl)

theorem touches_unit_init (env : Env) (m m1 : Manager) (u : UnitId)
    (h : unit_init env m u = some m1) : m.touches m1 u := by
  unfold unit_init at h
  cases ht : (m.unit u).type with
  | none => simp [ht] at h
  | some t =>
    simp only [ht] at h
    cases hi : (env.unit_vtable t).init with
    | none =>
      simp only [hi, Option.some.injEq] at h
      rw [← h]; exact touches_refl m u
    | some f =>
      simp only [hi, Option.some.injEq] at h
      rw [← h]
      exact touches_modify m u _ (fun x => rfl)

theorem touches_add_name_commit (env : Env) (oom : Nat → Bool) (m m1 : Manager) (u : UnitId)
    (s : String) (t : UnitType) (i : Option String) (r : Int)
    (h : unit_add_name_commit env oom m u s t i = some (r, m1)) : m.touches m1 u := by
  unfold unit_add_name_commit at h
  by_cases h1 : oom 1 = true
  · rw [if_pos h1] at h
    cases h; exact touches_refl m u
  rw [if_neg h1] at h
  dsimp only at h
  have t1 := touches_modify m u (fun x => { x with names := x.names ++ [s] }) (fun x => rfl)
  generalize m.modify u (fun x => { x with names := x.names ++ [s] }) = ma at h t1
  generalize hashmap_put (oom 2) ma.units s u = p at h
  by_cases h2 : p.1 < 0
  · rw [if_pos h2] at h
    cases h
    exact touches_trans t1 (touches_modify _ u _ (fun x => rfl))
  rw [if_neg h2] at h
  have t2 : ma.touches ({ ma with units := p.2 } : Manager) u := ⟨rfl, fun x _ => rfl, rfl⟩
  generalize ({ ma with units := p.2 } : Manager) = m2 at h t2
  by_cases h3 : (m2.unit u).type = none
  · rw [if_pos h3] at h
    simp only [Option.bind_eq_some, Option.map_eq_some', Prod.mk.injEq] at h
    obtain ⟨m4, h4, m5, h5, -, rfl⟩ := h
    refine touches_trans t1 (touches_trans t2 ?_)
    refine touches_trans ?_ (touches_trans (touches_unit_init env _ m4 u h4)
      (touches_dbus_queue m4 m5 u h5))
    exact touches_modify_heap _ _ u
      (fun x => { x with type := some t, id := some s, inst := i }) rfl (fun x => rfl)
  · rw [if_neg h3] at h
    simp only [Option.map_eq_some', Prod.mk.injEq] at h
    obtain ⟨m5, h5, -, rfl⟩ := h
    exact touches_trans t1 (touches_trans t2 (touches_dbus_queue _ m5 u h5))

theorem touches_add_name (env : Env) (oom : Nat → Bool) (m m1 : Manager) (u : UnitId)
    (text : String) (r : Int) (h : unit_add_name env oom m u text = some (r, m1)) :
    m.touches m1 u := by
  unfold unit_add_name at h
  split_ifs at h with hv
  cases hr : unit_add_name_resolve env oom m u text with
  | error e =>
    simp only [hr, Option.some.injEq, Prod.mk.injEq] at h
    rw [← h.2]; exact touches_refl m u
  | ok s =>
    simp only [hr] at h
    unfold unit_add_name_checked at h
    have same : ∀ e : Int, some (e, m) = some (r, m1) → m.touches m1 u := by
      intro e hh
      simp only [Option.some.injEq, Prod.mk.injEq] at hh
      rw [← hh.2]; exact touches_refl m u
    by_cases g1 : s ∈ (m.unit u).names
    · rw [if_pos g1] at h; exact same _ h
    rw [if_neg g1] at h
    by_cases g2 : hashmap_contains m.units s = true
    · rw [if_pos g2] at h; exact same _ h
    rw [if_neg g2] at h
    by_cases g3 : env.unit_name_is_valid s (UNIT_NAME_PLAIN ||| UNIT_NAME_INSTANCE) = false
    · rw [if_pos g3] at h; exact same _ h
    rw [if_neg g3] at h
    cases ht : env.unit_name_to_type s with
    | none => simp only [ht] at h; exact same _ h
    | some t =>
      simp only [ht] at h
      split_ifs at h
      · exact same _ h
      · exact same _ h
      · exact same _ h
      · exact same _ h
      · exact same _ h
      · exact same _ h
      · exact touches_add_name_commit env oom m m1 u s t _ r h

theorem rest_fields {x y : Unit} (h : x.rest = y.rest) :
    x.load_state = y.load_state ∧ x.merged_into = y.merged_into ∧
      x.fragment_path = y.fragment_path ∧ x.dependencies = y.dependencies ∧ x.refs = y.refs ∧
      x.job = y.job ∧ x.nop_job = y.nop_job ∧ x.slice = y.slice := by
  unfold Unit.rest at h
  simp only [Prod.mk.injEq] at h
  exact h

theorem touches_unit_done (env : Env) (m : Manager) (u : UnitId) :
    m.touches (unit_done env m u) u := by
  unfold unit_done
  cases (m.unit u).type with
  | none => exact touches_refl m u
  | some t =>
    dsimp only
    cases (env.unit_vtable t).done with
    | none => exact touches_refl m u
    | some f => exact touches_modify m u _ (fun _ => rfl)

theorem unit_free_dependencies_isolated (env : Env) (u : UnitId) (m : Manager)
    (hd : ∀ k, m.deps u k = []) (ds : List UnitDependency) :
    unit_free_dependencies env u m ds = some m := by
  induction ds with
  | nil => rfl
  | cons d ds ih =>
    unfold unit_free_dependencies
    rw [hd d]
    show (some m).bind _ = _
    rw [Option.some_bind]
    exact ih

/-- A unit object without dependencies, references, jobs and slice can be
freed. -/
theorem unit_free_isolated (env : Env) (m : Manager) (u : UnitId) (hv : m.valid u)
    (hrest : (m.unit u).rest = ({} : Unit).rest) : ∃ m', unit_free env m u = some m' := by
  unfold unit_free
  rw [if_pos hv]
  dsimp only
  have t2 := touches_trans (touches_unit_done env m u)
    (touches_modify (unit_done env m u) u
      (fun x => { x with deserialized_refs := [], requires_mounts_for := [] }) (fun _ => rfl))
  generalize (unit_done env m u).modify u
    (fun x => { x with deserialized_refs := [], requires_mounts_for := [] }) = m2 at t2
  have r2 : (m2.unit u).rest = ({} : Unit).rest := t2.2.2.trans hrest
  have u3 : (unit_free_names m2 u).unit u = m2.unit u := rfl
  generalize unit_free_names m2 u = m3 at u3
  obtain ⟨-, -, -, hdep, hrefs, hjob, hnop, hslice⟩ :=
    rest_fields (u3 ▸ r2 : (m3.unit u).rest = _)
  have j3 : unit_free_jobs m3 u = m3 := by
    unfold unit_free_jobs
    dsimp only
    rw [hjob]
    dsimp only
    rw [hnop]
  rw [j3, unit_free_dependencies_isolated env u m3 (fun k => by unfold Manager.deps; rw [hdep])]
  rw [Option.some_bind]
  have q : ∀ s, (({ unit_free_queues m3 u with startup_units := s } : Manager)).unit u =
      m3.unit u := fun _ => rfl
  rw [q, hslice]
  simp only [unit_ref_unset, Option.some_bind]
  rw [q, hrefs]
  exact ⟨_, rfl⟩

theorem unit_init_some (env : Env) (m : Manager) (u : UnitId) (ht : (m.unit u).type ≠ none) :
    ∃ m', unit_init env m u = some m' := by
  unfold unit_init
  cases h : (m.unit u).type with
  | none => exact absurd h ht
  | some t =>
    dsimp only
    cases (env.unit_vtable t).init <;> exact ⟨_, rfl⟩

theorem unit_add_name_commit_total (env : Env) (oom : Nat → Bool) (m : Manager) (u : UnitId)
    (s : String) (t : UnitType) (i : Option String) (hv : m.valid u) :
    ∃ r m1, unit_add_name_commit env oom m u s t i = some (r, m1) := by
  unfold unit_add_name_commit
  by_cases h1 : oom 1 = true
  · rw [if_pos h1]; exact ⟨_, _, rfl⟩
  rw [if_neg h1]
  dsimp only
  have v1 : (m.modify u (fun x => { x with names := x.names ++ [s] })).valid u :=
    (valid_modify _ _ _ _).2 hv
  generalize m.modify u (fun x => { x with names := x.names ++ [s] }) = ma at v1
  generalize hashmap_put (oom 2) ma.units s u = p
  by_cases h2 : p.1 < 0
  · rw [if_pos h2]; exact ⟨_, _, rfl⟩
  rw [if_neg h2]
  have v2 : ({ ma with units := p.2 } : Manager).valid u := v1
  generalize ({ ma with units := p.2 } : Manager) = m2 at v2
  by_cases h3 : (m2.unit u).type = none
  · rw [if_pos h3]
    have ty : (({ m2.modify u (fun x => { x with type := some t, id := some s, inst := i }) with
        units_by_type := (t, u) :: m2.units_by_type } : Manager).unit u).type ≠ none := by
      show ((m2.modify u (fun x => { x with type := some t, id := some s, inst := i })).unit u).type
        ≠ none
      rw [unit_modify, if_pos ⟨v2, rfl⟩]
      exact fun q => by cases q
    have key : ∀ m3 : Manager, (m3.unit u).type ≠ none →
        ∃ r m1, ((unit_init env m3 u).bind (fun m4 =>
          (unit_add_to_dbus_queue m4 u).map (fun m5 => ((0 : Int), m5)))) = some (r, m1) := by
      intro m3 ty3
      obtain ⟨m4, h4⟩ := unit_init_some env m3 u ty3
      have ty4 : (m4.unit u).type ≠ none := by
        rw [(ident_fields ((frame_unit_init env _ m4 u h4).1.2.2 u)).2.2.2.1]
        exact ty3
      obtain ⟨m5, h5⟩ := unit_add_to_dbus_queue_some m4 u ty4
      rw [h4, Option.some_bind, h5]
      exact ⟨_, _, rfl⟩
    exact key _ ty
  · rw [if_neg h3]
    obtain ⟨m5, h5⟩ := unit_add_to_dbus_queue_some m2 u h3
    rw [h5]
    exact ⟨_, _, rfl⟩

theorem unit_add_name_total (env : Env) (oom : Nat → Bool) (m : Manager) (u : UnitId)
    (text : String) (hv : m.valid u) : ∃ r m1, unit_add_name env oom m u text = some (r, m1) := by
  unfold unit_add_name
  rw [if_pos hv]
  cases hr : unit_add_name_resolve env oom m u text with
  | error e => exact ⟨_, _, rfl⟩
  | ok s =>
    dsimp only
    unfold unit_add_name_checked
    by_cases g1 : s ∈ (m.unit u).names
    · rw [if_pos g1]; exact ⟨_, _, rfl⟩
    rw [if_neg g1]
    by_cases g2 : hashmap_contains m.units s = true
    · rw [if_pos g2]; exact ⟨_, _, rfl⟩
    rw [if_neg g2]
    by_cases g3 : env.unit_name_is_valid s (UNIT_NAME_PLAIN ||| UNIT_NAME_INSTANCE) = false
    · rw [if_pos g3]; exact ⟨_, _, rfl⟩
    rw [if_neg g3]
    cases ht : env.unit_name_to_type s with
    | none => exact ⟨_, _, rfl⟩
    | some t =>
      dsimp only
      split_ifs
      all_goals first
        | exact ⟨_, _, rfl⟩
        | exact unit_add_name_commit_total env oom m u s t _ hv

theorem unit_invalid (m : Manager) (x : UnitId) (h : ¬ m.valid x) : m.unit x = {} := by
  unfold Manager.unit
  rw [List.getD_eq_default _ _ (Nat.le_of_not_lt h)]; rfl

theorem extended_by_refl (m : Manager) : m.extended_by m :=
  ⟨Nat.le_refl _, fun _ _ => rfl, fun x hx => by rw [unit_invalid m x hx], fun _ => Or.inl rfl⟩

theorem extended_by_valid {a b : Manager} (h : a.extended_by b) (x : UnitId) (hx : a.valid x) :
    b.valid x := Nat.lt_of_lt_of_le hx h.1

theorem extended_by_trans {a b c : Manager} (h1 : a.extended_by b) (h2 : b.extended_by c) :
    a.extended_by c := by
  refine ⟨Nat.le_trans h1.1 h2.1, fun x hx => ?_, fun x hx => ?_, fun n => ?_⟩
  · rw [h2.2.1 x (extended_by_valid h1 x hx), h1.2.1 x hx]
  · by_cases hb : b.valid x
    · rw [(ident_fields (h2.2.1 x hb)).2.2.2.2.1]
      exact h1.2.2.1 x hx
    · exact h2.2.2.1 x hb
  · rcases h2.2.2.2 n with e2 | ⟨e2, v, hv, nv⟩
    · rw [e2]; exact h1.2.2.2 n
    · rcases h1.2.2.2 n with e1 | ⟨e1, w, hw, _⟩
      · exact Or.inr ⟨e1 ▸ e2, v, hv, fun q => nv (extended_by_valid h1 v q)⟩
      · rw [e2] at hw; cases hw

theorem extended_by_of_same_ident {a b : Manager} (h : a.same_ident b) : a.extended_by b := by
  refine ⟨Nat.le_of_eq h.2.1.symm, fun x _ => h.2.2 x, fun x hx => ?_, fun n => Or.inl ?_⟩
  · rw [(ident_fields (h.2.2 x)).2.2.2.2.1, unit_invalid a x hx]
  · unfold manager_get_unit; rw [h.1]

theorem frame_load_queue (m m' : Manager) (u : UnitId)
    (h : unit_add_to_load_queue m u = some m') : m.same_ident m' ∧ m.same_deps m' := by
  unfold unit_add_to_load_queue at h
  split_ifs at h <;> cases h
  · exact frame_refl m
  · exact frame_modify_heap m _ u (fun x => { x with in_load_queue := true }) rfl rfl
      (fun _ => ⟨rfl, rfl⟩)

theorem unit_add_to_load_queue_some (m : Manager) (u : UnitId) (ht : (m.unit u).type ≠ none) :
    ∃ m', unit_add_to_load_queue m u = some m' := by
  unfold unit_add_to_load_queue
  rw [if_neg ht]
  split_ifs <;> exact ⟨_, rfl⟩

theorem unit_new_unit (m : Manager) (x : UnitId) :
    ({ m with heap := m.heap ++ [{}] } : Manager).unit x = m.unit x := by
  unfold Manager.unit
  show (m.heap ++ [({} : Unit)]).getD x default = m.heap.getD x default
  by_cases h : x < m.heap.length
  · rw [List.getD_append _ _ _ _ h]
  · rw [List.getD_eq_default m.heap _ (Nat.le_of_not_lt h)]
    rw [List.getD_append_right _ _ _ _ (Nat.le_of_not_lt h)]
    cases (x - m.heap.length) <;> rfl

/-- What `manager_load_unit_prepare(m, name, NULL, NULL, &ret)` does: it
returns, no dependency set changes, and the state is extended by stub units at
most. -/
theorem manager_load_unit_prepare_spec (env : Env) (jenv : JobEnv) (penv : PathEnv)
    (oom : Nat → Bool) (m : Manager) (name : String) :
    ∃ r ret m', manager_load_unit_prepare env jenv penv oom m (some name) none = some (r, ret, m') ∧
      m.extended_by m' ∧ ∀ x k y, y ∈ m'.deps x k ↔ y ∈ m.deps x k := by
  have same : ∀ (r : Int) (ret : Option UnitId), ∃ r' ret' m',
      some (r, ret, m) = some (r', ret', m') ∧
      m.extended_by m' ∧ ∀ x k y, y ∈ m'.deps x k ↔ y ∈ m.deps x k :=
    fun r ret => ⟨r, ret, m, rfl, extended_by_refl m, fun _ _ _ => Iff.rfl⟩
  unfold manager_load_unit_prepare
  simp only [Option.isSome_some, Option.isSome_none, true_or, if_true, Option.any_none,
    Option.getD_some, Bool.false_eq_true, if_false, false_and]
  split_ifs with h1
  · exact same _ _
  cases hg : manager_get_unit m name with
  | some ret => exact same _ _
  | none =>
    dsimp only
    unfold unit_new
    split_ifs with h2
    · exact same _ _
    dsimp only
    -- the new object
    have hnv : ¬ m.valid m.heap.length := Nat.lt_irrefl _
    have u0 := unit_new_unit m
    have v0 : ({ m with heap := m.heap ++ [{}] } : Manager).valid m.heap.length := by
      show m.heap.length < (m.heap ++ [({} : Unit)]).length
      rw [List.length_append]; exact Nat.lt_succ_self _
    have l0 : ({ m with heap := m.heap ++ [{}] } : Manager).heap.length = m.heap.length + 1 := by
      show (m.heap ++ [({} : Unit)]).length = _
      rw [List.length_append]; rfl
    have r0 : ({ m with heap := m.heap ++ [{}] } : Manager).units = m.units := rfl
    generalize ({ m with heap := m.heap ++ [{}] } : Manager) = m0 at u0 v0 l0 r0
    obtain ⟨r, m2, h2⟩ := unit_add_name_total env (fun n => oom (n + 3)) m0 m.heap.length name v0
    rw [h2]
    dsimp only
    have tch := touches_add_name env _ m0 m2 _ name r h2
    obtain ⟨-, -, spec⟩ := unit_add_name_spec env _ m0 m2 _ name r h2
    have hnew : m.unit m.heap.length = {} := unit_invalid m _ hnv
    have hoth : ∀ x, x ≠ m.heap.length → m2.unit x = m.unit x := fun x hx => by
      rw [tch.2.1 x hx, u0]
    have hrest : (m2.unit m.heap.length).rest = ({} : Unit).rest := by
      rw [tch.2.2, u0, hnew]
    have hdeps : ∀ x k, m2.deps x k = m.deps x k := by
      intro x k
      unfold Manager.deps
      by_cases hx : x = m.heap.length
      · rw [hx, (rest_fields hrest).2.2.2.1, hnew]
      · rw [hoth x hx]
    have hl2 : m2.heap.length = m.heap.length + 1 := by rw [tch.1, l0]
    have v2 : m2.valid m.heap.length := by
      unfold Manager.valid; rw [hl2]; exact Nat.lt_succ_self _
    have hnames0 : (m0.unit m.heap.length).names = [] := by rw [u0, hnew]
    by_cases hr : r < 0
    · rw [if_pos hr]
      obtain ⟨m3, h3⟩ := unit_free_isolated env m2 _ v2 hrest
      rw [h3]
      refine ⟨_, _, _, rfl, ?_⟩
      have hself : ∀ k, m.heap.length ∉ m2.deps m.heap.length k := by
        intro k
        rw [hdeps, deps_invalid m _ k hnv]
        exact List.not_mem_nil _
      obtain ⟨-, g1, g2, g3, g4, g5⟩ := unit_free_spec env m2 m3 _ hself h3
      have hu2 : m2.units = m.units := by
        rcases spec with ⟨-, -, e, -⟩ | ⟨s, t, -, -, -, -, -, -, -, -, e⟩
        · rw [e, r0]
        · rw [e] at hr; exact absurd hr (by decide)
      have hn2 : ∀ n, n ∉ (m2.unit m.heap.length).names := by
        intro n hn
        rcases spec with ⟨e, -⟩ | ⟨s, t, -, -, -, -, -, -, -, -, e⟩
        · rw [e, hnames0] at hn; exact List.not_mem_nil _ hn
        · rw [e] at hr; exact absurd hr (by decide)
      refine ⟨⟨?_, fun x hx => ?_, fun x hx => ?_, fun n => Or.inl ?_⟩, fun x k y => ?_⟩
      · rw [g3, hl2]; exact Nat.le_succ _
      · have hne : x ≠ m.heap.length := Nat.ne_of_lt hx
        rw [g4 x hne, hoth x hne]
      · by_cases hne : x = m.heap.length
        · rw [hne, g5]
        · rw [(ident_fields (g4 x hne)).2.2.2.2.1, hoth x hne, unit_invalid m x hx]
      · rw [g1, if_neg (fun a => hn2 n a.1)]
        unfold manager_get_unit; rw [hu2]
      · rw [g2, hdeps]
        constructor
        · exact fun a => a.2.1
        · intro a
          refine ⟨fun e => ?_, a, fun b => ?_⟩
          · rw [e, deps_invalid m _ k hnv] at a
            exact List.not_mem_nil _ a
          · obtain ⟨-, d, hd⟩ := b
            rw [hdeps, deps_invalid m _ d hnv] at hd
            exact List.not_mem_nil _ hd
    · rw [if_neg hr]
      obtain ⟨s, t, hty, hu2, hgs⟩ : ∃ s t, (m2.unit m.heap.length).type = some t ∧
          m2.units = m.units ++ [(s, m.heap.length)] ∧ hashmap_get m.units s = none := by
        rcases spec with ⟨-, -, -, e⟩ | ⟨s, t, -, -, e1, -, -, -, e2, e3, -⟩
        · obtain ⟨s, -, hs⟩ := e hr
          rw [hnames0] at hs
          exact absurd hs (List.not_mem_nil _)
        · exact ⟨s, t, e2, by rw [e3, r0], by rw [← r0]; exact e1⟩
      have ty2 : (m2.unit m.heap.length).type ≠ none := by rw [hty]; exact fun q => by cases q
      obtain ⟨m3, h3⟩ := unit_add_to_load_queue_some m2 _ ty2
      have f3 := frame_load_queue m2 m3 _ h3
      have ty3 : (m3.unit m.heap.length).type ≠ none := by
        rw [(ident_fields (f3.1.2.2 _)).2.2.2.1]; exact ty2
      obtain ⟨m4, h4⟩ := unit_add_to_dbus_queue_some m3 _ ty3
      have f4 := frame_trans f3 (frame_dbus_queue m3 m4 _ h4)
      have ty4 : (m4.unit m.heap.length).type ≠ none := by
        rw [(ident_fields (f4.1.2.2 _)).2.2.2.1]; exact ty2
      have ls2 : (m2.unit m.heap.length).load_state = .stub := (rest_fields hrest).1
      have ls4 : (m4.unit m.heap.length).load_state ≠ .merged := by
        rw [(ident_fields (f4.1.2.2 _)).2.2.2.2.1, ls2]; exact fun q => by cases q
      have v4 : m4.valid m.heap.length := (valid_of_same_ident f4.1 _).2 v2
      obtain ⟨m5, h5⟩ := unit_add_to_gc_queue_some env m4 _ v4 ty4 ls4
      have f5 := frame_trans f4 (frame_gc_queue env m4 m5 _ h5)
      rw [h3, Option.some_bind, h4, Option.some_bind, h5]
      refine ⟨_, _, _, rfl, ⟨?_, fun x hx => ?_, fun x hx => ?_, fun n => ?_⟩, fun x k y => ?_⟩
      · rw [f5.1.2.1, hl2]; exact Nat.le_succ _
      · rw [f5.1.2.2 x, hoth x (Nat.ne_of_lt hx)]
      · rw [(ident_fields (f5.1.2.2 x)).2.2.2.2.1]
        by_cases hne : x = m.heap.length
        · rw [hne, ls2]
        · rw [hoth x hne, unit_invalid m x hx]
      · have e : manager_get_unit m5 n =
            (manager_get_unit m n).or (if n = s then some m.heap.length else none) := by
          unfold manager_get_unit
          rw [f5.1.1, hu2, hashmap_get_append]
        rw [e]
        cases hgn : manager_get_unit m n with
        | some v => exact Or.inl rfl
        | none =>
          by_cases hns : n = s
          · rw [if_pos hns]
            exact Or.inr ⟨rfl, _, rfl, hnv⟩
          · rw [if_neg hns]
            exact Or.inl rfl
      · rw [deps_of_same_deps f5.2, hdeps]

theorem extended_by_load_state {a b : Manager} (h : a.extended_by b) (x : UnitId) :
    (b.unit x).load_state = (a.unit x).load_state := by
  by_cases hx : a.valid x
  · exact (ident_fields (h.2.1 x hx)).2.2.2.2.1
  · rw [h.2.2.1 x hx, unit_invalid a x hx]

theorem valid_of_loaded (m : Manager) (x : UnitId) (h : (m.unit x).load_state = .loaded) :
    m.valid x := by
  by_contra hx
  rw [unit_invalid m x hx] at h
  cases h

theorem mount_target_extended (penv : PathEnv) (m0 m : Manager) (u : UnitId) (pfx : String)
    (h : m0.extended_by m) : mount_target penv m u pfx = mount_target penv m0 u pfx := by
  unfold mount_target
  by_cases hp : (penv.unit_name_from_path pfx ".mount").1 < 0
  · rw [if_pos hp, if_pos hp]
  rw [if_neg hp, if_neg hp]
  rcases h.2.2.2 (penv.unit_name_from_path pfx ".mount").2 with e | ⟨e, v, hv, nv⟩
  · rw [e]
    cases manager_get_unit m0 (penv.unit_name_from_path pfx ".mount").2 with
    | none => rfl
    | some mu =>
      dsimp only
      rw [extended_by_load_state h mu]
  · rw [e, hv]
    dsimp only
    rw [if_neg]
    rintro ⟨-, hl⟩
    rw [h.2.2.1 v nv] at hl
    cases hl

theorem added_self (u o : UnitId) (d k : UnitDependency) (y : UnitId) (hne : o ≠ u)
    (hk : k = .after ∨ k = .requires) : added u o d true u k y ↔ k = d ∧ y = o := by
  unfold added
  constructor
  · rintro (⟨-, a, b⟩ | ⟨a, -⟩ | ⟨-, -, a, -⟩ | ⟨-, a, -⟩)
    · exact ⟨a, b⟩
    · exact absurd a.symm hne
    · rcases hk with e | e <;> rw [e] at a <;> cases a
    · exact absurd a.symm hne
  · rintro ⟨a, b⟩
    exact Or.inl ⟨rfl, a, b⟩

/-- One call `unit_add_dependency(u, d, mu, true)` of the loop on a loaded
unit `mu`: it returns, and when it succeeds `mu` is the one new member of
`u->dependencies[d]`, the sets `After` and `Requires` being else as before. -/
theorem add_mount_edge (oom : Nat → Bool) (m : Manager) (u mu : UnitId) (d : UnitDependency)
    (hd : d = .after ∨ d = .requires) (hv : m.valid u) (ht : (m.unit u).type ≠ none)
    (hm : (m.unit u).load_state ≠ .merged) (hmu : (m.unit mu).load_state = .loaded)
    (hne : mu ≠ u) :
    ∃ r m1, unit_add_dependency oom m u d mu true = some (r, m1) ∧ m.same_ident m1 ∧
      (r < 0 → ∃ n, oom n = true) ∧
      (¬ r < 0 → ∀ k, k = .after ∨ k = .requires →
        ∀ y, y ∈ m1.deps u k ↔ y ∈ m.deps u k ∨ (k = d ∧ y = mu)) := by
  have hu := unit_follow_merge_self m u hv hm
  have ho := unit_follow_merge_self m mu (valid_of_loaded m mu hmu)
    (by rw [hmu]; exact fun q => by cases q)
  obtain ⟨r, m1, h1, hc⟩ := unit_add_dependency_total oom m u mu u mu d true hu ho ht
  refine ⟨r, m1, h1, same_ident_add_dependency oom m m1 u mu d true r h1, fun hr => ?_,
    fun hr k hk y => ?_⟩
  · rcases hc with e | ⟨-, e⟩
    · rw [e] at hr; exact absurd hr (by decide)
    · exact e
  obtain ⟨u', o', hu', ho', -, sp⟩ := unit_add_dependency_spec oom m m1 u mu d true r h1
  rw [hu] at hu'
  rw [ho] at ho'
  cases hu'
  cases ho'
  rw [(sp hr).2 u k y, added_self u mu d k y hne hk]
  constructor
  · rintro (a | ⟨-, -, a⟩)
    · exact Or.inl a
    · exact Or.inr a
  · rintro (a | a)
    · exact Or.inl a
    · refine Or.inr ⟨fun e => hne e.symm, ?_, a⟩
      rintro ⟨e, -⟩
      rcases hd with q | q <;> rw [q] at e <;> cases e

/-- One round of the inner loop of `unit_add_mount_dependencies`: it returns,
the state is extended by stub units at most, and when the round does not fail
the one unit that joins the `After` set of `u` is the mount target of the
prefix, which joins the `Requires` set if it has a fragment path. -/
theorem unit_add_mount_dependencies_prefix_spec (env : Env) (jenv : JobEnv) (penv : PathEnv)
    (oom : Nat → Bool) (m : Manager) (u : UnitId) (pfx : String)
    (hv : m.valid u) (ht : (m.unit u).type ≠ none) (hm : (m.unit u).load_state ≠ .merged) :
    ∃ r m1, unit_add_mount_dependencies_prefix env jenv penv oom m u pfx = some (r, m1) ∧
      m.extended_by m1 ∧
      (r < 0 → (penv.unit_name_from_path pfx ".mount").1 < 0 ∨ ∃ n, oom n = true) ∧
      (¬ r < 0 → ∀ y,
        (y ∈ m1.deps u .after ↔ y ∈ m.deps u .after ∨ mount_target penv m u pfx = some y) ∧
        (y ∈ m1.deps u .requires ↔ y ∈ m.deps u .requires ∨
          (mount_target penv m u pfx = some y ∧ (m.unit y).fragment_path ≠ none))) := by
  unfold unit_add_mount_dependencies_prefix mount_target
  dsimp only
  by_cases hp : (penv.unit_name_from_path pfx ".mount").1 < 0
  · rw [if_pos hp]
    exact ⟨_, _, rfl, extended_by_refl m, fun _ => Or.inl hp, fun hr => absurd hp hr⟩
  rw [if_neg hp, if_neg hp]
  have h0 : ¬ ((0 : Int) < 0) := by decide
  cases hg : manager_get_unit m (penv.unit_name_from_path pfx ".mount").2 with
  | none =>
    dsimp only
    obtain ⟨r, ret, m', h1, e1, d1⟩ := manager_load_unit_prepare_spec env jenv penv
      (fun n => oom (n + 16)) m (penv.unit_name_from_path pfx ".mount").2
    rw [h1]
    refine ⟨_, _, rfl, e1, fun a => absurd a h0, fun _ y => ⟨?_, ?_⟩⟩
    · rw [d1]; simp
    · rw [d1]; simp
  | some mu =>
    dsimp only
    by_cases h1 : mu = u
    · rw [if_pos h1, if_neg (fun a => a.1 h1)]
      exact ⟨_, _, rfl, extended_by_refl m, fun a => absurd a h0, fun _ y => ⟨by simp, by simp⟩⟩
    rw [if_neg h1]
    by_cases h2 : (m.unit mu).load_state ≠ .loaded
    · rw [if_pos h2, if_neg (fun a => h2 a.2)]
      exact ⟨_, _, rfl, extended_by_refl m, fun a => absurd a h0, fun _ y => ⟨by simp, by simp⟩⟩
    rw [if_neg h2, if_pos ⟨h1, not_not.1 h2⟩]
    have hl := not_not.1 h2
    obtain ⟨r, m1, c1, i1, o1, s1⟩ := add_mount_edge oom m u mu .after (Or.inl rfl) hv ht hm hl h1
    rw [c1]
    dsimp only
    by_cases hr : r < 0
    · rw [if_pos hr]
      exact ⟨_, _, rfl, extended_by_of_same_ident i1, fun a => Or.inr (o1 a),
        fun a => absurd hr a⟩
    rw [if_neg hr]
    have fp : (m1.unit mu).fragment_path = (m.unit mu).fragment_path :=
      ident_fragment_path (i1.2.2 mu)
    rw [fp]
    by_cases h3 : (m.unit mu).fragment_path ≠ none
    · rw [if_pos h3]
      have hv1 : m1.valid u := (valid_of_same_ident i1 u).2 hv
      have ht1 : (m1.unit u).type ≠ none := by
        rw [(ident_fields (i1.2.2 u)).2.2.2.1]; exact ht
      have hm1 : (m1.unit u).load_state ≠ .merged := by
        rw [(ident_fields (i1.2.2 u)).2.2.2.2.1]; exact hm
      have hl1 : (m1.unit mu).load_state = .loaded := by
        rw [(ident_fields (i1.2.2 mu)).2.2.2.2.1]; exact hl
      obtain ⟨q, m2, c2, i2, o2, s2⟩ := add_mount_edge (fun n => oom (n + 8)) m1 u mu .requires
        (Or.inr rfl) hv1 ht1 hm1 hl1 h1
      rw [c2]
      refine ⟨_, _, rfl, extended_by_of_same_ident (same_ident_trans i1 i2), fun a => ?_,
        fun a y => ?_⟩
      · by_cases hq : q < 0
        · obtain ⟨n, hn⟩ := o2 hq
          exact Or.inr ⟨n + 8, hn⟩
        · exfalso
          have a2 : (if q < 0 then q else 0) < 0 := a
          rw [if_neg hq] at a2
          exact h0 a2
      have hq : ¬ q < 0 := by
        intro hq
        apply a
        show (if q < 0 then q else 0) < 0
        rw [if_pos hq]; exact hq
      constructor
      · rw [s2 hq .after (Or.inl rfl) y, s1 hr .after (Or.inl rfl) y]
        constructor
        · rintro ((b | ⟨-, b⟩) | ⟨b, -⟩)
          · exact Or.inl b
          · exact Or.inr (by rw [b])
          · cases b
        · rintro (b | b)
          · exact Or.inl (Or.inl b)
          · exact Or.inl (Or.inr ⟨rfl, (Option.some.inj b).symm⟩)
      · rw [s2 hq .requires (Or.inr rfl) y, s1 hr .requires (Or.inr rfl) y]
        constructor
        · rintro ((b | ⟨b, -⟩) | ⟨-, b⟩)
          · exact Or.inl b
          · cases b
          · exact Or.inr ⟨by rw [b], by rw [b]; exact h3⟩
        · rintro (b | ⟨b, -⟩)
          · exact Or.inl (Or.inl b)
          · exact Or.inr ⟨rfl, (Option.some.inj b).symm⟩
    · rw [if_neg h3]
      refine ⟨_, _, rfl, extended_by_of_same_ident i1, fun a => absurd a h0,
        fun _ y => ⟨?_, ?_⟩⟩
      · rw [s1 hr .after (Or.inl rfl) y]
        constructor
        · rintro (b | ⟨-, b⟩)
          · exact Or.inl b
          · exact Or.inr (by rw [b])
        · rintro (b | b)
          · exact Or.inl b
          · exact Or.inr ⟨rfl, (Option.some.inj b).symm⟩
      · rw [s1 hr .requires (Or.inr rfl) y]
        constructor
        · rintro (b | ⟨b, -⟩)
          · exact Or.inl b
          · cases b
        · rintro (b | ⟨b, c⟩)
          · exact Or.inl b
          · rw [← Option.some.inj b] at c
            exact absurd c h3

theorem mount_target_loaded (penv : PathEnv) (m : Manager) (u y : UnitId) (pfx : String)
    (h : mount_target penv m u pfx = some y) : (m.unit y).load_state = .loaded := by
  unfold mount_target at h
  split_ifs at h
  cases hg : manager_get_unit m (penv.unit_name_from_path pfx ".mount").2 with
  | none => rw [hg] at h; cases h
  | some mu =>
    rw [hg] at h
    dsimp only at h
    split_ifs at h with hc
    cases h
    exact hc.2

theorem extended_by_fragment_path {a b : Manager} (h : a.extended_by b) (y : UnitId)
    (hl : (b.unit y).load_state = .loaded) :
    (b.unit y).fragment_path = (a.unit y).fragment_path := by
  rw [extended_by_load_state h y] at hl
  exact ident_fragment_path (h.2.1 y (valid_of_loaded a y hl))

/-- The rounds of the inner loop of `unit_add_mount_dependencies` for the
prefixes `ps`, from a state `m` that extends `m0` by stub units. -/
theorem unit_add_mount_dependencies_prefixes_spec (env : Env) (jenv : JobEnv) (penv : PathEnv)
    (oom : Nat → Nat → Bool) (m0 : Manager) (u : UnitId)
    (hv : m0.valid u) (ht : (m0.unit u).type ≠ none) (hm : (m0.unit u).load_state ≠ .merged)
    (ps : List String) : ∀ (j : Nat) (m : Manager), m0.extended_by m →
    ∃ r m1, unit_add_mount_dependencies_prefixes env jenv penv oom u j m ps = some (r, m1) ∧
      m0.extended_by m1 ∧
      (r < 0 → (∃ pfx ∈ ps, (penv.unit_name_from_path pfx ".mount").1 < 0) ∨
        ∃ j n, oom j n = true) ∧
      (¬ r < 0 → ∀ y,
        (y ∈ m1.deps u .after ↔
          y ∈ m.deps u .after ∨ y ∈ ps.filterMap (mount_target penv m0 u)) ∧
        (y ∈ m1.deps u .requires ↔ y ∈ m.deps u .requires ∨
          (y ∈ ps.filterMap (mount_target penv m0 u) ∧ (m0.unit y).fragment_path ≠ none))) := by
  induction ps with
  | nil =>
    intro j m he
    exact ⟨0, m, rfl, he, fun a => absurd a (by decide), fun _ y => ⟨by simp, by simp⟩⟩
  | cons pfx ps ih =>
    intro j m he
    have hv1 : m.valid u := extended_by_valid he u hv
    have ht1 : (m.unit u).type ≠ none := by
      rw [(ident_fields (he.2.1 u hv)).2.2.2.1]; exact ht
    have hm1 : (m.unit u).load_state ≠ .merged := by
      rw [extended_by_load_state he u]; exact hm
    obtain ⟨r, m1, c1, e1, o1, s1⟩ := unit_add_mount_dependencies_prefix_spec env jenv penv
      (oom j) m u pfx hv1 ht1 hm1
    unfold unit_add_mount_dependencies_prefixes
    rw [c1]
    dsimp only
    have e01 := extended_by_trans he e1
    by_cases hr : r < 0
    · rw [if_pos hr]
      refine ⟨_, _, rfl, e01, fun _ => ?_, fun a => absurd hr a⟩
      rcases o1 hr with a | ⟨n, a⟩
      · exact Or.inl ⟨pfx, List.mem_cons_self _ _, a⟩
      · exact Or.inr ⟨j, n, a⟩
    rw [if_neg hr]
    obtain ⟨r2, m2, c2, e2, o2, s2⟩ := ih (j + 1) m1 e01
    refine ⟨r2, m2, c2, e2, fun a => ?_, fun a y => ?_⟩
    · rcases o2 a with ⟨p, hp, b⟩ | b
      · exact Or.inl ⟨p, List.mem_cons_of_mem _ hp, b⟩
      · exact Or.inr b
    have mt := mount_target_extended penv m0 m u pfx he
    have hmem : y ∈ (pfx :: ps).filterMap (mount_target penv m0 u) ↔
        mount_target penv m0 u pfx = some y ∨ y ∈ ps.filterMap (mount_target penv m0 u) := by
      simp only [List.mem_filterMap, List.mem_cons]
      constructor
      · rintro ⟨p, hp | hp, b⟩
        · exact Or.inl (hp ▸ b)
        · exact Or.inr ⟨p, hp, b⟩
      · rintro (b | ⟨p, hp, b⟩)
        · exact ⟨pfx, Or.inl rfl, b⟩
        · exact ⟨p, Or.inr hp, b⟩
    have hfp : mount_target penv m0 u pfx = some y →
        (m.unit y).fragment_path = (m0.unit y).fragment_path := by
      intro b
      rw [← mt] at b
      exact extended_by_fragment_path he y (mount_target_loaded penv m u y pfx b)
    rw [(s2 a y).1, (s2 a y).2, (s1 hr y).1, (s1 hr y).2, hmem, mt]
    constructor
    · constructor
      · rintro ((b | b) | b)
        · exact Or.inl b
        · exact Or.inr (Or.inl b)
        · exact Or.inr (Or.inr b)
      · rintro (b | b | b)
        · exact Or.inl (Or.inl b)
        · exact Or.inl (Or.inr b)
        · exact Or.inr b
    · constructor
      · rintro ((b | ⟨b, c⟩) | ⟨b, c⟩)
        · exact Or.inl b
        · exact Or.inr ⟨Or.inl b, by rw [← hfp b]; exact c⟩
        · exact Or.inr ⟨Or.inr b, c⟩
      · rintro (b | ⟨b | b, c⟩)
        · exact Or.inl (Or.inl b)
        · exact Or.inl (Or.inr ⟨b, by rw [hfp b]; exact c⟩)
        · exact Or.inr ⟨b, c⟩

/-- The rounds of the outer loop of `unit_add_mount_dependencies` for the
paths `paths`, from a state `m` that extends `m0` by stub units. -/
theorem unit_add_mount_dependencies_paths_spec (env : Env) (jenv : JobEnv) (penv : PathEnv)
    (oom : Nat → Nat → Nat → Bool) (m0 : Manager) (u : UnitId)
    (hv : m0.valid u) (ht : (m0.unit u).type ≠ none) (hm : (m0.unit u).load_state ≠ .merged)
    (paths : List String) : ∀ (i : Nat) (m : Manager), m0.extended_by m →
    ∃ r m1, unit_add_mount_dependencies_paths env jenv penv oom u i m paths = some (r, m1) ∧
      m0.extended_by m1 ∧
      (r < 0 → (∃ path ∈ paths, ∃ pfx ∈ penv.path_prefixes path,
          (penv.unit_name_from_path pfx ".mount").1 < 0) ∨ ∃ i j n, oom i j n = true) ∧
      (¬ r < 0 → ∀ y,
        (y ∈ m1.deps u .after ↔ y ∈ m.deps u .after ∨
          y ∈ (paths.flatMap penv.path_prefixes).filterMap (mount_target penv m0 u)) ∧
        (y ∈ m1.deps u .requires ↔ y ∈ m.deps u .requires ∨
          (y ∈ (paths.flatMap penv.path_prefixes).filterMap (mount_target penv m0 u) ∧
            (m0.unit y).fragment_path ≠ none))) := by
  induction paths with
  | nil =>
    intro i m he
    exact ⟨0, m, rfl, he, fun a => absurd a (by decide), fun _ y => ⟨by simp, by simp⟩⟩
  | cons path paths ih =>
    intro i m he
    obtain ⟨r, m1, c1, e1, o1, s1⟩ := unit_add_mount_dependencies_prefixes_spec env jenv penv
      (oom i) m0 u hv ht hm (penv.path_prefixes path) 0 m he
    unfold unit_add_mount_dependencies_paths
    rw [c1]
    dsimp only
    by_cases hr : r < 0
    · rw [if_pos hr]
      refine ⟨_, _, rfl, e1, fun _ => ?_, fun a => absurd hr a⟩
      rcases o1 hr with ⟨p, hp, a⟩ | ⟨j, n, a⟩
      · exact Or.inl ⟨path, List.mem_cons_self _ _, p, hp, a⟩
      · exact Or.inr ⟨i, j, n, a⟩
    rw [if_neg hr]
    obtain ⟨r2, m2, c2, e2, o2, s2⟩ := ih (i + 1) m1 e1
    refine ⟨r2, m2, c2, e2, fun a => ?_, fun a y => ?_⟩
    · rcases o2 a with ⟨q, hq, b⟩ | b
      · exact Or.inl ⟨q, List.mem_cons_of_mem _ hq, b⟩
      · exact Or.inr b
    have hmem : y ∈ ((path :: paths).flatMap penv.path_prefixes).filterMap
          (mount_target penv m0 u) ↔
        y ∈ (penv.path_prefixes path).filterMap (mount_target penv m0 u) ∨
          y ∈ (paths.flatMap penv.path_prefixes).filterMap (mount_target penv m0 u) := by
      rw [List.flatMap_cons, List.filterMap_append, List.mem_append]
    rw [(s2 a y).1, (s2 a y).2, (s1 hr y).1, (s1 hr y).2, hmem]
    constructor
    · constructor
      · rintro ((b | b) | b)
        · exact Or.inl b
        · exact Or.inr (Or.inl b)
        · exact Or.inr (Or.inr b)
      · rintro (b | b | b)
        · exact Or.inl (Or.inl b)
        · exact Or.inl (Or.inr b)
        · exact Or.inr b
    · constructor
      · rintro ((b | ⟨b, c⟩) | ⟨b, c⟩)
        · exact Or.inl b
        · exact Or.inr ⟨Or.inl b, c⟩
        · exact Or.inr ⟨Or.inr b, c⟩
      · rintro (b | ⟨b | b, c⟩)
        · exact Or.inl (Or.inl b)
        · exact Or.inl (Or.inr ⟨b, c⟩)
        · exact Or.inr ⟨b, c⟩

/-- C20 (amended). For a unit `u` that has a type and is not merged,
`unit_add_mount_dependencies(u)` returns; a negative value comes from
`unit_name_from_path` on a prefix or from an allocation failure. When the value
is not negative, the units that joined the `After` set of `u` are the mount
targets: every loaded mount unit, other than `u`, that is registered for a
prefix of a path of `u->requires_mounts_for`, the shorter prefixes included;
the units that joined the `Requires` set are the mount targets with a fragment
path. -/
theorem unit_add_mount_dependencies_spec (env : Env) (jenv : JobEnv) (penv : PathEnv)
    (oom : Nat → Nat → Nat → Bool) (m : Manager) (u : UnitId)
    (hv : m.valid u) (ht : (m.unit u).type ≠ none) (hm : (m.unit u).load_state ≠ .merged) :
    ∃ r m', unit_add_mount_dependencies env jenv penv oom m u = some (r, m') ∧
      (r < 0 → (∃ path ∈ (m.unit u).requires_mounts_for, ∃ pfx ∈ penv.path_prefixes path,
          (penv.unit_name_from_path pfx ".mount").1 < 0) ∨ ∃ i j n, oom i j n = true) ∧
      (¬ r < 0 → ∀ y,
        (y ∈ m'.deps u .after ↔ y ∈ m.deps u .after ∨ y ∈ mount_targets penv m u) ∧
        (y ∈ m'.deps u .requires ↔ y ∈ m.deps u .requires ∨
          (y ∈ mount_targets penv m u ∧ (m.unit y).fragment_path ≠ none))) := by
  unfold unit_add_mount_dependencies mount_targets
  rw [if_pos hv]
  obtain ⟨r, m1, c1, -, o1, s1⟩ := unit_add_mount_dependencies_paths_spec env jenv penv oom m u
    hv ht hm (m.unit u).requires_mounts_for 0 m (extended_by_refl m)
  exact ⟨r, m1, c1, o1, s1⟩

set_option maxRecDepth 100000 in
theorem unit_add_mount_dependencies_spec_witness :
    ∃ r m', unit_add_mount_dependencies env_mounts jenv0 penv0 (fun _ _ _ => false)
        graph_mounts 0 = some (r, m') ∧ ¬ r < 0 ∧
      1 ∈ m'.deps 0 .after ∧ 2 ∈ m'.deps 0 .after ∧ 1 ∈ m'.deps 0 .requires ∧
      2 ∉ m'.deps 0 .requires := by
  obtain ⟨r, m', h, h1, h2⟩ := unit_add_mount_dependencies_spec env_mounts jenv0 penv0
    (fun _ _ _ => false) graph_mounts 0 (by decide) (by decide) (by decide)
  have hr : ¬ r < 0 := by
    intro a
    rcases h1 a with b | ⟨_, _, _, b⟩
    · revert b; decide
    · cases b
  refine ⟨r, m', h, hr, ?_, ?_, ?_, ?_⟩
  · exact ((h2 hr 1).1).2 (Or.inr (by decide))
  · exact ((h2 hr 2).1).2 (Or.inr (by decide))
  · exact ((h2 hr 1).2).2 (Or.inr (by decide))
  · intro a
    rcases ((h2 hr 2).2).1 a with b | b
    · revert b; decide
    · revert b; decide

set_option maxRecDepth 100000 in
/-- C20 as stated fails. Unit 0 of `graph_mounts` requires the mounts for
`/a/b`; `a-b.mount` (unit 1) is registered for the longest prefix `/a/b` and
`a.mount` (unit 2) for the shorter prefix `/a`. The call returns 0 and leaves
both mount units in the `After` set of unit 0, which was empty. -/
theorem unit_add_mount_dependencies_links_shorter_prefix :
    (graph_mounts.unit 0).requires_mounts_for = ["/a/b"] ∧
    penv0.path_prefixes "/a/b" = ["/a/b", "/a", ""] ∧
    mount_target penv0 graph_mounts 0 "/a/b" = some 1 ∧
    mount_target penv0 graph_mounts 0 "/a" = some 2 ∧
    graph_mounts.deps 0 .after = [] ∧
    (unit_add_mount_dependencies env_mounts jenv0 penv0 (fun _ _ _ => false)
      graph_mounts 0).map (fun p => p.1) = some 0 ∧
    (state_after graph_mounts (unit_add_mount_dependencies env_mounts jenv0 penv0
      (fun _ _ _ => false) graph_mounts 0)).deps 0 .after = [1, 2] := by
  refine ⟨?_, ?_, ?_, ?_, ?_, ?_, ?_⟩ <;> decide

/-! ## The garbage collector: what a sweep does -/

theorem gc_mark_inj (g a b : Nat) (ha : a < 4) (hb : b < 4) (h : gc_mark g a = gc_mark g b) :
    a = b := by
  unfold gc_mark at h
  norm_num at h
  omega

theorem good_ne_unsure (g : Nat) : gc_mark g GC_OFFSET_GOOD ≠ gc_mark g GC_OFFSET_UNSURE :=
  fun h => absurd (gc_mark_inj g _ _ (by decide) (by decide) h) (by decide)

theorem good_ne_bad (g : Nat) : gc_mark g GC_OFFSET_GOOD ≠ gc_mark g GC_OFFSET_BAD :=
  fun h => absurd (gc_mark_inj g _ _ (by decide) (by decide) h) (by decide)

theorem good_ne_in_path (g : Nat) : gc_mark g GC_OFFSET_GOOD ≠ gc_mark g GC_OFFSET_IN_PATH :=
  fun h => absurd (gc_mark_inj g _ _ (by decide) (by decide) h) (by decide)

theorem unsure_ne_bad (g : Nat) : gc_mark g GC_OFFSET_UNSURE ≠ gc_mark g GC_OFFSET_BAD :=
  fun h => absurd (gc_mark_inj g _ _ (by decide) (by decide) h) (by decide)

theorem unsure_ne_in_path (g : Nat) : gc_mark g GC_OFFSET_UNSURE ≠ gc_mark g GC_OFFSET_IN_PATH :=
  fun h => absurd (gc_mark_inj g _ _ (by decide) (by decide) h) (by decide)

theorem bad_ne_in_path (g : Nat) : gc_mark g GC_OFFSET_BAD ≠ gc_mark g GC_OFFSET_IN_PATH :=
  fun h => absurd (gc_mark_inj g _ _ (by decide) (by decide) h) (by decide)

theorem swept_unit_refl (env : Env) (g : Nat) (x : Unit) : x.swept env g x := Or.inl rfl

theorem swept_unit_marked {env : Env} {g : Nat} {x x' : Unit} (h : x.swept env g x')
    (hm : x.gc_marked g) : x'.gc_marked g := by
  rcases h with h | ⟨-, h⟩ | ⟨h, -⟩
  · rw [h]; exact hm
  · rw [h]; exact Or.inl rfl
  · exact absurd hm h

theorem swept_unit_trans {env : Env} {g : Nat} {x x' x'' : Unit} (h1 : x.swept env g x')
    (h2 : x'.swept env g x'') : x.swept env g x'' := by
  rcases h1 with h1 | ⟨u1, h1⟩ | ⟨n1, v1, c1, q1, f1, t1⟩
  · rw [h1] at h2; exact h2
  · have hm : x'.gc_marked g := by rw [h1]; exact Or.inl rfl
    rcases h2 with h2 | ⟨u2, -⟩ | ⟨n2, -⟩
    · rw [h2]; exact Or.inr (Or.inl ⟨u1, h1⟩)
    · rw [h1] at u2
      exact absurd u2 (good_ne_unsure g)
    · exact absurd hm n2
  · have hm : x'.gc_marked g := by
      rcases v1 with a | a | a
      · exact Or.inr (Or.inr (Or.inl a))
      · exact Or.inl a
      · exact Or.inr (Or.inl a)
    rcases h2 with h2 | ⟨u2, h2⟩ | ⟨n2, -⟩
    · rw [h2]; exact Or.inr (Or.inr ⟨n1, v1, c1, q1, f1, t1⟩)
    · refine Or.inr (Or.inr ⟨n1, Or.inr (Or.inl (by rw [h2])), ?_, ?_, ?_, ?_⟩)
      · rw [h2]
        show x'.in_cleanup_queue = true ↔ _ ∨ gc_mark g GC_OFFSET_GOOD = _
        rw [c1, u2]
        constructor
        · rintro (a | a)
          · exact Or.inl a
          · exact absurd a (unsure_ne_bad g)
        · rintro (a | a)
          · exact Or.inl a
          · exact absurd a (good_ne_bad g)
      · intro a; rw [h2]; exact q1 a
      · rw [h2]
        rintro (a | a)
        · exact absurd a (good_ne_unsure g)
        · exact absurd a (good_ne_bad g)
      · intro _
        exact t1 (Or.inl u2)
    · exact absurd hm n2

theorem swept_unit_of_unmarked {env : Env} {g : Nat} {x x' : Unit} (h : x.swept env g x')
    (hn : ¬ x'.gc_marked g) : x' = x := by
  rcases h with h | ⟨-, h⟩ | ⟨-, v, -⟩
  · exact h
  · exact absurd (by rw [h]; exact Or.inl rfl) hn
  · refine absurd ?_ hn
    rcases v with a | a | a
    · exact Or.inr (Or.inr (Or.inl a))
    · exact Or.inl a
    · exact Or.inr (Or.inl a)

/-- A unit object marked BAD, GOOD or IN_PATH is not written by a sweep. -/
theorem swept_unit_of_settled {env : Env} {g : Nat} {x x' : Unit} (h : x.swept env g x')
    (hs : x.gc_marker = gc_mark g GC_OFFSET_BAD ∨ x.gc_marker = gc_mark g GC_OFFSET_GOOD ∨
      x.gc_marker = gc_mark g GC_OFFSET_IN_PATH) : x' = x := by
  rcases h with h | ⟨u, -⟩ | ⟨n, -⟩
  · exact h
  · rw [u] at hs
    rcases hs with a | a | a
    · exact absurd a (unsure_ne_bad g)
    · exact absurd a.symm (good_ne_unsure g)
    · exact absurd a (unsure_ne_in_path g)
  · refine absurd ?_ n
    rcases hs with a | a | a
    · exact Or.inr (Or.inl a)
    · exact Or.inl a
    · exact Or.inr (Or.inr (Or.inr a))

theorem gc_unmarked_le (g : Nat) (m m' : Manager) (hl : m'.heap.length = m.heap.length)
    (h : ∀ y, (m.unit y).gc_marked g → (m'.unit y).gc_marked g) :
    m'.gc_unmarked g ≤ m.gc_unmarked g := by
  unfold Manager.gc_unmarked
  rw [hl]
  apply List.countP_mono_left
  intro y _ hy
  simp only [decide_eq_true_eq] at hy ⊢
  exact fun a => hy (h y a)

theorem countP_lt_of_mem {α : Type} (p q : α → Bool) (l : List α) (h : ∀ x ∈ l, p x = true → q x = true)
    (u : α) (hu : u ∈ l) (hq : q u = true) (hp : p u = false) : l.countP p < l.countP q := by
  induction l with
  | nil => cases hu
  | cons a l ih =>
    have hmono : l.countP p ≤ l.countP q :=
      List.countP_mono_left (fun x hx => h x (List.mem_cons_of_mem _ hx))
    rcases List.mem_cons.1 hu with e | e
    · subst e
      rw [List.countP_cons_of_neg _ _ (by rw [hp]; exact Bool.false_ne_true),
        List.countP_cons_of_pos _ _ hq]
      exact Nat.lt_succ_of_le hmono
    · have := ih (fun x hx => h x (List.mem_cons_of_mem _ hx)) e
      by_cases ha : p a = true
      · rw [List.countP_cons_of_pos _ _ ha, List.countP_cons_of_pos _ _ (h a (List.mem_cons_self _ _) ha)]
        exact Nat.succ_lt_succ this
      · rw [List.countP_cons_of_neg _ _ ha]
        by_cases hqa : q a = true
        · rw [List.countP_cons_of_pos _ _ hqa]
          exact Nat.lt_succ_of_lt this
        · rw [List.countP_cons_of_neg _ _ hqa]
          exact this

theorem gc_unmarked_lt (g : Nat) (m m' : Manager) (hl : m'.heap.length = m.heap.length)
    (h : ∀ y, (m.unit y).gc_marked g → (m'.unit y).gc_marked g) (u : UnitId) (hv : m.valid u)
    (hn : ¬ (m.unit u).gc_marked g) (hm : (m'.unit u).gc_marked g) :
    m'.gc_unmarked g < m.gc_unmarked g := by
  unfold Manager.gc_unmarked
  rw [hl]
  apply countP_lt_of_mem _ _ _ _ u (List.mem_range.2 hv)
  · simp only [decide_eq_true_eq]; exact hn
  · simp only [decide_eq_false_iff_not, not_not]; exact hm
  · intro y _ hy
    simp only [decide_eq_true_eq] at hy ⊢
    exact fun a => hy (h y a)

theorem swept_refl (env : Env) (g : Nat) (m : Manager) : m.swept env g m :=
  ⟨same_ident_refl m, same_deps_refl m, fun _ => Or.inl rfl,
    fun _ hn hb => absurd (Or.inr (Or.inl hb)) hn, fun h => h, Nat.le_refl _⟩

theorem swept_marked {env : Env} {g : Nat} {m m' : Manager} (h : m.swept env g m') (y : UnitId)
    (hm : (m.unit y).gc_marked g) : (m'.unit y).gc_marked g :=
  swept_unit_marked (h.2.2.1 y) hm

theorem swept_trans {env : Env} {g : Nat} {a b c : Manager} (h1 : a.swept env g b)
    (h2 : b.swept env g c) : a.swept env g c := by
  obtain ⟨i1, d1, u1, b1, q1, p1⟩ := h1
  obtain ⟨i2, d2, u2, b2, q2, p2⟩ := h2
  refine ⟨same_ident_trans i1 i2, same_deps_trans d1 d2, fun y => swept_unit_trans (u1 y) (u2 y),
    fun y hn hb hc p hp => ?_, fun h => q2 (q1 h), Nat.le_trans p2 p1⟩
  by_cases hm : (b.unit y).gc_marked g
  · have hb1 : (b.unit y).gc_marker = gc_mark g GC_OFFSET_BAD := by
      rcases u2 y with e | ⟨-, e⟩ | ⟨n, -⟩
      · rw [← e]; exact hb
      · rw [e] at hb
        exact absurd hb (good_ne_bad g)
      · exact absurd hm n
    have := b1 y hn hb1 hc p hp
    rw [swept_unit_of_settled (u2 p) (Or.inl this)]
    exact this
  · have e := swept_unit_of_unmarked (u1 y) hm
    rw [e] at hm
    apply b2 y (by rw [e]; exact hn) hb (by rw [e]; exact hc) p
    rw [deps_of_same_deps d1]
    exact hp

theorem unit_active_state_self (env : Env) (m : Manager) (u : UnitId) (hv : m.valid u)
    (hl : (m.unit u).load_state ≠ .merged) :
    unit_active_state env m u =
      (m.unit u).type.map (fun t => (env.unit_vtable t).active_state (m.unit u).data) := by
  unfold unit_active_state
  rw [unit_follow_merge_self m u hv hl]
  dsimp only
  cases (m.unit u).type <;> rfl

theorem unit_modify_self (m : Manager) (u : UnitId) (f : Unit → Unit) (hv : m.valid u) :
    (m.modify u f).unit u = f (m.unit u) := by
  rw [unit_modify, if_pos ⟨hv, rfl⟩]

theorem unit_modify_other (m : Manager) (u y : UnitId) (f : Unit → Unit) (hy : y ≠ u) :
    (m.modify u f).unit y = m.unit y := by
  rw [unit_modify, if_neg (fun a => hy a.2)]

/-- The value of `unit_check_gc(u)` for a unit that is not merged depends on
the unit object of `u` only. -/
theorem unit_check_gc_congr (env : Env) (m m' : Manager) (u u' : UnitId) (hv : m.valid u)
    (hv' : m'.valid u') (hl : (m.unit u).load_state ≠ .merged) (he : m'.unit u' = m.unit u) :
    (unit_check_gc env m' u').map Prod.fst = (unit_check_gc env m u).map Prod.fst := by
  unfold unit_check_gc
  rw [if_pos hv, if_pos hv', he]
  by_cases h1 : (m.unit u).job.isSome = true
  · rw [if_pos h1, if_pos h1]; rfl
  rw [if_neg h1, if_neg h1]
  by_cases h2 : (m.unit u).nop_job.isSome = true
  · rw [if_pos h2, if_pos h2]; rfl
  rw [if_neg h2, if_neg h2]
  rw [unit_active_state_self env m u hv hl, unit_active_state_self env m' u' hv' (by rw [he]; exact hl),
    he]
  cases ht : (m.unit u).type with
  | none => rfl
  | some t =>
    dsimp only [Option.map_some']
    generalize (env.unit_vtable t).active_state (m.unit u).data = st
    have key : ∀ (f : Unit → Unit) (a a' : Manager), a.valid u → a'.valid u' →
        a'.unit u' = a.unit u →
        Option.map Prod.fst
          (if st ≠ UnitActiveState.inactive then some (true, a'.modify u' f)
          else if ((a'.modify u' f).unit u').perpetual = true then some (true, a'.modify u' f)
          else if ((a'.modify u' f).unit u').refs ≠ [] then some (true, a'.modify u' f)
          else if ((a'.modify u' f).unit u').bus_track > 0 then some (true, a'.modify u' f)
          else (unit_check_gc_hook env (a'.modify u' f) u').map (fun b => (b, a'.modify u' f))) =
        Option.map Prod.fst
          (if st ≠ UnitActiveState.inactive then some (true, a.modify u f)
          else if ((a.modify u f).unit u).perpetual = true then some (true, a.modify u f)
          else if ((a.modify u f).unit u).refs ≠ [] then some (true, a.modify u f)
          else if ((a.modify u f).unit u).bus_track > 0 then some (true, a.modify u f)
          else (unit_check_gc_hook env (a.modify u f) u).map (fun b => (b, a.modify u f))) := by
      intro f a a' va va' e
      have e2 : (a'.modify u' f).unit u' = (a.modify u f).unit u := by
        rw [unit_modify_self _ _ _ va, unit_modify_self _ _ _ va', e]
      unfold unit_check_gc_hook
      rw [e2]
      split_ifs
      · rfl
      · rfl
      · rfl
      · rfl
      · cases ((a.modify u f).unit u).type with
        | none => rfl
        | some t2 =>
          dsimp only
          cases (env.unit_vtable t2).check_gc <;> rfl
    have key0 : ∀ (a a' : Manager), a.valid u → a'.valid u' → a'.unit u' = a.unit u →
        Option.map Prod.fst
          (if st ≠ UnitActiveState.inactive then some (true, a')
          else if (a'.unit u').perpetual = true then some (true, a')
          else if (a'.unit u').refs ≠ [] then some (true, a')
          else if (a'.unit u').bus_track > 0 then some (true, a')
          else (unit_check_gc_hook env a' u').map (fun b => (b, a'))) =
        Option.map Prod.fst
          (if st ≠ UnitActiveState.inactive then some (true, a)
          else if (a.unit u).perpetual = true then some (true, a)
          else if (a.unit u).refs ≠ [] then some (true, a)
          else if (a.unit u).bus_track > 0 then some (true, a)
          else (unit_check_gc_hook env a u).map (fun b => (b, a))) := by
      intro a a' _ _ e
      unfold unit_check_gc_hook
      rw [e]
      split_ifs
      · rfl
      · rfl
      · rfl
      · rfl
      · cases (a.unit u).type with
        | none => rfl
        | some t2 =>
          dsimp only
          cases (env.unit_vtable t2).check_gc <;> rfl
    unfold unit_release_resources
    rw [he, ht]
    by_cases hi : UNIT_IS_INACTIVE_OR_FAILED st = true
    · rw [if_pos hi, if_pos hi]
      dsimp only
      cases (env.unit_vtable t).release_resources with
      | none => exact key0 m m' hv hv' he
      | some f =>
        dsimp only
        exact key _ m m' hv hv' he
    · rw [if_neg hi, if_neg hi]
      exact key0 m m' hv hv' he

theorem unit_check_gc_local (env : Env) (m m1 : Manager) (u : UnitId) (b : Bool)
    (hl : (m.unit u).load_state ≠ .merged) (h : unit_check_gc env m u = some (b, m1)) :
    (m.unit u).check_gc env = some b := by
  have hv : m.valid u := by
    unfold unit_check_gc at h
    by_contra hv
    rw [if_neg hv] at h
    cases h
  unfold Unit.check_gc
  rw [unit_check_gc_congr env m { heap := [m.unit u] } u 0 hv (Nat.lt_succ_self 0) hl rfl, h]
  rfl

/-- The state that `unit_check_gc(u)` leaves: the `release_resources` hook
may have written the state of the unit type of `u`. -/
theorem unit_check_gc_step (env : Env) (m m1 : Manager) (u : UnitId) (b : Bool)
    (h : unit_check_gc env m u = some (b, m1)) :
    m.valid u ∧ (m1 = m ∨ ∃ f : Nat → Nat, m1 = m.modify u (fun x => { x with data := f x.data })) := by
  unfold unit_check_gc at h
  by_cases hv : m.valid u
  swap
  · rw [if_neg hv] at h; cases h
  refine ⟨hv, ?_⟩
  rw [if_pos hv] at h
  split_ifs at h with h1 h2
  · cases h; exact Or.inl rfl
  · cases h; exact Or.inl rfl
  · cases hst : unit_active_state env m u with
    | none => simp [hst] at h
    | some st =>
      simp only [hst] at h
      cases hr : unit_release_resources env m u st with
      | none => simp [hr] at h
      | some m2 =>
        simp only [hr] at h
        have e1 : m1 = m2 := by
          split_ifs at h
          · cases h; rfl
          · cases h; rfl
          · cases h; rfl
          · cases h; rfl
          · simp only [Option.map_eq_some'] at h
            obtain ⟨_, _, h⟩ := h
            cases h; rfl
        rw [e1]
        unfold unit_release_resources at hr
        split_ifs at hr
        · cases ht : (m.unit u).type with
          | none => simp [ht] at hr
          | some t =>
            simp only [ht] at hr
            cases hf : (env.unit_vtable t).release_resources with
            | none =>
              simp only [hf, Option.some.injEq] at hr
              exact Or.inl hr.symm
            | some f =>
              simp only [hf, Option.some.injEq] at hr
              exact Or.inr ⟨fun d => f d (decide (st = .inactive)), hr.symm⟩
        · simp only [Option.some.injEq] at hr
          exact Or.inl hr.symm

/-- A write to fields other than the queue flags keeps the queues well formed. -/
theorem queues_ok_modify (m : Manager) (u : UnitId) (f : Unit → Unit)
    (hf : ∀ x, (f x).in_gc_queue = x.in_gc_queue ∧ (f x).in_cleanup_queue = x.in_cleanup_queue)
    (h : m.queues_ok) : (m.modify u f).queues_ok := by
  obtain ⟨a, b, c, d⟩ := h
  have e : ∀ y, ((m.modify u f).unit y).in_gc_queue = (m.unit y).in_gc_queue ∧
      ((m.modify u f).unit y).in_cleanup_queue = (m.unit y).in_cleanup_queue := by
    intro y
    rw [unit_modify]
    split_ifs with hh
    · rw [hh.2]; exact hf _
    · exact ⟨rfl, rfl⟩
  refine ⟨a, fun y => ?_, c, fun y => ?_⟩
  · rw [(e y).1]; exact b y
  · rw [(e y).2]; exact d y

theorem queues_ok_cleanup (m : Manager) (u : UnitId) (hv : m.valid u) (h : m.queues_ok) :
    (unit_add_to_cleanup_queue m u).queues_ok := by
  unfold unit_add_to_cleanup_queue
  split_ifs with hc
  · exact h
  · obtain ⟨a, b, c, d⟩ := h
    have e : ∀ y, ((m.modify u (fun x => { x with in_cleanup_queue := true })).unit y) =
        if y = u then { m.unit u with in_cleanup_queue := true } else m.unit y := by
      intro y
      rw [unit_modify]
      by_cases hy : y = u
      · rw [if_pos ⟨hv, hy⟩, if_pos hy]
      · rw [if_neg (fun q => hy q.2), if_neg hy]
    refine ⟨a, fun y => ?_, ?_, fun y => ?_⟩
    · show y ∈ m.gc_unit_queue ↔
        ((m.modify u (fun x => { x with in_cleanup_queue := true })).unit y).in_gc_queue = true
      rw [e, b]
      split_ifs with hy
      · rw [hy]
      · rfl
    · show (u :: m.cleanup_queue).Nodup
      exact List.nodup_cons.2 ⟨fun q => hc ((d u).1 q), c⟩
    · show y ∈ u :: m.cleanup_queue ↔
        ((m.modify u (fun x => { x with in_cleanup_queue := true })).unit y).in_cleanup_queue = true
      rw [e, List.mem_cons, d]
      by_cases hy : y = u
      · rw [if_pos hy]
        exact ⟨fun _ => rfl, fun _ => Or.inl hy⟩
      · rw [if_neg hy]
        exact ⟨fun q => q.resolve_left hy, fun q => Or.inr q⟩

/-- What `unit_add_to_gc_queue(u)` does: the state of the unit type of `u`
may change, and `u` may join the queue. -/
theorem unit_add_to_gc_queue_step (env : Env) (m m' : Manager) (u : UnitId) (hv : m.valid u)
    (h : unit_add_to_gc_queue env m u = some m') :
    (∀ y, y ≠ u → m'.unit y = m.unit y) ∧
    (m'.unit u).gc_marker = (m.unit u).gc_marker ∧
    (m'.unit u).in_cleanup_queue = (m.unit u).in_cleanup_queue ∧
    ((m.unit u).in_gc_queue = true → (m'.unit u).in_gc_queue = true) ∧
    (m.queues_ok → m'.queues_ok) ∧
    m'.gc_unit_queue.length ≤ m.gc_unit_queue.length + 1 ∧
    m'.heap.length = m.heap.length := by
  unfold unit_add_to_gc_queue at h
  by_cases h1 : (m.unit u).in_gc_queue = true ∨ (m.unit u).in_cleanup_queue = true
  · rw [if_pos h1] at h
    cases h
    exact ⟨fun _ _ => rfl, rfl, rfl, fun q => q, fun q => q, Nat.le_succ _, rfl⟩
  rw [if_neg h1] at h
  cases hc : unit_check_gc env m u with
  | none => simp [hc] at h
  | some p =>
    obtain ⟨b, m1⟩ := p
    obtain ⟨-, st⟩ := unit_check_gc_step env m m1 u b hc
    have k1 : (∀ y, y ≠ u → m1.unit y = m.unit y) ∧
        (m1.unit u).gc_marker = (m.unit u).gc_marker ∧
        (m1.unit u).in_cleanup_queue = (m.unit u).in_cleanup_queue ∧
        (m1.unit u).in_gc_queue = (m.unit u).in_gc_queue ∧
        (m.queues_ok → m1.queues_ok) ∧ m1.gc_unit_queue = m.gc_unit_queue ∧
        m1.heap.length = m.heap.length := by
      rcases st with e | ⟨f, e⟩
      · rw [e]; exact ⟨fun _ _ => rfl, rfl, rfl, rfl, fun q => q, rfl, rfl⟩
      · rw [e]
        refine ⟨fun y hy => unit_modify_other m u y _ hy, ?_, ?_, ?_,
          queues_ok_modify m u _ (fun _ => ⟨rfl, rfl⟩), rfl, length_modify _ _ _⟩
        · rw [unit_modify_self _ _ _ hv]
        · rw [unit_modify_self _ _ _ hv]
        · rw [unit_modify_self _ _ _ hv]
    obtain ⟨o1, g1, c1, q1, ok1, l1, n1⟩ := k1
    cases b with
    | true =>
      simp only [hc, Option.some.injEq] at h
      rw [← h]
      exact ⟨o1, g1, c1, fun q => by rw [q1]; exact q, ok1, by rw [l1]; exact Nat.le_succ _, n1⟩
    | false =>
      simp only [hc, Option.some.injEq] at h
      rw [← h]
      have hv1 : m1.valid u := by unfold Manager.valid; rw [n1]; exact hv
      have e : ∀ y, (({ m1.modify u (fun x => { x with in_gc_queue := true }) with
          gc_unit_queue := u :: m1.gc_unit_queue } : Manager).unit y) =
          if y = u then { m1.unit u with in_gc_queue := true } else m1.unit y := by
        intro y
        show (m1.modify u (fun x => { x with in_gc_queue := true })).unit y = _
        rw [unit_modify]
        by_cases hy : y = u
        · rw [if_pos ⟨hv1, hy⟩, if_pos hy]
        · rw [if_neg (fun q => hy q.2), if_neg hy]
      refine ⟨fun y hy => ?_, ?_, ?_, fun _ => ?_, fun ok => ?_, ?_, ?_⟩
      · rw [e, if_neg hy, o1 y hy]
      · rw [e, if_pos rfl]; exact g1
      · rw [e, if_pos rfl]; exact c1
      · rw [e, if_pos rfl]
      · obtain ⟨a, b, c, d⟩ := ok1 ok
        have hq : (m1.unit u).in_gc_queue ≠ true := by
          rw [q1]; exact fun q => h1 (Or.inl q)
        refine ⟨?_, fun y => ?_, c, fun y => ?_⟩
        · show (u :: m1.gc_unit_queue).Nodup
          exact List.nodup_cons.2 ⟨fun q => hq ((b u).1 q), a⟩
        · show y ∈ u :: m1.gc_unit_queue ↔ _
          rw [e, List.mem_cons, b]
          by_cases hy : y = u
          · rw [if_pos hy]
            exact ⟨fun _ => rfl, fun _ => Or.inl hy⟩
          · rw [if_neg hy]
            exact ⟨fun q => q.resolve_left hy, fun q => Or.inr q⟩
        · show y ∈ m1.cleanup_queue ↔ _
          rw [e, d]
          split_ifs with hy
          · rw [hy]
          · rfl
      · show (u :: m1.gc_unit_queue).length ≤ _
        rw [List.length_cons, l1]
      · exact (length_modify m1 u (fun x => { x with in_gc_queue := true })).trans n1

theorem marked_good_refl (g : Nat) (m : Manager) : m.marked_good g m :=
  ⟨rfl, rfl, fun _ => Or.inl rfl⟩

theorem marked_good_trans {g : Nat} {a b c : Manager} (h1 : a.marked_good g b)
    (h2 : b.marked_good g c) : a.marked_good g c := by
  obtain ⟨e1, l1, u1⟩ := h1
  obtain ⟨e2, l2, u2⟩ := h2
  refine ⟨?_, l2.trans l1, fun y => ?_⟩
  · rw [e2, e1]
  · rcases u2 y with k2 | ⟨k2, k3⟩
    · rw [k2]; exact u1 y
    · rcases u1 y with k1 | ⟨-, k1⟩
      · rw [k1] at k2 k3
        exact Or.inr ⟨k2, k3⟩
      · rw [k1] at k2
        exact absurd k2 (good_ne_unsure g)

theorem marked_good_modify (g : Nat) (m : Manager) (o : UnitId)
    (hu : (m.unit o).gc_marker = gc_mark g GC_OFFSET_UNSURE) :
    m.marked_good g (m.modify o (fun x => { x with gc_marker := gc_mark g GC_OFFSET_GOOD })) := by
  refine ⟨rfl, length_modify _ _ _, fun y => ?_⟩
  rw [unit_modify]
  split_ifs with h
  · rw [h.2]; exact Or.inr ⟨hu, rfl⟩
  · exact Or.inl rfl

theorem unit_gc_mark_good_loop_frame (g : Nat) (rec : Manager → UnitId → Option Manager)
    (hrec : ∀ a o a', rec a o = some a' → a.valid o ∧
      (a.modify o (fun x => { x with gc_marker := gc_mark g GC_OFFSET_GOOD })).marked_good g a')
    (s : List UnitId) : ∀ m m', unit_gc_mark_good_loop rec g m s = some m' →
      m.marked_good g m' := by
  induction s with
  | nil =>
    intro m m' h
    simp only [unit_gc_mark_good_loop, Option.some.injEq] at h
    rw [← h]; exact marked_good_refl g m
  | cons other rest ih =>
    intro m m' h
    unfold unit_gc_mark_good_loop at h
    split_ifs at h with h1 h2
    · simp only [Option.bind_eq_some] at h
      obtain ⟨m1, c1, c2⟩ := h
      exact marked_good_trans (marked_good_modify g m other h2)
        (marked_good_trans (hrec m other m1 c1).2 (ih m1 m' c2))
    · exact ih m m' h

/-- The static function `unit_gc_mark_good`: the marker of `u` becomes GOOD,
and else markers go from UNSURE to GOOD only. -/
theorem unit_gc_mark_good_frame (g : Nat) : ∀ (fuel : Nat) (m : Manager) (u : UnitId)
    (m' : Manager), unit_gc_mark_good fuel m u g = some m' → m.valid u ∧
      (m.modify u (fun x => { x with gc_marker := gc_mark g GC_OFFSET_GOOD })).marked_good g m' := by
  intro fuel
  induction fuel with
  | zero => intro m u m' h; simp [unit_gc_mark_good] at h
  | succ fuel ih =>
    intro m u m' h
    unfold unit_gc_mark_good at h
    split_ifs at h with hv
    exact ⟨hv, unit_gc_mark_good_loop_frame g _ (fun a o a' => ih a o a') _ _ _ h⟩

theorem marked_good_marker {g : Nat} {m m' : Manager} (h : m.marked_good g m') (y : UnitId)
    (hy : (m.unit y).gc_marker ≠ gc_mark g GC_OFFSET_UNSURE) : m'.unit y = m.unit y := by
  rcases h.2.2 y with e | ⟨e, -⟩
  · exact e
  · exact absurd e hy

/-- A run of `unit_gc_mark_good` below its first line is a sweep step. -/
theorem swept_of_marked_good (env : Env) {g : Nat} {m m' : Manager} (h : m.marked_good g m') :
    m.swept env g m' := by
  obtain ⟨e, l, u⟩ := h
  have hu : ∀ y, (m.unit y).swept env g (m'.unit y) := by
    intro y
    rcases u y with k | k
    · exact Or.inl k
    · exact Or.inr (Or.inl k)
  have hq : m'.gc_unit_queue = m.gc_unit_queue ∧ m'.cleanup_queue = m.cleanup_queue ∧
      m'.units = m.units := by
    rw [e]; exact ⟨rfl, rfl, rfl⟩
  have hfl : ∀ y, (m'.unit y).in_gc_queue = (m.unit y).in_gc_queue ∧
      (m'.unit y).in_cleanup_queue = (m.unit y).in_cleanup_queue ∧
      (m'.unit y).ident = (m.unit y).ident ∧
      (m'.unit y).dependencies = (m.unit y).dependencies := by
    intro y
    rcases u y with k | ⟨-, k⟩
    · rw [k]; exact ⟨rfl, rfl, rfl, rfl⟩
    · rw [k]; exact ⟨rfl, rfl, rfl, rfl⟩
  refine ⟨⟨hq.2.2, l, fun y => (hfl y).2.2.1⟩, fun y => (hfl y).2.2.2, hu, fun y hn hb => ?_,
    fun ok => ?_, ?_⟩
  · rcases u y with k | ⟨k, -⟩
    · rw [k] at hb
      exact absurd (Or.inr (Or.inl hb)) hn
    · exact absurd (Or.inr (Or.inr (Or.inl k))) hn
  · obtain ⟨a, b, c, d⟩ := ok
    unfold Manager.queues_ok
    rw [hq.1, hq.2.1]
    refine ⟨a, fun y => ?_, c, fun y => ?_⟩
    · rw [(hfl y).1]; exact b y
    · rw [(hfl y).2.1]; exact d y
  · rw [hq.1]
    exact Nat.add_le_add_left (gc_unmarked_le g m m' l (fun y => swept_unit_marked (hu y))) _

theorem unit_check_gc_fields (env : Env) (m m1 : Manager) (u : UnitId) (b : Bool)
    (h : unit_check_gc env m u = some (b, m1)) :
    m.valid u ∧ (∀ y, y ≠ u → m1.unit y = m.unit y) ∧
    (m1.unit u).gc_marker = (m.unit u).gc_marker ∧
    (m1.unit u).in_cleanup_queue = (m.unit u).in_cleanup_queue ∧
    (m1.unit u).in_gc_queue = (m.unit u).in_gc_queue ∧
    (m.queues_ok → m1.queues_ok) ∧ m1.gc_unit_queue = m.gc_unit_queue ∧
    m1.heap.length = m.heap.length := by
  obtain ⟨hv, st⟩ := unit_check_gc_step env m m1 u b h
  refine ⟨hv, ?_⟩
  rcases st with e | ⟨f, e⟩
  · rw [e]; exact ⟨fun _ _ => rfl, rfl, rfl, rfl, fun q => q, rfl, rfl⟩
  · rw [e]
    refine ⟨fun y hy => unit_modify_other m u y _ hy, ?_, ?_, ?_,
      queues_ok_modify m u _ (fun _ => ⟨rfl, rfl⟩), rfl, length_modify _ _ _⟩
    · rw [unit_modify_self _ _ _ hv]
    · rw [unit_modify_self _ _ _ hv]
    · rw [unit_modify_self _ _ _ hv]

theorem set_marker_fields (m : Manager) (u : UnitId) (v : Nat) (hv : m.valid u) :
    (m.same_ident (m.modify u (fun x => { x with gc_marker := v })) ∧
      m.same_deps (m.modify u (fun x => { x with gc_marker := v }))) ∧
    (∀ y, y ≠ u → (m.modify u (fun x => { x with gc_marker := v })).unit y = m.unit y) ∧
    (m.modify u (fun x => { x with gc_marker := v })).unit u = { m.unit u with gc_marker := v } ∧
    (m.queues_ok → (m.modify u (fun x => { x with gc_marker := v })).queues_ok) :=
  ⟨frame_modify m u _ (fun _ => ⟨rfl, rfl⟩), fun y hy => unit_modify_other m u y _ hy,
    unit_modify_self m u _ hv, queues_ok_modify m u _ (fun _ => ⟨rfl, rfl⟩)⟩

theorem unit_add_to_cleanup_queue_other (m : Manager) (u y : UnitId) (hy : y ≠ u) :
    (unit_add_to_cleanup_queue m u).unit y = m.unit y := by
  unfold unit_add_to_cleanup_queue
  split_ifs
  · rfl
  · show (m.modify u (fun x => { x with in_cleanup_queue := true })).unit y = _
    rw [unit_modify_other _ _ _ _ hy]

theorem unit_add_to_cleanup_queue_self (m : Manager) (u : UnitId) (hv : m.valid u) :
    ((unit_add_to_cleanup_queue m u).unit u).gc_marker = (m.unit u).gc_marker ∧
    ((unit_add_to_cleanup_queue m u).unit u).in_cleanup_queue = true ∧
    ((unit_add_to_cleanup_queue m u).unit u).in_gc_queue = (m.unit u).in_gc_queue ∧
    (unit_add_to_cleanup_queue m u).gc_unit_queue = m.gc_unit_queue := by
  unfold unit_add_to_cleanup_queue
  split_ifs with hc
  · exact ⟨rfl, hc, rfl, rfl⟩
  · have e : ({ m.modify u (fun x => { x with in_cleanup_queue := true }) with
        cleanup_queue := u :: m.cleanup_queue } : Manager).unit u =
        { m.unit u with in_cleanup_queue := true } := by
      show (m.modify u (fun x => { x with in_cleanup_queue := true })).unit u = _
      rw [unit_modify_self _ _ _ hv]
    rw [e]
    exact ⟨rfl, rfl, rfl, rfl⟩

theorem unit_gc_sweep_bad_fields (m : Manager) (u : UnitId) (g : Nat) (hv : m.valid u) :
    (m.same_ident (unit_gc_sweep_bad m u g) ∧ m.same_deps (unit_gc_sweep_bad m u g)) ∧
    (∀ y, y ≠ u → (unit_gc_sweep_bad m u g).unit y = m.unit y) ∧
    ((unit_gc_sweep_bad m u g).unit u).gc_marker = gc_mark g GC_OFFSET_BAD ∧
    ((unit_gc_sweep_bad m u g).unit u).in_cleanup_queue = true ∧
    ((unit_gc_sweep_bad m u g).unit u).in_gc_queue = (m.unit u).in_gc_queue ∧
    (m.queues_ok → (unit_gc_sweep_bad m u g).queues_ok) ∧
    (unit_gc_sweep_bad m u g).gc_unit_queue = m.gc_unit_queue := by
  obtain ⟨f1, o1, e1, q1⟩ := set_marker_fields m u (gc_mark g GC_OFFSET_BAD) hv
  have hv1 : (m.modify u (fun x => { x with gc_marker := gc_mark g GC_OFFSET_BAD })).valid u :=
    (valid_modify _ _ _ _).2 hv
  have g1 : (m.modify u (fun x => { x with gc_marker := gc_mark g GC_OFFSET_BAD })).gc_unit_queue =
      m.gc_unit_queue := rfl
  unfold unit_gc_sweep_bad
  generalize m.modify u (fun x => { x with gc_marker := gc_mark g GC_OFFSET_BAD }) = m1
    at f1 o1 e1 q1 hv1 g1
  obtain ⟨a, b, c, d⟩ := unit_add_to_cleanup_queue_self m1 u hv1
  refine ⟨frame_trans f1 (frame_cleanup_queue m1 u), fun y hy => ?_, ?_, b, ?_,
    fun ok => queues_ok_cleanup m1 u hv1 (q1 ok), d.trans g1⟩
  · rw [unit_add_to_cleanup_queue_other m1 u y hy, o1 y hy]
  · rw [a, e1]
  · rw [c, e1]

/-- The sweep relation of a call `unit_gc_sweep(u)` that gives `u` its verdict:
`m2` is the state before the loop, `m3` the state after it, and the last step
writes `u`, and markers from UNSURE to GOOD. -/
theorem swept_assemble (env : Env) (g : Nat) (m m2 m3 m' : Manager) (u : UnitId)
    (i2 : m.same_ident m2 ∧ m.same_deps m2) (o2 : ∀ y, y ≠ u → m2.unit y = m.unit y)
    (h3 : m2.swept env g m3) (n3 : (m3.unit u).gc_marker ≠ gc_mark g GC_OFFSET_BAD)
    (i4 : m3.same_ident m' ∧ m3.same_deps m')
    (o4 : ∀ y, y ≠ u → m'.unit y = m3.unit y ∨
      ((m3.unit y).gc_marker = gc_mark g GC_OFFSET_UNSURE ∧
        m'.unit y = { m3.unit y with gc_marker := gc_mark g GC_OFFSET_GOOD }))
    (hu : (m.unit u).swept env g (m'.unit u)) (hm : (m'.unit u).gc_marked g)
    (hb : (m'.unit u).gc_marker = gc_mark g GC_OFFSET_BAD → (m.unit u).in_cleanup_queue = false →
      ∀ p ∈ m.deps u .referenced_by, (m3.unit p).gc_marker = gc_mark g GC_OFFSET_BAD)
    (hq : m.queues_ok → m'.queues_ok)
    (hp : m'.gc_unit_queue.length + m3.gc_unmarked g ≤ m.gc_unit_queue.length + m.gc_unmarked g) :
    m.swept env g m' := by
  have s4 : ∀ y, y ≠ u → (m3.unit y).swept env g (m'.unit y) := by
    intro y hy
    rcases o4 y hy with k | k
    · exact Or.inl k
    · exact Or.inr (Or.inl k)
  have bad4 : ∀ p, (m3.unit p).gc_marker = gc_mark g GC_OFFSET_BAD →
      (m'.unit p).gc_marker = gc_mark g GC_OFFSET_BAD := by
    intro p hp3
    have hpu : p ≠ u := fun e => n3 (e ▸ hp3)
    rw [swept_unit_of_settled (s4 p hpu) (Or.inl hp3)]
    exact hp3
  have hall : ∀ y, (m.unit y).swept env g (m'.unit y) := by
    intro y
    by_cases hy : y = u
    · rw [hy]; exact hu
    · have := h3.2.2.1 y
      rw [o2 y hy] at this
      exact swept_unit_trans this (s4 y hy)
  refine ⟨same_ident_trans i2.1 (same_ident_trans h3.1 i4.1),
    same_deps_trans i2.2 (same_deps_trans h3.2.1 i4.2), hall, fun y hn hb' hc p hp' => ?_, hq, ?_⟩
  · by_cases hy : y = u
    · rw [hy] at hb' hc hp'
      exact bad4 p (hb hb' hc p hp')
    · have hb3 : (m3.unit y).gc_marker = gc_mark g GC_OFFSET_BAD := by
        rcases o4 y hy with k | ⟨-, k⟩
        · rw [← k]; exact hb'
        · rw [k] at hb'
          exact absurd hb' (good_ne_bad g)
      apply bad4
      apply h3.2.2.2.1 y (by rw [o2 y hy]; exact hn) hb3 (by rw [o2 y hy]; exact hc) p
      rw [deps_of_same_deps i2.2]
      exact hp'
  · have l4 : m'.heap.length = m3.heap.length := i4.1.2.1
    have mono : ∀ y, (m3.unit y).gc_marked g → (m'.unit y).gc_marked g := by
      intro y h
      by_cases hy : y = u
      · rw [hy]; exact hm
      · exact swept_unit_marked (s4 y hy) h
    have := gc_unmarked_le g m3 m' l4 mono
    omega

/-- The loop of `unit_gc_sweep` over the referrers `s`, given what the
recursive call does: after `goto good` the set is not empty; when the loop ends
with `is_bad` true, `is_bad` was true and all referrers are marked BAD; when it
ends with `is_bad` false, `is_bad` was false or the set is not empty. -/
theorem unit_gc_sweep_loop_frame (env : Env) (g : Nat)
    (rec : Manager → UnitId → Option Manager)
    (hrec : ∀ a o a', rec a o = some a' → a.swept env g a')
    (s : List UnitId) : ∀ (m : Manager) (is_bad : Bool) (m' : Manager) (r : Option Bool),
    unit_gc_sweep_loop rec g m is_bad s = some (m', r) →
      m.swept env g m' ∧ (r = none → s ≠ []) ∧
      (r = some true → is_bad = true ∧
        ∀ p ∈ s, (m'.unit p).gc_marker = gc_mark g GC_OFFSET_BAD) ∧
      (r = some false → is_bad = false ∨ s ≠ []) := by
  induction s with
  | nil =>
    intro m is_bad m' r h
    simp only [unit_gc_sweep_loop, Option.some.injEq, Prod.mk.injEq] at h
    obtain ⟨rfl, rfl⟩ := h
    refine ⟨swept_refl env g m, (fun q => by cases q), fun q => ?_, fun q => ?_⟩
    · simp only [Option.some.injEq] at q
      exact ⟨q, fun p hp => absurd hp (List.not_mem_nil p)⟩
    · simp only [Option.some.injEq] at q
      exact Or.inl q
  | cons other rest ih =>
    intro m is_bad m' r h
    unfold unit_gc_sweep_loop at h
    cases hr : rec m other with
    | none => simp [hr] at h
    | some m1 =>
      simp only [hr] at h
      have s1 := hrec m other m1 hr
      have hne : other :: rest ≠ [] := List.cons_ne_nil _ _
      by_cases hg : (m1.unit other).gc_marker = gc_mark g GC_OFFSET_GOOD
      · rw [if_pos hg] at h
        simp only [Option.some.injEq, Prod.mk.injEq] at h
        obtain ⟨rfl, rfl⟩ := h
        exact ⟨s1, fun _ => hne, (fun q => by cases q), (fun q => by cases q)⟩
      rw [if_neg hg] at h
      by_cases hb : (m1.unit other).gc_marker ≠ gc_mark g GC_OFFSET_BAD
      · rw [if_pos hb] at h
        obtain ⟨a, _, c, _⟩ := ih m1 false m' r h
        refine ⟨swept_trans s1 a, fun _ => hne, fun q => ?_, fun _ => Or.inr hne⟩
        exact absurd (c q).1 (by decide)
      · rw [if_neg hb] at h
        obtain ⟨a, _, c, _⟩ := ih m1 is_bad m' r h
        refine ⟨swept_trans s1 a, fun _ => hne, fun q => ⟨(c q).1, fun p hp => ?_⟩,
          fun _ => Or.inr hne⟩
        rcases List.mem_cons.1 hp with e | e
        · rw [e, swept_unit_of_settled (a.2.2.1 other) (Or.inl (not_not.1 hb))]
          exact not_not.1 hb
        · exact (c q).2 p e

theorem marked_good_root (g : Nat) (ma m' : Manager) (u : UnitId) (hv : ma.valid u)
    (h : (ma.modify u (fun x => { x with gc_marker := gc_mark g GC_OFFSET_GOOD })).marked_good g m') :
    (ma.same_ident m' ∧ ma.same_deps m') ∧
    (∀ y, y ≠ u → m'.unit y = ma.unit y ∨
      ((ma.unit y).gc_marker = gc_mark g GC_OFFSET_UNSURE ∧
        m'.unit y = { ma.unit y with gc_marker := gc_mark g GC_OFFSET_GOOD })) ∧
    (m'.unit u).gc_marker = gc_mark g GC_OFFSET_GOOD ∧
    (m'.unit u).in_cleanup_queue = (ma.unit u).in_cleanup_queue ∧
    (m'.unit u).in_gc_queue = (ma.unit u).in_gc_queue ∧
    (ma.queues_ok → m'.queues_ok) ∧ m'.gc_unit_queue = ma.gc_unit_queue := by
  obtain ⟨f1, o1, e1, q1⟩ := set_marker_fields ma u (gc_mark g GC_OFFSET_GOOD) hv
  have g1 : (ma.modify u (fun x => { x with gc_marker := gc_mark g GC_OFFSET_GOOD })).gc_unit_queue =
      ma.gc_unit_queue := rfl
  generalize ma.modify u (fun x => { x with gc_marker := gc_mark g GC_OFFSET_GOOD }) = m1
    at h f1 o1 e1 q1 g1
  have sw := swept_of_marked_good env0 h
  have eu : m'.unit u = m1.unit u :=
    marked_good_marker h u (by rw [e1]; exact good_ne_unsure g)
  have gq : m'.gc_unit_queue = m1.gc_unit_queue := by
    have := h.1
    rw [this]
  refine ⟨frame_trans f1 ⟨sw.1, sw.2.1⟩, fun y hy => ?_, ?_, ?_, ?_, fun ok => sw.2.2.2.2.1 (q1 ok),
    gq.trans g1⟩
  · have := h.2.2 y
    rw [o1 y hy] at this
    exact this
  · rw [eu, e1]
  · rw [eu, e1]
  · rw [eu, e1]

/-- The static function `unit_gc_sweep`: a call that returns is a sweep step,
on a unit object, which has a marker then. -/
theorem unit_gc_sweep_frame (env : Env) (g : Nat) : ∀ (fuel : Nat) (m : Manager) (u : UnitId)
    (m' : Manager), unit_gc_sweep env fuel m u g = some m' →
      m.swept env g m' ∧ m.valid u ∧ (m'.unit u).gc_marked g := by
  intro fuel
  induction fuel with
  | zero => intro m u m' h; simp [unit_gc_sweep] at h
  | succ fuel ih =>
    intro m u m' h
    unfold unit_gc_sweep at h
    by_cases hv : m.valid u
    swap
    · rw [if_neg hv] at h; cases h
    rw [if_pos hv] at h
    by_cases hmk : (m.unit u).gc_marker = gc_mark g GC_OFFSET_GOOD ∨
        (m.unit u).gc_marker = gc_mark g GC_OFFSET_BAD ∨
        (m.unit u).gc_marker = gc_mark g GC_OFFSET_UNSURE ∨
        (m.unit u).gc_marker = gc_mark g GC_OFFSET_IN_PATH
    · rw [if_pos hmk] at h
      cases h
      exact ⟨swept_refl env g m, hv, hmk⟩
    rw [if_neg hmk] at h
    have hn : ¬ (m.unit u).gc_marked g := hmk
    have nb : (m.unit u).gc_marker ≠ gc_mark g GC_OFFSET_BAD := fun e => hn (Or.inr (Or.inl e))
    by_cases hc : (m.unit u).in_cleanup_queue = true
    · rw [if_pos hc] at h
      simp only [Option.some.injEq] at h
      subst h
      obtain ⟨fr, o, a, b, c, ok, gq⟩ := unit_gc_sweep_bad_fields m u g hv
      have hm' : ((unit_gc_sweep_bad m u g).unit u).gc_marked g := Or.inr (Or.inl a)
      refine ⟨swept_assemble env g m m m _ u (frame_refl m) (fun _ _ => rfl) (swept_refl env g m) nb
        fr (fun y hy => Or.inl (o y hy)) ?_ hm' (fun _ q => ?_) ok ?_, hv, hm'⟩
      · refine Or.inr (Or.inr ⟨hn, Or.inr (Or.inr a), ?_, fun q => by rw [c]; exact q,
          fun _ _ => Or.inl hc, fun q => ?_⟩)
        · rw [b]; exact ⟨fun _ => Or.inl hc, fun _ => rfl⟩
        · rw [a] at q
          rcases q with q | q
          · exact absurd q.symm (unsure_ne_bad g)
          · exact absurd q.symm (good_ne_bad g)
      · rw [hc] at q; cases q
      · rw [gq]
    rw [if_neg hc] at h
    have hcf : (m.unit u).in_cleanup_queue = false := by
      cases hh : (m.unit u).in_cleanup_queue
      · rfl
      · exact absurd hh hc
    cases hk : unit_check_gc env m u with
    | none => simp [hk] at h
    | some pr =>
      obtain ⟨b, m1⟩ := pr
      obtain ⟨-, o1, k1, c1, q1, ok1, gq1, len1⟩ := unit_check_gc_fields env m m1 u b hk
      have fr1 := frame_check_gc env m m1 u b hk
      have hv1 : m1.valid u := (valid_of_same_ident fr1.1 u).2 hv
      have nb1 : (m1.unit u).gc_marker ≠ gc_mark g GC_OFFSET_BAD := by rw [k1]; exact nb
      have hloc : (m.unit u).load_state ≠ .merged → (m.unit u).check_gc env = some b :=
        fun hl => unit_check_gc_local env m m1 u b hl hk
      cases b with
      | true =>
        simp only [hk] at h
        obtain ⟨-, mg⟩ := unit_gc_mark_good_frame g _ m1 u m' h
        obtain ⟨fr, o, a, b, c, ok, gq⟩ := marked_good_root g m1 m' u hv1 mg
        have hm' : (m'.unit u).gc_marked g := Or.inl a
        refine ⟨swept_assemble env g m m1 m1 m' u fr1 o1 (swept_refl env g m1) nb1 fr o ?_ hm'
          (fun q _ => ?_) (fun q => ok (ok1 q)) ?_, hv, hm'⟩
        · refine Or.inr (Or.inr ⟨hn, Or.inr (Or.inl a), ?_, fun q => by rw [c, q1]; exact q,
            fun q => ?_, fun _ => ⟨hcf, fun hl => Or.inl (hloc hl)⟩⟩)
          · rw [b, c1]
            exact ⟨fun q => Or.inl q, fun q => q.elim id (fun e => absurd (a ▸ e) (good_ne_bad g))⟩
          · rw [a] at q
            rcases q with q | q
            · exact absurd q (good_ne_unsure g)
            · exact absurd q (good_ne_bad g)
        · rw [a] at q
          exact absurd q (good_ne_bad g)
        · rw [gq, gq1]
          exact Nat.add_le_add_left (gc_unmarked_le g m m1 len1 (fun y hy => by
            by_cases e : y = u
            · rw [e] at hy; exact absurd hy hn
            · rw [o1 y e]; exact hy)) _
      | false =>
        simp only [hk] at h
        obtain ⟨f2, o2, e2, ok2⟩ := set_marker_fields m1 u (gc_mark g GC_OFFSET_IN_PATH) hv1
        have gq2 : (m1.modify u (fun x => { x with gc_marker := gc_mark g GC_OFFSET_IN_PATH })).gc_unit_queue
            = m1.gc_unit_queue := rfl
        have hv2 : (m1.modify u (fun x => { x with gc_marker := gc_mark g GC_OFFSET_IN_PATH })).valid u :=
          (valid_modify _ _ _ _).2 hv1
        generalize m1.modify u (fun x => { x with gc_marker := gc_mark g GC_OFFSET_IN_PATH }) = m2
          at h f2 o2 e2 ok2 gq2 hv2
        have fr2 := frame_trans fr1 f2
        have o12 : ∀ y, y ≠ u → m2.unit y = m.unit y := fun y hy => by rw [o2 y hy, o1 y hy]
        have mk2 : (m2.unit u).gc_marker = gc_mark g GC_OFFSET_IN_PATH := by rw [e2]
        have cu2 : m2.gc_unmarked g < m.gc_unmarked g := by
          apply gc_unmarked_lt g m m2 fr2.1.2.1 _ u hv hn (Or.inr (Or.inr (Or.inr mk2)))
          intro y hy
          by_cases e : y = u
          · rw [e] at hy; exact absurd hy hn
          · rw [o12 y e]; exact hy
        have hL : m1.deps u .referenced_by = m.deps u .referenced_by := deps_of_same_deps fr1.2 u _
        rw [hL] at h
        cases hl : unit_gc_sweep_loop (fun a other => unit_gc_sweep env fuel a other g) g m2 true
            (m.deps u .referenced_by) with
        | none => simp [hl] at h
        | some pr =>
          obtain ⟨m3, r⟩ := pr
          simp only [hl] at h
          obtain ⟨s3, rn, rt, rf⟩ := unit_gc_sweep_loop_frame env g _
            (fun a o a' hh => (ih a o a' hh).1) _ m2 true m3 r hl
          have eu3 : m3.unit u = m2.unit u :=
            swept_unit_of_settled (s3.2.2.1 u) (Or.inr (Or.inr mk2))
          have mk3 : (m3.unit u).gc_marker = gc_mark g GC_OFFSET_IN_PATH := by rw [eu3, mk2]
          have nb3 : (m3.unit u).gc_marker ≠ gc_mark g GC_OFFSET_BAD := by
            rw [mk3]; exact fun e => bad_ne_in_path g e.symm
          have c3 : (m3.unit u).in_cleanup_queue = (m.unit u).in_cleanup_queue := by
            rw [eu3, e2]; exact c1
          have q3 : (m3.unit u).in_gc_queue = (m.unit u).in_gc_queue := by
            rw [eu3, e2]; exact q1
          have hv3 : m3.valid u := (valid_of_same_ident s3.1 u).2 hv2
          have ok3 : m.queues_ok → m3.queues_ok := fun q => s3.2.2.2.2.1 (ok2 (ok1 q))
          have p3 : m3.gc_unit_queue.length + m3.gc_unmarked g + 1 ≤
              m.gc_unit_queue.length + m.gc_unmarked g := by
            have := s3.2.2.2.2.2
            rw [gq2, gq1] at this
            omega
          cases r with
          | none =>
            dsimp only at h
            obtain ⟨-, mg⟩ := unit_gc_mark_good_frame g _ m3 u m' h
            obtain ⟨fr, o, a, b, c, ok, gq⟩ := marked_good_root g m3 m' u hv3 mg
            have hm' : (m'.unit u).gc_marked g := Or.inl a
            refine ⟨swept_assemble env g m m2 m3 m' u fr2 o12 s3 nb3 fr o ?_ hm'
              (fun q _ => ?_) (fun q => ok (ok3 q)) ?_, hv, hm'⟩
            · refine Or.inr (Or.inr ⟨hn, Or.inr (Or.inl a), ?_, fun q => by rw [c, q3]; exact q,
                fun q => ?_, fun _ => ⟨hcf, fun _ => Or.inr (rn rfl)⟩⟩)
              · rw [b, c3]
                exact ⟨fun q => Or.inl q,
                  fun q => q.elim id (fun e => absurd (a ▸ e) (good_ne_bad g))⟩
              · rw [a] at q
                rcases q with q | q
                · exact absurd q (good_ne_unsure g)
                · exact absurd q (good_ne_bad g)
            · rw [a] at q
              exact absurd q (good_ne_bad g)
            · rw [gq]; omega
          | some is_bad =>
            cases is_bad with
            | true =>
              dsimp only at h
              simp only [Option.some.injEq] at h
              subst h
              obtain ⟨fr, o, a, b, c, ok, gq⟩ := unit_gc_sweep_bad_fields m3 u g hv3
              have hm' : ((unit_gc_sweep_bad m3 u g).unit u).gc_marked g := Or.inr (Or.inl a)
              refine ⟨swept_assemble env g m m2 m3 _ u fr2 o12 s3 nb3 fr
                (fun y hy => Or.inl (o y hy)) ?_ hm' (fun _ _ => (rt rfl).2) (fun q => ok (ok3 q)) ?_,
                hv, hm'⟩
              · refine Or.inr (Or.inr ⟨hn, Or.inr (Or.inr a), ?_, fun q => by rw [c, q3]; exact q,
                  fun _ hl => Or.inr (hloc hl), fun q => ?_⟩)
                · rw [b]; exact ⟨fun _ => Or.inr a, fun _ => rfl⟩
                · rw [a] at q
                  rcases q with q | q
                  · exact absurd q.symm (unsure_ne_bad g)
                  · exact absurd q.symm (good_ne_bad g)
              · rw [gq]; omega
            | false =>
              dsimp only at h
              obtain ⟨f4, o4, e4, ok4⟩ := set_marker_fields m3 u (gc_mark g GC_OFFSET_UNSURE) hv3
              have gq4 : (m3.modify u (fun x => { x with gc_marker := gc_mark g GC_OFFSET_UNSURE })).gc_unit_queue
                  = m3.gc_unit_queue := rfl
              have hv4 : (m3.modify u (fun x => { x with gc_marker := gc_mark g GC_OFFSET_UNSURE })).valid u :=
                (valid_modify _ _ _ _).2 hv3
              generalize m3.modify u (fun x => { x with gc_marker := gc_mark g GC_OFFSET_UNSURE }) = m4
                at h f4 o4 e4 ok4 gq4 hv4
              obtain ⟨o5, k5, c5, q5, ok5, l5, -⟩ := unit_add_to_gc_queue_step env m4 m' u hv4 h
              have fr5 := frame_trans f4 (frame_gc_queue env m4 m' u h)
              have a : (m'.unit u).gc_marker = gc_mark g GC_OFFSET_UNSURE := by rw [k5, e4]
              have hm' : (m'.unit u).gc_marked g := Or.inr (Or.inr (Or.inl a))
              have Lne : m.deps u .referenced_by ≠ [] := by
                rcases rf rfl with q | q
                · cases q
                · exact q
              refine ⟨swept_assemble env g m m2 m3 m' u fr2 o12 s3 nb3 fr5
                (fun y hy => Or.inl (by rw [o5 y hy, o4 y hy])) ?_ hm' (fun q _ => ?_)
                (fun q => ok5 (ok4 (ok3 q))) ?_, hv, hm'⟩
              · refine Or.inr (Or.inr ⟨hn, Or.inl a, ?_, fun q => q5 (by rw [e4]; exact q3 ▸ q),
                  fun _ hl => Or.inr (hloc hl), fun _ => ⟨hcf, fun _ => Or.inr Lne⟩⟩)
                rw [c5, e4]
                show (m3.unit u).in_cleanup_queue = true ↔ _
                rw [c3]
                exact ⟨fun q => Or.inl q,
                  fun q => q.elim id (fun e => absurd (a ▸ e) (unsure_ne_bad g))⟩
              · rw [a] at q
                exact absurd q (unsure_ne_bad g)
              · rw [gq4] at l5; omega

/-! ## The garbage collector: the calls return -/

theorem follow_merge_loop_congr {m m' : Manager} (h : m.same_ident m') (fuel : Nat) :
    ∀ u, follow_merge_loop m' fuel u = follow_merge_loop m fuel u := by
  induction fuel with
  | zero => intro u; rfl
  | succ fuel ih =>
    intro u
    unfold follow_merge_loop
    have hv : m'.valid u ↔ m.valid u := valid_of_same_ident h u
    obtain ⟨-, -, -, -, e1, e2⟩ := ident_fields (h.2.2 u)
    by_cases hvu : m.valid u
    · rw [if_pos hvu, if_pos (hv.2 hvu), e1, e2]
      split_ifs
      · cases (m.unit u).merged_into with
        | none => rfl
        | some v => exact ih v
      · rfl
    · rw [if_neg hvu, if_neg (fun q => hvu (hv.1 q))]

theorem unit_follow_merge_congr {m m' : Manager} (h : m.same_ident m') (u : UnitId) :
    unit_follow_merge m' u = unit_follow_merge m u := by
  unfold unit_follow_merge
  rw [h.2.1]
  exact follow_merge_loop_congr h _ u

theorem resolvable_of_frame {m m' : Manager} (h : m.same_ident m' ∧ m.same_deps m')
    (hr : m.resolvable) : m'.resolvable := by
  intro y hy
  have hv : ∀ x, m'.valid x ↔ m.valid x := valid_of_same_ident h.1
  obtain ⟨a, ⟨v, b, c⟩, d, e⟩ := hr y ((hv y).1 hy)
  refine ⟨?_, ⟨v, ?_, ?_⟩, fun p hp => ?_, fun p hp => ?_⟩
  · rw [(ident_fields (h.1.2.2 y)).2.2.2.1]; exact a
  · rw [unit_follow_merge_congr h.1]; exact b
  · rw [(ident_fields (h.1.2.2 v)).2.2.2.1]; exact c
  · rw [deps_of_same_deps h.2] at hp; exact (hv p).2 (d p hp)
  · rw [deps_of_same_deps h.2] at hp; exact (hv p).2 (e p hp)

theorem unit_check_gc_total (env : Env) (m : Manager) (u : UnitId) (hv : m.valid u)
    (hr : m.resolvable) : ∃ b m', unit_check_gc env m u = some (b, m') := by
  obtain ⟨ht, ⟨v, hf, htv⟩, -, -⟩ := hr u hv
  unfold unit_check_gc
  rw [if_pos hv]
  by_cases h1 : (m.unit u).job.isSome = true
  · rw [if_pos h1]; exact ⟨_, _, rfl⟩
  rw [if_neg h1]
  by_cases h2 : (m.unit u).nop_job.isSome = true
  · rw [if_pos h2]; exact ⟨_, _, rfl⟩
  rw [if_neg h2]
  obtain ⟨t, ht'⟩ := Option.ne_none_iff_exists'.mp ht
  obtain ⟨tv, htv'⟩ := Option.ne_none_iff_exists'.mp htv
  have ha : unit_active_state env m u = some ((env.unit_vtable tv).active_state (m.unit v).data) := by
    unfold unit_active_state
    rw [hf]
    simp only [htv']
  rw [ha]
  dsimp only
  obtain ⟨m1, hm1⟩ := unit_release_resources_some env m u t
    ((env.unit_vtable tv).active_state (m.unit v).data) ht'
  rw [hm1]
  dsimp only
  have ht1 : (m1.unit u).type = some t := by
    have := (frame_release_resources env m m1 u _ hm1).1.2.2 u
    rw [← ht', (ident_fields this).2.2.2.1]
  split_ifs
  · exact ⟨_, _, rfl⟩
  · exact ⟨_, _, rfl⟩
  · exact ⟨_, _, rfl⟩
  · exact ⟨_, _, rfl⟩
  · unfold unit_check_gc_hook
    simp only [ht1]
    cases (env.unit_vtable t).check_gc <;> exact ⟨_, _, rfl⟩

theorem unit_add_to_gc_queue_total (env : Env) (m : Manager) (u : UnitId) (hv : m.valid u)
    (hr : m.resolvable) : ∃ m', unit_add_to_gc_queue env m u = some m' := by
  unfold unit_add_to_gc_queue
  split_ifs
  · exact ⟨_, rfl⟩
  · obtain ⟨b, m1, h⟩ := unit_check_gc_total env m u hv hr
    rw [h]
    cases b <;> exact ⟨_, rfl⟩

theorem gc_unsure_le (g : Nat) (m m' : Manager) (hl : m'.heap.length = m.heap.length)
    (h : ∀ y, (m'.unit y).gc_marker = gc_mark g GC_OFFSET_UNSURE →
      (m.unit y).gc_marker = gc_mark g GC_OFFSET_UNSURE) :
    m'.gc_unsure g ≤ m.gc_unsure g := by
  unfold Manager.gc_unsure
  rw [hl]
  apply List.countP_mono_left
  intro y _ hy
  simp only [decide_eq_true_eq] at hy ⊢
  exact h y hy

theorem gc_unsure_le_of_marked_good {g : Nat} {m m' : Manager} (h : m.marked_good g m') :
    m'.gc_unsure g ≤ m.gc_unsure g := by
  apply gc_unsure_le g m m' h.2.1
  intro y hy
  rcases h.2.2 y with e | ⟨e, -⟩
  · rw [← e]; exact hy
  · exact e

theorem gc_unsure_lt_modify (g : Nat) (m : Manager) (o : UnitId) (hv : m.valid o)
    (hu : (m.unit o).gc_marker = gc_mark g GC_OFFSET_UNSURE) :
    (m.modify o (fun x => { x with gc_marker := gc_mark g GC_OFFSET_GOOD })).gc_unsure g <
      m.gc_unsure g := by
  unfold Manager.gc_unsure
  rw [length_modify]
  apply countP_lt_of_mem _ _ _ _ o (List.mem_range.2 hv)
  · simp only [decide_eq_true_eq]; exact hu
  · simp only [decide_eq_false_iff_not]
    rw [unit_modify_self _ _ _ hv]
    exact good_ne_unsure g
  · intro y _ hy
    simp only [decide_eq_true_eq] at hy ⊢
    by_cases e : y = o
    · rw [e]; exact hu
    · rw [unit_modify_other _ _ _ _ e] at hy; exact hy

theorem gc_unsure_le_length (g : Nat) (m : Manager) : m.gc_unsure g ≤ m.heap.length := by
  unfold Manager.gc_unsure
  exact (List.countP_le_length _).trans (by rw [List.length_range])

theorem gc_unmarked_le_length (g : Nat) (m : Manager) : m.gc_unmarked g ≤ m.heap.length := by
  unfold Manager.gc_unmarked
  exact (List.countP_le_length _).trans (by rw [List.length_range])

theorem unit_gc_mark_good_loop_total (g : Nat) (fuel : Nat)
    (rec : Manager → UnitId → Option Manager)
    (hrec : ∀ a o, a.valid o → a.resolvable →
      (a.modify o (fun x => { x with gc_marker := gc_mark g GC_OFFSET_GOOD })).gc_unsure g < fuel →
      ∃ a', rec a o = some a' ∧
        (a.modify o (fun x => { x with gc_marker := gc_mark g GC_OFFSET_GOOD })).marked_good g a')
    (s : List UnitId) : ∀ m, (∀ p ∈ s, m.valid p) → m.resolvable → m.gc_unsure g ≤ fuel →
      ∃ m', unit_gc_mark_good_loop rec g m s = some m' := by
  induction s with
  | nil => intro m _ _ _; exact ⟨m, rfl⟩
  | cons other rest ih =>
    intro m hs hr hc
    have hvo : m.valid other := hs other (List.mem_cons_self _ _)
    unfold unit_gc_mark_good_loop
    rw [if_pos hvo]
    by_cases hu : (m.unit other).gc_marker = gc_mark g GC_OFFSET_UNSURE
    · rw [if_pos hu]
      have lt := gc_unsure_lt_modify g m other hvo hu
      obtain ⟨m1, c1, mg⟩ := hrec m other hvo hr (Nat.lt_of_lt_of_le lt hc)
      rw [c1, Option.some_bind]
      have mg1 := marked_good_trans (marked_good_modify g m other hu) mg
      have sw := swept_of_marked_good env0 mg1
      apply ih m1 (fun p hp => (valid_of_same_ident sw.1 p).2 (hs p (List.mem_cons_of_mem _ hp)))
        (resolvable_of_frame ⟨sw.1, sw.2.1⟩ hr)
      exact (gc_unsure_le_of_marked_good mg1).trans hc
    · rw [if_neg hu]
      exact ih m (fun p hp => hs p (List.mem_cons_of_mem _ hp)) hr hc

/-- The static function `unit_gc_mark_good` returns when the recursion may go
deeper than there are units marked UNSURE. -/
theorem unit_gc_mark_good_total (g : Nat) : ∀ (fuel : Nat) (m : Manager) (u : UnitId),
    m.valid u → m.resolvable →
    (m.modify u (fun x => { x with gc_marker := gc_mark g GC_OFFSET_GOOD })).gc_unsure g < fuel →
    ∃ m', unit_gc_mark_good fuel m u g = some m' ∧
      (m.modify u (fun x => { x with gc_marker := gc_mark g GC_OFFSET_GOOD })).marked_good g m' := by
  intro fuel
  induction fuel with
  | zero => intro m u _ _ h; exact absurd h (Nat.not_lt_zero _)
  | succ fuel ih =>
    intro m u hv hr hc
    unfold unit_gc_mark_good
    rw [if_pos hv]
    have fr := frame_modify m u (fun x => { x with gc_marker := gc_mark g GC_OFFSET_GOOD })
      (fun _ => ⟨rfl, rfl⟩)
    have hr1 := resolvable_of_frame fr hr
    have hs : ∀ p ∈ m.deps u .references,
        (m.modify u (fun x => { x with gc_marker := gc_mark g GC_OFFSET_GOOD })).valid p :=
      fun p hp => (valid_of_same_ident fr.1 p).2 ((hr u hv).2.2.2 p hp)
    obtain ⟨m', h⟩ := unit_gc_mark_good_loop_total g fuel _ (fun a o => ih a o) _ _ hs hr1
      (Nat.le_of_lt_succ hc)
    exact ⟨m', h, unit_gc_mark_good_loop_frame g _
      (fun a o a' hh => unit_gc_mark_good_frame g fuel a o a' hh) _ _ _ h⟩

theorem gc_unmarked_le_of_swept {env : Env} {g : Nat} {m m' : Manager} (h : m.swept env g m') :
    m'.gc_unmarked g ≤ m.gc_unmarked g :=
  gc_unmarked_le g m m' h.1.2.1 (fun y => swept_marked h y)

theorem unit_gc_sweep_loop_total (env : Env) (g : Nat) (fuel : Nat)
    (rec : Manager → UnitId → Option Manager)
    (hrec : ∀ a o, a.valid o → a.resolvable → a.gc_unmarked g < fuel →
      ∃ a', rec a o = some a' ∧ a.swept env g a')
    (s : List UnitId) : ∀ (m : Manager) (is_bad : Bool), (∀ p ∈ s, m.valid p) → m.resolvable →
      m.gc_unmarked g < fuel → ∃ r, unit_gc_sweep_loop rec g m is_bad s = some r := by
  induction s with
  | nil => intro m is_bad _ _ _; exact ⟨_, rfl⟩
  | cons other rest ih =>
    intro m is_bad hs hr hc
    obtain ⟨m1, c1, sw⟩ := hrec m other (hs other (List.mem_cons_self _ _)) hr hc
    unfold unit_gc_sweep_loop
    rw [c1]
    dsimp only
    have hs1 : ∀ p ∈ rest, m1.valid p :=
      fun p hp => (valid_of_same_ident sw.1 p).2 (hs p (List.mem_cons_of_mem _ hp))
    have hr1 := resolvable_of_frame ⟨sw.1, sw.2.1⟩ hr
    have hc1 := Nat.lt_of_le_of_lt (gc_unmarked_le_of_swept sw) hc
    split_ifs
    · exact ⟨_, rfl⟩
    · exact ih m1 false hs1 hr1 hc1
    · exact ih m1 is_bad hs1 hr1 hc1

/-- The static function `unit_gc_sweep` returns when the recursion may go
deeper than there are units without a marker. -/
theorem unit_gc_sweep_total (env : Env) (g : Nat) : ∀ (fuel : Nat) (m : Manager) (u : UnitId),
    m.valid u → m.resolvable → m.gc_unmarked g < fuel →
    ∃ m', unit_gc_sweep env fuel m u g = some m' := by
  intro fuel
  induction fuel with
  | zero => intro m u _ _ h; exact absurd h (Nat.not_lt_zero _)
  | succ fuel ih =>
    intro m u hv hr hc
    have good : ∀ a : Manager, a.valid u → a.resolvable →
        ∃ m', unit_gc_mark_good (a.heap.length + 1) a u g = some m' := by
      intro a va ra
      obtain ⟨m', h, -⟩ := unit_gc_mark_good_total g (a.heap.length + 1) a u va ra
        (Nat.lt_succ_of_le ((gc_unsure_le_length g _).trans (by rw [length_modify])))
      exact ⟨m', h⟩
    unfold unit_gc_sweep
    rw [if_pos hv]
    by_cases hmk : (m.unit u).gc_marker = gc_mark g GC_OFFSET_GOOD ∨
        (m.unit u).gc_marker = gc_mark g GC_OFFSET_BAD ∨
        (m.unit u).gc_marker = gc_mark g GC_OFFSET_UNSURE ∨
        (m.unit u).gc_marker = gc_mark g GC_OFFSET_IN_PATH
    · rw [if_pos hmk]; exact ⟨_, rfl⟩
    rw [if_neg hmk]
    have hn : ¬ (m.unit u).gc_marked g := hmk
    by_cases hcl : (m.unit u).in_cleanup_queue = true
    · rw [if_pos hcl]; exact ⟨_, rfl⟩
    rw [if_neg hcl]
    obtain ⟨b, m1, hk⟩ := unit_check_gc_total env m u hv hr
    obtain ⟨-, o1, k1, -, -, -, -, len1⟩ := unit_check_gc_fields env m m1 u b hk
    have fr1 := frame_check_gc env m m1 u b hk
    have hv1 : m1.valid u := (valid_of_same_ident fr1.1 u).2 hv
    have hr1 := resolvable_of_frame fr1 hr
    rw [hk]
    cases b with
    | true => exact good m1 hv1 hr1
    | false =>
      dsimp only
      obtain ⟨f2, o2, e2, -⟩ := set_marker_fields m1 u (gc_mark g GC_OFFSET_IN_PATH) hv1
      have hv2 : (m1.modify u (fun x => { x with gc_marker := gc_mark g GC_OFFSET_IN_PATH })).valid u :=
        (valid_modify _ _ _ _).2 hv1
      generalize m1.modify u (fun x => { x with gc_marker := gc_mark g GC_OFFSET_IN_PATH }) = m2
        at f2 o2 e2 hv2
      have fr2 := frame_trans fr1 f2
      have hr2 := resolvable_of_frame f2 hr1
      have mk2 : (m2.unit u).gc_marker = gc_mark g GC_OFFSET_IN_PATH := by rw [e2]
      have cu2 : m2.gc_unmarked g < m.gc_unmarked g := by
        apply gc_unmarked_lt g m m2 fr2.1.2.1 _ u hv hn (Or.inr (Or.inr (Or.inr mk2)))
        intro y hy
        by_cases e : y = u
        · rw [e] at hy; exact absurd hy hn
        · rw [o2 y e, o1 y e]; exact hy
      have hs : ∀ p ∈ m1.deps u .referenced_by, m2.valid p :=
        fun p hp => (valid_of_same_ident f2.1 p).2 ((hr1 u hv1).2.2.1 p hp)
      obtain ⟨r, hl⟩ := unit_gc_sweep_loop_total env g fuel _
        (fun a o va ra ca => by
          obtain ⟨a', ha⟩ := ih a o va ra ca
          exact ⟨a', ha, (unit_gc_sweep_frame env g fuel a o a' ha).1⟩)
        _ m2 true hs hr2 (Nat.lt_of_lt_of_le cu2 (Nat.le_of_lt_succ hc))
      obtain ⟨m3, r⟩ := r
      obtain ⟨s3, -⟩ := unit_gc_sweep_loop_frame env g _
        (fun a o a' hh => (unit_gc_sweep_frame env g fuel a o a' hh).1) _ m2 true m3 r hl
      have hv3 : m3.valid u := (valid_of_same_ident s3.1 u).2 hv2
      have hr3 := resolvable_of_frame ⟨s3.1, s3.2.1⟩ hr2
      rw [hl]
      cases r with
      | none => exact good m3 hv3 hr3
      | some is_bad =>
        cases is_bad with
        | true => exact ⟨_, rfl⟩
        | false =>
          dsimp only
          exact unit_add_to_gc_queue_total env _ u ((valid_modify _ _ _ _).2 hv3)
            (resolvable_of_frame (frame_modify m3 u _ (fun _ => ⟨rfl, rfl⟩)) hr3)

theorem valid_of_flag (m : Manager) (y : UnitId) (h : (m.unit y).in_gc_queue = true) :
    m.valid y := by
  by_contra hv
  rw [unit_invalid m y hv] at h
  cases h

/-- What the end of a round of `manager_dispatch_gc_unit_queue` does to the
head `u` of the queue after its sweep: `u` leaves the queue, and a verdict BAD
or UNSURE puts it on the cleanup queue, marked BAD. -/
theorem manager_dispatch_gc_unit_queue_collect_fields (m1 : Manager) (u : UnitId) (g : Nat)
    (hv : m1.valid u) :
    (m1.same_ident (manager_dispatch_gc_unit_queue_collect m1 u g) ∧
      m1.same_deps (manager_dispatch_gc_unit_queue_collect m1 u g)) ∧
    (∀ y, y ≠ u → (manager_dispatch_gc_unit_queue_collect m1 u g).unit y = m1.unit y) ∧
    ((manager_dispatch_gc_unit_queue_collect m1 u g).unit u).in_gc_queue = false ∧
    (((m1.unit u).gc_marker = gc_mark g GC_OFFSET_BAD ∨
        (m1.unit u).gc_marker = gc_mark g GC_OFFSET_UNSURE) →
      ((manager_dispatch_gc_unit_queue_collect m1 u g).unit u).gc_marker =
        gc_mark g GC_OFFSET_BAD ∧
      ((manager_dispatch_gc_unit_queue_collect m1 u g).unit u).in_cleanup_queue = true ∧
      ((m1.unit u).in_cleanup_queue = false →
        u ∈ (manager_dispatch_gc_unit_queue_collect m1 u g).cleanup_queue)) ∧
    (¬ ((m1.unit u).gc_marker = gc_mark g GC_OFFSET_BAD ∨
        (m1.unit u).gc_marker = gc_mark g GC_OFFSET_UNSURE) →
      ((manager_dispatch_gc_unit_queue_collect m1 u g).unit u).gc_marker = (m1.unit u).gc_marker ∧
      ((manager_dispatch_gc_unit_queue_collect m1 u g).unit u).in_cleanup_queue =
        (m1.unit u).in_cleanup_queue) ∧
    (manager_dispatch_gc_unit_queue_collect m1 u g).gc_unit_queue = m1.gc_unit_queue.erase u ∧
    (m1.queues_ok → (manager_dispatch_gc_unit_queue_collect m1 u g).queues_ok) := by
  unfold manager_dispatch_gc_unit_queue_collect
  dsimp only
  have u2 : ∀ y, (({ m1.modify u (fun x => { x with in_gc_queue := false }) with
      gc_unit_queue := m1.gc_unit_queue.erase u } : Manager).unit y) =
      if y = u then { m1.unit u with in_gc_queue := false } else m1.unit y := by
    intro y
    show (m1.modify u (fun x => { x with in_gc_queue := false })).unit y = _
    rw [unit_modify]
    by_cases hy : y = u
    · rw [if_pos ⟨hv, hy⟩, if_pos hy]
    · rw [if_neg (fun q => hy q.2), if_neg hy]
  have f2 : m1.same_ident ({ m1.modify u (fun x => { x with in_gc_queue := false }) with
      gc_unit_queue := m1.gc_unit_queue.erase u } : Manager) ∧
      m1.same_deps ({ m1.modify u (fun x => { x with in_gc_queue := false }) with
      gc_unit_queue := m1.gc_unit_queue.erase u } : Manager) :=
    frame_modify_heap m1 _ u (fun x => { x with in_gc_queue := false }) rfl rfl
      (fun _ => ⟨rfl, rfl⟩)
  have g2 : ({ m1.modify u (fun x => { x with in_gc_queue := false }) with
      gc_unit_queue := m1.gc_unit_queue.erase u } : Manager).gc_unit_queue =
      m1.gc_unit_queue.erase u := rfl
  have c2 : ({ m1.modify u (fun x => { x with in_gc_queue := false }) with
      gc_unit_queue := m1.gc_unit_queue.erase u } : Manager).cleanup_queue =
      m1.cleanup_queue := rfl
  have hv2 : ({ m1.modify u (fun x => { x with in_gc_queue := false }) with
      gc_unit_queue := m1.gc_unit_queue.erase u } : Manager).valid u :=
    (valid_modify m1 u u (fun x => { x with in_gc_queue := false })).2 hv
  generalize ({ m1.modify u (fun x => { x with in_gc_queue := false }) with
      gc_unit_queue := m1.gc_unit_queue.erase u } : Manager) = m2 at u2 f2 g2 c2 hv2
  have uu : m2.unit u = { m1.unit u with in_gc_queue := false } := by rw [u2, if_pos rfl]
  have uo : ∀ y, y ≠ u → m2.unit y = m1.unit y := fun y hy => by rw [u2, if_neg hy]
  have ok2 : m1.queues_ok → m2.queues_ok := by
    rintro ⟨a, b, c, d⟩
    unfold Manager.queues_ok
    rw [g2, c2]
    refine ⟨a.erase u, fun y => ?_, c, fun y => ?_⟩
    · rw [a.mem_erase_iff, b, u2]
      by_cases hy : y = u
      · rw [if_pos hy]
        exact ⟨fun q => absurd hy q.1, fun q => by cases q⟩
      · rw [if_neg hy]
        exact ⟨fun q => q.2, fun q => ⟨hy, q⟩⟩
    · rw [d, u2]
      split_ifs with hy
      · rw [hy]
      · rfl
  have mk2 : (m2.unit u).gc_marker = (m1.unit u).gc_marker := by rw [uu]
  rw [mk2]
  by_cases hc : (m1.unit u).gc_marker = gc_mark g GC_OFFSET_BAD ∨
      (m1.unit u).gc_marker = gc_mark g GC_OFFSET_UNSURE
  · rw [if_pos hc]
    have e := unit_gc_sweep_bad_fields m2 u g hv2
    unfold unit_gc_sweep_bad at e
    obtain ⟨fr, o, a, b, c, ok, gq⟩ := e
    refine ⟨frame_trans f2 fr, fun y hy => by rw [o y hy, uo y hy], ?_, fun _ => ⟨a, b, fun q => ?_⟩,
      fun q => absurd hc q, by rw [gq, g2], fun q => ok (ok2 q)⟩
    · rw [c, uu]
    · have q2 : (m2.unit u).in_cleanup_queue = false := by rw [uu]; exact q
      have hm : ((m2.modify u (fun x => { x with gc_marker := gc_mark g GC_OFFSET_BAD })).unit
          u).in_cleanup_queue ≠ true := by
        rw [unit_modify_self _ _ _ hv2]
        show (m2.unit u).in_cleanup_queue ≠ true
        rw [q2]; exact Bool.false_ne_true
      unfold unit_add_to_cleanup_queue
      rw [if_neg hm]
      exact List.mem_cons_self _ _
  · rw [if_neg hc]
    refine ⟨f2, uo, by rw [uu], fun q => absurd q hc, fun _ => ⟨mk2, by rw [uu]⟩, g2, ok2⟩

/-- An invariant of the rounds of `manager_dispatch_gc_unit_queue` holds when
the loop ends, and the queue is empty then. -/
theorem manager_dispatch_gc_unit_queue_loop_induct (env : Env) (g : Nat) (I : Manager → Prop)
    (hstep : ∀ m u rest m1, I m → m.gc_unit_queue = u :: rest → (m.unit u).in_gc_queue = true →
      unit_gc_sweep env (m.heap.length + 1) m u g = some m1 →
      I (manager_dispatch_gc_unit_queue_collect m1 u g)) :
    ∀ (fuel : Nat) (m : Manager) (n : Nat) (r : Nat × Manager), I m →
      manager_dispatch_gc_unit_queue_loop env g fuel m n = some r →
      I r.2 ∧ r.2.gc_unit_queue = [] := by
  intro fuel
  induction fuel with
  | zero => intro m n r _ h; simp [manager_dispatch_gc_unit_queue_loop] at h
  | succ fuel ih =>
    intro m n r hi h
    unfold manager_dispatch_gc_unit_queue_loop at h
    cases hq : m.gc_unit_queue with
    | nil =>
      simp only [hq, Option.some.injEq] at h
      rw [← h]
      exact ⟨hi, hq⟩
    | cons u rest =>
      simp only [hq] at h
      by_cases hf : (m.unit u).in_gc_queue = true
      · rw [if_pos hf] at h
        cases hs : unit_gc_sweep env (m.heap.length + 1) m u g with
        | none => simp [hs] at h
        | some m1 =>
          simp only [hs] at h
          exact ih _ _ r (hstep m u rest m1 hi hq hf hs) h
      · rw [if_neg hf] at h; cases h

/-- The loop of `manager_dispatch_gc_unit_queue` ends within as many rounds
as there are units on the queue and units without a marker. -/
theorem manager_dispatch_gc_unit_queue_loop_total (env : Env) (g : Nat) :
    ∀ (fuel : Nat) (m : Manager) (n : Nat), m.resolvable → m.queues_ok →
      m.gc_unit_queue.length + m.gc_unmarked g < fuel →
      ∃ r, manager_dispatch_gc_unit_queue_loop env g fuel m n = some r := by
  intro fuel
  induction fuel with
  | zero => intro m n _ _ h; exact absurd h (Nat.not_lt_zero _)
  | succ fuel ih =>
    intro m n hr hq hc
    unfold manager_dispatch_gc_unit_queue_loop
    cases hl : m.gc_unit_queue with
    | nil => exact ⟨_, rfl⟩
    | cons u rest =>
      dsimp only
      have hu : u ∈ m.gc_unit_queue := by rw [hl]; exact List.mem_cons_self _ _
      have hf : (m.unit u).in_gc_queue = true := (hq.2.1 u).1 hu
      have hv : m.valid u := valid_of_flag m u hf
      rw [if_pos hf]
      obtain ⟨m1, hs⟩ := unit_gc_sweep_total env g (m.heap.length + 1) m u hv hr
        (Nat.lt_succ_of_le (gc_unmarked_le_length g m))
      rw [hs]
      dsimp only
      obtain ⟨sw, -, -⟩ := unit_gc_sweep_frame env g _ m u m1 hs
      have hv1 : m1.valid u := (valid_of_same_ident sw.1 u).2 hv
      obtain ⟨fr, o, a, b, c, gq, ok⟩ := manager_dispatch_gc_unit_queue_collect_fields m1 u g hv1
      have hq1 := sw.2.2.2.2.1 hq
      have hu1 : u ∈ m1.gc_unit_queue :=
        (hq1.2.1 u).2 (by
          rcases sw.2.2.1 u with e | ⟨-, e⟩ | ⟨-, -, -, e, -⟩
          · rw [e]; exact hf
          · rw [e]; exact hf
          · exact e hf)
      apply ih _ _ (resolvable_of_frame fr (resolvable_of_frame ⟨sw.1, sw.2.1⟩ hr)) (ok hq1)
      rw [gq, List.length_erase_of_mem hu1]
      have h1 := sw.2.2.2.2.2
      have h2 : (manager_dispatch_gc_unit_queue_collect m1 u g).gc_unmarked g ≤ m1.gc_unmarked g := by
        apply gc_unmarked_le g _ _ fr.1.2.1
        intro y hy
        by_cases e : y = u
        · rw [e] at hy ⊢
          by_cases hc : (m1.unit u).gc_marker = gc_mark g GC_OFFSET_BAD ∨
              (m1.unit u).gc_marker = gc_mark g GC_OFFSET_UNSURE
          · exact Or.inr (Or.inl (b hc).1)
          · unfold Unit.gc_marked
            rw [(c hc).1]
            exact hy
        · rw [o y e]; exact hy
      have h3 : 0 < m1.gc_unit_queue.length := List.length_pos_of_mem hu1
      omega

/-! ## The garbage collector: claim C13 -/

/-- C13 (amended). In a round of the loop of `manager_dispatch_gc_unit_queue`
on the head `u` of the queue whose sweep verdict is UNSURE: `unit_gc_sweep`
does not place `u` on the cleanup queue, but the end of the same round marks
`u` BAD, takes it off the queue of the collector and places it on the cleanup
queue; and a call of `manager_dispatch_gc_unit_queue` that returns leaves the
queue of the collector empty, so that no unit is deferred to a later sweep. -/
theorem manager_dispatch_gc_unit_queue_collects_unsure (env : Env) (g fuel n : Nat)
    (m m1 : Manager) (u : UnitId) (rest : List UnitId)
    (hq : m.gc_unit_queue = u :: rest) (hf : (m.unit u).in_gc_queue = true)
    (hs : unit_gc_sweep env (m.heap.length + 1) m u g = some m1)
    (hu : (m1.unit u).gc_marker = gc_mark g GC_OFFSET_UNSURE)
    (hc : (m.unit u).in_cleanup_queue = false) :
    (m1.unit u).in_cleanup_queue = false ∧
    manager_dispatch_gc_unit_queue_loop env g (fuel + 1) m n =
      manager_dispatch_gc_unit_queue_loop env g fuel
        (manager_dispatch_gc_unit_queue_collect m1 u g) ((n + 1) % 2 ^ 32) ∧
    ((manager_dispatch_gc_unit_queue_collect m1 u g).unit u).gc_marker = gc_mark g GC_OFFSET_BAD ∧
    ((manager_dispatch_gc_unit_queue_collect m1 u g).unit u).in_cleanup_queue = true ∧
    u ∈ (manager_dispatch_gc_unit_queue_collect m1 u g).cleanup_queue ∧
    ((manager_dispatch_gc_unit_queue_collect m1 u g).unit u).in_gc_queue = false ∧
    ∀ (m0 : Manager) (r : Nat × Manager), manager_dispatch_gc_unit_queue env m0 = some r →
      r.2.gc_unit_queue = [] := by
  obtain ⟨sw, hv, -⟩ := unit_gc_sweep_frame env g _ m u m1 hs
  have hv1 : m1.valid u := (valid_of_same_ident sw.1 u).2 hv
  have c1 : (m1.unit u).in_cleanup_queue = false := by
    rcases sw.2.2.1 u with e | ⟨-, e⟩ | ⟨-, -, e, -⟩
    · rw [e]; exact hc
    · rw [e]; exact hc
    · cases hh : (m1.unit u).in_cleanup_queue
      · rfl
      · rcases e.1 hh with q | q
        · rw [hc] at q; cases q
        · rw [hu] at q
          exact absurd q (unsure_ne_bad g)
  obtain ⟨-, -, a, b, -, -, -⟩ := manager_dispatch_gc_unit_queue_collect_fields m1 u g hv1
  obtain ⟨b1, b2, b3⟩ := b (Or.inr hu)
  refine ⟨c1, ?_, b1, b2, b3 c1, a, fun m0 r h => ?_⟩
  · show manager_dispatch_gc_unit_queue_loop env g (fuel + 1) m n = _
    rw [manager_dispatch_gc_unit_queue_loop, hq]
    dsimp only
    rw [if_pos hf, hs]
  · exact (manager_dispatch_gc_unit_queue_loop_induct env _ (fun _ => True)
      (fun _ _ _ _ _ _ _ _ => trivial) _ _ _ r trivial h).2

set_option maxRecDepth 100000 in
theorem manager_dispatch_gc_unit_queue_collects_unsure_witness :
    (((unit_gc_sweep env0 3 { gc_cycle with gc_marker := 4 } 0 4).getD gc_cycle).unit
      0).in_cleanup_queue = false ∧
    ((manager_dispatch_gc_unit_queue_collect
      ((unit_gc_sweep env0 3 { gc_cycle with gc_marker := 4 } 0 4).getD gc_cycle) 0 4).unit
        0).in_cleanup_queue = true :=
  have h := manager_dispatch_gc_unit_queue_collects_unsure env0 4 0 0
    { gc_cycle with gc_marker := 4 }
    ((unit_gc_sweep env0 3 { gc_cycle with gc_marker := 4 } 0 4).getD gc_cycle) 0 [1]
    (by decide) (by decide) (by decide) (by decide) (by decide)
  ⟨h.1, h.2.2.2.1⟩

set_option maxRecDepth 100000 in
/-- C13 as stated fails. In `gc_cycle` the units 0 and 1 reference each other
and are on the queue of the collector, neither is on the cleanup queue. The
sweep of unit 0 in the generation 4 leaves both with the verdict UNSURE, yet
the call of `manager_dispatch_gc_unit_queue` returns with both on the cleanup
queue, marked BAD. -/
theorem manager_dispatch_gc_unit_queue_frees_unsure_cycle :
    gc_cycle.cleanup_queue = [] ∧ manager_next_gc_marker gc_cycle = 4 ∧
    (unit_gc_sweep env0 3 { gc_cycle with gc_marker := 4 } 0 4).map
      (fun a => (a.heap.map (fun x => decide (x.gc_marker = gc_mark 4 GC_OFFSET_UNSURE)),
        a.cleanup_queue)) = some ([true, true], []) ∧
    (manager_dispatch_gc_unit_queue env0 gc_cycle).map
      (fun r => (r.2.cleanup_queue, r.2.gc_unit_queue,
        r.2.heap.map (fun x => (decide (x.gc_marker = gc_mark 4 GC_OFFSET_BAD),
          x.in_cleanup_queue)))) =
      some ([1, 0], [], [(true, true), (true, true)]) := by
  refine ⟨?_, ?_, ?_, ?_⟩ <;> decide

/-! ## The garbage collector: a unit without referrers, in a state without stale markers -/

theorem mem_all_dependencies (k : UnitDependency) : k ∈ UnitDependency.all := by
  cases k <;> decide

theorem well_formed_of_heap (m : Manager) (h : m.well_formed_in_heap) : m.well_formed := by
  intro y hy
  obtain ⟨a, b, c⟩ := h y (List.mem_range.2 hy)
  refine ⟨a, b, fun k p hp => ?_⟩
  obtain ⟨d, e, k', -, f⟩ := c k (mem_all_dependencies k) p hp
  exact ⟨d, e, k', f⟩

theorem queues_ok_of_heap (m : Manager) (h : m.queues_ok_in_heap) : m.queues_ok := by
  obtain ⟨a, b, c, d, e, f⟩ := h
  refine ⟨a, fun y => ⟨b y, fun q => ?_⟩, d, fun y => ⟨e y, fun q => ?_⟩⟩
  · exact c y (List.mem_range.2 (valid_of_flag m y q)) q
  · have hv : m.valid y := by
      by_contra hv
      rw [unit_invalid m y hv] at q
      cases q
    exact f y (List.mem_range.2 hv) q

theorem resolvable_of_well_formed (m : Manager) (h : m.well_formed) : m.resolvable := by
  intro y hy
  obtain ⟨a, b, c⟩ := h y hy
  exact ⟨a, ⟨y, unit_follow_merge_self m y hy b, a⟩, fun p hp => (c _ p hp).1,
    fun p hp => (c _ p hp).1⟩

/-- A unit on the queue of the collector that has no marker of the new
generation, no referrer and a false `unit_check_gc` is on the cleanup queue,
marked BAD, and off the queue of the collector when
`manager_dispatch_gc_unit_queue` returns, which it does. -/
theorem manager_dispatch_gc_unit_queue_unreferenced (env : Env) (m : Manager) (b : UnitId)
    (hw : m.resolvable) (hq : m.queues_ok) (hb : b ∈ m.gc_unit_queue)
    (hm : (m.unit b).load_state ≠ .merged)
    (hfresh : ¬ (m.unit b).gc_marked (manager_next_gc_marker m))
    (hc : (unit_check_gc env m b).map Prod.fst = some false)
    (hrb : m.deps b .referenced_by = []) :
    ∃ n m', manager_dispatch_gc_unit_queue env m = some (n, m') ∧
      (m.same_ident m' ∧ m.same_deps m') ∧ m'.queues_ok ∧ m'.gc_unit_queue = [] ∧
      (m'.unit b).gc_marker = gc_mark (manager_next_gc_marker m) GC_OFFSET_BAD ∧
      (m'.unit b).in_cleanup_queue = true ∧ (m'.unit b).in_gc_queue = false := by
  have hchk : (m.unit b).check_gc env = some false := by
    cases h1 : unit_check_gc env m b with
    | none => rw [h1] at hc; cases hc
    | some p =>
      obtain ⟨x, m1⟩ := p
      rw [h1] at hc
      have h2 : x = false := Option.some.inj hc
      subst h2
      exact unit_check_gc_local env m m1 b _ hm h1
  unfold manager_dispatch_gc_unit_queue
  generalize manager_next_gc_marker m = g at hfresh ⊢
  have f0 : m.same_ident ({ m with gc_marker := g } : Manager) ∧
      m.same_deps ({ m with gc_marker := g } : Manager) := same_ident_of_heap rfl rfl
  have q0 : ({ m with gc_marker := g } : Manager).queues_ok := hq
  have u0 : ∀ y, ({ m with gc_marker := g } : Manager).unit y = m.unit y := fun _ => rfl
  have l0 : ({ m with gc_marker := g } : Manager).gc_unit_queue = m.gc_unit_queue := rfl
  have h0 : ({ m with gc_marker := g } : Manager).heap.length = m.heap.length := rfl
  generalize hfuel : m.gc_unit_queue.length + m.heap.length + 1 = fuel
  generalize ({ m with gc_marker := g } : Manager) = m0 at f0 q0 u0 l0 h0
  obtain ⟨r, hr⟩ := manager_dispatch_gc_unit_queue_loop_total env g fuel m0 0
    (resolvable_of_frame f0 hw) q0 (by
      have := gc_unmarked_le_length g m0
      rw [l0]; omega)
  have key := manager_dispatch_gc_unit_queue_loop_induct env g
    (fun a => a.queues_ok ∧ (m.same_ident a ∧ m.same_deps a) ∧
      (((a.unit b).in_gc_queue = true ∧ ¬ (a.unit b).gc_marked g ∧ a.unit b = m.unit b) ∨
       ((a.unit b).gc_marker = gc_mark g GC_OFFSET_BAD ∧ (a.unit b).in_cleanup_queue = true)))
    (by
      intro a u rest m1 ⟨qa, fa, ha⟩ _ _ hs
      obtain ⟨sw, hv, hroot⟩ := unit_gc_sweep_frame env g _ a u m1 hs
      have hv1 : m1.valid u := (valid_of_same_ident sw.1 u).2 hv
      obtain ⟨fr, o, i, c1, c2, -, ok⟩ := manager_dispatch_gc_unit_queue_collect_fields m1 u g hv1
      refine ⟨ok (sw.2.2.2.2.1 qa), frame_trans fa (frame_trans ⟨sw.1, sw.2.1⟩ fr), ?_⟩
      -- the unit `b` after the sweep
      have h1 : ((m1.unit b).in_gc_queue = true ∧ ¬ (m1.unit b).gc_marked g ∧
            m1.unit b = m.unit b) ∨
          ((m1.unit b).gc_marker = gc_mark g GC_OFFSET_BAD ∧
            (m1.unit b).in_cleanup_queue = true) := by
        rcases ha with ⟨a1, a2, a3⟩ | ⟨a1, a2⟩
        · rcases sw.2.2.1 b with e | ⟨e, -⟩ | ⟨-, v, cl, -, -, t⟩
          · rw [e]; exact Or.inl ⟨a1, a2, a3⟩
          · exact absurd (Or.inr (Or.inr (Or.inl e))) a2
          · rcases v with v | v | v
            · have := (t (Or.inl v)).2 (by rw [a3]; exact hm)
              rw [a3, hchk] at this
              rcases this with q | q
              · cases q
              · exact absurd hrb q
            · have := (t (Or.inr v)).2 (by rw [a3]; exact hm)
              rw [a3, hchk] at this
              rcases this with q | q
              · cases q
              · exact absurd hrb q
            · exact Or.inr ⟨v, cl.2 (Or.inr v)⟩
        · rw [swept_unit_of_settled (sw.2.2.1 b) (Or.inl a1)]
          exact Or.inr ⟨a1, a2⟩
      by_cases e : b = u
      · subst e
        rcases h1 with ⟨-, a2, -⟩ | ⟨a1, -⟩
        · exact absurd hroot a2
        · exact Or.inr ⟨(c1 (Or.inl a1)).1, (c1 (Or.inl a1)).2.1⟩
      · rw [o b e]
        exact h1)
    fuel m0 0 r ⟨q0, f0, Or.inl ⟨by rw [u0]; exact (hq.2.1 b).1 hb, by rw [u0]; exact hfresh, u0 b⟩⟩ hr
  obtain ⟨⟨qr, fr, hb'⟩, er⟩ := key
  refine ⟨r.1, r.2, hr, fr, qr, er, ?_⟩
  have nq : (r.2.unit b).in_gc_queue = false := by
    cases hh : (r.2.unit b).in_gc_queue
    · rfl
    · have := (qr.2.1 b).2 hh
      rw [er] at this
      cases this
  rcases hb' with ⟨a1, -, -⟩ | ⟨a1, a2⟩
  · rw [nq] at a1; cases a1
  · exact ⟨a1, a2, nq⟩

theorem valid_of_type (m : Manager) (y : UnitId) (h : (m.unit y).type ≠ none) : m.valid y := by
  by_contra hv
  rw [unit_invalid m y hv] at h
  exact h rfl

/-! ## The garbage collector: units marked UNSURE -/

theorem references_symmetric_of_deps {m m' : Manager} (h : m.same_deps m')
    (hs : m.references_symmetric) : m'.references_symmetric := by
  intro x y
  rw [deps_of_same_deps h, deps_of_same_deps h]
  exact hs x y

theorem same_deps_of_marked_good {g : Nat} {m m' : Manager} (h : m.marked_good g m') :
    m.same_deps m' := (swept_of_marked_good env0 h).2.1

/-- The loop of `unit_gc_mark_good(o)` over the members `s` of the
`References` set of `o`, which is marked GOOD: no unit is left UNSURE that
has `o` as referrer, and the other violations are among those before. -/
theorem unit_gc_mark_good_loop_unsure (g : Nat) (fuel : Nat) (o : UnitId)
    (ih : ∀ (a : Manager) (o' : UnitId) (a' : Manager), a.references_symmetric →
      unit_gc_mark_good fuel a o' g = some a' →
      (∀ x p, a'.gc_violation g x p → a.gc_violation g x p ∧ p ≠ o') ∧
      ∀ Z : UnitId → Prop, ¬ Z o' →
        (∀ x, Z x → (a.unit x).gc_marker = gc_mark g GC_OFFSET_UNSURE ∧
          ∀ p ∈ a.deps x .referenced_by, p ≠ o' ∧
            (Z p ∨ (a.unit p).gc_marker = gc_mark g GC_OFFSET_BAD ∨
              (a.unit p).gc_marker = gc_mark g GC_OFFSET_IN_PATH)) →
        ∀ y, Z y → (a'.unit y).gc_marker = gc_mark g GC_OFFSET_UNSURE)
    (s : List UnitId) : ∀ (a a' : Manager), a.references_symmetric →
      (∀ x ∈ s, x ∈ a.deps o .references) →
      (a.unit o).gc_marker = gc_mark g GC_OFFSET_GOOD →
      unit_gc_mark_good_loop (fun b other => unit_gc_mark_good fuel b other g) g a s = some a' →
      (∀ x p, a'.gc_violation g x p → a.gc_violation g x p ∧ (p = o → x ∉ s)) ∧
      (∀ Z : UnitId → Prop,
        (∀ x, Z x → (a.unit x).gc_marker = gc_mark g GC_OFFSET_UNSURE ∧
          ∀ p ∈ a.deps x .referenced_by, p ≠ o ∧
            (Z p ∨ (a.unit p).gc_marker = gc_mark g GC_OFFSET_BAD ∨
              (a.unit p).gc_marker = gc_mark g GC_OFFSET_IN_PATH)) →
        ∀ y, Z y → (a'.unit y).gc_marker = gc_mark g GC_OFFSET_UNSURE) ∧
      a.marked_good g a' := by
  induction s with
  | nil =>
    intro a a' _ _ _ h
    simp only [unit_gc_mark_good_loop, Option.some.injEq] at h
    subst h
    exact ⟨fun x p v => ⟨v, fun _ => List.not_mem_nil x⟩, fun Z hz y hy => (hz y hy).1,
      marked_good_refl g a⟩
  | cons other rest ihs =>
    intro a a' sym hs ho h
    unfold unit_gc_mark_good_loop at h
    split_ifs at h with hv hu
    · simp only [Option.bind_eq_some] at h
      obtain ⟨a1, c1, c2⟩ := h
      obtain ⟨-, mgr⟩ := unit_gc_mark_good_frame g fuel a other a1 c1
      have mg1 : a.marked_good g a1 := marked_good_trans (marked_good_modify g a other hu) mgr
      have sd1 := same_deps_of_marked_good mg1
      have sym1 := references_symmetric_of_deps sd1 sym
      have ho1 : (a1.unit o).gc_marker = gc_mark g GC_OFFSET_GOOD := by
        rw [marked_good_marker mg1 o (by rw [ho]; exact good_ne_unsure g)]
        exact ho
      have hother1 : (a1.unit other).gc_marker = gc_mark g GC_OFFSET_GOOD := by
        rw [marked_good_marker mgr other (by
          rw [unit_modify_self _ _ _ hv]; exact good_ne_unsure g), unit_modify_self _ _ _ hv]
      obtain ⟨v1, z1⟩ := ih a other a1 sym c1
      obtain ⟨v2, z2, mg2⟩ := ihs a1 a' sym1
        (fun x hx => by
          rw [deps_of_same_deps sd1]
          exact hs x (List.mem_cons_of_mem _ hx)) ho1 c2
      have hother' : (a'.unit other).gc_marker = gc_mark g GC_OFFSET_GOOD := by
        rw [marked_good_marker mg2 other (by rw [hother1]; exact good_ne_unsure g)]
        exact hother1
      refine ⟨fun x p v => ?_, fun Z hz y hy => ?_, marked_good_trans mg1 mg2⟩
      · obtain ⟨w1, w2⟩ := v2 x p v
        obtain ⟨w3, -⟩ := v1 x p w1
        refine ⟨w3, fun e hx => ?_⟩
        rcases List.mem_cons.1 hx with q | q
        · have := v.1
          rw [q, hother'] at this
          exact good_ne_unsure g this
        · exact w2 e q
      · have nz : ¬ Z other := by
          intro q
          have := ((hz other q).2 o ((sym o other).1 (hs other (List.mem_cons_self _ _)))).1
          exact this rfl
        have f1 := z1 Z nz (fun x hx => ⟨(hz x hx).1, fun p hp => by
          obtain ⟨-, w⟩ := (hz x hx).2 p hp
          refine ⟨fun e => ?_, w⟩
          rw [e] at w
          rcases w with w | w | w
          · exact nz w
          · rw [hu] at w; exact unsure_ne_bad g w
          · rw [hu] at w; exact unsure_ne_in_path g w⟩)
        refine z2 Z (fun x hx => ⟨f1 x hx, fun p hp => ?_⟩) y hy
        rw [deps_of_same_deps sd1] at hp
        obtain ⟨w0, w⟩ := (hz x hx).2 p hp
        refine ⟨w0, ?_⟩
        rcases w with w | w | w
        · exact Or.inl w
        · right; left
          rw [marked_good_marker mg1 p (by rw [w]; exact fun e => unsure_ne_bad g e.symm)]
          exact w
        · right; right
          rw [marked_good_marker mg1 p (by rw [w]; exact fun e => unsure_ne_in_path g e.symm)]
          exact w
    · obtain ⟨v2, z2, mg2⟩ := ihs a a' sym (fun x hx => hs x (List.mem_cons_of_mem _ hx)) ho h
      refine ⟨fun x p v => ?_, z2, mg2⟩
      obtain ⟨w1, w2⟩ := v2 x p v
      refine ⟨w1, fun e hx => ?_⟩
      rcases List.mem_cons.1 hx with q | q
      · rw [q] at w1
        exact hu w1.1
      · exact w2 e q

/-- The static function `unit_gc_mark_good(o)` on a graph with mutually
inverse `References` and `ReferencedBy` sets: afterwards no unit marked UNSURE
has `o` as referrer, a unit marked UNSURE with a referrer that is unmarked or
GOOD had one before, and a set `Z` of units marked UNSURE whose referrers are
in `Z` or marked BAD or IN_PATH, and are not `o`, stays as it is. -/
theorem unit_gc_mark_good_unsure (g : Nat) : ∀ (fuel : Nat) (a : Manager) (o : UnitId)
    (a' : Manager), a.references_symmetric → unit_gc_mark_good fuel a o g = some a' →
    (∀ x p, a'.gc_violation g x p → a.gc_violation g x p ∧ p ≠ o) ∧
    ∀ Z : UnitId → Prop, ¬ Z o →
      (∀ x, Z x → (a.unit x).gc_marker = gc_mark g GC_OFFSET_UNSURE ∧
        ∀ p ∈ a.deps x .referenced_by, p ≠ o ∧
          (Z p ∨ (a.unit p).gc_marker = gc_mark g GC_OFFSET_BAD ∨
            (a.unit p).gc_marker = gc_mark g GC_OFFSET_IN_PATH)) →
      ∀ y, Z y → (a'.unit y).gc_marker = gc_mark g GC_OFFSET_UNSURE := by
  intro fuel
  induction fuel with
  | zero => intro a o a' _ h; simp [unit_gc_mark_good] at h
  | succ fuel ih =>
    intro a o a' sym h
    unfold unit_gc_mark_good at h
    split_ifs at h with hv
    obtain ⟨f1, o1, e1, -⟩ := set_marker_fields a o (gc_mark g GC_OFFSET_GOOD) hv
    have hd : (a.modify o (fun x => { x with gc_marker := gc_mark g GC_OFFSET_GOOD })).deps o
        .references = a.deps o .references := deps_of_same_deps f1.2 o _
    rw [← hd] at h
    generalize a.modify o (fun x => { x with gc_marker := gc_mark g GC_OFFSET_GOOD }) = a1
      at h f1 o1 e1
    have sym1 := references_symmetric_of_deps f1.2 sym
    have ho1 : (a1.unit o).gc_marker = gc_mark g GC_OFFSET_GOOD := by rw [e1]
    obtain ⟨v, z, -⟩ := unit_gc_mark_good_loop_unsure g fuel o ih _ a1 a' sym1 (fun _ hx => hx)
      ho1 h
    refine ⟨fun x p w => ?_, fun Z nz hz y hy => ?_⟩
    · obtain ⟨⟨w1, w2, w3⟩, w4⟩ := v x p w
      have hpo : p ≠ o := by
        intro e
        apply w4 e
        rw [e] at w2
        exact (sym1 o x).2 w2
      have hxo : x ≠ o := by
        intro e
        rw [e, ho1] at w1
        exact good_ne_unsure g w1
      refine ⟨⟨by rw [← o1 x hxo]; exact w1, by rw [← deps_of_same_deps f1.2]; exact w2, ?_⟩, hpo⟩
      rw [← o1 p hpo]
      exact w3
    · apply z Z (fun x hx => ?_) y hy
      have hxo : x ≠ o := fun e => nz (e ▸ hx)
      refine ⟨by rw [o1 x hxo]; exact (hz x hx).1, fun p hp => ?_⟩
      rw [deps_of_same_deps f1.2] at hp
      obtain ⟨w0, w⟩ := (hz x hx).2 p hp
      refine ⟨w0, ?_⟩
      rw [o1 p w0]
      exact w

theorem gc_marked_of_marker {g : Nat} {x x' : Unit} (h : x'.gc_marker = x.gc_marker) :
    x'.gc_marked g ↔ x.gc_marked g := by
  unfold Unit.gc_marked
  rw [h]

theorem gc_unsure_ok_of_markers {g : Nat} {m m' : Manager} (hd : m.same_deps m')
    (hm : ∀ y, (m'.unit y).gc_marker = (m.unit y).gc_marker) (ok : m.gc_unsure_ok g) :
    m'.gc_unsure_ok g := by
  rintro x p ⟨a, b, c⟩
  apply ok x p
  rw [deps_of_same_deps hd] at b
  refine ⟨by rw [← hm x]; exact a, b, ?_⟩
  rw [← gc_marked_of_marker (hm p), ← hm p]
  exact c

/-- Writing a marker other than GOOD to one unit object keeps the property
`gc_unsure_ok`, if the referrers of that unit are marked when it is UNSURE. -/
theorem gc_unsure_ok_set {g : Nat} {m m' : Manager} (u : UnitId) (hd : m.same_deps m')
    (ho : ∀ y, y ≠ u → (m'.unit y).gc_marker = (m.unit y).gc_marker)
    (hm : (m'.unit u).gc_marked g ∧ (m'.unit u).gc_marker ≠ gc_mark g GC_OFFSET_GOOD)
    (hu : (m'.unit u).gc_marker = gc_mark g GC_OFFSET_UNSURE →
      ∀ p ∈ m.deps u .referenced_by,
        (m'.unit p).gc_marked g ∧ (m'.unit p).gc_marker ≠ gc_mark g GC_OFFSET_GOOD)
    (ok : m.gc_unsure_ok g) : m'.gc_unsure_ok g := by
  rintro x p ⟨a, b, c⟩
  rw [deps_of_same_deps hd] at b
  by_cases hx : x = u
  · rw [hx] at a b
    exact c (hu a p b)
  · by_cases hp : p = u
    · rw [hp] at c
      exact c hm
    · apply ok x p
      refine ⟨by rw [← ho x hx]; exact a, b, ?_⟩
      rw [← gc_marked_of_marker (ho p hp), ← ho p hp]
      exact c

theorem gc_marked_not_good {g : Nat} {x : Unit} (h : x.gc_marked g)
    (hg : x.gc_marker ≠ gc_mark g GC_OFFSET_GOOD) :
    x.gc_marker = gc_mark g GC_OFFSET_UNSURE ∨ x.gc_marker = gc_mark g GC_OFFSET_BAD ∨
      x.gc_marker = gc_mark g GC_OFFSET_IN_PATH := by
  rcases h with h | h | h | h
  · exact absurd h hg
  · exact Or.inr (Or.inl h)
  · exact Or.inl h
  · exact Or.inr (Or.inr h)

/-- The loop of `unit_gc_sweep` over the referrers `s`: the property
`gc_unsure_ok` is kept, a unit marked UNSURE stays so, and when the loop runs
to its end all of `s` are marked, none GOOD. -/
theorem unit_gc_sweep_loop_unsure (env : Env) (g : Nat)
    (rec : Manager → UnitId → Option Manager)
    (hrec : ∀ a o a', rec a o = some a' →
      a.swept env g a' ∧ a.valid o ∧ (a'.unit o).gc_marked g)
    (ih : ∀ a o a', a.references_symmetric → a.gc_unsure_ok g → rec a o = some a' →
      a'.gc_unsure_ok g ∧
      ∀ y, (a.unit y).gc_marker = gc_mark g GC_OFFSET_UNSURE →
        (a'.unit y).gc_marker = gc_mark g GC_OFFSET_UNSURE)
    (s : List UnitId) : ∀ (m : Manager) (is_bad : Bool) (m' : Manager) (r : Option Bool),
    m.references_symmetric → m.gc_unsure_ok g →
    unit_gc_sweep_loop rec g m is_bad s = some (m', r) →
      m'.gc_unsure_ok g ∧
      (∀ y, (m.unit y).gc_marker = gc_mark g GC_OFFSET_UNSURE →
        (m'.unit y).gc_marker = gc_mark g GC_OFFSET_UNSURE) ∧
      (∀ b, r = some b → ∀ p ∈ s,
        (m'.unit p).gc_marked g ∧ (m'.unit p).gc_marker ≠ gc_mark g GC_OFFSET_GOOD) := by
  induction s with
  | nil =>
    intro m is_bad m' r _ ok h
    simp only [unit_gc_sweep_loop, Option.some.injEq, Prod.mk.injEq] at h
    obtain ⟨rfl, rfl⟩ := h
    exact ⟨ok, fun _ q => q, fun _ _ p hp => absurd hp (List.not_mem_nil p)⟩
  | cons other rest ihs =>
    intro m is_bad m' r sym ok h
    unfold unit_gc_sweep_loop at h
    cases hr : rec m other with
    | none => simp [hr] at h
    | some m1 =>
      simp only [hr] at h
      obtain ⟨s1, -, mk1⟩ := hrec m other m1 hr
      obtain ⟨ok1, fz1⟩ := ih m other m1 sym ok hr
      have sym1 := references_symmetric_of_deps s1.2.1 sym
      by_cases hg : (m1.unit other).gc_marker = gc_mark g GC_OFFSET_GOOD
      · rw [if_pos hg] at h
        simp only [Option.some.injEq, Prod.mk.injEq] at h
        obtain ⟨rfl, rfl⟩ := h
        exact ⟨ok1, fz1, fun b q => by cases q⟩
      rw [if_neg hg] at h
      have key : ∀ ib, unit_gc_sweep_loop rec g m1 ib rest = some (m', r) →
          m'.gc_unsure_ok g ∧
          (∀ y, (m.unit y).gc_marker = gc_mark g GC_OFFSET_UNSURE →
            (m'.unit y).gc_marker = gc_mark g GC_OFFSET_UNSURE) ∧
          (∀ b, r = some b → ∀ p ∈ other :: rest,
            (m'.unit p).gc_marked g ∧ (m'.unit p).gc_marker ≠ gc_mark g GC_OFFSET_GOOD) := by
        intro ib hh
        obtain ⟨ok2, fz2, al2⟩ := ihs m1 ib m' r sym1 ok1 hh
        obtain ⟨s2, -⟩ := unit_gc_sweep_loop_frame env g rec (fun a o a' q => (hrec a o a' q).1)
          rest m1 ib m' r hh
        refine ⟨ok2, fun y hy => fz2 y (fz1 y hy), fun b hb p hp => ?_⟩
        rcases List.mem_cons.1 hp with e | e
        · rw [e]
          rcases gc_marked_not_good mk1 hg with k | k | k
          · have := fz2 other k
            exact ⟨Or.inr (Or.inr (Or.inl this)), by
              rw [this]; exact fun q => good_ne_unsure g q.symm⟩
          · rw [swept_unit_of_settled (s2.2.2.1 other) (Or.inl k)]
            exact ⟨mk1, hg⟩
          · rw [swept_unit_of_settled (s2.2.2.1 other) (Or.inr (Or.inr k))]
            exact ⟨mk1, hg⟩
        · exact al2 b hb p e
      by_cases hb : (m1.unit other).gc_marker ≠ gc_mark g GC_OFFSET_BAD
      · rw [if_pos hb] at h
        exact key false h
      · rw [if_neg hb] at h
        exact key is_bad h

/-- The static function `unit_gc_sweep` on a graph with mutually inverse
`References` and `ReferencedBy` sets: when every referrer of a unit marked
UNSURE is marked and not GOOD before the call, it is so after the call, and
the units marked UNSURE stay so. -/
theorem unit_gc_sweep_unsure (env : Env) (g : Nat) : ∀ (fuel : Nat) (m : Manager) (u : UnitId)
    (m' : Manager), m.references_symmetric → m.gc_unsure_ok g →
    unit_gc_sweep env fuel m u g = some m' →
      m'.gc_unsure_ok g ∧
      ∀ y, (m.unit y).gc_marker = gc_mark g GC_OFFSET_UNSURE →
        (m'.unit y).gc_marker = gc_mark g GC_OFFSET_UNSURE := by
  intro fuel
  induction fuel with
  | zero => intro m u m' _ _ h; simp [unit_gc_sweep] at h
  | succ fuel ih =>
    intro m u m' sym ok h
    unfold unit_gc_sweep at h
    by_cases hv : m.valid u
    swap
    · rw [if_neg hv] at h; cases h
    rw [if_pos hv] at h
    by_cases hmk : (m.unit u).gc_marker = gc_mark g GC_OFFSET_GOOD ∨
        (m.unit u).gc_marker = gc_mark g GC_OFFSET_BAD ∨
        (m.unit u).gc_marker = gc_mark g GC_OFFSET_UNSURE ∨
        (m.unit u).gc_marker = gc_mark g GC_OFFSET_IN_PATH
    · rw [if_pos hmk] at h
      cases h
      exact ⟨ok, fun _ q => q⟩
    rw [if_neg hmk] at h
    have hn : ¬ (m.unit u).gc_marked g := hmk
    have nu : (m.unit u).gc_marker ≠ gc_mark g GC_OFFSET_UNSURE :=
      fun e => hn (Or.inr (Or.inr (Or.inl e)))
    -- the referrers of a unit marked UNSURE, in the state `m`
    have refm : ∀ x, (m.unit x).gc_marker = gc_mark g GC_OFFSET_UNSURE →
        ∀ p ∈ m.deps x .referenced_by, p ≠ u ∧
          ((m.unit p).gc_marker = gc_mark g GC_OFFSET_UNSURE ∨
            (m.unit p).gc_marker = gc_mark g GC_OFFSET_BAD ∨
            (m.unit p).gc_marker = gc_mark g GC_OFFSET_IN_PATH) := by
      intro x hx p hp
      have := not_not.1 (fun c => ok x p ⟨hx, hp, c⟩)
      exact ⟨fun e => hn (e ▸ this.1), gc_marked_not_good this.1 this.2⟩
    by_cases hc : (m.unit u).in_cleanup_queue = true
    · rw [if_pos hc] at h
      simp only [Option.some.injEq] at h
      subst h
      obtain ⟨fr, o, a, -⟩ := unit_gc_sweep_bad_fields m u g hv
      refine ⟨gc_unsure_ok_set u fr.2 (fun y hy => by rw [o y hy])
        ⟨Or.inr (Or.inl a), by rw [a]; exact fun q => good_ne_bad g q.symm⟩
        (fun q => absurd (a ▸ q : gc_mark g GC_OFFSET_BAD = _) (fun e => unsure_ne_bad g e.symm))
        ok, fun y hy => ?_⟩
      have hyu : y ≠ u := fun e => nu (e ▸ hy)
      rw [o y hyu]; exact hy
    rw [if_neg hc] at h
    cases hk : unit_check_gc env m u with
    | none => simp [hk] at h
    | some pr =>
      obtain ⟨b, m1⟩ := pr
      obtain ⟨-, o1, k1, -⟩ := unit_check_gc_fields env m m1 u b hk
      have fr1 := frame_check_gc env m m1 u b hk
      have hv1 : m1.valid u := (valid_of_same_ident fr1.1 u).2 hv
      have mk1 : ∀ y, (m1.unit y).gc_marker = (m.unit y).gc_marker := by
        intro y
        by_cases e : y = u
        · rw [e]; exact k1
        · rw [o1 y e]
      have ok1 : m1.gc_unsure_ok g := gc_unsure_ok_of_markers fr1.2 mk1 ok
      have sym1 := references_symmetric_of_deps fr1.2 sym
      cases b with
      | true =>
        simp only [hk] at h
        obtain ⟨v, z⟩ := unit_gc_mark_good_unsure g _ m1 u m' sym1 h
        refine ⟨fun x p q => ok1 x p (v x p q).1, ?_⟩
        apply z (fun y => (m.unit y).gc_marker = gc_mark g GC_OFFSET_UNSURE) nu
        intro x hx
        refine ⟨by rw [mk1]; exact hx, fun p hp => ?_⟩
        rw [deps_of_same_deps fr1.2] at hp
        obtain ⟨w0, w⟩ := refm x hx p hp
        rw [mk1 p]
        exact ⟨w0, w⟩
      | false =>
        simp only [hk] at h
        obtain ⟨f2, o2, e2, -⟩ := set_marker_fields m1 u (gc_mark g GC_OFFSET_IN_PATH) hv1
        have hv2 : (m1.modify u (fun x => { x with gc_marker := gc_mark g GC_OFFSET_IN_PATH })).valid u :=
          (valid_modify _ _ _ _).2 hv1
        generalize m1.modify u (fun x => { x with gc_marker := gc_mark g GC_OFFSET_IN_PATH }) = m2
          at h f2 o2 e2 hv2
        have fr2 := frame_trans fr1 f2
        have o12 : ∀ y, y ≠ u → (m2.unit y).gc_marker = (m.unit y).gc_marker :=
          fun y hy => by rw [o2 y hy, o1 y hy]
        have mk2 : (m2.unit u).gc_marker = gc_mark g GC_OFFSET_IN_PATH := by rw [e2]
        have ok2 : m2.gc_unsure_ok g := gc_unsure_ok_set u fr2.2 o12
          ⟨Or.inr (Or.inr (Or.inr mk2)), by rw [mk2]; exact fun q => good_ne_in_path g q.symm⟩
          (fun q => absurd (mk2 ▸ q : gc_mark g GC_OFFSET_IN_PATH = _)
            (fun e => unsure_ne_in_path g e.symm)) ok
        have sym2 := references_symmetric_of_deps fr2.2 sym
        have hL : m1.deps u .referenced_by = m.deps u .referenced_by := deps_of_same_deps fr1.2 u _
        rw [hL] at h
        cases hl : unit_gc_sweep_loop (fun a other => unit_gc_sweep env fuel a other g) g m2 true
            (m.deps u .referenced_by) with
        | none => simp [hl] at h
        | some pr =>
          obtain ⟨m3, r⟩ := pr
          simp only [hl] at h
          obtain ⟨s3, -⟩ := unit_gc_sweep_loop_frame env g _
            (fun a o a' hh => (unit_gc_sweep_frame env g fuel a o a' hh).1) _ m2 true m3 r hl
          obtain ⟨ok3, fz3, al3⟩ := unit_gc_sweep_loop_unsure env g _
            (fun a o a' hh => unit_gc_sweep_frame env g fuel a o a' hh) ih _ m2 true m3 r sym2 ok2 hl
          have eu3 : m3.unit u = m2.unit u :=
            swept_unit_of_settled (s3.2.2.1 u) (Or.inr (Or.inr mk2))
          have mk3 : (m3.unit u).gc_marker = gc_mark g GC_OFFSET_IN_PATH := by rw [eu3, mk2]
          have hv3 : m3.valid u := (valid_of_same_ident s3.1 u).2 hv2
          have sym3 := references_symmetric_of_deps s3.2.1 sym2
          have fz : ∀ y, (m.unit y).gc_marker = gc_mark g GC_OFFSET_UNSURE →
              (m3.unit y).gc_marker = gc_mark g GC_OFFSET_UNSURE := by
            intro y hy
            have hyu : y ≠ u := fun e => nu (e ▸ hy)
            exact fz3 y (by rw [o12 y hyu]; exact hy)
          have d3 : ∀ x, m3.deps x .referenced_by = m.deps x .referenced_by := fun x => by
            rw [deps_of_same_deps s3.2.1, deps_of_same_deps fr2.2]
          cases r with
          | none =>
            dsimp only at h
            obtain ⟨v, z⟩ := unit_gc_mark_good_unsure g _ m3 u m' sym3 h
            refine ⟨fun x p q => ok3 x p (v x p q).1, ?_⟩
            apply z (fun y => (m.unit y).gc_marker = gc_mark g GC_OFFSET_UNSURE) nu
            intro x hx
            refine ⟨fz x hx, fun p hp => ?_⟩
            rw [d3] at hp
            obtain ⟨w0, w⟩ := refm x hx p hp
            refine ⟨w0, ?_⟩
            rcases w with w | w | w
            · exact Or.inl w
            · right; left
              have w2 : (m2.unit p).gc_marker = gc_mark g GC_OFFSET_BAD := by rw [o12 p w0]; exact w
              rw [swept_unit_of_settled (s3.2.2.1 p) (Or.inl w2)]
              exact w2
            · right; right
              have w2 : (m2.unit p).gc_marker = gc_mark g GC_OFFSET_IN_PATH := by
                rw [o12 p w0]; exact w
              rw [swept_unit_of_settled (s3.2.2.1 p) (Or.inr (Or.inr w2))]
              exact w2
          | some is_bad =>
            have fin : ∀ m4 : Manager, m3.same_deps m4 →
                (∀ y, y ≠ u → (m4.unit y).gc_marker = (m3.unit y).gc_marker) →
                ((m4.unit u).gc_marker = gc_mark g GC_OFFSET_BAD ∨
                  (m4.unit u).gc_marker = gc_mark g GC_OFFSET_UNSURE) →
                m4.gc_unsure_ok g ∧
                ∀ y, (m.unit y).gc_marker = gc_mark g GC_OFFSET_UNSURE →
                  (m4.unit y).gc_marker = gc_mark g GC_OFFSET_UNSURE := by
              intro m4 hd ho hm
              have hm4 : (m4.unit u).gc_marked g ∧
                  (m4.unit u).gc_marker ≠ gc_mark g GC_OFFSET_GOOD := by
                rcases hm with q | q
                · exact ⟨Or.inr (Or.inl q), by rw [q]; exact fun e => good_ne_bad g e.symm⟩
                · exact ⟨Or.inr (Or.inr (Or.inl q)), by
                    rw [q]; exact fun e => good_ne_unsure g e.symm⟩
              refine ⟨gc_unsure_ok_set u hd ho hm4 (fun _ p hp => ?_) ok3, fun y hy => ?_⟩
              · rw [d3] at hp
                by_cases hpu : p = u
                · rw [hpu]; exact hm4
                · have := al3 is_bad rfl p hp
                  rw [gc_marked_of_marker (ho p hpu), ho p hpu]
                  exact this
              · have hyu : y ≠ u := fun e => nu (e ▸ hy)
                rw [ho y hyu]
                exact fz y hy
            cases is_bad with
            | true =>
              dsimp only at h
              simp only [Option.some.injEq] at h
              subst h
              obtain ⟨fr, o, a, -⟩ := unit_gc_sweep_bad_fields m3 u g hv3
              exact fin _ fr.2 (fun y hy => by rw [o y hy]) (Or.inl a)
            | false =>
              dsimp only at h
              obtain ⟨f4, o4, e4, -⟩ := set_marker_fields m3 u (gc_mark g GC_OFFSET_UNSURE) hv3
              have hv4 : (m3.modify u (fun x => { x with gc_marker := gc_mark g GC_OFFSET_UNSURE })).valid u :=
                (valid_modify _ _ _ _).2 hv3
              generalize m3.modify u (fun x => { x with gc_marker := gc_mark g GC_OFFSET_UNSURE }) = m4
                at h f4 o4 e4 hv4
              obtain ⟨o5, k5, -⟩ := unit_add_to_gc_queue_step env m4 m' u hv4 h
              have fr5 := frame_trans f4 (frame_gc_queue env m4 m' u h)
              exact fin m' fr5.2 (fun y hy => by rw [o5 y hy, o4 y hy])
                (Or.inr (by rw [k5, e4]))

/-! ## The garbage collector: the rounds of the dispatcher -/

theorem references_symmetric_of_heap (m : Manager) (h : m.references_symmetric_in_heap) :
    m.references_symmetric := by
  have e : ∀ x k, ¬ m.valid x → m.deps x k = [] := by
    intro x k hx
    unfold Manager.deps
    rw [unit_invalid m x hx]
  intro x y
  constructor
  · intro q
    by_cases hx : m.valid x
    · exact h.1 x (List.mem_range.2 hx) y q
    · rw [e x _ hx] at q
      exact absurd q (List.not_mem_nil y)
  · intro q
    by_cases hy : m.valid y
    · exact h.2 y (List.mem_range.2 hy) x q
    · rw [e y _ hy] at q
      exact absurd q (List.not_mem_nil x)

/-- The marker of a new unit object, 0, is no marker of the generation that
`manager_dispatch_gc_unit_queue` starts. -/
theorem manager_next_gc_marker_fresh (m : Manager) :
    ¬ ({} : Unit).gc_marked (manager_next_gc_marker m) := by
  have h : 1 ≤ manager_next_gc_marker m ∧ manager_next_gc_marker m + 4 < 4294967296 := by
    unfold manager_next_gc_marker _GC_OFFSET_MAX
    norm_num
    split_ifs <;> omega
  unfold Unit.gc_marked gc_mark GC_OFFSET_GOOD GC_OFFSET_BAD GC_OFFSET_UNSURE GC_OFFSET_IN_PATH
  show ¬ ((0 : Nat) = _ ∨ (0 : Nat) = _ ∨ (0 : Nat) = _ ∨ (0 : Nat) = _)
  norm_num
  omega

theorem gc_rounds_start (env : Env) (g : Nat) (m : Manager)
    (hf : ∀ y, ¬ (m.unit y).gc_marked g) :
    m.gc_rounds env g ({ m with gc_marker := g } : Manager) := by
  have u0 : ∀ y, ({ m with gc_marker := g } : Manager).unit y = m.unit y := fun _ => rfl
  refine ⟨same_ident_of_heap rfl rfl, fun y e => ?_, ?_, fun y e => ?_, fun y e => Or.inl ?_,
    fun y _ => u0 y, fun a _ _ _ => ⟨fun e => ?_, fun e => ?_⟩⟩
  · rw [u0] at e; exact hf y (Or.inr (Or.inr (Or.inr e)))
  · rintro x p ⟨a, -⟩
    rw [u0] at a; exact hf x (Or.inr (Or.inr (Or.inl a)))
  · rw [u0] at e; exact absurd (Or.inr (Or.inl e)) (hf y)
  · rw [u0] at e; exact e
  · rw [u0] at e; exact hf a (Or.inr (Or.inr (Or.inl e)))
  · rw [u0] at e; exact hf a (Or.inr (Or.inl e))

/-- A call of `unit_gc_sweep` keeps the properties of the rounds. -/
theorem gc_rounds_sweep (env : Env) (g : Nat) (m0 m m1 : Manager) (u : UnitId) (fuel : Nat)
    (sym : m0.references_symmetric) (hi : m0.gc_rounds env g m)
    (hs : unit_gc_sweep env fuel m u g = some m1) : m0.gc_rounds env g m1 := by
  obtain ⟨t0, t1, t2, t3, t4, t5, t6⟩ := hi
  obtain ⟨sw, -, -⟩ := unit_gc_sweep_frame env g fuel m u m1 hs
  obtain ⟨ok1, fz1⟩ := unit_gc_sweep_unsure env g fuel m u m1
    (references_symmetric_of_deps t0.2 sym) t2 hs
  refine ⟨frame_trans t0 ⟨sw.1, sw.2.1⟩, fun y => ?_, ok1, fun y hb hc p hp => ?_, fun y hc => ?_,
    fun y hn => ?_, fun a h1 h2 h3 => ?_⟩
  · rcases sw.2.2.1 y with e | ⟨-, e⟩ | ⟨-, e, -⟩
    · rw [e]; exact t1 y
    · rw [e]; exact good_ne_in_path g
    · rcases e with e | e | e
      · rw [e]; exact unsure_ne_in_path g
      · rw [e]; exact good_ne_in_path g
      · rw [e]; exact bad_ne_in_path g
  · rw [deps_of_same_deps sw.2.1] at hp
    by_cases hm : (m.unit y).gc_marked g
    · have hb0 : (m.unit y).gc_marker = gc_mark g GC_OFFSET_BAD := by
        rcases sw.2.2.1 y with e | ⟨-, e⟩ | ⟨e, -⟩
        · rw [← e]; exact hb
        · rw [e] at hb; exact absurd hb (good_ne_bad g)
        · exact absurd hm e
      rcases t3 y hb0 hc p hp with k | k
      · exact Or.inl (fz1 p k)
      · right
        rw [swept_unit_of_settled (sw.2.2.1 p) (Or.inl k)]
        exact k
    · have hc0 : (m.unit y).in_cleanup_queue = false := by rw [t5 y hm]; exact hc
      exact Or.inr (sw.2.2.2.1 y hm hb hc0 p hp)
  · rcases sw.2.2.1 y with e | ⟨k, e⟩ | ⟨k, -, e, -⟩
    · rw [e] at hc ⊢; exact t4 y hc
    · rw [e] at hc
      rcases t4 y hc with q | q
      · exact Or.inl q
      · rw [k] at q; exact absurd q (unsure_ne_bad g)
    · rcases e.1 hc with q | q
      · rcases t4 y q with r | r
        · exact Or.inl r
        · exact absurd (Or.inr (Or.inl r)) k
      · exact Or.inr q
  · have e := swept_unit_of_unmarked (sw.2.2.1 y) hn
    rw [e] at hn ⊢
    exact t5 y hn
  · rcases sw.2.2.1 a with e | ⟨-, e⟩ | ⟨k, -, -, -, e, -⟩
    · rw [e]; exact t6 a h1 h2 h3
    · rw [e]; exact ⟨good_ne_unsure g, good_ne_bad g⟩
    · have ea := t5 a k
      rw [ea] at e
      refine ⟨fun q => ?_, fun q => ?_⟩
      · rcases e (Or.inl q) h1 with r | r
        · rw [h3] at r; cases r
        · rw [h2] at r; cases r
      · rcases e (Or.inr q) h1 with r | r
        · rw [h3] at r; cases r
        · rw [h2] at r; cases r

/-- The end of a round of `manager_dispatch_gc_unit_queue` keeps the
properties of the rounds. -/
theorem gc_rounds_collect (env : Env) (g : Nat) (m0 m1 : Manager) (u : UnitId)
    (hv : m1.valid u) (hm : (m1.unit u).gc_marked g) (hi : m0.gc_rounds env g m1) :
    m0.gc_rounds env g (manager_dispatch_gc_unit_queue_collect m1 u g) := by
  obtain ⟨t0, t1, t2, t3, t4, t5, t6⟩ := hi
  obtain ⟨fr, o, -, b, c, -, -⟩ := manager_dispatch_gc_unit_queue_collect_fields m1 u g hv
  generalize manager_dispatch_gc_unit_queue_collect m1 u g = mc at fr o b c
  have refs : ∀ x, (m1.unit x).gc_marker = gc_mark g GC_OFFSET_UNSURE →
      ∀ p ∈ m1.deps x .referenced_by, (m1.unit p).gc_marker = gc_mark g GC_OFFSET_UNSURE ∨
        (m1.unit p).gc_marker = gc_mark g GC_OFFSET_BAD := by
    intro x hx p hp
    have := not_not.1 (fun q => t2 x p ⟨hx, hp, q⟩)
    rcases gc_marked_not_good this.1 this.2 with k | k | k
    · exact Or.inl k
    · exact Or.inr k
    · exact absurd k (t1 p)
  by_cases hc : (m1.unit u).gc_marker = gc_mark g GC_OFFSET_BAD ∨
      (m1.unit u).gc_marker = gc_mark g GC_OFFSET_UNSURE
  · obtain ⟨b1, b2, -⟩ := b hc
    have keep : ∀ p, ((m1.unit p).gc_marker = gc_mark g GC_OFFSET_UNSURE ∨
        (m1.unit p).gc_marker = gc_mark g GC_OFFSET_BAD) →
        ((mc.unit p).gc_marker = gc_mark g GC_OFFSET_UNSURE ∨
          (mc.unit p).gc_marker = gc_mark g GC_OFFSET_BAD) := by
      intro p hp
      by_cases e : p = u
      · rw [e]; exact Or.inr b1
      · rw [o p e]; exact hp
    refine ⟨frame_trans t0 fr, fun y => ?_, ?_, fun y hb hc0 p hp => ?_, fun y hy => ?_,
      fun y hn => ?_, fun a h1 h2 h3 => ?_⟩
    · by_cases e : y = u
      · rw [e, b1]; exact bad_ne_in_path g
      · rw [o y e]; exact t1 y
    · exact gc_unsure_ok_set u fr.2 (fun y hy => by rw [o y hy])
        ⟨Or.inr (Or.inl b1), by rw [b1]; exact fun q => good_ne_bad g q.symm⟩
        (fun q => absurd (b1 ▸ q : gc_mark g GC_OFFSET_BAD = _) (fun e => unsure_ne_bad g e.symm))
        t2
    · rw [deps_of_same_deps fr.2] at hp
      apply keep
      by_cases e : y = u
      · rw [e] at hc0 hp
        rcases hc with k | k
        · exact t3 u k hc0 p hp
        · exact refs u k p hp
      · rw [o y e] at hb
        exact t3 y hb hc0 p hp
    · by_cases e : y = u
      · rw [e]; exact Or.inr b1
      · rw [o y e] at hy ⊢; exact t4 y hy
    · have e : y ≠ u := fun e => hn (e ▸ Or.inr (Or.inl b1))
      rw [o y e] at hn ⊢
      exact t5 y hn
    · by_cases e : a = u
      · have := t6 a h1 h2 h3
        rw [e] at this
        rcases hc with k | k
        · exact absurd k this.2
        · exact absurd k this.1
      · rw [o a e]; exact t6 a h1 h2 h3
  · obtain ⟨c1, c2⟩ := c hc
    have mk : ∀ y, (mc.unit y).gc_marker = (m1.unit y).gc_marker := by
      intro y
      by_cases e : y = u
      · rw [e]; exact c1
      · rw [o y e]
    have cq : ∀ y, (mc.unit y).in_cleanup_queue = (m1.unit y).in_cleanup_queue := by
      intro y
      by_cases e : y = u
      · rw [e]; exact c2
      · rw [o y e]
    refine ⟨frame_trans t0 fr, fun y => by rw [mk]; exact t1 y,
      gc_unsure_ok_of_markers fr.2 mk t2, fun y hb hc0 p hp => ?_, fun y hy => ?_,
      fun y hn => ?_, fun a h1 h2 h3 => by rw [mk]; exact t6 a h1 h2 h3⟩
    · rw [deps_of_same_deps fr.2] at hp
      rw [mk] at hb ⊢
      exact t3 y hb hc0 p hp
    · rw [cq] at hy
      rw [mk]
      exact t4 y hy
    · have e : y ≠ u := by
        intro e
        apply hn
        rw [e, gc_marked_of_marker c1]
        exact hm
      rw [o y e] at hn ⊢
      exact t5 y hn

/-- When the properties of the rounds hold, a unit that a chain of `References`
edges through units that were off the cleanup queue links to a unit with
`unit_check_gc` true is marked neither UNSURE nor BAD, and is off the cleanup
queue. -/
theorem gc_rounds_chain (env : Env) (g : Nat) (m0 m : Manager) (a b : UnitId)
    (sym : m0.references_symmetric) (hi : m0.gc_rounds env g m)
    (h1 : (m0.unit a).load_state ≠ .merged) (h2 : (m0.unit a).check_gc env = some true)
    (h3 : (m0.unit a).in_cleanup_queue = false) (hp : m0.references_chain a b) :
    (m.unit b).in_cleanup_queue = false := by
  obtain ⟨t0, t1, t2, t3, t4, -, t6⟩ := hi
  have key : (m0.unit b).in_cleanup_queue = false ∧
      (m.unit b).gc_marker ≠ gc_mark g GC_OFFSET_UNSURE ∧
      (m.unit b).gc_marker ≠ gc_mark g GC_OFFSET_BAD := by
    unfold Manager.references_chain at hp
    induction hp with
    | refl => exact ⟨h3, t6 a h1 h2 h3⟩
    | @tail y z _ hyz ih =>
      obtain ⟨-, n1, n2⟩ := ih
      have hr : y ∈ m.deps z .referenced_by := by
        rw [deps_of_same_deps t0.2]
        exact (sym y z).1 hyz.1
      refine ⟨hyz.2, fun q => ?_, fun q => ?_⟩
      · have := not_not.1 (fun c => t2 z y ⟨q, hr, c⟩)
        rcases gc_marked_not_good this.1 this.2 with k | k | k
        · exact n1 k
        · exact n2 k
        · exact t1 y k
      · rcases t3 z q hyz.2 y hr with k | k
        · exact n1 k
        · exact n2 k
  cases hh : (m.unit b).in_cleanup_queue
  · rfl
  · rcases t4 b hh with q | q
    · rw [key.1] at q; cases q
    · exact absurd q key.2.2

/-! ## The garbage collector: units referenced from a unit in use, in a state without stale markers -/

/-- In a state whose `References` and `ReferencedBy` sets are mutually
inverse, whose queues are well formed, whose unit objects resolve and carry no
marker of the new generation, for every content of the queue of the
collector: if `unit_check_gc` is true for the unit `a`, which is not merged and
off the cleanup queue, and a chain of `References` edges through units off the
cleanup queue leads from `a` to `b`, then `manager_dispatch_gc_unit_queue`
returns and `b` is not on the cleanup queue afterwards. -/
theorem manager_dispatch_gc_unit_queue_keeps_referenced (env : Env) (m : Manager)
    (a b : UnitId) (hr : m.resolvable) (hq : m.queues_ok) (hs : m.references_symmetric)
    (hfresh : ∀ y, m.valid y → ¬ (m.unit y).gc_marked (manager_next_gc_marker m))
    (hm : (m.unit a).load_state ≠ .merged)
    (hc : (unit_check_gc env m a).map Prod.fst = some true)
    (hac : (m.unit a).in_cleanup_queue = false)
    (hp : m.references_chain a b) :
    ∃ n m', manager_dispatch_gc_unit_queue env m = some (n, m') ∧
      (m'.unit b).in_cleanup_queue = false ∧ b ∉ m'.cleanup_queue := by
  have hchk : (m.unit a).check_gc env = some true := by
    cases h1 : unit_check_gc env m a with
    | none => rw [h1] at hc; cases hc
    | some p =>
      obtain ⟨x, m1⟩ := p
      rw [h1] at hc
      have h2 : x = true := Option.some.inj hc
      subst h2
      exact unit_check_gc_local env m m1 a _ hm h1
  have hf : ∀ y, ¬ (m.unit y).gc_marked (manager_next_gc_marker m) := by
    intro y
    by_cases hy : m.valid y
    · exact hfresh y hy
    · rw [unit_invalid m y hy]
      exact manager_next_gc_marker_fresh m
  unfold manager_dispatch_gc_unit_queue
  generalize manager_next_gc_marker m = g at hf ⊢
  have i0 := gc_rounds_start env g m hf
  have q0 : ({ m with gc_marker := g } : Manager).queues_ok := hq
  have l0 : ({ m with gc_marker := g } : Manager).gc_unit_queue = m.gc_unit_queue := rfl
  have h0 : ({ m with gc_marker := g } : Manager).heap.length = m.heap.length := rfl
  generalize hfuel : m.gc_unit_queue.length + m.heap.length + 1 = fuel
  generalize ({ m with gc_marker := g } : Manager) = m0 at i0 q0 l0 h0
  obtain ⟨r, hret⟩ := manager_dispatch_gc_unit_queue_loop_total env g fuel m0 0
    (resolvable_of_frame i0.1 hr) q0 (by
      have := gc_unmarked_le_length g m0
      rw [l0]; omega)
  obtain ⟨⟨ir, qr⟩, -⟩ := manager_dispatch_gc_unit_queue_loop_induct env g
    (fun x => m.gc_rounds env g x ∧ x.queues_ok)
    (by
      intro x u rest m1 ⟨ix, qx⟩ _ _ hsw
      obtain ⟨sw, hv, hroot⟩ := unit_gc_sweep_frame env g _ x u m1 hsw
      have hv1 : m1.valid u := (valid_of_same_ident sw.1 u).2 hv
      obtain ⟨-, -, -, -, -, -, ok⟩ := manager_dispatch_gc_unit_queue_collect_fields m1 u g hv1
      exact ⟨gc_rounds_collect env g m m1 u hv1 hroot (gc_rounds_sweep env g m x m1 u _ hs ix hsw),
        ok (sw.2.2.2.2.1 qx)⟩)
    fuel m0 0 r ⟨i0, q0⟩ hret
  have hb := gc_rounds_chain env g m r.2 a b hs ir hm hchk hac hp
  refine ⟨r.1, r.2, hret, hb, fun q => ?_⟩
  have := (qr.2.2.2 b).1 q
  rw [hb] at this
  cases this

set_option maxRecDepth 100000 in
theorem manager_dispatch_gc_unit_queue_keeps_referenced_witness :
    ∃ n m', manager_dispatch_gc_unit_queue env0 gc_referenced = some (n, m') ∧
      (m'.unit 1).in_cleanup_queue = false ∧ 1 ∉ m'.cleanup_queue :=
  manager_dispatch_gc_unit_queue_keeps_referenced env0 gc_referenced 0 1
    (resolvable_of_well_formed _ (well_formed_of_heap _ (by decide)))
    (queues_ok_of_heap _ (by decide)) (references_symmetric_of_heap _ (by decide))
    (fun y hy => (by decide : ∀ z ∈ List.range gc_referenced.heap.length,
      ¬ (gc_referenced.unit z).gc_marked (manager_next_gc_marker gc_referenced)) y
        (List.mem_range.2 hy))
    (by decide) (by decide) (by decide)
    (Relation.ReflTransGen.single ⟨by decide, by decide⟩)

/-! ## The garbage collector after the wrap of the generation counter (claims C11 and C12) -/

theorem manager_dispatch_gc_unit_queue_idle (env : Env) (m : Manager)
    (hq : m.gc_unit_queue = []) :
    manager_dispatch_gc_unit_queue env m =
      some (0, { m with gc_marker := manager_next_gc_marker m }) := by
  unfold manager_dispatch_gc_unit_queue
  unfold manager_dispatch_gc_unit_queue_loop
  rw [hq]

theorem manager_next_gc_marker_step (m : Manager) (h : m.gc_marker + 8 < 2 ^ 32) :
    manager_next_gc_marker m = m.gc_marker + 4 := by
  unfold manager_next_gc_marker _GC_OFFSET_MAX
  have e1 : (m.gc_marker + 4) % 2 ^ 32 = m.gc_marker + 4 := Nat.mod_eq_of_lt (by omega)
  have e2 : (m.gc_marker + 4 + 4) % 2 ^ 32 = m.gc_marker + 4 + 4 := Nat.mod_eq_of_lt (by omega)
  rw [e1, e2, if_neg (by omega)]

theorem manager_next_gc_marker_wrap (m : Manager)
    (h : m.gc_marker = 2 ^ 32 - 8 ∨ m.gc_marker = 2 ^ 32 - 7) :
    manager_next_gc_marker m = 1 := by
  unfold manager_next_gc_marker _GC_OFFSET_MAX
  rcases h with e | e <;> rw [e] <;> decide

/-- Calls of `manager_dispatch_gc_unit_queue` on an empty queue only move the
generation counter: in steps of 4 it reaches the last generation before the
32-bit wrap, `2^32 - 8` or `2^32 - 7`, and the call after that sets it to 1. -/
theorem manager_dispatch_gc_unit_queue_times_succ (env : Env) (k : Nat) : ∀ m : Manager,
    m.gc_unit_queue = [] →
    (m.gc_marker + 4 * k = 2 ^ 32 - 8 ∨ m.gc_marker + 4 * k = 2 ^ 32 - 7) →
    manager_dispatch_gc_unit_queue_times env (k + 1) m = some { m with gc_marker := 1 } := by
  induction k with
  | zero =>
    intro m hq hg
    unfold manager_dispatch_gc_unit_queue_times
    rw [manager_dispatch_gc_unit_queue_idle env m hq, Option.some_bind]
    unfold manager_dispatch_gc_unit_queue_times
    rw [manager_next_gc_marker_wrap m (by omega)]
  | succ k ih =>
    intro m hq hg
    unfold manager_dispatch_gc_unit_queue_times
    rw [manager_dispatch_gc_unit_queue_idle env m hq, Option.some_bind]
    rw [manager_next_gc_marker_step m (by omega)]
    exact ih { m with gc_marker := m.gc_marker + 4 } hq (by
      show m.gc_marker + 4 + 4 * k = _ ∨ m.gc_marker + 4 + 4 * k = _
      omega)

/-- Calls of `manager_dispatch_gc_unit_queue` on an empty queue only move the
generation counter: `n` calls with `g + 4 * n = 2^32 - 4` or `2^32 - 3` take it
from `g` over the 32-bit wrap to 1. -/
theorem manager_dispatch_gc_unit_queue_times_wrap (env : Env) (n g : Nat) (m : Manager)
    (hq : m.gc_unit_queue = []) (hm : m.gc_marker = g) (hn : 0 < n)
    (hg : g + 4 * n = 2 ^ 32 - 4 ∨ g + 4 * n = 2 ^ 32 - 3) :
    manager_dispatch_gc_unit_queue_times env n m = some { m with gc_marker := 1 } := by
  cases n with
  | zero => exact absurd hn (Nat.lt_irrefl 0)
  | succ k =>
    exact manager_dispatch_gc_unit_queue_times_succ env k m hq (by omega)

set_option maxRecDepth 100000 in
/-- C11 fails in the code once the generation counter has wrapped: a run in
which `manager_dispatch_gc_unit_queue` puts a referenced unit on the cleanup
queue. In `gc_referenced` the unit `a.service` (0) has an
installed job and references `b.service` (1), which is on the queue of the
collector. The first call sweeps with the generation 4 and marks both units
GOOD (6). `2^30 - 2` calls on an empty queue take the generation counter over
the 32-bit wrap to 1. Then `unit_add_to_gc_queue` puts `b.service` on the queue
again. In this state the sets `References` and `ReferencedBy` are mutually
inverse, `unit_check_gc` is true for `a.service`, which references
`b.service`, and no unit is on the cleanup queue. The next call sweeps with the
generation 5, for which 6 is the marker UNSURE: it puts `b.service` on the
cleanup queue. -/
theorem manager_dispatch_gc_unit_queue_collects_referenced :
    (manager_dispatch_gc_unit_queue env0 gc_referenced = some (1, gc_referenced_swept) ∧
      manager_dispatch_gc_unit_queue_times env0 (2 ^ 30 - 2) gc_referenced_swept =
        some { gc_referenced_swept with gc_marker := 1 } ∧
      unit_add_to_gc_queue env0 { gc_referenced_swept with gc_marker := 1 } 1 =
        some gc_referenced_wrapped) ∧
    (gc_referenced_wrapped.references_symmetric ∧
      gc_referenced_wrapped.gc_unit_queue = [1] ∧
      gc_referenced_wrapped.cleanup_queue = [] ∧
      (gc_referenced_wrapped.unit 0).job = some 1 ∧
      (unit_check_gc env0 gc_referenced_wrapped 0).map Prod.fst = some true ∧
      1 ∈ gc_referenced_wrapped.deps 0 .references ∧
      gc_referenced_wrapped.references_chain 0 1 ∧
      (gc_referenced_wrapped.unit 0).in_cleanup_queue = false ∧
      (gc_referenced_wrapped.unit 1).in_cleanup_queue = false) ∧
    (manager_dispatch_gc_unit_queue env0 gc_referenced_wrapped).map
        (fun r => (r.1, r.2.gc_marker, r.2.cleanup_queue, (r.2.unit 1).in_cleanup_queue,
          (r.2.unit 1).gc_marker)) =
      some (1, 5, [1], true, 8) := by
  refine ⟨⟨by decide, ?_, by decide⟩,
    ⟨references_symmetric_of_heap _ (by decide), by decide, by decide, by decide, by decide,
      by decide, Relation.ReflTransGen.single ⟨by decide, by decide⟩, by decide, by decide⟩,
    by decide⟩
  exact manager_dispatch_gc_unit_queue_times_wrap env0 (2 ^ 30 - 2) 4 gc_referenced_swept rfl rfl
    (by norm_num) (Or.inl (by norm_num))

set_option maxRecDepth 100000 in
/-- C12 fails in the code once a generation of the collector comes again: a
run in which `manager_dispatch_gc_unit_queue` leaves a unit without referrers
off the cleanup queue. In `gc_referenced_idle` the unit `a.service`
(0) has an installed job and references `b.service` (1). `2^30 - 1` calls on
an empty queue take the generation counter over the 32-bit wrap to 1; then
`unit_add_to_gc_queue` puts `b.service` on the queue and the next call sweeps
with the generation 5 and marks both units GOOD (7). `2^30 - 2` calls on an
empty queue take the generation counter to 1 again. Then the job of
`a.service` is uninstalled, and `unit_free` on `a.service` takes the edge away
and puts `b.service` on the queue. In this state `b.service` is on the queue of the collector, `unit_check_gc` is false
for it and its `ReferencedBy` set is empty. The next call sweeps with the
generation 5 again, finds the marker GOOD of that generation and takes
`b.service` off the queue of the collector without putting it on the cleanup
queue, and after `manager_dispatch_cleanup_queue` the name `b.service` is
still registered. -/
theorem manager_dispatch_gc_unit_queue_skips_unreferenced :
    (manager_dispatch_gc_unit_queue_times env0 (2 ^ 30 - 1) gc_referenced_idle =
        some { gc_referenced_idle with gc_marker := 1 } ∧
      unit_add_to_gc_queue env0 { gc_referenced_idle with gc_marker := 1 } 1 =
        some { gc_referenced with gc_marker := 1 } ∧
      manager_dispatch_gc_unit_queue env0 { gc_referenced with gc_marker := 1 } =
        some (1, gc_referenced_good) ∧
      manager_dispatch_gc_unit_queue_times env0 (2 ^ 30 - 2) gc_referenced_good =
        some { gc_referenced_good with gc_marker := 1 } ∧
      unit_free env0 (job_uninstall { gc_referenced_good with gc_marker := 1 } 0 1 false) 0 =
        some gc_unreferenced_stale) ∧
    (1 ∈ gc_unreferenced_stale.gc_unit_queue ∧
      (gc_unreferenced_stale.unit 1).in_gc_queue = true ∧
      (unit_check_gc env0 gc_unreferenced_stale 1).map Prod.fst = some false ∧
      gc_unreferenced_stale.deps 1 .referenced_by = [] ∧
      (gc_unreferenced_stale.unit 1).names = ["b.service"] ∧
      manager_get_unit gc_unreferenced_stale "b.service" = some 1) ∧
    (manager_dispatch_gc_unit_queue env0 gc_unreferenced_stale).map
        (fun r => (r.1, r.2.gc_marker, r.2.gc_unit_queue, r.2.cleanup_queue)) =
      some (1, 5, [], []) ∧
    (manager_dispatch_gc_unit_queue env0 gc_unreferenced_stale).map
        (fun r => ((r.2.unit 1).in_gc_queue, (r.2.unit 1).in_cleanup_queue,
          (r.2.unit 1).gc_marker)) =
      some (false, false, 7) ∧
    ((manager_dispatch_gc_unit_queue env0 gc_unreferenced_stale).bind
        (fun r => manager_dispatch_cleanup_queue env0 r.2)).map
          (fun m => manager_get_unit m "b.service") = some (some 1) := by
  refine ⟨⟨?_, by decide, by decide, ?_, by decide⟩,
    ⟨by decide, by decide, by decide, by decide, by decide, by decide⟩, by decide, by decide,
    by decide⟩
  · exact manager_dispatch_gc_unit_queue_times_wrap env0 (2 ^ 30 - 1) 0 gc_referenced_idle rfl rfl
      (by norm_num) (Or.inl (by norm_num))
  · exact manager_dispatch_gc_unit_queue_times_wrap env0 (2 ^ 30 - 2) 5 gc_referenced_good rfl rfl
      (by norm_num) (Or.inr (by norm_num))

/-! ## The generation counter of the collector (claim C24) -/

theorem heap_eq_of_marked_good {g : Nat} {m m' : Manager} (h : m.marked_good g m') :
    m'.gc_marker = m.gc_marker := by
  have := h.1
  rw [this]

theorem gc_marker_modify (m : Manager) (u : UnitId) (f : Unit → Unit) :
    (m.modify u f).gc_marker = m.gc_marker := rfl

theorem gc_marker_cleanup_queue (m : Manager) (u : UnitId) :
    (unit_add_to_cleanup_queue m u).gc_marker = m.gc_marker := by
  unfold unit_add_to_cleanup_queue
  split_ifs <;> rfl

theorem gc_marker_check_gc (env : Env) (m m1 : Manager) (u : UnitId) (b : Bool)
    (h : unit_check_gc env m u = some (b, m1)) : m1.gc_marker = m.gc_marker := by
  obtain ⟨-, st⟩ := unit_check_gc_step env m m1 u b h
  rcases st with e | ⟨f, e⟩
  · rw [e]
  · rw [e]; rfl

theorem gc_marker_gc_queue (env : Env) (m m1 : Manager) (u : UnitId)
    (h : unit_add_to_gc_queue env m u = some m1) : m1.gc_marker = m.gc_marker := by
  unfold unit_add_to_gc_queue at h
  split_ifs at h
  · cases h; rfl
  · cases hk : unit_check_gc env m u with
    | none => simp [hk] at h
    | some pr =>
      obtain ⟨b, m2⟩ := pr
      have e := gc_marker_check_gc env m m2 u b hk
      cases b <;> simp only [hk, Option.some.injEq] at h <;> rw [← h] <;> exact e

theorem gc_marker_sweep_loop (g : Nat) (rec : Manager → UnitId → Option Manager)
    (hrec : ∀ a o a', rec a o = some a' → a'.gc_marker = a.gc_marker) (s : List UnitId) :
    ∀ (m : Manager) (is_bad : Bool) (m' : Manager) (r : Option Bool),
      unit_gc_sweep_loop rec g m is_bad s = some (m', r) → m'.gc_marker = m.gc_marker := by
  induction s with
  | nil =>
    intro m is_bad m' r h
    simp only [unit_gc_sweep_loop, Option.some.injEq, Prod.mk.injEq] at h
    rw [← h.1]
  | cons other rest ih =>
    intro m is_bad m' r h
    unfold unit_gc_sweep_loop at h
    cases hr : rec m other with
    | none => simp [hr] at h
    | some m1 =>
      simp only [hr] at h
      have e1 := hrec m other m1 hr
      split_ifs at h
      · simp only [Option.some.injEq, Prod.mk.injEq] at h
        rw [← h.1, e1]
      · rw [ih m1 false m' r h, e1]
      · rw [ih m1 is_bad m' r h, e1]

/-- The static function `unit_gc_sweep` does not write `m->gc_marker`. -/
theorem gc_marker_sweep (env : Env) (g : Nat) : ∀ (fuel : Nat) (m : Manager) (u : UnitId)
    (m' : Manager), unit_gc_sweep env fuel m u g = some m' → m'.gc_marker = m.gc_marker := by
  intro fuel
  induction fuel with
  | zero => intro m u m' h; simp [unit_gc_sweep] at h
  | succ fuel ih =>
    intro m u m' h
    unfold unit_gc_sweep at h
    split_ifs at h with hv hmk hc
    · cases h; rfl
    · cases h
      unfold unit_gc_sweep_bad
      rw [gc_marker_cleanup_queue]; rfl
    · cases hk : unit_check_gc env m u with
      | none => simp [hk] at h
      | some pr =>
        obtain ⟨b, m1⟩ := pr
        have e1 := gc_marker_check_gc env m m1 u b hk
        cases b with
        | true =>
          simp only [hk] at h
          obtain ⟨-, mg⟩ := unit_gc_mark_good_frame g _ m1 u m' h
          rw [heap_eq_of_marked_good mg]
          exact e1
        | false =>
          simp only [hk] at h
          cases hl : unit_gc_sweep_loop (fun a other => unit_gc_sweep env fuel a other g) g
              (m1.modify u (fun x => { x with gc_marker := gc_mark g GC_OFFSET_IN_PATH })) true
              (m1.deps u .referenced_by) with
          | none => simp [hl] at h
          | some pr =>
            obtain ⟨m3, r⟩ := pr
            simp only [hl] at h
            have e3 : m3.gc_marker = m.gc_marker := by
              rw [gc_marker_sweep_loop g _ ih _ _ _ _ _ hl]
              exact e1
            cases r with
            | none =>
              dsimp only at h
              obtain ⟨-, mg⟩ := unit_gc_mark_good_frame g _ m3 u m' h
              rw [heap_eq_of_marked_good mg]
              exact e3
            | some is_bad =>
              cases is_bad with
              | true =>
                dsimp only at h
                simp only [Option.some.injEq] at h
                rw [← h]
                unfold unit_gc_sweep_bad
                rw [gc_marker_cleanup_queue]
                exact e3
              | false =>
                dsimp only at h
                rw [gc_marker_gc_queue env _ m' u h]
                exact e3

theorem gc_marker_collect (m1 : Manager) (u : UnitId) (g : Nat) :
    (manager_dispatch_gc_unit_queue_collect m1 u g).gc_marker = m1.gc_marker := by
  unfold manager_dispatch_gc_unit_queue_collect
  dsimp only
  split_ifs
  · rw [gc_marker_cleanup_queue]; rfl
  · rfl

/-- C24. The marker `g` that `manager_dispatch_gc_unit_queue` hands to the
sweep and leaves in `m->gc_marker` is `manager_next_gc_marker`, whatever the
value of `m->gc_marker` before: `g >= 1` and `g + 3 < 2^32`, so that the four
values `g + IN_PATH`, `g + UNSURE`, `g + GOOD`, `g + BAD` are computed without
wrap-around, are not zero and differ from each other, and none of them is one
of the four values of the marker that `m->gc_marker` held before, which the
preceding call left there. -/
theorem manager_next_gc_marker_spec (env : Env) (m : Manager) :
    manager_dispatch_gc_unit_queue env m =
      manager_dispatch_gc_unit_queue_loop env (manager_next_gc_marker m)
        (m.gc_unit_queue.length + m.heap.length + 1)
        { m with gc_marker := manager_next_gc_marker m } 0 ∧
    (∀ r, manager_dispatch_gc_unit_queue env m = some r →
      r.2.gc_marker = manager_next_gc_marker m) ∧
    1 ≤ manager_next_gc_marker m ∧ manager_next_gc_marker m + 3 < 2 ^ 32 ∧
    (∀ o ∈ [GC_OFFSET_IN_PATH, GC_OFFSET_UNSURE, GC_OFFSET_GOOD, GC_OFFSET_BAD],
      gc_mark (manager_next_gc_marker m) o = manager_next_gc_marker m + o ∧
      gc_mark (manager_next_gc_marker m) o ≠ 0 ∧
      (∀ o' ∈ [GC_OFFSET_IN_PATH, GC_OFFSET_UNSURE, GC_OFFSET_GOOD, GC_OFFSET_BAD],
        gc_mark (manager_next_gc_marker m) o = gc_mark (manager_next_gc_marker m) o' → o = o') ∧
      (∀ o' ∈ [GC_OFFSET_IN_PATH, GC_OFFSET_UNSURE, GC_OFFSET_GOOD, GC_OFFSET_BAD],
        gc_mark (manager_next_gc_marker m) o ≠ gc_mark m.gc_marker o')) := by
  refine ⟨rfl, fun r h => ?_, ?_⟩
  · unfold manager_dispatch_gc_unit_queue at h
    exact (manager_dispatch_gc_unit_queue_loop_induct env _
      (fun a => a.gc_marker = manager_next_gc_marker m)
      (fun a u _ m1 ia _ _ hs => by
        show (manager_dispatch_gc_unit_queue_collect m1 u _).gc_marker = _
        rw [gc_marker_collect, gc_marker_sweep env _ _ a u m1 hs]
        exact ia) _ _ _ r rfl h).1
  · have key : ∀ p g : Nat,
        g = (if ((p + 4) % 4294967296 + 4) % 4294967296 ≤ 4 then 1 else (p + 4) % 4294967296) →
        1 ≤ g ∧ g + 3 < 4294967296 ∧
          ∀ o, o < 4 → (g + o) % 4294967296 = g + o ∧ (g + o) % 4294967296 ≠ 0 ∧
            (∀ o', o' < 4 → (g + o) % 4294967296 = (g + o') % 4294967296 → o = o') ∧
            (∀ o', o' < 4 → (g + o) % 4294967296 ≠ (p + o') % 4294967296) := by
      intro p g hg
      split_ifs at hg with hw
      · refine ⟨by omega, by omega, fun o ho => ⟨by omega, by omega, fun o' ho' _ => by omega,
          fun o' ho' => by omega⟩⟩
      · refine ⟨by omega, by omega, fun o ho => ⟨by omega, by omega, fun o' ho' _ => by omega,
          fun o' ho' => by omega⟩⟩
    have h2 : (2 : Nat) ^ 32 = 4294967296 := by norm_num
    have lt : ∀ o ∈ [GC_OFFSET_IN_PATH, GC_OFFSET_UNSURE, GC_OFFSET_GOOD, GC_OFFSET_BAD], o < 4 := by
      decide
    unfold manager_next_gc_marker gc_mark _GC_OFFSET_MAX
    rw [h2]
    obtain ⟨k1, k2, k3⟩ := key m.gc_marker _ rfl
    refine ⟨k1, k2, fun o ho => ?_⟩
    obtain ⟨a, b, c, d⟩ := k3 o (lt o ho)
    exact ⟨a, b, fun o' ho' => c o' (lt o' ho'), fun o' ho' => d o' (lt o' ho')⟩

/-! ## Conditions of a unit (claim C27) -/

/-- The loop of `unit_condition_test_list` from the condition number `i` on:
it ends with true iff every condition without `trigger` tests positive and
`triggered` is 1, or is -1 with no trigger condition to come, or a trigger
condition to come tests positive. -/
theorem unit_condition_test_list_loop_spec (t : Nat → Condition → Int) (cs : List Condition) :
    ∀ (i : Nat) (trig : Int), trig = -1 ∨ trig = 0 ∨ trig = 1 →
    (unit_condition_test_list_loop t i cs trig = true ↔
      (∀ j c, cs[j]? = some c → c.trigger = false → 0 < t (i + j) c) ∧
      (trig = 1 ∨ (trig = -1 ∧ ∀ c ∈ cs, c.trigger = false) ∨
        ∃ j c, cs[j]? = some c ∧ c.trigger = true ∧ 0 < t (i + j) c)) := by
  induction cs with
  | nil =>
    intro i trig ht
    simp only [unit_condition_test_list_loop, decide_eq_true_eq, List.getElem?_nil,
      List.not_mem_nil, false_and, exists_false, or_false, false_implies, implies_true, true_and,
      and_true, reduceCtorEq]
    omega
  | cons c rest ih =>
    intro i trig ht
    have shift : ∀ (P : Nat → Condition → Prop),
        (∀ j x, (c :: rest)[j]? = some x → P j x) ↔ (P 0 c ∧ ∀ j x, rest[j]? = some x → P (j + 1) x) := by
      intro P
      constructor
      · intro h
        exact ⟨h 0 c (List.getElem?_cons_zero), fun j x hx => h (j + 1) x (by simpa using hx)⟩
      · rintro ⟨h0, hs⟩ j x hx
        cases j with
        | zero =>
          simp only [List.getElem?_cons_zero, Option.some.injEq] at hx
          rw [← hx]; exact h0
        | succ j => exact hs j x (by simpa using hx)
    have shiftE : ∀ (P : Nat → Condition → Prop),
        (∃ j x, (c :: rest)[j]? = some x ∧ P j x) ↔ (P 0 c ∨ ∃ j x, rest[j]? = some x ∧ P (j + 1) x) := by
      intro P
      constructor
      · rintro ⟨j, x, hx, hp⟩
        cases j with
        | zero =>
          simp only [List.getElem?_cons_zero, Option.some.injEq] at hx
          rw [← hx] at hp; exact Or.inl hp
        | succ j => exact Or.inr ⟨j, x, by simpa using hx, hp⟩
      · rintro (h0 | ⟨j, x, hx, hp⟩)
        · exact ⟨0, c, List.getElem?_cons_zero, h0⟩
        · exact ⟨j + 1, x, by simpa using hx, hp⟩
    rw [shift (fun j x => x.trigger = false → 0 < t (i + j) x),
      shiftE (fun j x => x.trigger = true ∧ 0 < t (i + j) x)]
    have ih := ih (i + 1)
    simp only [show ∀ j, i + 1 + j = i + (j + 1) from fun j => by omega] at ih
    simp only [Nat.add_zero, List.mem_cons, forall_eq_or_imp]
    unfold unit_condition_test_list_loop
    dsimp only
    by_cases hc : c.trigger = true
    · have hcf : ¬ c.trigger = false := by rw [hc]; decide
      rw [if_neg (fun q => hcf q.1)]
      by_cases htr : trig ≤ 0
      · rw [if_pos ⟨hc, htr⟩]
        by_cases hr : t i c > 0
        · rw [if_pos hr, ih 1 (Or.inr (Or.inr rfl))]
          constructor
          · rintro ⟨a, -⟩
            exact ⟨⟨fun q => absurd q hcf, a⟩, Or.inr (Or.inr (Or.inl ⟨hc, hr⟩))⟩
          · rintro ⟨⟨-, a⟩, -⟩
            exact ⟨a, Or.inl rfl⟩
        · rw [if_neg hr, ih 0 (Or.inr (Or.inl rfl))]
          constructor
          · rintro ⟨a, b⟩
            refine ⟨⟨fun q => absurd q hcf, a⟩, ?_⟩
            rcases b with b | ⟨b, -⟩ | b
            · cases b
            · cases b
            · exact Or.inr (Or.inr (Or.inr b))
          · rintro ⟨⟨-, a⟩, b⟩
            refine ⟨a, ?_⟩
            rcases b with b | ⟨-, b, -⟩ | b | b
            · omega
            · exact absurd b hcf
            · exact absurd b.2 hr
            · exact Or.inr (Or.inr b)
      · rw [if_neg (fun q => htr q.2)]
        have h1 : trig = 1 := by omega
        rw [ih trig ht]
        constructor
        · rintro ⟨a, -⟩
          exact ⟨⟨fun q => absurd q hcf, a⟩, Or.inl h1⟩
        · rintro ⟨⟨-, a⟩, -⟩
          exact ⟨a, Or.inl h1⟩
    · have hcf : c.trigger = false := by
        cases h : c.trigger
        · rfl
        · exact absurd h hc
      by_cases hr : t i c ≤ 0
      · rw [if_pos ⟨hcf, hr⟩]
        constructor
        · intro q; cases q
        · rintro ⟨⟨a, -⟩, -⟩
          have := a hcf
          omega
      · rw [if_neg (fun q => hr q.2), if_neg (fun q => hc q.1), ih trig ht]
        constructor
        · rintro ⟨a, b⟩
          refine ⟨⟨fun _ => by omega, a⟩, ?_⟩
          rcases b with b | ⟨b, b'⟩ | b
          · exact Or.inl b
          · exact Or.inr (Or.inl ⟨b, hcf, b'⟩)
          · exact Or.inr (Or.inr (Or.inr b))
        · rintro ⟨⟨-, a⟩, b⟩
          refine ⟨a, ?_⟩
          rcases b with b | ⟨b, -, b'⟩ | b | b
          · exact Or.inl b
          · exact Or.inr (Or.inl ⟨b, b'⟩)
          · exact absurd b.1 hc
          · exact Or.inr (Or.inr b)

/-- C27. The static function `unit_condition_test_list` returns true iff the
list is empty, or every condition without `trigger` tests positive
(`condition_test` returns a value above 0, so that an error, a negative value,
counts as not positive) and the list has no trigger condition or a trigger
condition that tests positive. -/
theorem unit_condition_test_list_spec (condition_test : Nat → Condition → Int)
    (first : List Condition) :
    unit_condition_test_list condition_test first = true ↔
      first = [] ∨
      ((∀ i c, first[i]? = some c → c.trigger = false → 0 < condition_test i c) ∧
        ((∀ c ∈ first, c.trigger = false) ∨
          ∃ i c, first[i]? = some c ∧ c.trigger = true ∧ 0 < condition_test i c)) := by
  unfold unit_condition_test_list
  by_cases h : first = []
  · rw [if_pos h]
    exact ⟨fun _ => Or.inl h, fun _ => rfl⟩
  · rw [if_neg h, unit_condition_test_list_loop_spec condition_test first 0 (-1) (Or.inl rfl)]
    simp only [Nat.zero_add]
    constructor
    · rintro ⟨a, b⟩
      refine Or.inr ⟨a, ?_⟩
      rcases b with b | ⟨-, b⟩ | b
      · exact absurd b (by decide)
      · exact Or.inl b
      · exact Or.inr b
    · rintro (q | ⟨a, b⟩)
      · exact absurd q h
      · refine ⟨a, ?_⟩
        rcases b with b | b
        · exact Or.inr (Or.inl ⟨trivial, b⟩)
        · exact Or.inr (Or.inr b)

/-! ## Device units in `Before` sets (claim C26) -/

/-- C26 (amended). Let no unit have a unit of type device in its `Before`
set. After a call `unit_add_dependency(u, d, other, add_reference)` whose kind
`d` is not `After`, or whose `u` resolves to a unit that is not of type
device, no unit has a unit of type device in its `Before` set. -/
theorem unit_add_dependency_keeps_before_device (oom : Nat → Bool) (m m' : Manager)
    (u other u' : UnitId) (d : UnitDependency) (ar : Bool) (r : Int)
    (hinv : ∀ x y, y ∈ m.deps x .before → (m.unit y).type ≠ some .device)
    (hu : unit_follow_merge m u = some u')
    (hd : d = .after → (m.unit u').type ≠ some .device)
    (h : unit_add_dependency oom m u d other ar = some (r, m')) :
    ∀ x y, y ∈ m'.deps x .before → (m'.unit y).type ≠ some .device := by
  obtain ⟨u1, o1, e1, -, h1, h2⟩ := unit_add_dependency_spec oom m m' u other d ar r h
  have eu : u1 = u' := Option.some.inj (e1.symm.trans hu)
  subst eu
  have ty : ∀ y, (m'.unit y).type = (m.unit y).type := fun y =>
    (ident_fields ((same_ident_add_dependency oom m m' u other d ar r h).2.2 y)).2.2.2.1
  intro x y hy
  rw [ty]
  by_cases hr : r < 0
  · exact hinv x y ((h1 hr x .before y).1 hy)
  · rcases ((h2 hr).2 x .before y).1 hy with a | ⟨-, hdev, a⟩
    · exact hinv x y a
    · unfold added at a
      rcases a with ⟨-, a, b⟩ | ⟨-, a, -, b⟩ | ⟨-, -, a, -⟩ | ⟨-, -, a, -⟩
      · rw [b]
        exact fun q => hdev ⟨a.symm, q⟩
      · rw [b]
        apply hd
        cases d <;> simp only [inverse_table, Option.some.injEq, reduceCtorEq] at a
        rfl
      · cases a
      · cases a

set_option maxRecDepth 100000 in
theorem unit_add_dependency_keeps_before_device_witness :
    (state_after graph_device
      (unit_add_dependency no_oom graph_device 0 .after 1 true)).deps 1 .before = [0] ∧
    ((state_after graph_device
      (unit_add_dependency no_oom graph_device 0 .after 1 true)).unit 0).type ≠ some .device :=
  ⟨by decide,
    unit_add_dependency_keeps_before_device no_oom graph_device
      (state_after graph_device (unit_add_dependency no_oom graph_device 0 .after 1 true))
      0 1 0 .after true 0
      (fun x y hy => by
        rw [deps_of_no_dependencies graph_device (by decide)] at hy
        exact absurd hy (List.not_mem_nil y))
      (by decide) (fun _ => by decide) (by decide) 1 0 (by decide)⟩

/-- C26 as stated fails for the kind `After`. In `graph_device` no unit has a
dependency; unit 1 is of type device. The call
`unit_add_dependency(1, After, 0, false)` returns 0 and inserts the inverse
edge: unit 0 has the device unit 1 in its `Before` set. -/
theorem unit_add_dependency_after_device :
    graph_device.no_dependencies ∧ (graph_device.unit 1).type = some .device ∧
    (unit_add_dependency no_oom graph_device 1 .after 0 false).map
      (fun p => (p.1, p.2.deps 0 .before, (p.2.unit 1).type)) =
      some (0, [1], some .device) := by
  refine ⟨?_, ?_, ?_⟩ <;> decide

/-! ## Merging: the graph after the merge (claims C23 and C29) -/

/-- The dependency sets after a successful `unit_merge(u, other)` that merges
`o` into `u`, in terms of the sets before. -/
theorem unit_merge_deps (env : Env) (oom : Nat → Bool) (m m' : Manager)
    (u other o : UnitId) (r : Int) (hself : ∀ k, o ∉ m.deps o k)
    (h : unit_merge env oom m u other = some (r, m')) (hr : ¬ r < 0)
    (ho : unit_follow_merge m other = some o) (hne : o ≠ u) :
    (∀ k, m'.deps o k = []) ∧
    (∀ k y, y ∈ m'.deps u k ↔
      (y ∈ m.deps u k ∧ ((∃ d, u ∈ m.deps o d) → y ≠ o)) ∨ (y ∈ m.deps o k ∧ y ≠ u)) ∧
    (∀ x k y, x ≠ o → x ≠ u →
      ((∃ d, x ∈ m.deps o d) → (y ∈ m'.deps x k ↔ redirected m u o x k y)) ∧
      ((¬ ∃ d, x ∈ m.deps o d) → (y ∈ m'.deps x k ↔ y ∈ m.deps x k))) := by
  obtain ⟨_, hv, hvo, _, _, m1, m2, m3, h1, f12, h3, f4⟩ :=
    unit_merge_steps env oom m m' u other o r h hr ho hne
  have huo : u ≠ o := fun e => hne e.symm
  have N := (merge_names_spec (oom 22) m m1 u o 0 huo hv hvo h1).2 (by decide)
  obtain ⟨_, n1, n2, _⟩ := N
  have D2 : ∀ x k, m2.deps x k = m.deps x k := by
    intro x k
    rw [deps_of_same_deps f12.2]
    unfold Manager.deps
    rw [(n2 x).1]
  have hv2 : ∀ x, m2.valid x ↔ m.valid x := by
    intro x
    unfold Manager.valid
    rw [f12.1.2.1, n1]
  have L := merge_loop_all m2 m3 u o huo (fun k => by rw [D2]; exact hself k)
    ((hv2 u).2 hv) ((hv2 o).2 hvo) h3
  have D4 : ∀ x k, m'.deps x k = m3.deps x k := by
    intro x k
    rw [deps_of_same_deps f4.2]
    unfold Manager.deps
    rw [unit_modify]
    split_ifs with hh
    · rw [hh.2]
    · rfl
  obtain ⟨L1, L2, L3⟩ := L
  refine ⟨fun k => by rw [D4, L1], fun k y => ?_, fun x k y hxo hxu => ⟨fun hin => ?_, fun hin => ?_⟩⟩
  · rw [D4, L2]
    simp only [D2]
  · rw [D4, (L3 x k y hxo hxu).1 (by simpa only [D2] using hin)]
    unfold redirected
    simp only [D2]
  · rw [D4, (L3 x k y hxo hxu).2 (by simpa only [D2] using hin), D2]

theorem unit_merge_resolves (env : Env) (oom : Nat → Bool) (m m' : Manager) (u other : UnitId)
    (r : Int) (h : unit_merge env oom m u other = some (r, m')) :
    m.valid u ∧ ∃ o, unit_follow_merge m other = some o := by
  unfold unit_merge at h
  by_cases hv : m.valid u
  · rw [if_pos hv] at h
    refine ⟨hv, ?_⟩
    cases ht : (m.unit u).type with
    | none => simp only [ht] at h; cases h
    | some ut =>
      cases ho : unit_follow_merge m other with
      | none => simp only [ht, ho] at h; cases h
      | some o => exact ⟨o, rfl⟩
  · rw [if_neg hv] at h; cases h

theorem inverse_symmetric_of_heap (m : Manager) (h : m.inverse_symmetric_in_heap) :
    m.inverse_symmetric := by
  have one : ∀ u v k k', inverse_table k = some k' → k' ≠ k → v ∈ m.deps u k →
      u ∈ m.deps v k' := by
    intro u v k k' hk hne hv
    by_cases hu : m.valid u
    · exact h u (List.mem_range.2 hu) k (mem_all_dependencies k) v hv k'
        (mem_all_dependencies k') hk hne
    · rw [deps_invalid m u k hu] at hv
      exact absurd hv (List.not_mem_nil v)
  intro u v k k' hk hne
  exact ⟨one u v k k' hk hne,
    one v u k' k (inverse_table_involutive k k' hk) (fun e => hne e.symm)⟩

/-- C23. Let the graph have no self-edges and satisfy inverse-edge symmetry
for every kind whose inverse is another kind. After a successful
`unit_merge(u, other)` the graph of all units has no self-edges and satisfies
inverse-edge symmetry for these kinds again, and when the unit `o` that
`other` resolves to is not `u`, all dependency sets of `o` are empty. -/
theorem unit_merge_keeps_symmetry (env : Env) (oom : Nat → Bool) (m m' : Manager)
    (u other : UnitId) (r : Int) (hself : m.no_self_edges) (hsym : m.inverse_symmetric)
    (h : unit_merge env oom m u other = some (r, m')) (hr : ¬ r < 0) :
    m'.no_self_edges ∧ m'.inverse_symmetric ∧
    ∀ o, unit_follow_merge m other = some o → o ≠ u → ∀ k, m'.deps o k = [] := by
  obtain ⟨-, o, ho⟩ := unit_merge_resolves env oom m m' u other r h
  by_cases hne : o = u
  · have e := unit_merge_unchanged env oom m m' u other r h (Or.inr (hne ▸ ho))
    rw [e]
    exact ⟨hself, hsym, fun o' ho' hne' => absurd (Option.some.inj (ho.symm.trans ho') ▸ hne) hne'⟩
  obtain ⟨M1, M2, M3⟩ := unit_merge_deps env oom m m' u other o r (fun k => hself o k) h hr ho hne
  have huo : u ≠ o := fun e => hne e.symm
  refine ⟨fun x k hx => ?_, ?_, fun o' ho' _ => ?_⟩
  · by_cases hxo : x = o
    · rw [hxo, M1] at hx
      exact absurd hx (List.not_mem_nil o)
    by_cases hxu : x = u
    · rw [hxu] at hx
      rcases (M2 k u).1 hx with a | a
      · exact hself u k a.1
      · exact a.2 rfl
    by_cases hin : ∃ d, x ∈ m.deps o d
    · rcases ((M3 x k x hxo hxu).1 hin).1 hx with a | a
      · exact hself x k a.1
      · exact hxu a.1
    · exact hself x k (((M3 x k x hxo hxu).2 hin).1 hx)
  · have fwd : ∀ a v k k', inverse_table k = some k' → k' ≠ k → v ∈ m'.deps a k →
        a ∈ m'.deps v k' := by
      intro a v k k' hk hkk hv
      have S := fun a v => hsym a v k k' hk hkk
      -- membership in a set of a unit other than `u` and `o`
      have other_mem : ∀ x y, x ≠ o → x ≠ u → y ∈ m.deps x k' → y ≠ o → y ∈ m'.deps x k' := by
        intro x y hxo hxu hy hyo
        by_cases hin : ∃ d, x ∈ m.deps o d
        · exact ((M3 x k' y hxo hxu).1 hin).2 (Or.inl ⟨hy, hyo⟩)
        · exact ((M3 x k' y hxo hxu).2 hin).2 hy
      by_cases hao : a = o
      · rw [hao, M1] at hv
        exact absurd hv (List.not_mem_nil v)
      by_cases hau : a = u
      · rw [hau] at hv ⊢
        rcases (M2 k v).1 hv with ⟨a1, a2⟩ | ⟨a1, a2⟩
        · have b := (S u v).1 a1
          have hvu : v ≠ u := fun e => hself u k (e ▸ a1)
          have hvo : v ≠ o := fun e => a2 ⟨k', e ▸ b⟩ e
          exact other_mem v u hvo hvu b huo
        · have hvo : v ≠ o := fun e => hself o k (e ▸ a1)
          have b := (S o v).1 a1
          exact ((M3 v k' u hvo a2).1 ⟨k, a1⟩).2 (Or.inr ⟨rfl, b, a2⟩)
      · have into_u : a ∈ m.deps u k' → a ∈ m'.deps u k' :=
          fun b => (M2 k' a).2 (Or.inl ⟨b, fun _ => hao⟩)
        by_cases hin : ∃ d, a ∈ m.deps o d
        · rcases ((M3 a k v hao hau).1 hin).1 hv with ⟨a1, a2⟩ | ⟨a1, a2, -⟩
          · have b := (S a v).1 a1
            by_cases hvu : v = u
            · rw [hvu] at b ⊢
              exact into_u b
            · exact other_mem v a a2 hvu b hao
          · rw [a1]
            exact (M2 k' a).2 (Or.inr ⟨(S a o).1 a2, hau⟩)
        · have a1 := ((M3 a k v hao hau).2 hin).1 hv
          have b := (S a v).1 a1
          have hvo : v ≠ o := fun e => hin ⟨k', e ▸ b⟩
          by_cases hvu : v = u
          · rw [hvu] at b ⊢
            exact into_u b
          · exact other_mem v a hvo hvu b hao
    intro a v k k' hk hkk
    exact ⟨fwd a v k k' hk hkk,
      fwd v a k' k (inverse_table_involutive k k' hk) (fun e => hkk e.symm)⟩
  · rw [← Option.some.inj (ho.symm.trans ho')]
    exact M1

set_option maxRecDepth 100000 in
theorem unit_merge_keeps_symmetry_witness :
    (state_after merge_graph (unit_merge env0 no_oom merge_graph 0 1)).no_self_edges ∧
    (state_after merge_graph (unit_merge env0 no_oom merge_graph 0 1)).inverse_symmetric ∧
    ∀ k, (state_after merge_graph (unit_merge env0 no_oom merge_graph 0 1)).deps 1 k = [] :=
  have T := unit_merge_keeps_symmetry env0 no_oom merge_graph
    (state_after merge_graph (unit_merge env0 no_oom merge_graph 0 1)) 0 1 0
    (no_self_edges_of_heap merge_graph (by decide))
    (inverse_symmetric_of_heap merge_graph (by decide)) (by decide) (by decide)
  ⟨T.1, T.2.1, T.2.2 1 (by decide) (by decide)⟩

theorem members_not_merged_step (oom : Nat → Bool) (m m' : Manager) (u other : UnitId)
    (d : UnitDependency) (ar : Bool) (r : Int)
    (h : unit_add_dependency oom m u d other ar = some (r, m'))
    (hs : ∀ x k y, y ∈ m.deps x k → (m.unit y).load_state ≠ .merged) :
    ∀ x k y, y ∈ m'.deps x k → (m'.unit y).load_state ≠ .merged := by
  obtain ⟨u', o', e1, e2, h1, h2⟩ := unit_add_dependency_spec oom m m' u other d ar r h
  have ls : ∀ y, (m'.unit y).load_state = (m.unit y).load_state := fun y =>
    (ident_fields ((same_ident_add_dependency oom m m' u other d ar r h).2.2 y)).2.2.2.2.1
  have nu := (unit_follow_merge_valid m u u' e1).2
  have no := (unit_follow_merge_valid m other o' e2).2
  intro x k y hy
  rw [ls]
  by_cases hr : r < 0
  · exact hs x k y ((h1 hr x k y).1 hy)
  · rcases ((h2 hr).2 x k y).1 hy with a | ⟨-, -, a⟩
    · exact hs x k y a
    · unfold added at a
      rcases a with ⟨-, -, b⟩ | ⟨-, -, -, b⟩ | ⟨-, -, -, b⟩ | ⟨-, -, -, b⟩
      · rw [b]; exact no
      · rw [b]; exact nu
      · rw [b]; exact no
      · rw [b]; exact nu

theorem members_not_merged_run (calls : List DepCall) (m0 m : Manager)
    (h : run_add_dependency m0 calls = some m)
    (hs : ∀ x k y, y ∈ m0.deps x k → (m0.unit y).load_state ≠ .merged) :
    ∀ x k y, y ∈ m.deps x k → (m.unit y).load_state ≠ .merged := by
  induction calls generalizing m0 with
  | nil =>
    simp only [run_add_dependency, Option.some.injEq] at h
    rw [← h]; exact hs
  | cons c cs ih =>
    unfold run_add_dependency at h
    cases hcall : unit_add_dependency c.oom m0 c.u c.d c.other c.add_reference with
    | none => simp [hcall] at h
    | some p =>
      obtain ⟨r, m1⟩ := p
      simp only [hcall] at h
      by_cases hr : r < 0
      · simp [hr] at h
      · simp only [hr, if_false] at h
        exact ih m1 h (members_not_merged_step _ _ _ _ _ _ _ _ hcall hs)

/-- C29 (amended). Take a graph built from units with empty dependency sets
by successful `unit_add_dependency` calls of which each passes `add_reference`
true or has a kind whose inverse is another kind (any kind but `OnFailure` and
`JoinsNamespaceOf`). After a successful `unit_merge(u, other)` with `other`
distinct from `u`, no unit has `other` in any of its dependency sets. -/
theorem unit_merge_unlinks (env : Env) (oom : Nat → Bool) (m0 m m' : Manager)
    (calls : List DepCall) (u other : UnitId) (r : Int)
    (hempty : m0.no_dependencies) (hrun : run_add_dependency m0 calls = some m)
    (hrev : ∀ c ∈ calls, c.has_reverse = true)
    (h : unit_merge env oom m u other = some (r, m')) (hr : ¬ r < 0) (hne : other ≠ u) :
    ∀ x k, other ∉ m'.deps x k := by
  have e0 : ∀ x k y, ¬ y ∈ m0.deps x k := fun x k y hy => by
    rw [deps_of_no_dependencies m0 hempty] at hy
    exact absurd hy (List.not_mem_nil y)
  obtain ⟨hself, hback⟩ := reverse_edges_run calls m0 m hrun hrev
    ⟨fun x k hx => e0 x k x hx, fun x k y hy => absurd hy (e0 x k y)⟩
  have hnm := members_not_merged_run calls m0 m hrun (fun x k y hy => absurd hy (e0 x k y))
  obtain ⟨-, o, ho⟩ := unit_merge_resolves env oom m m' u other r h
  by_cases hou : o = u
  · have e := unit_merge_unchanged env oom m m' u other r h (Or.inr (hou ▸ ho))
    rw [e]
    intro x k hx
    apply hnm x k other hx
    by_contra hn
    have hv : m.valid other := by
      by_contra hv
      unfold unit_follow_merge follow_merge_loop at ho
      rw [if_neg hv] at ho
      cases ho
    rw [unit_follow_merge_self m other hv hn] at ho
    exact hne ((Option.some.inj ho).trans hou)
  obtain ⟨M1, M2, M3⟩ := unit_merge_deps env oom m m' u other o r (fun k => hself o k) h hr ho hou
  by_cases hm : (m.unit other).load_state = .merged
  · -- a merged unit is in no set before, and the merge adds `u` only
    have none_before : ∀ x k, other ∉ m.deps x k := fun x k hx => hnm x k other hx hm
    intro x k hx
    by_cases hxo : x = o
    · rw [hxo, M1] at hx
      exact absurd hx (List.not_mem_nil other)
    by_cases hxu : x = u
    · rw [hxu] at hx
      rcases (M2 k other).1 hx with a | a
      · exact none_before u k a.1
      · exact none_before o k a.1
    by_cases hin : ∃ d, x ∈ m.deps o d
    · rcases ((M3 x k other hxo hxu).1 hin).1 hx with a | a
      · exact none_before x k a.1
      · exact hne a.1
    · exact none_before x k (((M3 x k other hxo hxu).2 hin).1 hx)
  · have hv : m.valid other := by
      by_contra hv
      unfold unit_follow_merge follow_merge_loop at ho
      rw [if_neg hv] at ho
      cases ho
    have eo : o = other := by
      rw [unit_follow_merge_self m other hv hm] at ho
      exact (Option.some.inj ho).symm
    subst eo
    intro x k hx
    by_cases hxo : x = o
    · rw [hxo, M1] at hx
      exact absurd hx (List.not_mem_nil o)
    by_cases hxu : x = u
    · rw [hxu] at hx
      rcases (M2 k o).1 hx with a | a
      · obtain ⟨k', hk'⟩ := hback u k o a.1
        exact a.2 ⟨k', hk'⟩ rfl
      · exact hself o k a.1
    by_cases hin : ∃ d, x ∈ m.deps o d
    · rcases ((M3 x k o hxo hxu).1 hin).1 hx with a | a
      · exact a.2 rfl
      · exact hou a.1
    · have a := ((M3 x k o hxo hxu).2 hin).1 hx
      obtain ⟨k', hk'⟩ := hback x k o a
      exact hin ⟨k', hk'⟩

set_option maxRecDepth 100000 in
theorem unit_merge_unlinks_witness :
    ((run_add_dependency graph2 [⟨0, .requires, 1, true, no_oom⟩]).getD graph2).deps 0 .requires
      = [1] ∧
    1 ∉ (state_after graph2
      (unit_merge env0 no_oom
        ((run_add_dependency graph2 [⟨0, .requires, 1, true, no_oom⟩]).getD graph2) 0 1)).deps 0
      .requires :=
  ⟨by decide,
    unit_merge_unlinks env0 no_oom graph2
      ((run_add_dependency graph2 [⟨0, .requires, 1, true, no_oom⟩]).getD graph2)
      (state_after graph2
        (unit_merge env0 no_oom
          ((run_add_dependency graph2 [⟨0, .requires, 1, true, no_oom⟩]).getD graph2) 0 1))
      [⟨0, .requires, 1, true, no_oom⟩] 0 1 0 (by decide) (by decide) (by decide) (by decide)
      (by decide) (by decide) 0 .requires⟩

set_option maxRecDepth 100000 in
/-- C29 as stated fails. The call `unit_add_dependency(0, OnFailure, 1, false)`
builds `graph2_on_failure` from `graph2`: the edge has no inverse and no
reference, so unit 1 does not know of it. The call `unit_merge(0, 1)` succeeds
and leaves unit 1 merged and on the cleanup queue, and unit 0 still has unit 1
in its `OnFailure` set. -/
theorem unit_merge_leaves_on_failure_edge :
    graph2.no_dependencies ∧
    run_add_dependency graph2 [⟨0, .on_failure, 1, false, no_oom⟩] = some graph2_on_failure ∧
    (unit_merge env0 no_oom graph2_on_failure 0 1).map
      (fun p => (p.1, p.2.deps 0 .on_failure, (p.2.unit 1).load_state, p.2.cleanup_queue)) =
      some (0, [1], .merged, [1]) := by
  refine ⟨?_, ?_, ?_⟩ <;> decide

/-! ## Chains of merge links (claim C28) -/

theorem follow_merge_loop_mono (m : Manager) : ∀ (n n' : Nat) (y v : UnitId),
    follow_merge_loop m n y = some v → n ≤ n' → follow_merge_loop m n' y = some v := by
  intro n
  induction n with
  | zero => intro n' y v h; simp [follow_merge_loop] at h
  | succ n ih =>
    intro n' y v h hle
    obtain ⟨n'', rfl⟩ : ∃ n'', n' = n'' + 1 := ⟨n' - 1, by omega⟩
    unfold follow_merge_loop at h ⊢
    split_ifs at h ⊢ with hv hm
    · cases hi : (m.unit y).merged_into with
      | none => simp only [hi] at h; cases h
      | some z =>
        simp only [hi] at h ⊢
        exact ih n'' z v h (by omega)
    · exact h

/-- A walk of the loop of `unit_follow_merge` that ends: the units it visits. -/
theorem follow_merge_loop_path (m : Manager) : ∀ (n : Nat) (y v : UnitId),
    follow_merge_loop m n y = some v →
    ∃ k, k < n ∧ (merge_next m)^[k] y = v ∧
      (∀ j, j < k → (m.unit ((merge_next m)^[j] y)).load_state = .merged) ∧
      (∀ j, j ≤ k → m.valid ((merge_next m)^[j] y)) := by
  intro n
  induction n with
  | zero => intro y v h; simp [follow_merge_loop] at h
  | succ n ih =>
    intro y v h
    unfold follow_merge_loop at h
    split_ifs at h with hv hm
    · cases hi : (m.unit y).merged_into with
      | none => simp only [hi] at h; cases h
      | some z =>
        simp only [hi] at h
        obtain ⟨k, hk, e, a, b⟩ := ih z v h
        have hz : merge_next m y = z := by unfold merge_next; rw [hi]; rfl
        refine ⟨k + 1, by omega, ?_, fun j hj => ?_, fun j hj => ?_⟩
        · rw [Function.iterate_succ_apply, hz]; exact e
        · cases j with
          | zero => exact hm
          | succ j =>
            rw [Function.iterate_succ_apply, hz]
            exact a j (by omega)
        · cases j with
          | zero => exact hv
          | succ j =>
            rw [Function.iterate_succ_apply, hz]
            exact b j (by omega)
    · simp only [Option.some.injEq] at h
      refine ⟨0, by omega, h, fun j hj => absurd hj (Nat.not_lt_zero j), fun j hj => ?_⟩
      have : j = 0 := by omega
      rw [this]; exact hv

theorem follow_merge_loop_of_path (m : Manager) : ∀ (k : Nat) (y : UnitId),
    (∀ j, j < k → (m.unit ((merge_next m)^[j] y)).load_state = .merged) →
    (∀ j, j ≤ k → m.valid ((merge_next m)^[j] y)) →
    (m.unit ((merge_next m)^[k] y)).load_state ≠ .merged →
    follow_merge_loop m (k + 1) y = some ((merge_next m)^[k] y) := by
  intro k
  induction k with
  | zero =>
    intro y _ b c
    have b0 : m.valid y := b 0 (Nat.le_refl 0)
    have c0 : (m.unit y).load_state ≠ .merged := c
    unfold follow_merge_loop
    rw [if_pos b0, if_neg c0]
    rfl
  | succ k ih =>
    intro y a b c
    have b0 : m.valid y := b 0 (Nat.zero_le _)
    have a0 : (m.unit y).load_state = .merged := a 0 (Nat.succ_pos k)
    unfold follow_merge_loop
    rw [if_pos b0, if_pos a0]
    cases hi : (m.unit y).merged_into with
    | none =>
      exfalso
      have hz : merge_next m y = y := by unfold merge_next; rw [hi]; rfl
      rw [Function.iterate_fixed hz] at c
      exact c a0
    | some z =>
      have hz : merge_next m y = z := by unfold merge_next; rw [hi]; rfl
      dsimp only
      rw [Function.iterate_succ_apply, hz] at c ⊢
      apply ih z (fun j hj => ?_) (fun j hj => ?_) c
      · have := a (j + 1) (by omega)
        rwa [Function.iterate_succ_apply, hz] at this
      · have := b (j + 1) (by omega)
        rwa [Function.iterate_succ_apply, hz] at this

/-- A walk of the loop of `unit_follow_merge` that ends visits no unit twice,
so it ends within as many steps as there are unit objects: the function
`unit_follow_merge` returns where the loop does. -/
theorem unit_follow_merge_of_loop (m : Manager) (n : Nat) (y v : UnitId)
    (h : follow_merge_loop m n y = some v) : unit_follow_merge m y = some v := by
  obtain ⟨k, -, e, a, b⟩ := follow_merge_loop_path m n y v h
  have nm : (m.unit ((merge_next m)^[k] y)).load_state ≠ .merged := by
    rw [e]; exact (follow_merge_loop_valid m n y v h).2
  have inj : Set.InjOn (fun j => (merge_next m)^[j] y) (Finset.range (k + 1) : Set Nat) := by
    have key : ∀ i j, i < j → j ≤ k → (merge_next m)^[i] y ≠ (merge_next m)^[j] y := by
      intro i j hij hjk he
      have h1 : (merge_next m)^[k - j + i] y = (merge_next m)^[k] y := by
        rw [Function.iterate_add_apply, he, ← Function.iterate_add_apply]
        congr 1
        omega
      exact nm (h1 ▸ a (k - j + i) (by omega))
    intro i hi j hj he
    simp only [Finset.coe_range, Set.mem_Iio] at hi hj
    rcases Nat.lt_trichotomy i j with q | q | q
    · exact absurd he (key i j q (by omega))
    · exact q
    · exact absurd he.symm (key j i q (by omega))
  have card := Finset.card_le_card_of_injOn (fun j => (merge_next m)^[j] y)
    (fun j hj => Finset.mem_range.2 (b j (by
      have := Finset.mem_range.1 hj
      omega))) inj
  simp only [Finset.card_range] at card
  have := follow_merge_loop_of_path m k y a b nm
  rw [e] at this
  exact follow_merge_loop_mono m (k + 1) (m.heap.length + 1) y v this (by omega)

theorem follow_chains_of_heap (m : Manager)
    (h : ∀ y ∈ List.range m.heap.length, (unit_follow_merge m y).isSome = true) :
    ∀ y, m.valid y → ∃ v, unit_follow_merge m y = some v ∧ (m.unit v).load_state ≠ .merged := by
  intro y hy
  obtain ⟨v, hv⟩ := Option.isSome_iff_exists.1 (h y (List.mem_range.2 hy))
  exact ⟨v, hv, (unit_follow_merge_valid m y v hv).2⟩

/-- C28. Let `unit_follow_merge` return on every unit, a unit that is not
merged, and let `u` not be merged. After `unit_merge(u, other)`, whatever it
returns, `unit_follow_merge` returns on every unit, a unit that is not
merged. -/
theorem unit_merge_keeps_chains (env : Env) (oom : Nat → Bool) (m m' : Manager)
    (u other : UnitId) (r : Int)
    (hch : ∀ y, m.valid y → ∃ v, unit_follow_merge m y = some v ∧
      (m.unit v).load_state ≠ .merged)
    (hum : (m.unit u).load_state ≠ .merged)
    (h : unit_merge env oom m u other = some (r, m')) :
    ∀ y, m'.valid y → ∃ v, unit_follow_merge m' y = some v ∧
      (m'.unit v).load_state ≠ .merged := by
  obtain ⟨hvu, o, ho⟩ := unit_merge_resolves env oom m m' u other r h
  by_cases hc : r < 0 ∨ unit_follow_merge m other = some u
  · rw [unit_merge_unchanged env oom m m' u other r h hc]
    exact hch
  have hr : ¬ r < 0 := fun q => hc (Or.inl q)
  have hne : o ≠ u := fun e => hc (Or.inr (e ▸ ho))
  obtain ⟨len, -, st, ⟨om, oi⟩, -⟩ := unit_merge_ident env oom m m' u other o r h hr ho hne
  obtain ⟨hvo, hno⟩ := unit_follow_merge_valid m other o ho
  have val : ∀ x, m'.valid x ↔ m.valid x := fun x => by unfold Manager.valid; rw [len]
  have step : ∀ (n : Nat) (y v : UnitId), follow_merge_loop m n y = some v →
      ∃ v', follow_merge_loop m' (n + 1) y = some v' := by
    intro n
    induction n with
    | zero => intro y v q; simp [follow_merge_loop] at q
    | succ n ih =>
      intro y v q
      unfold follow_merge_loop at q
      split_ifs at q with hv hm
      · have hyo : y ≠ o := fun e => hno (e ▸ hm)
        cases hi : (m.unit y).merged_into with
        | none => simp only [hi] at q; cases q
        | some z =>
          simp only [hi] at q
          obtain ⟨v', hv'⟩ := ih z v q
          refine ⟨v', ?_⟩
          rw [follow_merge_loop, if_pos ((val y).2 hv), if_pos (by rw [(st y hyo).1]; exact hm),
            (st y hyo).2, hi]
          exact hv'
      · by_cases hyo : y = o
        · refine ⟨u, ?_⟩
          rw [follow_merge_loop, if_pos ((val y).2 hv), if_pos (by rw [hyo]; exact om), hyo, oi]
          dsimp only
          rw [follow_merge_loop, if_pos ((val u).2 hvu),
            if_neg (by rw [(st u (fun e => hne e.symm)).1]; exact hum)]
        · refine ⟨y, ?_⟩
          rw [follow_merge_loop, if_pos ((val y).2 hv),
            if_neg (by rw [(st y hyo).1]; exact hm)]
  intro y hy
  obtain ⟨v, hv, -⟩ := hch y ((val y).1 hy)
  obtain ⟨v', hv'⟩ := step _ y v hv
  have := unit_follow_merge_of_loop m' _ y v' hv'
  exact ⟨v', this, (unit_follow_merge_valid m' y v' this).2⟩

set_option maxRecDepth 100000 in
theorem unit_merge_keeps_chains_witness :
    (merge_graph_chain.unit 1).merged_into = some 2 ∧
    ∃ v, unit_follow_merge merge_graph_chain 1 = some v ∧
      (merge_graph_chain.unit v).load_state ≠ .merged :=
  ⟨by decide,
    unit_merge_keeps_chains env0 no_oom merge_graph merge_graph_chain 2 1 0
      (follow_chains_of_heap merge_graph (by decide)) (by decide) (by decide) 1 (by decide)⟩

/-! ## Mutations of a unit and the D-Bus queue (claim C21) -/

theorem same_bus_refl (m : Manager) : m.same_bus m := ⟨rfl, rfl, rfl, fun _ => ⟨rfl, rfl⟩⟩

theorem same_bus_trans {a b c : Manager} (h1 : a.same_bus b) (h2 : b.same_bus c) :
    a.same_bus c :=
  ⟨h2.1.trans h1.1, h2.2.1.trans h1.2.1, h2.2.2.1.trans h1.2.2.1,
    fun x => ⟨((h2.2.2.2 x).1).trans (h1.2.2.2 x).1, ((h2.2.2.2 x).2).trans (h1.2.2.2 x).2⟩⟩

theorem same_bus_modify_heap (m m' : Manager) (v : UnitId) (f : Unit → Unit)
    (hs : m'.subscribed = m.subscribed) (hp : m'.private_buses = m.private_buses)
    (hq : m'.dbus_unit_queue = m.dbus_unit_queue) (h2 : m'.heap = (m.modify v f).heap)
    (hf : ∀ x, (f x).in_dbus_queue = x.in_dbus_queue ∧ (f x).bus_track = x.bus_track) :
    m.same_bus m' := by
  refine ⟨hs, hp, hq, fun x => ?_⟩
  rw [unit_eq_of_heap h2 x, unit_modify]
  split_ifs with h
  · rw [(hf _).1, (hf _).2, h.2]
    exact ⟨rfl, rfl⟩
  · exact ⟨rfl, rfl⟩

theorem same_bus_modify (m : Manager) (v : UnitId) (f : Unit → Unit)
    (hf : ∀ x, (f x).in_dbus_queue = x.in_dbus_queue ∧ (f x).bus_track = x.bus_track) :
    m.same_bus (m.modify v f) :=
  same_bus_modify_heap m _ v f rfl rfl rfl rfl hf

theorem same_bus_setDeps (m : Manager) (v : UnitId) (k : UnitDependency) (s : List UnitId) :
    m.same_bus (m.setDeps v k s) :=
  same_bus_modify m v _ (fun _ => ⟨rfl, rfl⟩)

theorem same_bus_of_heap {m m' : Manager} (h : m'.heap = m.heap)
    (hs : m'.subscribed = m.subscribed) (hp : m'.private_buses = m.private_buses)
    (hq : m'.dbus_unit_queue = m.dbus_unit_queue) : m.same_bus m' :=
  ⟨hs, hp, hq, fun x => by rw [unit_eq_of_heap h x]; exact ⟨rfl, rfl⟩⟩

theorem same_bus_cleanup_queue (m : Manager) (u : UnitId) :
    m.same_bus (unit_add_to_cleanup_queue m u) := by
  unfold unit_add_to_cleanup_queue
  split_ifs
  · exact same_bus_refl m
  · exact same_bus_modify_heap m _ u (fun x => { x with in_cleanup_queue := true }) rfl rfl rfl
      rfl (fun _ => ⟨rfl, rfl⟩)

theorem same_bus_release_resources (env : Env) (m m1 : Manager) (u : UnitId)
    (st : UnitActiveState) (h : unit_release_resources env m u st = some m1) :
    m.same_bus m1 := by
  unfold unit_release_resources at h
  split_ifs at h
  · cases ht : (m.unit u).type with
    | none => simp [ht] at h
    | some t =>
      simp only [ht] at h
      cases hf : (env.unit_vtable t).release_resources with
      | none =>
        simp only [hf, Option.some.injEq] at h; rw [← h]
        exact same_bus_refl m
      | some f =>
        simp only [hf, Option.some.injEq] at h
        rw [← h]
        exact same_bus_modify m u _ (fun x => ⟨rfl, rfl⟩)
  · simp only [Option.some.injEq] at h; rw [← h]
    exact same_bus_refl m

theorem same_bus_check_gc (env : Env) (m m1 : Manager) (u : UnitId) (b : Bool)
    (h : unit_check_gc env m u = some (b, m1)) : m.same_bus m1 := by
  obtain ⟨-, st⟩ := unit_check_gc_step env m m1 u b h
  rcases st with e | ⟨f, e⟩
  · rw [e]; exact same_bus_refl m
  · rw [e]; exact same_bus_modify m u _ (fun x => ⟨rfl, rfl⟩)

theorem same_bus_gc_queue (env : Env) (m m1 : Manager) (u : UnitId)
    (h : unit_add_to_gc_queue env m u = some m1) : m.same_bus m1 := by
  unfold unit_add_to_gc_queue at h
  split_ifs at h
  · cases h; exact same_bus_refl m
  · cases hc : unit_check_gc env m u with
    | none => simp [hc] at h
    | some p =>
      obtain ⟨b, m2⟩ := p
      have fr := same_bus_check_gc env m m2 u b hc
      cases b with
      | true =>
        simp only [hc, Option.some.injEq] at h
        rw [← h]; exact fr
      | false =>
        simp only [hc, Option.some.injEq] at h
        rw [← h]
        exact same_bus_trans fr (same_bus_modify_heap m2 _ u
          (fun x => { x with in_gc_queue := true }) rfl rfl rfl rfl (fun _ => ⟨rfl, rfl⟩))

theorem same_bus_ref_assign (m : Manager) (ref : Nat) (v : Option UnitId) :
    m.same_bus (unit_ref_assign m ref v) := by
  unfold unit_ref_assign
  split_ifs
  · exact same_bus_modify m _ (fun x => { x with slice := v }) (fun _ => ⟨rfl, rfl⟩)
  · exact same_bus_refl m

theorem same_bus_ref_unset (env : Env) (m m1 : Manager) (ref : Nat) (t : Option UnitId)
    (h : unit_ref_unset env m ref t = some m1) : m.same_bus m1 := by
  cases t with
  | none =>
    simp only [unit_ref_unset, Option.some.injEq] at h
    rw [← h]; exact same_bus_refl m
  | some t =>
    simp only [unit_ref_unset, Option.map_eq_some'] at h
    obtain ⟨m2, h2, h⟩ := h
    rw [← h]
    exact same_bus_trans (same_bus_gc_queue env m m2 t h2)
      (same_bus_trans (same_bus_modify m2 t (fun x => { x with refs := x.refs.erase ref })
        (fun _ => ⟨rfl, rfl⟩)) (same_bus_ref_assign _ ref none))

theorem same_bus_ref_set (env : Env) (m m1 : Manager) (other u : UnitId) (ref : Nat)
    (h : unit_ref_set env m other u ref = some m1) : m.same_bus m1 := by
  unfold unit_ref_set at h
  simp only [Option.map_eq_some'] at h
  obtain ⟨m2, h2, h⟩ := h
  have fr := same_bus_ref_unset env m m2 ref _ h2
  rw [← h]
  exact same_bus_trans fr (same_bus_trans (same_bus_ref_assign m2 ref (some u))
    (same_bus_modify _ u (fun x => { x with refs := ref :: x.refs }) (fun _ => ⟨rfl, rfl⟩)))

theorem same_bus_redirect_refs (env : Env) (u other : UnitId) (refs : List Nat) (m m1 : Manager)
    (h : redirect_refs env m u other refs = some m1) : m.same_bus m1 := by
  induction refs generalizing m with
  | nil =>
    simp only [redirect_refs, Option.some.injEq] at h
    rw [← h]; exact same_bus_refl m
  | cons r rs ih =>
    simp only [redirect_refs, Option.bind_eq_some] at h
    obtain ⟨m2, h2, h3⟩ := h
    exact same_bus_trans (same_bus_ref_set env m m2 other u r h2) (ih m2 h3)

theorem same_bus_merge_done (env : Env) (m m1 : Manager) (other : UnitId)
    (h : unit_merge_done env m other = some m1) : m.same_bus m1 := by
  unfold unit_merge_done at h
  split_ifs at h
  · cases ht : (m.unit other).type with
    | none => simp [ht] at h
    | some t =>
      simp only [ht] at h
      cases hf : (env.unit_vtable t).done with
      | none =>
        simp only [hf, Option.some.injEq] at h; rw [← h]
        exact same_bus_refl m
      | some f =>
        simp only [hf, Option.some.injEq] at h
        rw [← h]
        exact same_bus_modify m other _ (fun x => ⟨rfl, rfl⟩)
  · simp only [Option.some.injEq] at h; rw [← h]
    exact same_bus_refl m

theorem same_bus_merge_fix (m : Manager) (u other back : UnitId) (k : UnitDependency) :
    m.same_bus (merge_dependencies_fix m u other back k) := by
  unfold merge_dependencies_fix
  dsimp only
  split_ifs <;> exact same_bus_setDeps _ _ _ _

theorem same_bus_foldl {α : Type} (f : Manager → α → Manager)
    (hf : ∀ (a : Manager) (x : α), a.same_bus (f a x)) (l : List α) (m : Manager) :
    m.same_bus (l.foldl f m) := by
  induction l generalizing m with
  | nil => exact same_bus_refl m
  | cons x xs ih => exact same_bus_trans (hf m x) (ih (f m x))

theorem same_bus_merge_dependencies (m m1 : Manager) (u other : UnitId) (d : UnitDependency)
    (h : merge_dependencies m u other d = some m1) : m.same_bus m1 := by
  unfold merge_dependencies at h
  simp only at h
  split_ifs at h
  simp only [Option.some.injEq] at h
  rw [← h]
  refine same_bus_trans (same_bus_trans (same_bus_trans (same_bus_trans ?_
    (same_bus_setDeps _ _ _ _)) (same_bus_setDeps _ _ _ _)) (same_bus_setDeps _ _ _ _))
    (same_bus_setDeps _ _ _ _)
  exact same_bus_foldl _ (fun (a : Manager) (back : UnitId) => same_bus_foldl _
    (fun (a2 : Manager) (k : UnitDependency) => same_bus_merge_fix a2 u other back k) _ a) _ m

theorem same_bus_merge_loop (u other : UnitId) (ds : List UnitDependency) (m m1 : Manager)
    (h : merge_dependencies_loop m u other ds = some m1) : m.same_bus m1 := by
  induction ds generalizing m with
  | nil =>
    simp only [merge_dependencies_loop, Option.some.injEq] at h
    rw [← h]; exact same_bus_refl m
  | cons d ds ih =>
    simp only [merge_dependencies_loop, Option.bind_eq_some] at h
    obtain ⟨m2, h2, h3⟩ := h
    exact same_bus_trans (same_bus_merge_dependencies m m2 u other d h2) (ih m2 h3)

theorem same_bus_merge_names (oom : Bool) (m m1 : Manager) (u other : UnitId) (r : Int)
    (h : merge_names oom m u other = some (r, m1)) : m.same_bus m1 := by
  unfold merge_names at h
  dsimp only at h
  split_ifs at h
  · cases h; exact same_bus_refl m
  · simp only [Option.some.injEq, Prod.mk.injEq] at h
    rw [← h.2]
    exact same_bus_trans (same_bus_modify m u (fun x =>
        { x with names := (complete_move oom (m.unit u).names (m.unit other).names).2.1 })
        (fun _ => ⟨rfl, rfl⟩))
      (same_bus_modify_heap _ _ other (fun x => { x with names := [], id := none }) rfl rfl rfl
        rfl (fun _ => ⟨rfl, rfl⟩))

theorem same_bus_unit_init (env : Env) (m m1 : Manager) (u : UnitId)
    (h : unit_init env m u = some m1) : m.same_bus m1 := by
  unfold unit_init at h
  cases ht : (m.unit u).type with
  | none => simp [ht] at h
  | some t =>
    simp only [ht] at h
    cases hi : (env.unit_vtable t).init with
    | none =>
      simp only [hi, Option.some.injEq] at h
      rw [← h]; exact same_bus_refl m
    | some f =>
      simp only [hi, Option.some.injEq] at h
      rw [← h]
      exact same_bus_modify m u _ (fun _ => ⟨rfl, rfl⟩)

/-- What `unit_add_to_dbus_queue(u)` does to the queue flag of `u` and to the
queue. -/
theorem unit_add_to_dbus_queue_spec (m m' : Manager) (u : UnitId)
    (h : unit_add_to_dbus_queue m u = some m') :
    ((m'.unit u).in_dbus_queue = true ↔ (m.unit u).in_dbus_queue = true ∨
      ((m.unit u).load_state ≠ .stub ∧ ¬ m.nobody_cares u)) ∧
    (u ∈ m'.dbus_unit_queue ↔ u ∈ m.dbus_unit_queue ∨
      ((m.unit u).in_dbus_queue = false ∧ (m.unit u).load_state ≠ .stub ∧ ¬ m.nobody_cares u)) := by
  unfold unit_add_to_dbus_queue at h
  have fl : ∀ b : Bool, b = false ↔ ¬ b = true := fun b => by cases b <;> simp
  split_ifs at h with h1 h2 h3
  all_goals have hv : m.valid u := valid_of_type m u h1
  · cases h
    rcases h2 with q | q
    · exact ⟨⟨fun a => Or.inl a, fun a => a.elim id (fun b => absurd q b.1)⟩,
        ⟨fun a => Or.inl a, fun a => a.elim id (fun b => absurd q b.2.1)⟩⟩
    · refine ⟨⟨fun a => Or.inl a, fun _ => q⟩,
        ⟨fun a => Or.inl a, fun a => a.elim id (fun b => ?_)⟩⟩
      rw [q] at b
      exact absurd b.1 (by decide)
  · cases h
    rw [unit_modify_self _ _ _ hv]
    push_neg at h2
    refine ⟨⟨fun a => Or.inl a, fun a => a.elim id (fun b => absurd h3 b.2)⟩,
      ⟨fun a => Or.inl a, fun a => a.elim id (fun b => absurd h3 b.2.2)⟩⟩
  · cases h
    push_neg at h2
    have e : ({ m.modify u (fun x => { x with in_dbus_queue := true }) with
        dbus_unit_queue := u :: m.dbus_unit_queue } : Manager).unit u =
        { m.unit u with in_dbus_queue := true } := by
      show (m.modify u (fun x => { x with in_dbus_queue := true })).unit u = _
      rw [unit_modify_self _ _ _ hv]
    rw [e]
    refine ⟨⟨fun _ => Or.inr ⟨h2.1, h3⟩, fun _ => rfl⟩,
      ⟨fun _ => Or.inr ⟨(fl _).2 h2.2, h2.1, h3⟩, fun _ => List.mem_cons_self _ _⟩⟩

/-- A successful `unit_merge(u, other)` that merges `o` into `u`: the state
`m5` in which `unit_add_to_dbus_queue(u)` is called has the D-Bus queue and
the flags of the start, and the call is followed by
`unit_add_to_cleanup_queue(o)`. -/
theorem unit_merge_bus (env : Env) (oom : Nat → Bool) (m m' : Manager) (u other o : UnitId)
    (r : Int) (h : unit_merge env oom m u other = some (r, m')) (hr : ¬ r < 0)
    (ho : unit_follow_merge m other = some o) (hne : o ≠ u) :
    ∃ m5 m6, m.same_bus m5 ∧ unit_add_to_dbus_queue m5 u = some m6 ∧
      m' = unit_add_to_cleanup_queue m6 o := by
  have hE : (-EEXIST : Int) < 0 := by decide
  have hI : (-EINVAL : Int) < 0 := by decide
  have bad : ∀ {e : Int}, e < 0 → some (e, m) = some (r, m') → False := by
    intro e he hh
    simp only [Option.some.injEq, Prod.mk.injEq] at hh
    exact hr (hh.1 ▸ he)
  unfold unit_merge at h
  by_cases hv : m.valid u
  · rw [if_pos hv] at h
    cases hut : (m.unit u).type with
    | none => simp only [hut] at h; cases h
    | some ut =>
      simp only [hut, ho] at h
      rw [if_neg hne] at h
      by_cases c1 : some ut ≠ (m.unit o).type
      · rw [if_pos c1] at h; exact (bad hI h).elim
      rw [if_neg c1] at h
      by_cases c2 : (m.unit u).inst.isNone ≠ (m.unit o).inst.isNone
      · rw [if_pos c2] at h; exact (bad hI h).elim
      rw [if_neg c2] at h
      by_cases c3 : env.unit_type_may_alias ut = false
      · rw [if_pos c3] at h; exact (bad hE h).elim
      rw [if_neg c3] at h
      by_cases c4 : (m.unit o).load_state ≠ .stub ∧ (m.unit o).load_state ≠ .not_found
      · rw [if_pos c4] at h; exact (bad hE h).elim
      rw [if_neg c4] at h
      by_cases c5 : (m.unit o).job.isSome = true
      · rw [if_pos c5] at h; exact (bad hE h).elim
      rw [if_neg c5] at h
      by_cases c6 : (m.unit o).nop_job.isSome = true
      · rw [if_pos c6] at h; exact (bad hE h).elim
      rw [if_neg c6] at h
      · cases hst : unit_active_state env m o with
        | none => simp only [hst] at h; cases h
        | some st =>
          simp only [hst] at h
          by_cases c7 : UNIT_IS_INACTIVE_OR_FAILED st = false
          · rw [if_pos c7] at h; exact (bad hE h).elim
          rw [if_neg c7] at h
          by_cases c8 : reserve_loop oom m u o UnitDependency.all 0 < 0
          · rw [if_pos c8] at h; exact (bad c8 h).elim
          rw [if_neg c8] at h
          · unfold unit_merge_commit at h
            cases hmn : merge_names (oom 22) m u o with
            | none => simp only [hmn] at h; cases h
            | some p =>
              obtain ⟨r1, m1⟩ := p
              simp only [hmn] at h
              by_cases hr1 : r1 < 0
              · rw [if_pos hr1] at h
                simp only [Option.some.injEq, Prod.mk.injEq] at h
                exact absurd (h.1 ▸ hr1) hr
              · rw [if_neg hr1] at h
                simp only [Option.bind_eq_some, Option.map_eq_some', Prod.mk.injEq] at h
                obtain ⟨m2, h2, m3, h3, m5, h5, m6, h6, -, h8⟩ := h
                refine ⟨m5, m6, ?_, h6, h8.symm⟩
                exact same_bus_trans (same_bus_merge_names _ m m1 u o r1 hmn)
                  (same_bus_trans (same_bus_redirect_refs env u o _ m1 m2 h2)
                    (same_bus_trans (same_bus_merge_loop u o _ m2 m3 h3)
                      (same_bus_trans (same_bus_modify m3 o
                        (fun x => { x with load_state := .merged, merged_into := some u })
                        (fun _ => ⟨rfl, rfl⟩))
                        (same_bus_merge_done env _ m5 o h5))))
  · rw [if_neg hv] at h
    cases h

/-- The end of a successful `unit_add_dependency`: the state in which
`unit_add_to_dbus_queue(u)` is called. -/
theorem unit_add_dependency_refs_bus (oom : Nat → Bool) (m m' : Manager) (u other : UnitId)
    (d : UnitDependency) (ar : Bool) (q v r : Int)
    (h : unit_add_dependency_refs oom m u d other ar q v = some (r, m')) (hr : ¬ r < 0) :
    ∃ mp, m.same_bus mp ∧ unit_add_to_dbus_queue mp u = some m' := by
  unfold unit_add_dependency_refs at h
  dsimp only at h
  have neg : ∀ (e : Int) (a : Manager), e < 0 → some (e, a) = some (r, m') → False := by
    intro e a he hh
    simp only [Option.some.injEq, Prod.mk.injEq] at hh
    exact hr (hh.1 ▸ he)
  by_cases h1 : ar = true
  · rw [if_pos h1] at h
    by_cases h2 : (set_put (oom 6) (m.deps u .references) other).1 < 0
    · rw [if_pos h2] at h
      exact (neg _ _ h2 h).elim
    rw [if_neg h2] at h
    by_cases h3 : (set_put (oom 7)
        ((m.setDeps u .references (set_put (oom 6) (m.deps u .references) other).2).deps other
          .referenced_by) u).1 < 0
    · rw [if_pos h3] at h
      exact (neg _ _ h3 h).elim
    rw [if_neg h3] at h
    simp only [Option.map_eq_some', Prod.mk.injEq] at h
    obtain ⟨m5, h5, -, e⟩ := h
    rw [← e]
    exact ⟨_, same_bus_trans (same_bus_setDeps _ _ _ _) (same_bus_setDeps _ _ _ _), h5⟩
  · rw [if_neg h1] at h
    simp only [Option.map_eq_some', Prod.mk.injEq] at h
    obtain ⟨m5, h5, -, e⟩ := h
    rw [← e]
    exact ⟨m, same_bus_refl m, h5⟩

theorem unit_add_dependency_bus (oom : Nat → Bool) (m m' : Manager) (u other u' o' : UnitId)
    (d : UnitDependency) (ar : Bool) (r : Int)
    (h : unit_add_dependency oom m u d other ar = some (r, m')) (hr : ¬ r < 0)
    (hu : unit_follow_merge m u = some u') (ho : unit_follow_merge m other = some o')
    (hne : u' ≠ o') (hdev : ¬ (d = .before ∧ (m.unit o').type = some .device)) :
    ∃ mp, m.same_bus mp ∧ unit_add_to_dbus_queue mp u' = some m' := by
  unfold unit_add_dependency at h
  simp only [hu, ho] at h
  have neg : ∀ (e : Int) (a : Manager), e < 0 → some (e, a) = some (r, m') → False := by
    intro e a he hh
    simp only [Option.some.injEq, Prod.mk.injEq] at hh
    exact hr (hh.1 ▸ he)
  have hM : (-ENOMEM : Int) < 0 := by decide
  rw [if_neg hne, if_neg hdev] at h
  split_ifs at h with a1 a2 a3 a4 a5
  · exact (neg _ _ hM h).elim
  · exact (neg _ _ hM h).elim
  · exact (neg _ _ hM h).elim
  · exact (neg _ _ hM h).elim
  · exact (neg _ _ a5 h).elim
  · cases hi : inverse_table d with
    | none =>
      simp only [hi] at h
      obtain ⟨mp, b, c⟩ := unit_add_dependency_refs_bus oom _ m' u' o' d ar _ _ r h hr
      exact ⟨mp, same_bus_trans (same_bus_setDeps _ _ _ _) b, c⟩
    | some i =>
      simp only [hi] at h
      split_ifs at h with b1 b2
      · exact (neg _ _ b2 h).elim
      · obtain ⟨mp, b, c⟩ := unit_add_dependency_refs_bus oom _ m' u' o' d ar _ _ r h hr
        exact ⟨mp, same_bus_trans (same_bus_trans (same_bus_setDeps _ _ _ _)
          (same_bus_setDeps _ _ _ _)) b, c⟩
      · obtain ⟨mp, b, c⟩ := unit_add_dependency_refs_bus oom _ m' u' o' d ar _ _ r h hr
        exact ⟨mp, same_bus_trans (same_bus_setDeps _ _ _ _) b, c⟩

/-- A successful `unit_add_name` that adds the name `s`: the state in which
`unit_add_to_dbus_queue(u)` is called. -/
theorem unit_add_name_bus (env : Env) (oom : Nat → Bool) (m m1 : Manager) (u : UnitId)
    (text s : String) (r : Int) (h : unit_add_name env oom m u text = some (r, m1))
    (hr : ¬ r < 0) (hs : unit_add_name_resolve env oom m u text = .ok s)
    (hn : s ∉ (m.unit u).names) :
    ∃ mp, m.same_bus mp ∧ unit_add_to_dbus_queue mp u = some m1 := by
  have neg : ∀ (e : Int) (a : Manager), e < 0 → some (e, a) = some (r, m1) → False := by
    intro e a he hh
    simp only [Option.some.injEq, Prod.mk.injEq] at hh
    exact hr (hh.1 ▸ he)
  have hE : (-EEXIST : Int) < 0 := by decide
  have hI : (-EINVAL : Int) < 0 := by decide
  have hB : (-E2BIG : Int) < 0 := by decide
  have hM : (-ENOMEM : Int) < 0 := by decide
  unfold unit_add_name at h
  by_cases hv : m.valid u
  swap
  · rw [if_neg hv] at h; cases h
  rw [if_pos hv] at h
  simp only [hs] at h
  unfold unit_add_name_checked at h
  rw [if_neg hn] at h
  by_cases g1 : hashmap_contains m.units s = true
  · rw [if_pos g1] at h; exact (neg _ _ hE h).elim
  rw [if_neg g1] at h
  by_cases g2 : env.unit_name_is_valid s (UNIT_NAME_PLAIN ||| UNIT_NAME_INSTANCE) = false
  · rw [if_pos g2] at h; exact (neg _ _ hI h).elim
  rw [if_neg g2] at h
  cases ht : env.unit_name_to_type s with
  | none => simp only [ht] at h; exact (neg _ _ hI h).elim
  | some t =>
    simp only [ht] at h
    split_ifs at h with a1 a2 a3 a4 a5 a6
    · exact (neg _ _ hI h).elim
    · exact (neg _ _ a2 h).elim
    · exact (neg _ _ hI h).elim
    · exact (neg _ _ hI h).elim
    · exact (neg _ _ hE h).elim
    · exact (neg _ _ hB h).elim
    · unfold unit_add_name_commit at h
      by_cases b1 : oom 1 = true
      · rw [if_pos b1] at h; exact (neg _ _ hM h).elim
      rw [if_neg b1] at h
      dsimp only at h
      have f1 : m.same_bus (m.modify u (fun x => { x with names := x.names ++ [s] })) :=
        same_bus_modify m u _ (fun _ => ⟨rfl, rfl⟩)
      generalize m.modify u (fun x => { x with names := x.names ++ [s] }) = ma at h f1
      by_cases b2 : (hashmap_put (oom 2) ma.units s u).1 < 0
      · rw [if_pos b2] at h; exact (neg _ _ b2 h).elim
      rw [if_neg b2] at h
      have f2 : ma.same_bus ({ ma with units := (hashmap_put (oom 2) ma.units s u).2 } : Manager) :=
        same_bus_of_heap rfl rfl rfl rfl
      generalize ({ ma with units := (hashmap_put (oom 2) ma.units s u).2 } : Manager) = mb
        at h f2
      by_cases b3 : (mb.unit u).type = none
      · rw [if_pos b3] at h
        simp only [Option.bind_eq_some, Option.map_eq_some', Prod.mk.injEq] at h
        obtain ⟨m4, h4, m5, h5, -, e⟩ := h
        rw [← e]
        refine ⟨m4, same_bus_trans f1 (same_bus_trans f2 (same_bus_trans ?_
          (same_bus_unit_init env _ m4 u h4))), h5⟩
        exact same_bus_modify_heap mb _ u
          (fun x => { x with type := some t, id := some s, inst := (env.unit_name_to_instance s).2 })
          rfl rfl rfl rfl (fun _ => ⟨rfl, rfl⟩)
      · rw [if_neg b3] at h
        simp only [Option.map_eq_some', Prod.mk.injEq] at h
        obtain ⟨m5, h5, -, e⟩ := h
        rw [← e]
        exact ⟨mb, same_bus_trans f1 f2, h5⟩

theorem nobody_cares_of_same_bus {m m' : Manager} (h : m.same_bus m') (u : UnitId) :
    m'.nobody_cares u ↔ m.nobody_cares u := by
  unfold Manager.nobody_cares
  rw [h.1, h.2.1, (h.2.2.2 u).2]

/-- C21 (amended). After a successful call of `unit_add_name` that adds a
name to `u`, of `unit_add_dependency` that inserts an edge from `u`, or of
`unit_merge` into `u`, the unit `u` has `in_dbus_queue` set iff it had before,
or its load state is not stub and a bus client is subscribed to the manager or
tracked by `u` or a private bus is connected; and `u` is on the D-Bus queue of
the manager iff it was before or the call has set `in_dbus_queue`. -/
theorem mutation_dbus_queue (env : Env) (oom : Nat → Bool) (m m' : Manager) (u : UnitId)
    (c : Mutation) (r : Int) (h : c.run env oom m u = some (r, m')) (hr : ¬ r < 0)
    (hc : c.mutates env oom m u) :
    ((m'.unit u).in_dbus_queue = true ↔ (m.unit u).in_dbus_queue = true ∨
      ((m.unit u).load_state ≠ .stub ∧ ¬ m.nobody_cares u)) ∧
    (u ∈ m'.dbus_unit_queue ↔ u ∈ m.dbus_unit_queue ∨
      ((m.unit u).in_dbus_queue = false ∧ (m.unit u).load_state ≠ .stub ∧ ¬ m.nobody_cares u)) := by
  -- the call of `unit_add_to_dbus_queue(u)` in the state `mp`, and what follows it
  have fin : ∀ mp m6 : Manager, m.same_bus mp → unit_add_to_dbus_queue mp u = some m6 →
      m6.same_bus m' → (m'.unit u).load_state = (mp.unit u).load_state →
      (m'.unit u).load_state = (m.unit u).load_state →
      ((m'.unit u).in_dbus_queue = true ↔ (m.unit u).in_dbus_queue = true ∨
        ((m.unit u).load_state ≠ .stub ∧ ¬ m.nobody_cares u)) ∧
      (u ∈ m'.dbus_unit_queue ↔ u ∈ m.dbus_unit_queue ∨
        ((m.unit u).in_dbus_queue = false ∧ (m.unit u).load_state ≠ .stub ∧
          ¬ m.nobody_cares u)) := by
    intro mp m6 b q f l1 l2
    have sp := unit_add_to_dbus_queue_spec mp m6 u q
    rw [← (f.2.2.2 u).1, ← f.2.2.1, nobody_cares_of_same_bus b u, (b.2.2.2 u).1, b.2.2.1,
      ← l1, l2] at sp
    exact sp
  cases c with
  | add_name text =>
    obtain ⟨s, hs, hn⟩ := hc
    obtain ⟨mp, b, q⟩ := unit_add_name_bus env oom m m' u text s r h hr hs hn
    have l1 := (ident_fields ((frame_dbus_queue mp m' u q).1.2.2 u)).2.2.2.2.1
    have l2 := (rest_fields (touches_add_name env oom m m' u text r h).2.2).1
    exact fin mp m' b q (same_bus_refl m') l1 l2
  | add_dependency d other ar =>
    obtain ⟨hu, o, ho, hne, hdev⟩ := hc
    obtain ⟨mp, b, q⟩ := unit_add_dependency_bus oom m m' u other u o d ar r h hr hu ho
      (fun e => hne e.symm) hdev
    have l1 := (ident_fields ((frame_dbus_queue mp m' u q).1.2.2 u)).2.2.2.2.1
    have l2 := (ident_fields ((same_ident_add_dependency oom m m' u other d ar r h).2.2
      u)).2.2.2.2.1
    exact fin mp m' b q (same_bus_refl m') l1 l2
  | merge other =>
    obtain ⟨o, ho, hne⟩ := hc
    obtain ⟨m5, m6, b, q, e⟩ := unit_merge_bus env oom m m' u other o r h hr ho hne
    have l2 := ((unit_merge_ident env oom m m' u other o r h hr ho hne).2.2.1 u
      (fun q => hne q.symm)).1
    have l1 : (m'.unit u).load_state = (m5.unit u).load_state := by
      rw [e]
      exact (ident_fields ((frame_trans (frame_dbus_queue m5 m6 u q)
        (frame_cleanup_queue m6 o)).1.2.2 u)).2.2.2.2.1
    exact fin m5 m6 b q (e ▸ same_bus_cleanup_queue m6 o) l1 l2

set_option maxRecDepth 100000 in
theorem mutation_dbus_queue_witness :
    (((state_after graph_target
        (unit_add_dependency no_oom { graph_target with subscribed := 1 } 0 .wants 1 true)).unit
        0).in_dbus_queue = true ↔
      ((({ graph_target with subscribed := 1 } : Manager).unit 0).in_dbus_queue = true ∨
        ((({ graph_target with subscribed := 1 } : Manager).unit 0).load_state ≠ .stub ∧
          ¬ ({ graph_target with subscribed := 1 } : Manager).nobody_cares 0))) ∧
    (0 ∈ (state_after graph_target
        (unit_add_dependency no_oom { graph_target with subscribed := 1 } 0 .wants 1
          true)).dbus_unit_queue ↔
      0 ∈ ({ graph_target with subscribed := 1 } : Manager).dbus_unit_queue ∨
        ((({ graph_target with subscribed := 1 } : Manager).unit 0).in_dbus_queue = false ∧
          (({ graph_target with subscribed := 1 } : Manager).unit 0).load_state ≠ .stub ∧
          ¬ ({ graph_target with subscribed := 1 } : Manager).nobody_cares 0)) :=
  mutation_dbus_queue env0 no_oom { graph_target with subscribed := 1 }
    (state_after graph_target
      (unit_add_dependency no_oom { graph_target with subscribed := 1 } 0 .wants 1 true))
    0 (.add_dependency .wants 1 true) 0 (by decide) (by decide)
    ⟨by decide, 1, by decide, by decide, by decide⟩

set_option maxRecDepth 100000 in
/-- C21 as stated fails twice. Unit 2 of `registry3` is a stub without a
name: `unit_add_name(2, "b.service")` succeeds, with a bus client subscribed,
and leaves the unit off the D-Bus queue, for `unit_add_to_dbus_queue` returns
at once on a stub. Unit 0 of `graph_target` is loaded:
`unit_add_dependency(0, Wants, 1, true)` inserts the edge with no bus client
subscribed, and leaves the unit off the queue, with `sent_dbus_new_signal`
set. -/
theorem mutation_leaves_dbus_queue :
    (unit_add_name env0 no_oom { registry3 with subscribed := 1 } 2 "b.service").map
      (fun p => (p.1, (p.2.unit 2).names, (p.2.unit 2).load_state, (p.2.unit 2).in_dbus_queue,
        p.2.dbus_unit_queue)) = some (0, ["b.service"], .stub, false, []) ∧
    (unit_add_dependency no_oom graph_target 0 .wants 1 true).map
      (fun p => (p.1, p.2.deps 0 .wants, (p.2.unit 0).load_state, (p.2.unit 0).in_dbus_queue,
        p.2.dbus_unit_queue)) = some (0, [1], .loaded, false, []) ∧
    (unit_add_dependency no_oom graph_target 0 .wants 1 true).map
      (fun p => (p.2.unit 0).sent_dbus_new_signal) = some true := by
  refine ⟨?_, ?_, ?_⟩ <;> decide

/-! ## The main loop of the manager (claim C22) -/

theorem manager_loop_dispatch_spec (dispatch : Manager → Option (Nat × Manager))
    (call : Nat → LoopCall) (k : Manager → Option (List LoopCall × Option Int × Manager))
    (m : Manager) (calls : List LoopCall) (ret : Option Int) (m' : Manager)
    (h : manager_loop_dispatch dispatch call k m = some (calls, ret, m')) :
    (∃ n, n > 0 ∧ calls = [call n] ∧ ret = none) ∨
    (∃ m1 rest, k m1 = some (rest, ret, m') ∧ calls = call 0 :: rest) := by
  unfold manager_loop_dispatch at h
  cases hd : dispatch m with
  | none => simp only [hd] at h; cases h
  | some p =>
    obtain ⟨n, m1⟩ := p
    simp only [hd] at h
    split_ifs at h with hn
    · simp only [Option.some.injEq, Prod.mk.injEq] at h
      exact Or.inl ⟨n, hn, h.1.symm, h.2.1.symm⟩
    · have h0 : n = 0 := by omega
      subst h0
      simp only [Option.map_eq_some'] at h
      obtain ⟨⟨rest, ret1, m2⟩, hk, e⟩ := h
      simp only [Prod.mk.injEq] at e
      obtain ⟨e1, e2, e3⟩ := e
      subst e1 e2 e3
      exact Or.inr ⟨m1, rest, hk, rfl⟩

/-- One round of the loop of `manager_loop`: its calls come in the order of
the code, and the function returns from inside the round only with the
negative value of `sd_event_run`. -/
theorem manager_loop_round_spec (lenv : LoopEnv) (m : Manager) (calls : List LoopCall)
    (ret : Option Int) (m' : Manager)
    (h : manager_loop_round lenv m = some (calls, ret, m')) :
    LoopCall.in_order calls ∧
    (∀ r, ret = some r → r < 0 ∧ LoopCall.event_run r ∈ calls) := by
  unfold manager_loop_round at h
  unfold LoopCall.in_order
  have nr : ∀ r : Int, (none : Option Int) = some r → False := fun r q => by cases q
  rcases manager_loop_dispatch_spec _ _ _ _ _ _ _ h with ⟨n, hn, e, er⟩ | ⟨m1, c1, h1, e1⟩
  · exact ⟨Or.inl ⟨n, hn, e⟩, fun r q => (nr r (er ▸ q)).elim⟩
  rcases manager_loop_dispatch_spec _ _ _ _ _ _ _ h1 with ⟨n, hn, e, er⟩ | ⟨m2, c2, h2, e2⟩
  · exact ⟨Or.inr (Or.inl ⟨n, hn, by rw [e1, e]⟩), fun r q => (nr r (er ▸ q)).elim⟩
  rcases manager_loop_dispatch_spec _ _ _ _ _ _ _ h2 with ⟨n, hn, e, er⟩ | ⟨m3, c3, h3, e3⟩
  · exact ⟨Or.inr (Or.inr (Or.inl ⟨n, hn, by rw [e1, e2, e]⟩)), fun r q => (nr r (er ▸ q)).elim⟩
  rcases manager_loop_dispatch_spec _ _ _ _ _ _ _ h3 with ⟨n, hn, e, er⟩ | ⟨m4, c4, h4, e4⟩
  · exact ⟨Or.inr (Or.inr (Or.inr (Or.inl ⟨n, hn, by rw [e1, e2, e3, e]⟩))),
      fun r q => (nr r (er ▸ q)).elim⟩
  rcases manager_loop_dispatch_spec _ _ _ _ _ _ _ h4 with ⟨n, hn, e, er⟩ | ⟨m5, c5, h5, e5⟩
  · exact ⟨Or.inr (Or.inr (Or.inr (Or.inr (Or.inl ⟨n, hn, by rw [e1, e2, e3, e4, e]⟩)))),
      fun r q => (nr r (er ▸ q)).elim⟩
  rcases manager_loop_dispatch_spec _ _ _ _ _ _ _ h5 with ⟨n, hn, e, er⟩ | ⟨m6, c6, h6, e6⟩
  · exact ⟨Or.inr (Or.inr (Or.inr (Or.inr (Or.inr (Or.inl
      ⟨n, hn, by rw [e1, e2, e3, e4, e5, e]⟩))))), fun r q => (nr r (er ▸ q)).elim⟩
  unfold manager_loop_wait at h6
  simp only [Option.map_eq_some', Prod.mk.injEq] at h6
  obtain ⟨⟨r, m7⟩, -, e, er, -⟩ := h6
  refine ⟨Or.inr (Or.inr (Or.inr (Or.inr (Or.inr (Or.inr
    ⟨r, by rw [e1, e2, e3, e4, e5, e6, ← e]⟩))))), fun r' q => ?_⟩
  rw [← er] at q
  split_ifs at q with hneg
  · simp only [Option.some.injEq] at q
    rw [← q]
    refine ⟨hneg, ?_⟩
    rw [e1, e2, e3, e4, e5, e6, ← e]
    simp

theorem manager_loop_rounds_spec (lenv : LoopEnv) : ∀ (fuel : Nat) (m : Manager)
    (rounds : List (List LoopCall)) (res : LoopResult) (m' : Manager),
    manager_loop_rounds lenv fuel m = some (rounds, res, m') →
    ∀ calls ∈ rounds, LoopCall.in_order calls := by
  intro fuel
  induction fuel with
  | zero => intro m rounds res m' h; simp [manager_loop_rounds] at h
  | succ fuel ih =>
    intro m rounds res m' h
    unfold manager_loop_rounds at h
    split_ifs at h with hc
    · cases hr : manager_loop_round lenv m with
      | none => simp only [hr] at h; cases h
      | some p =>
        obtain ⟨calls, ret, m1⟩ := p
        have sp := (manager_loop_round_spec lenv m calls ret m1 hr).1
        cases ret with
        | some r =>
          simp only [hr, Option.some.injEq, Prod.mk.injEq] at h
          rw [← h.1]
          intro c hcm
          rw [List.mem_singleton.1 hcm]
          exact sp
        | none =>
          simp only [hr, Option.map_eq_some', Prod.mk.injEq] at h
          obtain ⟨⟨rs, res1, m2⟩, hrec, e, -⟩ := h
          rw [← e]
          intro c hcm
          rcases List.mem_cons.1 hcm with q | q
          · rw [q]; exact sp
          · exact ih m1 rs res1 m2 hrec c q
    · simp only [Option.some.injEq, Prod.mk.injEq] at h
      rw [← h.1]
      intro c hcm
      exact absurd hcm (List.not_mem_nil c)

/-- C22 (amended). In every round of the loop of `manager_loop`, from
whatever state it starts, the queues are tried in the order load, job-GC,
unit-GC, cleanup, cgroup, notification: the calls of the round are a
dispatcher that returned a positive count, preceded by all the dispatchers
before it in this order, each of which returned 0, or all six dispatchers, each
of which returned 0, and then the wait for events. So a dispatcher is called
only if every dispatcher before it returned 0 in the same round, the cgroup
queue and no other is dispatched between cleanup and notification, and the
wait is reached only in a round in which every dispatcher returned 0; the
function returns from inside a round only with the negative value of the wait.
The rounds of a call of `manager_loop` that returns are such rounds. -/
theorem manager_loop_order (lenv : LoopEnv) :
    (∀ (m : Manager) (calls : List LoopCall) (ret : Option Int) (m' : Manager),
      manager_loop_round lenv m = some (calls, ret, m') →
      LoopCall.in_order calls ∧ ∀ r, ret = some r → r < 0 ∧ LoopCall.event_run r ∈ calls) ∧
    (∀ (fuel : Nat) (m : Manager) (rounds : List (List LoopCall)) (res : LoopResult)
      (m' : Manager), manager_loop lenv fuel m = some (rounds, res, m') →
      ∀ calls ∈ rounds, LoopCall.in_order calls) := by
  refine ⟨fun m calls ret m' h => manager_loop_round_spec lenv m calls ret m' h, ?_⟩
  intro fuel m rounds res m' h
  unfold manager_loop at h
  simp only [Option.bind_eq_some] at h
  obtain ⟨m1, -, r, -, h⟩ := h
  split_ifs at h
  · simp only [Option.some.injEq, Prod.mk.injEq] at h
    rw [← h.1]
    intro c hcm
    exact absurd hcm (List.not_mem_nil c)
  · exact manager_loop_rounds_spec lenv fuel r.2 rounds res m' h

set_option maxRecDepth 100000 in
theorem manager_loop_order_witness :
    (manager_loop lenv0 3 graph2).map (fun p => (p.1.length, p.2.1)) = some (2, .exit .exit) ∧
    LoopCall.in_order [.load_queue 0, .gc_job_queue 0, .gc_unit_queue 0, .cleanup_queue 0,
      .cgroup_queue 0, .dbus_queue 0, .event_run 1] :=
  ⟨by decide,
    (manager_loop_order lenv0).2 3 graph2
      [[.load_queue 0, .gc_job_queue 0, .gc_unit_queue 0, .cleanup_queue 0,
          .cgroup_queue 0, .dbus_queue 0, .event_run 1],
        [.load_queue 0, .gc_job_queue 0, .gc_unit_queue 0, .cleanup_queue 0,
          .cgroup_queue 0, .dbus_queue 0, .event_run 1]]
      (.exit .exit) { graph2 with n_on_console := 1, exit_code := .exit } (by decide) _
      (List.mem_cons_self _ _)⟩

set_option maxRecDepth 100000 in
/-- C22 as stated fails. With every queue empty, a round of the loop calls
`manager_dispatch_cgroup_queue` after `manager_dispatch_cleanup_queue` and
before `manager_dispatch_dbus_queue`: a queue is dispatched between cleanup
and notification. -/
theorem manager_loop_dispatches_cgroup_queue :
    (manager_loop_round lenv0 graph2).map Prod.fst =
      some [.load_queue 0, .gc_job_queue 0, .gc_unit_queue 0, .cleanup_queue 0,
        .cgroup_queue 0, .dbus_queue 0, .event_run 1] ∧
    (manager_loop lenv0 3 graph2).map Prod.fst =
      some [[.load_queue 0, .gc_job_queue 0, .gc_unit_queue 0, .cleanup_queue 0,
          .cgroup_queue 0, .dbus_queue 0, .event_run 1],
        [.load_queue 0, .gc_job_queue 0, .gc_unit_queue 0, .cleanup_queue 0,
          .cgroup_queue 0, .dbus_queue 0, .event_run 1]] := by
  refine ⟨?_, ?_⟩ <;> decide

/-! ## The counter `n_reloading` across `manager_serialize` (claim C30) -/

/-- What `manager_serialize` does to the state: it writes `n_reloading` and
no other field; the counter is back at its value on entry, or one above it
with a negative return value and no unit serialized; it is back at its value
whenever the call returns 0 or more, and whenever no descriptor fails to be
copied and `dynamic_user_serialize` succeeds. -/
theorem manager_serialize_counter (env : Env) (zenv : SerializeEnv) (m m' : Manager)
    (switching_root : Bool) (r : Int) (ids : List String)
    (h : manager_serialize env zenv m switching_root = some (r, m', ids)) :
    m' = { m with n_reloading := m'.n_reloading } ∧
    (m'.n_reloading = m.n_reloading ∨
      (m'.n_reloading = m.n_reloading + 1 ∧ r < 0 ∧ ids = [])) ∧
    (0 ≤ r → m'.n_reloading = m.n_reloading) ∧
    (m'.n_reloading = m.n_reloading + 1 ↔
      ((m.notify_fd ≥ 0 ∧ zenv.fdset_put_dup m.notify_fd < 0) ∨
       (m.cgroups_agent_fd ≥ 0 ∧ zenv.fdset_put_dup m.cgroups_agent_fd < 0) ∨
       (m.user_lookup_fds.1 ≥ 0 ∧ zenv.fdset_put_dup m.user_lookup_fds.1 < 0) ∨
       (m.user_lookup_fds.1 ≥ 0 ∧ zenv.fdset_put_dup m.user_lookup_fds.2 < 0) ∨
       zenv.dynamic_user_serialize { m with n_reloading := m.n_reloading + 1 } < 0)) := by
  unfold manager_serialize at h
  dsimp only at h
  by_cases c1 : m.notify_fd ≥ 0 ∧ zenv.fdset_put_dup m.notify_fd < 0
  · rw [if_pos c1] at h
    simp only [Option.some.injEq, Prod.mk.injEq] at h
    obtain ⟨e1, e2, e3⟩ := h
    subst e1 e2 e3
    exact ⟨rfl, Or.inr ⟨rfl, c1.2, rfl⟩, fun q => absurd c1.2 (by omega), ⟨fun _ => Or.inl c1, fun _ => rfl⟩⟩
  rw [if_neg c1] at h
  by_cases c2 : m.cgroups_agent_fd ≥ 0 ∧ zenv.fdset_put_dup m.cgroups_agent_fd < 0
  · rw [if_pos c2] at h
    simp only [Option.some.injEq, Prod.mk.injEq] at h
    obtain ⟨e1, e2, e3⟩ := h
    subst e1 e2 e3
    exact ⟨rfl, Or.inr ⟨rfl, c2.2, rfl⟩, fun q => absurd c2.2 (by omega),
      ⟨fun _ => Or.inr (Or.inl c2), fun _ => rfl⟩⟩
  rw [if_neg c2] at h
  by_cases c3 : m.user_lookup_fds.1 ≥ 0 ∧ zenv.fdset_put_dup m.user_lookup_fds.1 < 0
  · rw [if_pos c3] at h
    simp only [Option.some.injEq, Prod.mk.injEq] at h
    obtain ⟨e1, e2, e3⟩ := h
    subst e1 e2 e3
    exact ⟨rfl, Or.inr ⟨rfl, c3.2, rfl⟩, fun q => absurd c3.2 (by omega),
      ⟨fun _ => Or.inr (Or.inr (Or.inl c3)), fun _ => rfl⟩⟩
  rw [if_neg c3] at h
  by_cases c4 : m.user_lookup_fds.1 ≥ 0 ∧ zenv.fdset_put_dup m.user_lookup_fds.2 < 0
  · rw [if_pos c4] at h
    simp only [Option.some.injEq, Prod.mk.injEq] at h
    obtain ⟨e1, e2, e3⟩ := h
    subst e1 e2 e3
    exact ⟨rfl, Or.inr ⟨rfl, c4.2, rfl⟩, fun q => absurd c4.2 (by omega),
      ⟨fun _ => Or.inr (Or.inr (Or.inr (Or.inl c4))), fun _ => rfl⟩⟩
  rw [if_neg c4] at h
  by_cases c5 : zenv.dynamic_user_serialize { m with n_reloading := m.n_reloading + 1 } < 0
  · rw [if_pos c5] at h
    simp only [Option.some.injEq, Prod.mk.injEq] at h
    obtain ⟨e1, e2, e3⟩ := h
    subst e1 e2 e3
    exact ⟨rfl, Or.inr ⟨rfl, c5, rfl⟩, fun q => absurd c5 (by omega),
      ⟨fun _ => Or.inr (Or.inr (Or.inr (Or.inr c5))), fun _ => rfl⟩⟩
  rw [if_neg c5] at h
  have key : ∀ (r1 : Int) (i1 : List String),
      some (r1, { m with n_reloading := m.n_reloading + 1 - 1 }, i1) = some (r, m', ids) →
      m' = { m with n_reloading := m'.n_reloading } ∧ m'.n_reloading = m.n_reloading := by
    intro r1 i1 e
    simp only [Option.some.injEq, Prod.mk.injEq] at e
    rw [← e.2.1]
    exact ⟨rfl, by simp⟩
  have fin : m' = { m with n_reloading := m'.n_reloading } ∧ m'.n_reloading = m.n_reloading := by
    cases hl : manager_serialize_units env zenv { m with n_reloading := m.n_reloading + 1 }
        switching_root m.units with
    | none => simp only [hl] at h; cases h
    | some p =>
      obtain ⟨r1, i1⟩ := p
      simp only [hl] at h
      split_ifs at h
      all_goals exact key _ _ h
  refine ⟨fin.1, Or.inl fin.2, fun _ => fin.2, fun q => ?_, fun q => ?_⟩
  · omega
  · rcases q with q | q | q | q | q
    · exact absurd q c1
    · exact absurd q c2
    · exact absurd q c3
    · exact absurd q c4
    · exact absurd q c5

set_option maxRecDepth 100000 in
/-- C30 fails in the code. With a notification descriptor that cannot be
copied, `manager_serialize` returns the error of `fdset_put_dup` with
`n_reloading` one above its value on entry (1 for 0), and so it does when the
descriptor of the cgroups agent or one of the two user lookup descriptors
cannot be copied and when `dynamic_user_serialize` fails; on the failure of
`unit_serialize`, of `ferror` and of `bus_fdset_add_all`, and on success, the
counter is back at its value on entry. -/
theorem manager_serialize_leaves_n_reloading :
    (graph2.n_reloading = 0 ∧
     (manager_serialize env_serialize { zenv0 with fdset_put_dup := fun _ => -EMFILE }
        { graph2 with notify_fd := 3 } false).map (fun p => (p.1, p.2.1.n_reloading, p.2.2)) =
      some (-EMFILE, 1, [])) ∧
    (manager_serialize env_serialize { zenv0 with fdset_put_dup := fun _ => -EMFILE }
        { graph2 with cgroups_agent_fd := 4 } false).map (fun p => (p.1, p.2.1.n_reloading, p.2.2)) =
      some (-EMFILE, 1, []) ∧
    (manager_serialize env_serialize { zenv0 with fdset_put_dup := fun _ => -EMFILE }
        { graph2 with user_lookup_fds := (5, 6) } false).map
        (fun p => (p.1, p.2.1.n_reloading, p.2.2)) = some (-EMFILE, 1, []) ∧
    (manager_serialize env_serialize
        { zenv0 with fdset_put_dup := fun fd => if fd = 6 then -EMFILE else fd + 10 }
        { graph2 with user_lookup_fds := (5, 6) } false).map
        (fun p => (p.1, p.2.1.n_reloading, p.2.2)) = some (-EMFILE, 1, []) ∧
    (manager_serialize env_serialize { zenv0 with dynamic_user_serialize := fun _ => -ENOMEM }
        graph2 false).map (fun p => (p.1, p.2.1.n_reloading, p.2.2)) = some (-ENOMEM, 1, []) ∧
    (manager_serialize env_serialize { zenv0 with serialize := fun _ u => if u = 1 then - EIO else 0 }
        { graph2 with notify_fd := 3 } false).map (fun p => (p.1, p.2.1.n_reloading, p.2.2)) =
      some (- EIO, 0, ["a.service", "b.service"]) ∧
    (manager_serialize env_serialize { zenv0 with ferror := true }
        { graph2 with notify_fd := 3 } false).map (fun p => (p.1, p.2.1.n_reloading, p.2.2)) =
      some (- EIO, 0, ["a.service", "b.service"]) ∧
    (manager_serialize env_serialize { zenv0 with bus_fdset_add_all := fun _ => -ENOMEM }
        { graph2 with notify_fd := 3 } false).map (fun p => (p.1, p.2.1.n_reloading, p.2.2)) =
      some (-ENOMEM, 0, ["a.service", "b.service"]) ∧
    (manager_serialize env_serialize zenv0
        { graph2 with notify_fd := 3 } false).map (fun p => (p.1, p.2.1.n_reloading, p.2.2)) =
      some (0, 0, ["a.service", "b.service"]) := by
  refine ⟨⟨?_, ?_⟩, ?_, ?_, ?_, ?_, ?_, ?_, ?_, ?_⟩ <;> decide

/-! ## Loading a unit (claim C25) -/

theorem same_load_refl (m : Manager) : m.same_load m := ⟨rfl, rfl, fun _ => ⟨rfl, rfl⟩⟩

theorem same_load_trans {a b c : Manager} (h1 : a.same_load b) (h2 : b.same_load c) :
    a.same_load c :=
  ⟨h2.1.trans h1.1, h2.2.1.trans h1.2.1,
    fun x => ⟨((h2.2.2 x).1).trans (h1.2.2 x).1, ((h2.2.2 x).2).trans (h1.2.2 x).2⟩⟩

theorem same_load_modify_heap (m m' : Manager) (v : UnitId) (f : Unit → Unit)
    (hq : m'.load_queue = m.load_queue) (h2 : m'.heap = (m.modify v f).heap)
    (hf : ∀ x, (f x).in_load_queue = x.in_load_queue ∧ (f x).load_state = x.load_state) :
    m.same_load m' := by
  refine ⟨by rw [h2]; exact length_modify m v f, hq, fun x => ?_⟩
  rw [unit_eq_of_heap h2 x, unit_modify]
  split_ifs with h
  · rw [(hf _).1, (hf _).2, h.2]
    exact ⟨rfl, rfl⟩
  · exact ⟨rfl, rfl⟩

theorem same_load_modify (m : Manager) (v : UnitId) (f : Unit → Unit)
    (hf : ∀ x, (f x).in_load_queue = x.in_load_queue ∧ (f x).load_state = x.load_state) :
    m.same_load (m.modify v f) :=
  same_load_modify_heap m _ v f rfl rfl hf

theorem same_load_setDeps (m : Manager) (v : UnitId) (k : UnitDependency) (s : List UnitId) :
    m.same_load (m.setDeps v k s) :=
  same_load_modify m v _ (fun _ => ⟨rfl, rfl⟩)

theorem same_load_of_heap {m m' : Manager} (h : m'.heap = m.heap)
    (hq : m'.load_queue = m.load_queue) : m.same_load m' :=
  ⟨by rw [h], hq, fun x => by rw [unit_eq_of_heap h x]; exact ⟨rfl, rfl⟩⟩

theorem same_load_foldl {α : Type} (f : Manager → α → Manager)
    (hf : ∀ (a : Manager) (x : α), a.same_load (f a x)) (l : List α) (m : Manager) :
    m.same_load (l.foldl f m) := by
  induction l generalizing m with
  | nil => exact same_load_refl m
  | cons x xs ih => exact same_load_trans (hf m x) (ih (f m x))

theorem same_load_dbus_queue (m m' : Manager) (u : UnitId)
    (h : unit_add_to_dbus_queue m u = some m') : m.same_load m' := by
  unfold unit_add_to_dbus_queue at h
  split_ifs at h <;> cases h
  · exact same_load_refl m
  · exact same_load_modify m u _ (fun x => ⟨rfl, rfl⟩)
  · exact same_load_modify_heap m _ u (fun x => { x with in_dbus_queue := true }) rfl rfl
      (fun _ => ⟨rfl, rfl⟩)

theorem same_load_check_gc (env : Env) (m m1 : Manager) (u : UnitId) (b : Bool)
    (h : unit_check_gc env m u = some (b, m1)) : m.same_load m1 := by
  obtain ⟨-, st⟩ := unit_check_gc_step env m m1 u b h
  rcases st with e | ⟨f, e⟩
  · rw [e]; exact same_load_refl m
  · rw [e]; exact same_load_modify m u _ (fun x => ⟨rfl, rfl⟩)

theorem same_load_gc_queue (env : Env) (m m1 : Manager) (u : UnitId)
    (h : unit_add_to_gc_queue env m u = some m1) : m.same_load m1 := by
  unfold unit_add_to_gc_queue at h
  split_ifs at h
  · cases h; exact same_load_refl m
  · cases hc : unit_check_gc env m u with
    | none => simp [hc] at h
    | some p =>
      obtain ⟨b, m2⟩ := p
      have fr := same_load_check_gc env m m2 u b hc
      cases b with
      | true =>
        simp only [hc, Option.some.injEq] at h
        rw [← h]; exact fr
      | false =>
        simp only [hc, Option.some.injEq] at h
        rw [← h]
        exact same_load_trans fr (same_load_modify_heap m2 _ u
          (fun x => { x with in_gc_queue := true }) rfl rfl (fun _ => ⟨rfl, rfl⟩))

theorem same_load_add_dependency_fail (m : Manager) (u : UnitId) (d : UnitDependency)
    (other : UnitId) (q v w : Int) : m.same_load (unit_add_dependency_fail m u d other q v w) := by
  unfold unit_add_dependency_fail
  dsimp only
  have s1 : ∀ a : Manager, a.same_load (match inverse_table d with
      | some i => a.setDeps other i (set_remove (a.deps other i) u)
      | none => a) := by
    intro a
    cases inverse_table d with
    | none => exact same_load_refl a
    | some i => exact same_load_setDeps _ _ _ _
  by_cases hq : q > 0 <;> by_cases hv : v > 0 <;> by_cases hw : w > 0 <;>
    simp only [hq, hv, hw, if_true, if_false]
  all_goals first
    | exact same_load_refl m
    | exact s1 _
    | exact same_load_setDeps _ _ _ _
    | exact same_load_trans (s1 _) (same_load_setDeps _ _ _ _)
    | exact same_load_trans (same_load_setDeps _ _ _ _) (s1 _)
    | exact same_load_trans (same_load_setDeps _ _ _ _) (same_load_setDeps _ _ _ _)
    | exact same_load_trans (same_load_setDeps _ _ _ _)
        (same_load_trans (s1 _) (same_load_setDeps _ _ _ _))

theorem same_load_add_dependency_refs (oom : Nat → Bool) (m m' : Manager) (u other : UnitId)
    (d : UnitDependency) (ar : Bool) (q v : Int) (r : Int)
    (h : unit_add_dependency_refs oom m u d other ar q v = some (r, m')) : m.same_load m' := by
  unfold unit_add_dependency_refs at h
  by_cases har : ar = true
  · rw [if_pos har] at h
    dsimp only at h
    split_ifs at h
    · simp only [Option.some.injEq, Prod.mk.injEq] at h
      rw [← h.2]
      exact same_load_add_dependency_fail _ _ _ _ _ _ _
    · simp only [Option.some.injEq, Prod.mk.injEq] at h
      rw [← h.2]
      exact same_load_trans (same_load_setDeps _ _ _ _)
        (same_load_add_dependency_fail _ _ _ _ _ _ _)
    · simp only [Option.map_eq_some'] at h
      obtain ⟨m5, h5, h6⟩ := h
      simp only [Prod.mk.injEq] at h6
      rw [← h6.2]
      exact same_load_trans (same_load_setDeps _ _ _ _)
        (same_load_trans (same_load_setDeps _ _ _ _) (same_load_dbus_queue _ _ _ h5))
  · rw [if_neg har] at h
    simp only [Option.map_eq_some'] at h
    obtain ⟨m5, h5, h6⟩ := h
    simp only [Prod.mk.injEq] at h6
    rw [← h6.2]
    exact same_load_dbus_queue _ _ _ h5

/-- A call of `unit_add_dependency` changes no load state and no load queue
flag. -/
theorem same_load_add_dependency (oom : Nat → Bool) (m m' : Manager) (u other : UnitId)
    (d : UnitDependency) (ar : Bool) (r : Int)
    (h : unit_add_dependency oom m u d other ar = some (r, m')) : m.same_load m' := by
  unfold unit_add_dependency at h
  cases hfu : unit_follow_merge m u with
  | none => simp [hfu] at h
  | some u' =>
  cases hfo : unit_follow_merge m other with
  | none => simp [hfu, hfo] at h
  | some o' =>
  simp only [hfu, hfo] at h
  have same : ∀ e : Int, some (e, m) = some (r, m') → m.same_load m' := by
    intro e hh
    simp only [Option.some.injEq, Prod.mk.injEq] at hh
    rw [← hh.2]; exact same_load_refl m
  split_ifs at h with g1 g2 g3 g4 g5 g6 g7
  all_goals first
    | exact same _ h
    | skip
  cases hi : inverse_table d with
  | none =>
    simp only [hi] at h
    exact same_load_trans (same_load_setDeps _ _ _ _)
      (same_load_add_dependency_refs _ _ _ _ _ _ _ _ _ _ h)
  | some i =>
    simp only [hi] at h
    split_ifs at h
    · simp only [Option.some.injEq, Prod.mk.injEq] at h
      rw [← h.2]
      exact same_load_trans (same_load_setDeps _ _ _ _)
        (same_load_add_dependency_fail _ _ _ _ _ _ _)
    · exact same_load_trans (same_load_setDeps _ _ _ _)
        (same_load_trans (same_load_setDeps _ _ _ _)
          (same_load_add_dependency_refs _ _ _ _ _ _ _ _ _ _ h))
    · exact same_load_trans (same_load_setDeps _ _ _ _)
        (same_load_add_dependency_refs _ _ _ _ _ _ _ _ _ _ h)

theorem same_load_default_target_dependency (oom : Nat → Bool) (m m' : Manager)
    (u target : UnitId) (r : Int)
    (h : unit_add_default_target_dependency oom m u target = some (r, m')) : m.same_load m' := by
  unfold unit_add_default_target_dependency at h
  have same : ∀ e : Int, some (e, m) = some (r, m') → m.same_load m' := by
    intro e hh
    simp only [Option.some.injEq, Prod.mk.injEq] at hh
    rw [← hh.2]; exact same_load_refl m
  split_ifs at h
  all_goals first
    | exact same _ h
    | exact same_load_add_dependency _ _ _ _ _ _ _ _ h

theorem same_load_unit_done (env : Env) (m : Manager) (u : UnitId) :
    m.same_load (unit_done env m u) := by
  unfold unit_done
  cases (m.unit u).type with
  | none => exact same_load_refl m
  | some t =>
    dsimp only
    cases (env.unit_vtable t).done with
    | none => exact same_load_refl m
    | some f => exact same_load_modify m u _ (fun _ => ⟨rfl, rfl⟩)

theorem same_load_job_uninstall (m : Manager) (u : UnitId) (j : Nat) (nop : Bool) :
    m.same_load (job_uninstall m u j nop) := by
  unfold job_uninstall
  refine same_load_modify_heap m _ u
    (fun x => if nop = true then { x with nop_job := none } else { x with job := none }) rfl rfl
    (fun x => ?_)
  cases nop <;> exact ⟨rfl, rfl⟩

theorem same_load_unit_free_jobs (m : Manager) (u : UnitId) :
    m.same_load (unit_free_jobs m u) := by
  unfold unit_free_jobs
  dsimp only
  have s1 : m.same_load (match (m.unit u).job with
      | some j => job_uninstall m u j false
      | none => m) := by
    cases (m.unit u).job with
    | none => exact same_load_refl m
    | some j => exact same_load_job_uninstall m u j false
  have s2 : ∀ m1 : Manager, m.same_load m1 → m.same_load (match (m1.unit u).nop_job with
      | some j => job_uninstall m1 u j true
      | none => m1) := by
    intro m1 h1
    cases (m1.unit u).nop_job with
    | none => exact h1
    | some j => exact same_load_trans h1 (same_load_job_uninstall m1 u j true)
  exact s2 _ s1

theorem same_load_bidi_set_free_other (env : Env) (m m1 : Manager) (u other : UnitId)
    (h : bidi_set_free_other env m u other = some m1) : m.same_load m1 := by
  unfold bidi_set_free_other at h
  split_ifs at h
  exact same_load_trans
    (same_load_foldl _ (fun a d => same_load_setDeps a other d _) UnitDependency.all m)
    (same_load_gc_queue env _ m1 other h)

theorem same_load_bidi_set_free (env : Env) (u : UnitId) (s : List UnitId) (m m1 : Manager)
    (h : bidi_set_free env u m s = some m1) : m.same_load m1 := by
  induction s generalizing m with
  | nil =>
    simp only [bidi_set_free, Option.some.injEq] at h
    rw [← h]; exact same_load_refl m
  | cons o rest ih =>
    simp only [bidi_set_free, Option.bind_eq_some] at h
    obtain ⟨m2, h2, h3⟩ := h
    exact same_load_trans (same_load_bidi_set_free_other env m m2 u o h2) (ih m2 h3)

theorem same_load_unit_free_dependencies (env : Env) (u : UnitId) (ds : List UnitDependency)
    (m m1 : Manager) (h : unit_free_dependencies env u m ds = some m1) : m.same_load m1 := by
  induction ds generalizing m with
  | nil =>
    simp only [unit_free_dependencies, Option.some.injEq] at h
    rw [← h]; exact same_load_refl m
  | cons d ds ih =>
    simp only [unit_free_dependencies, Option.bind_eq_some] at h
    obtain ⟨m2, h2, h3⟩ := h
    exact same_load_trans (same_load_bidi_set_free env u _ m m2 h2) (ih m2 h3)

theorem same_load_ref_assign (m : Manager) (ref : Nat) (v : Option UnitId) :
    m.same_load (unit_ref_assign m ref v) := by
  unfold unit_ref_assign
  split_ifs
  · exact same_load_modify m _ (fun x => { x with slice := v }) (fun _ => ⟨rfl, rfl⟩)
  · exact same_load_refl m

theorem same_load_ref_unset (env : Env) (m m1 : Manager) (ref : Nat) (t : Option UnitId)
    (h : unit_ref_unset env m ref t = some m1) : m.same_load m1 := by
  cases t with
  | none =>
    simp only [unit_ref_unset, Option.some.injEq] at h
    rw [← h]; exact same_load_refl m
  | some t =>
    simp only [unit_ref_unset, Option.map_eq_some'] at h
    obtain ⟨m2, h2, h⟩ := h
    rw [← h]
    exact same_load_trans (same_load_gc_queue env m m2 t h2)
      (same_load_trans (same_load_modify m2 t (fun x => { x with refs := x.refs.erase ref })
        (fun _ => ⟨rfl, rfl⟩)) (same_load_ref_assign _ ref none))

theorem same_load_unit_free_refs (env : Env) (u : UnitId) (refs : List Nat) (m m1 : Manager)
    (h : unit_free_refs env u m refs = some m1) : m.same_load m1 := by
  induction refs generalizing m with
  | nil =>
    simp only [unit_free_refs, Option.some.injEq] at h
    rw [← h]; exact same_load_refl m
  | cons r rs ih =>
    simp only [unit_free_refs, Option.bind_eq_some] at h
    obtain ⟨m2, h2, h3⟩ := h
    exact same_load_trans (same_load_ref_unset env m m2 r _ h2) (ih _ h3)

theorem same_load_unit_free_names (m : Manager) (u : UnitId) :
    m.same_load (unit_free_names m u) :=
  same_load_of_heap rfl rfl

/-- What `unit_free(u)` does to the load state and the load queue of the
other unit objects: nothing, and no unit comes onto the load queue. -/
theorem unit_free_load (env : Env) (m m' : Manager) (u : UnitId)
    (h : unit_free env m u = some m') : m.same_load_but m' u := by
  unfold unit_free at h
  split_ifs at h
  dsimp only at h
  simp only [Option.bind_eq_some, Option.map_eq_some'] at h
  obtain ⟨m6, h6, m7s, h7s, m8, h8, e⟩ := h
  have s6 : m.same_load m6 :=
    same_load_trans (same_load_unit_done env m u)
      (same_load_trans (same_load_modify _ u
          (fun x => { x with deserialized_refs := [], requires_mounts_for := [] })
          (fun _ => ⟨rfl, rfl⟩))
        (same_load_trans (same_load_unit_free_names _ u)
          (same_load_trans (same_load_unit_free_jobs _ u)
            (same_load_unit_free_dependencies env u _ _ m6 h6))))
  have s8 := same_load_trans (same_load_ref_unset env _ m7s _ _ h7s)
    (same_load_unit_free_refs env u _ _ m8 h8)
  have q7 : ∀ x, x ∈ m8.load_queue → x ∈ m6.load_queue := by
    intro x hx
    rw [s8.2.1] at hx
    have hx' : x ∈ (unit_free_queues m6 u).load_queue := hx
    unfold unit_free_queues at hx'
    dsimp only at hx'
    split_ifs at hx'
    · exact List.mem_of_mem_erase hx'
    · exact hx'
  have u7 : ∀ x, (m8.unit x).in_load_queue = (m6.unit x).in_load_queue ∧
      (m8.unit x).load_state = (m6.unit x).load_state := fun x => s8.2.2 x
  rw [← e]
  refine ⟨?_, fun x _ hx => ?_, fun x hx => ?_⟩
  · show (m8.heap.set u {}).length = _
    rw [List.length_set, s8.1]
    exact s6.1
  · have hx' : x ∈ m8.load_queue := hx
    have := q7 x hx'
    rw [s6.2.1] at this
    exact this
  · have ex : ({ m8 with heap := m8.heap.set u {} } : Manager).unit x = m8.unit x := by
      unfold Manager.unit
      show (m8.heap.set u {}).getD x default = m8.heap.getD x default
      simp only [List.getD_eq_getElem?_getD]
      rw [List.getElem?_set_ne (fun a => hx a.symm)]
    rw [ex, (u7 x).1, (u7 x).2]
    exact s6.2.2 x

theorem same_load_but_of_same_load {a b : Manager} (h : a.same_load b) (u : UnitId) :
    a.same_load_but b u := ⟨h.1, fun x _ q => by rw [← h.2.1]; exact q, fun x _ => h.2.2 x⟩

theorem same_load_but_trans {a b c : Manager} {u : UnitId} (h1 : a.same_load_but b u)
    (h2 : b.same_load_but c u) : a.same_load_but c u :=
  ⟨h2.1.trans h1.1, fun x hx q => h1.2.1 x hx (h2.2.1 x hx q), fun x hx =>
    ⟨((h2.2.2 x hx).1).trans (h1.2.2 x hx).1, ((h2.2.2 x hx).2).trans (h1.2.2 x hx).2⟩⟩

theorem same_load_but_load_queue (m m' : Manager) (u : UnitId)
    (h : unit_add_to_load_queue m u = some m') : m.same_load_but m' u := by
  unfold unit_add_to_load_queue at h
  split_ifs at h <;> cases h
  · exact same_load_but_of_same_load (same_load_refl m) u
  · refine ⟨length_modify m u (fun x => { x with in_load_queue := true }),
      fun x hx q => (List.mem_cons.1 q).resolve_left hx, fun x hx => ?_⟩
    have e : ({ m.modify u (fun x => { x with in_load_queue := true }) with
        load_queue := u :: m.load_queue } : Manager).unit x = m.unit x := by
      show (m.modify u (fun x => { x with in_load_queue := true })).unit x = _
      exact unit_modify_other m u x _ hx
    rw [e]
    exact ⟨rfl, rfl⟩

theorem load_stable_refl (m : Manager) : m.load_stable m :=
  ⟨Nat.le_refl _, fun _ _ => id, fun _ _ => ⟨id, id⟩⟩

theorem load_stable_trans {a b c : Manager} (h1 : a.load_stable b) (h2 : b.load_stable c) :
    a.load_stable c :=
  ⟨Nat.le_trans h1.1 h2.1,
    fun x hx q => h2.2.1 x (Nat.lt_of_lt_of_le hx h1.1) (h1.2.1 x hx q),
    fun x hx =>
    ⟨fun q => (h2.2.2 x (Nat.lt_of_lt_of_le hx h1.1)).1 ((h1.2.2 x hx).1 q),
     fun q => (h2.2.2 x (Nat.lt_of_lt_of_le hx h1.1)).2 ((h1.2.2 x hx).2 q)⟩⟩

theorem load_stable_of_same_load {a b : Manager} (h : a.same_load b) : a.load_stable b :=
  ⟨Nat.le_of_eq h.1.symm, fun x _ q => by rw [h.2.1]; exact q, fun x _ =>
    ⟨fun q => by rw [(h.2.2 x).1]; exact q, fun q => by rw [(h.2.2 x).2]; exact q⟩⟩

theorem load_stable_of_heap {m m' : Manager} (h : m'.heap = m.heap)
    (hq : m'.load_queue = m.load_queue) : m.load_stable m' :=
  load_stable_of_same_load (same_load_of_heap h hq)

theorem load_stable_modify_heap_mem (m m' : Manager) (v : UnitId) (f : Unit → Unit)
    (hq : ∀ x, x ∈ m'.load_queue → x ∈ m.load_queue) (h2 : m'.heap = (m.modify v f).heap)
    (hf : ∀ x, (x.in_load_queue = false → (f x).in_load_queue = false) ∧
      (x.load_state ≠ .stub → (f x).load_state ≠ .stub)) : m.load_stable m' := by
  refine ⟨by rw [h2, length_modify], fun x _ q1 q2 => q1 (hq x q2), fun x _ => ?_⟩
  rw [unit_eq_of_heap h2 x, unit_modify]
  split_ifs with h
  · rw [h.2]; exact hf _
  · exact ⟨id, id⟩

theorem load_stable_modify_heap (m m' : Manager) (v : UnitId) (f : Unit → Unit)
    (hq : m'.load_queue = m.load_queue) (h2 : m'.heap = (m.modify v f).heap)
    (hf : ∀ x, (x.in_load_queue = false → (f x).in_load_queue = false) ∧
      (x.load_state ≠ .stub → (f x).load_state ≠ .stub)) : m.load_stable m' :=
  load_stable_modify_heap_mem m m' v f (fun x q => by rw [← hq]; exact q) h2 hf

theorem load_stable_valid {a b : Manager} (h : a.load_stable b) (x : UnitId) (hx : a.valid x) :
    b.valid x := Nat.lt_of_lt_of_le hx h.1

theorem same_load_cleanup_queue (m : Manager) (u : UnitId) :
    m.same_load (unit_add_to_cleanup_queue m u) := by
  unfold unit_add_to_cleanup_queue
  split_ifs
  · exact same_load_refl m
  · exact same_load_modify_heap m _ u (fun x => { x with in_cleanup_queue := true }) rfl rfl
      (fun _ => ⟨rfl, rfl⟩)

theorem same_load_ref_set (env : Env) (m m1 : Manager) (other u : UnitId) (ref : Nat)
    (h : unit_ref_set env m other u ref = some m1) : m.same_load m1 := by
  unfold unit_ref_set at h
  simp only [Option.map_eq_some'] at h
  obtain ⟨m2, h2, h⟩ := h
  have fr := same_load_ref_unset env m m2 ref _ h2
  rw [← h]
  exact same_load_trans fr (same_load_trans (same_load_ref_assign m2 ref (some u))
    (same_load_modify _ u (fun x => { x with refs := ref :: x.refs }) (fun _ => ⟨rfl, rfl⟩)))

theorem same_load_redirect_refs (env : Env) (u other : UnitId) (refs : List Nat)
    (m m1 : Manager) (h : redirect_refs env m u other refs = some m1) : m.same_load m1 := by
  induction refs generalizing m with
  | nil =>
    simp only [redirect_refs, Option.some.injEq] at h
    rw [← h]; exact same_load_refl m
  | cons r rs ih =>
    simp only [redirect_refs, Option.bind_eq_some] at h
    obtain ⟨m2, h2, h3⟩ := h
    exact same_load_trans (same_load_ref_set env m m2 other u r h2) (ih m2 h3)

theorem same_load_merge_done (env : Env) (m m1 : Manager) (other : UnitId)
    (h : unit_merge_done env m other = some m1) : m.same_load m1 := by
  unfold unit_merge_done at h
  split_ifs at h
  · cases ht : (m.unit other).type with
    | none => simp [ht] at h
    | some t =>
      simp only [ht] at h
      cases hf : (env.unit_vtable t).done with
      | none =>
        simp only [hf, Option.some.injEq] at h; rw [← h]
        exact same_load_refl m
      | some f =>
        simp only [hf, Option.some.injEq] at h
        rw [← h]
        exact same_load_modify m other _ (fun x => ⟨rfl, rfl⟩)
  · simp only [Option.some.injEq] at h; rw [← h]
    exact same_load_refl m

theorem same_load_merge_fix (m : Manager) (u other back : UnitId) (k : UnitDependency) :
    m.same_load (merge_dependencies_fix m u other back k) := by
  unfold merge_dependencies_fix
  dsimp only
  split_ifs <;> exact same_load_setDeps _ _ _ _

theorem same_load_merge_dependencies (m m1 : Manager) (u other : UnitId) (d : UnitDependency)
    (h : merge_dependencies m u other d = some m1) : m.same_load m1 := by
  unfold merge_dependencies at h
  simp only at h
  split_ifs at h
  simp only [Option.some.injEq] at h
  rw [← h]
  refine same_load_trans (same_load_trans (same_load_trans (same_load_trans ?_
    (same_load_setDeps _ _ _ _)) (same_load_setDeps _ _ _ _)) (same_load_setDeps _ _ _ _))
    (same_load_setDeps _ _ _ _)
  exact same_load_foldl _ (fun (a : Manager) (back : UnitId) => same_load_foldl _
    (fun (a2 : Manager) (k : UnitDependency) => same_load_merge_fix a2 u other back k) _ a) _ m

theorem same_load_merge_loop (u other : UnitId) (ds : List UnitDependency) (m m1 : Manager)
    (h : merge_dependencies_loop m u other ds = some m1) : m.same_load m1 := by
  induction ds generalizing m with
  | nil =>
    simp only [merge_dependencies_loop, Option.some.injEq] at h
    rw [← h]; exact same_load_refl m
  | cons d ds ih =>
    simp only [merge_dependencies_loop, Option.bind_eq_some] at h
    obtain ⟨m2, h2, h3⟩ := h
    exact same_load_trans (same_load_merge_dependencies m m2 u other d h2) (ih m2 h3)

theorem same_load_merge_names (oom : Bool) (m m1 : Manager) (u other : UnitId) (r : Int)
    (h : merge_names oom m u other = some (r, m1)) : m.same_load m1 := by
  unfold merge_names at h
  dsimp only at h
  split_ifs at h
  · cases h; exact same_load_refl m
  · simp only [Option.some.injEq, Prod.mk.injEq] at h
    rw [← h.2]
    exact same_load_trans (same_load_modify m u (fun x =>
        { x with names := (complete_move oom (m.unit u).names (m.unit other).names).2.1 })
        (fun _ => ⟨rfl, rfl⟩))
      (same_load_modify_heap _ _ other (fun x => { x with names := [], id := none }) rfl rfl
        (fun _ => ⟨rfl, rfl⟩))

theorem same_load_unit_init (env : Env) (m m1 : Manager) (u : UnitId)
    (h : unit_init env m u = some m1) : m.same_load m1 := by
  unfold unit_init at h
  cases ht : (m.unit u).type with
  | none => simp [ht] at h
  | some t =>
    simp only [ht] at h
    cases hi : (env.unit_vtable t).init with
    | none =>
      simp only [hi, Option.some.injEq] at h
      rw [← h]; exact same_load_refl m
    | some f =>
      simp only [hi, Option.some.injEq] at h
      rw [← h]
      exact same_load_modify m u _ (fun _ => ⟨rfl, rfl⟩)

theorem same_load_add_name_commit (env : Env) (oom : Nat → Bool) (m m1 : Manager) (u : UnitId)
    (s : String) (t : UnitType) (i : Option String) (r : Int)
    (h : unit_add_name_commit env oom m u s t i = some (r, m1)) : m.same_load m1 := by
  unfold unit_add_name_commit at h
  by_cases b1 : oom 1 = true
  · rw [if_pos b1] at h
    simp only [Option.some.injEq, Prod.mk.injEq] at h
    rw [← h.2]; exact same_load_refl m
  rw [if_neg b1] at h
  dsimp only at h
  have f1 : m.same_load (m.modify u (fun x => { x with names := x.names ++ [s] })) :=
    same_load_modify m u _ (fun _ => ⟨rfl, rfl⟩)
  generalize m.modify u (fun x => { x with names := x.names ++ [s] }) = ma at h f1
  by_cases b2 : (hashmap_put (oom 2) ma.units s u).1 < 0
  · rw [if_pos b2] at h
    simp only [Option.some.injEq, Prod.mk.injEq] at h
    rw [← h.2]
    exact same_load_trans f1 (same_load_modify ma u
      (fun x => { x with names := x.names.filter (fun n => decide (n ≠ s)) })
      (fun _ => ⟨rfl, rfl⟩))
  rw [if_neg b2] at h
  have f2 : ma.same_load ({ ma with units := (hashmap_put (oom 2) ma.units s u).2 } : Manager) :=
    same_load_of_heap rfl rfl
  generalize ({ ma with units := (hashmap_put (oom 2) ma.units s u).2 } : Manager) = mb
    at h f2
  by_cases b3 : (mb.unit u).type = none
  · rw [if_pos b3] at h
    simp only [Option.bind_eq_some, Option.map_eq_some', Prod.mk.injEq] at h
    obtain ⟨m4, h4, m5, h5, -, e⟩ := h
    rw [← e]
    refine same_load_trans f1 (same_load_trans f2 (same_load_trans ?_
      (same_load_trans (same_load_unit_init env _ m4 u h4) (same_load_dbus_queue m4 m5 u h5))))
    exact same_load_modify_heap mb _ u
      (fun x => { x with type := some t, id := some s, inst := i })
      rfl rfl (fun _ => ⟨rfl, rfl⟩)
  · rw [if_neg b3] at h
    simp only [Option.map_eq_some', Prod.mk.injEq] at h
    obtain ⟨m5, h5, -, e⟩ := h
    rw [← e]
    exact same_load_trans f1 (same_load_trans f2 (same_load_dbus_queue mb m5 u h5))

/-- A call of `unit_add_name` changes no load state, no load queue flag and
not the load queue. -/
theorem same_load_add_name (env : Env) (oom : Nat → Bool) (m m1 : Manager) (u : UnitId)
    (text : String) (r : Int) (h : unit_add_name env oom m u text = some (r, m1)) :
    m.same_load m1 := by
  have same : ∀ e : Int, some (e, m) = some (r, m1) → m.same_load m1 := by
    intro e hh
    simp only [Option.some.injEq, Prod.mk.injEq] at hh
    rw [← hh.2]; exact same_load_refl m
  unfold unit_add_name at h
  split_ifs at h
  cases hs : unit_add_name_resolve env oom m u text with
  | error e => simp only [hs] at h; exact same _ h
  | ok s =>
    simp only [hs] at h
    unfold unit_add_name_checked at h
    by_cases g0 : s ∈ (m.unit u).names
    · rw [if_pos g0] at h; exact same _ h
    rw [if_neg g0] at h
    by_cases g1 : hashmap_contains m.units s = true
    · rw [if_pos g1] at h; exact same _ h
    rw [if_neg g1] at h
    by_cases g2 : env.unit_name_is_valid s (UNIT_NAME_PLAIN ||| UNIT_NAME_INSTANCE) = false
    · rw [if_pos g2] at h; exact same _ h
    rw [if_neg g2] at h
    cases ht : env.unit_name_to_type s with
    | none => simp only [ht] at h; exact same _ h
    | some t =>
      simp only [ht] at h
      split_ifs at h
      all_goals first
        | exact same _ h
        | exact same_load_add_name_commit env oom m m1 u s t _ r h

/-- A call of `unit_merge` leaves the load queue and its flags as they are,
and turns no unit into a stub: the unit that is merged gets the load state
`merged`. -/
theorem unit_merge_stable (env : Env) (oom : Nat → Bool) (m m' : Manager) (u other : UnitId)
    (r : Int) (h : unit_merge env oom m u other = some (r, m')) : m.load_stable m' := by
  have same : ∀ e : Int, some (e, m) = some (r, m') → m.load_stable m' := by
    intro e hh
    simp only [Option.some.injEq, Prod.mk.injEq] at hh
    rw [← hh.2]; exact load_stable_refl m
  unfold unit_merge at h
  by_cases hv : m.valid u
  swap
  · rw [if_neg hv] at h; cases h
  rw [if_pos hv] at h
  cases hut : (m.unit u).type with
  | none => simp only [hut] at h; cases h
  | some ut =>
    simp only [hut] at h
    cases ho : unit_follow_merge m other with
    | none => simp only [ho] at h; cases h
    | some o =>
      simp only [ho] at h
      by_cases c0 : o = u
      · rw [if_pos c0] at h; exact same _ h
      rw [if_neg c0] at h
      by_cases c1 : some ut ≠ (m.unit o).type
      · rw [if_pos c1] at h; exact same _ h
      rw [if_neg c1] at h
      by_cases c2 : (m.unit u).inst.isNone ≠ (m.unit o).inst.isNone
      · rw [if_pos c2] at h; exact same _ h
      rw [if_neg c2] at h
      by_cases c3 : env.unit_type_may_alias ut = false
      · rw [if_pos c3] at h; exact same _ h
      rw [if_neg c3] at h
      by_cases c4 : (m.unit o).load_state ≠ .stub ∧ (m.unit o).load_state ≠ .not_found
      · rw [if_pos c4] at h; exact same _ h
      rw [if_neg c4] at h
      by_cases c5 : (m.unit o).job.isSome = true
      · rw [if_pos c5] at h; exact same _ h
      rw [if_neg c5] at h
      by_cases c6 : (m.unit o).nop_job.isSome = true
      · rw [if_pos c6] at h; exact same _ h
      rw [if_neg c6] at h
      cases hst : unit_active_state env m o with
      | none => simp only [hst] at h; cases h
      | some st =>
        simp only [hst] at h
        by_cases c7 : UNIT_IS_INACTIVE_OR_FAILED st = false
        · rw [if_pos c7] at h; exact same _ h
        rw [if_neg c7] at h
        by_cases c8 : reserve_loop oom m u o UnitDependency.all 0 < 0
        · rw [if_pos c8] at h; exact same _ h
        rw [if_neg c8] at h
        unfold unit_merge_commit at h
        cases hmn : merge_names (oom 22) m u o with
        | none => simp only [hmn] at h; cases h
        | some p =>
          obtain ⟨r1, m1⟩ := p
          simp only [hmn] at h
          have s1 := same_load_merge_names _ m m1 u o r1 hmn
          by_cases hr1 : r1 < 0
          · rw [if_pos hr1] at h
            simp only [Option.some.injEq, Prod.mk.injEq] at h
            rw [← h.2]; exact load_stable_of_same_load s1
          · rw [if_neg hr1] at h
            simp only [Option.bind_eq_some, Option.map_eq_some', Prod.mk.injEq] at h
            obtain ⟨m2, h2, m3, h3, m5, h5, m6, h6, -, e⟩ := h
            rw [← e]
            have s3 := same_load_trans s1 (same_load_trans
              (same_load_redirect_refs env u o _ m1 m2 h2) (same_load_merge_loop u o _ m2 m3 h3))
            have s4 : m3.load_stable (m3.modify o
                (fun x => { x with load_state := .merged, merged_into := some u })) :=
              load_stable_modify_heap m3 _ o
                (fun x => { x with load_state := .merged, merged_into := some u }) rfl rfl
                (fun _ => ⟨id, fun _ q => by cases q⟩)
            exact load_stable_trans (load_stable_of_same_load s3) (load_stable_trans s4
              (load_stable_of_same_load (same_load_trans (same_load_merge_done env _ m5 o h5)
                (same_load_trans (same_load_dbus_queue m5 m6 u h6)
                  (same_load_cleanup_queue m6 o)))))

theorem unit_merge_by_name_resolved_stable (env : Env) (oom : Nat → Bool) (m m' : Manager)
    (u : UnitId) (name : String) (r : Int)
    (h : unit_merge_by_name_resolved env oom m u name = some (r, m')) : m.load_stable m' := by
  unfold unit_merge_by_name_resolved at h
  cases hg : manager_get_unit m name with
  | some other =>
    simp only [hg] at h
    exact unit_merge_stable env oom m m' u other r h
  | none =>
    simp only [hg] at h
    exact load_stable_of_same_load (same_load_add_name env oom m m' u name r h)

theorem unit_merge_by_name_stable (env : Env) (oom : Nat → Bool) (m m' : Manager)
    (u : UnitId) (name : String) (r : Int)
    (h : unit_merge_by_name env oom m u name = some (r, m')) : m.load_stable m' := by
  have same : ∀ e : Int, some (e, m) = some (r, m') → m.load_stable m' := by
    intro e hh
    simp only [Option.some.injEq, Prod.mk.injEq] at hh
    rw [← hh.2]; exact load_stable_refl m
  unfold unit_merge_by_name at h
  split_ifs at h
  · cases hi : (m.unit u).inst with
    | none => simp only [hi] at h; exact same _ h
    | some i =>
      simp only [hi] at h
      split_ifs at h
      · exact same _ h
      · exact unit_merge_by_name_resolved_stable env oom m m' u _ r h
  · exact unit_merge_by_name_resolved_stable env oom m m' u _ r h

/-- A call `manager_load_unit_prepare(m, name, NULL, NULL, &ret)` leaves the
load state and the load queue flag of the unit objects that exist as they
are, and puts none of them onto the load queue. -/
theorem manager_load_unit_prepare_stable (env : Env) (jenv : JobEnv) (penv : PathEnv)
    (oom : Nat → Bool) (m m' : Manager) (name : String) (r : Int) (ret : Option UnitId)
    (h : manager_load_unit_prepare env jenv penv oom m (some name) none = some (r, ret, m')) :
    m.load_stable m' := by
  have same : ∀ (e : Int) (t : Option UnitId), some (e, t, m) = some (r, ret, m') →
      m.load_stable m' := by
    intro e t hh
    simp only [Option.some.injEq, Prod.mk.injEq] at hh
    rw [← hh.2.2]; exact load_stable_refl m
  unfold manager_load_unit_prepare at h
  simp only [Option.isSome_some, Option.isSome_none, true_or, if_true, Option.any_none,
    Option.getD_some, Bool.false_eq_true, if_false, false_and] at h
  split_ifs at h with h1
  · exact same _ _ h
  cases hg : manager_get_unit m name with
  | some v => simp only [hg] at h; exact same _ _ h
  | none =>
    simp only [hg] at h
    unfold unit_new at h
    split_ifs at h with h2
    · exact same _ _ h
    dsimp only at h
    have u0 := unit_new_unit m
    have l0 : ({ m with heap := m.heap ++ [{}] } : Manager).heap.length = m.heap.length + 1 := by
      show (m.heap ++ [({} : Unit)]).length = _
      rw [List.length_append]; rfl
    have q0 : ({ m with heap := m.heap ++ [{}] } : Manager).load_queue = m.load_queue := rfl
    generalize ({ m with heap := m.heap ++ [{}] } : Manager) = m0 at u0 l0 q0 h
    have fin : ∀ a : Manager, m0.same_load_but a m.heap.length → m.load_stable a := by
      intro a ha
      refine ⟨by rw [ha.1, l0]; exact Nat.le_succ _,
        fun x hx q1 q2 => q1 (q0 ▸ ha.2.1 x (Nat.ne_of_lt hx) q2), fun x hx => ?_⟩
      have hne : x ≠ m.heap.length := Nat.ne_of_lt hx
      rw [(ha.2.2 x hne).1, (ha.2.2 x hne).2, u0]
      exact ⟨id, id⟩
    cases hn : unit_add_name env (fun n => oom (n + 3)) m0 m.heap.length name with
    | none => simp only [hn] at h; cases h
    | some p =>
      obtain ⟨r2, m2⟩ := p
      simp only [hn] at h
      have t2 := same_load_but_of_same_load
        (same_load_add_name env _ m0 m2 m.heap.length name r2 hn) m.heap.length
      split_ifs at h with hr
      · simp only [Option.map_eq_some', Prod.mk.injEq] at h
        obtain ⟨m3, h3, -, -, e⟩ := h
        rw [← e]
        exact fin m3 (same_load_but_trans t2 (unit_free_load env m2 m3 _ h3))
      · simp only [Option.bind_eq_some, Option.map_eq_some', Prod.mk.injEq] at h
        obtain ⟨m3, h3, m4, h4, m5, h5, -, -, e⟩ := h
        rw [← e]
        exact fin m5 (same_load_but_trans t2
          (same_load_but_trans (same_load_but_load_queue m2 m3 _ h3)
            (same_load_but_of_same_load
              (same_load_trans (same_load_dbus_queue m3 m4 _ h4)
                (same_load_gc_queue env m4 m5 _ h5)) _)))

theorem unit_add_mount_dependencies_prefix_stable (env : Env) (jenv : JobEnv) (penv : PathEnv)
    (oom : Nat → Bool) (m m' : Manager) (u : UnitId) (pfx : String) (r : Int)
    (h : unit_add_mount_dependencies_prefix env jenv penv oom m u pfx = some (r, m')) :
    m.load_stable m' := by
  have same : ∀ (e : Int), some (e, m) = some (r, m') → m.load_stable m' := by
    intro e hh
    simp only [Option.some.injEq, Prod.mk.injEq] at hh
    rw [← hh.2]; exact load_stable_refl m
  unfold unit_add_mount_dependencies_prefix at h
  dsimp only at h
  split_ifs at h with h1
  · exact same _ h
  cases hg : manager_get_unit m (penv.unit_name_from_path pfx ".mount").2 with
  | none =>
    simp only [hg, Option.map_eq_some', Prod.mk.injEq] at h
    obtain ⟨⟨r1, ret, m1⟩, hp, -, e⟩ := h
    rw [← e]
    exact manager_load_unit_prepare_stable env jenv penv _ m m1 _ r1 ret hp
  | some mu =>
    simp only [hg] at h
    split_ifs at h with h2 h3
    · exact same _ h
    · exact same _ h
    · cases ha : unit_add_dependency oom m u .after mu true with
      | none => simp only [ha] at h; cases h
      | some p =>
        obtain ⟨r1, m1⟩ := p
        simp only [ha] at h
        have s1 := load_stable_of_same_load (same_load_add_dependency oom m m1 u mu _ _ r1 ha)
        split_ifs at h with h4 h5
        · simp only [Option.some.injEq, Prod.mk.injEq] at h
          rw [← h.2]; exact s1
        · simp only [Option.map_eq_some', Prod.mk.injEq] at h
          obtain ⟨⟨r2, m2⟩, hb, -, e⟩ := h
          rw [← e]
          exact load_stable_trans s1
            (load_stable_of_same_load (same_load_add_dependency _ m1 m2 u mu _ _ r2 hb))
        · simp only [Option.some.injEq, Prod.mk.injEq] at h
          rw [← h.2]; exact s1

theorem unit_add_mount_dependencies_prefixes_stable (env : Env) (jenv : JobEnv) (penv : PathEnv)
    (oom : Nat → Nat → Bool) (u : UnitId) (ps : List String) : ∀ (j : Nat) (m m' : Manager)
    (r : Int), unit_add_mount_dependencies_prefixes env jenv penv oom u j m ps = some (r, m') →
    m.load_stable m' := by
  induction ps with
  | nil =>
    intro j m m' r h
    simp only [unit_add_mount_dependencies_prefixes, Option.some.injEq, Prod.mk.injEq] at h
    rw [← h.2]; exact load_stable_refl m
  | cons pfx ps ih =>
    intro j m m' r h
    unfold unit_add_mount_dependencies_prefixes at h
    cases hp : unit_add_mount_dependencies_prefix env jenv penv (oom j) m u pfx with
    | none => simp only [hp] at h; cases h
    | some p =>
      obtain ⟨r1, m1⟩ := p
      simp only [hp] at h
      have s1 := unit_add_mount_dependencies_prefix_stable env jenv penv _ m m1 u pfx r1 hp
      split_ifs at h
      · simp only [Option.some.injEq, Prod.mk.injEq] at h
        rw [← h.2]; exact s1
      · exact load_stable_trans s1 (ih _ m1 m' r h)

theorem unit_add_mount_dependencies_paths_stable (env : Env) (jenv : JobEnv) (penv : PathEnv)
    (oom : Nat → Nat → Nat → Bool) (u : UnitId) (paths : List String) :
    ∀ (i : Nat) (m m' : Manager) (r : Int),
    unit_add_mount_dependencies_paths env jenv penv oom u i m paths = some (r, m') →
    m.load_stable m' := by
  induction paths with
  | nil =>
    intro i m m' r h
    simp only [unit_add_mount_dependencies_paths, Option.some.injEq, Prod.mk.injEq] at h
    rw [← h.2]; exact load_stable_refl m
  | cons path paths ih =>
    intro i m m' r h
    unfold unit_add_mount_dependencies_paths at h
    cases hp : unit_add_mount_dependencies_prefixes env jenv penv (oom i) u 0 m
        (penv.path_prefixes path) with
    | none => simp only [hp] at h; cases h
    | some p =>
      obtain ⟨r1, m1⟩ := p
      simp only [hp] at h
      have s1 := unit_add_mount_dependencies_prefixes_stable env jenv penv _ u _ 0 m m1 r1 hp
      split_ifs at h
      · simp only [Option.some.injEq, Prod.mk.injEq] at h
        rw [← h.2]; exact s1
      · exact load_stable_trans s1 (ih _ m1 m' r h)

theorem unit_add_mount_dependencies_stable (env : Env) (jenv : JobEnv) (penv : PathEnv)
    (oom : Nat → Nat → Nat → Bool) (m m' : Manager) (u : UnitId) (r : Int)
    (h : unit_add_mount_dependencies env jenv penv oom m u = some (r, m')) :
    m.load_stable m' := by
  unfold unit_add_mount_dependencies at h
  split_ifs at h
  exact unit_add_mount_dependencies_paths_stable env jenv penv oom u _ 0 m m' r h

theorem unit_add_target_dependencies_set_stable (oom : Nat → Nat → Bool) (u : UnitId)
    (targets : List UnitId) : ∀ (i : Nat) (r0 : Int) (m m' : Manager) (r : Int),
    unit_add_target_dependencies_set oom u i r0 m targets = some (r, m') → m.load_stable m' := by
  induction targets with
  | nil =>
    intro i r0 m m' r h
    simp only [unit_add_target_dependencies_set, Option.some.injEq, Prod.mk.injEq] at h
    rw [← h.2]; exact load_stable_refl m
  | cons t ts ih =>
    intro i r0 m m' r h
    unfold unit_add_target_dependencies_set at h
    cases hp : unit_add_default_target_dependency (oom i) m u t with
    | none => simp only [hp] at h; cases h
    | some p =>
      obtain ⟨r1, m1⟩ := p
      simp only [hp] at h
      have s1 := load_stable_of_same_load
        (same_load_default_target_dependency _ m m1 u t r1 hp)
      split_ifs at h
      · simp only [Option.some.injEq, Prod.mk.injEq] at h
        rw [← h.2]; exact s1
      · exact load_stable_trans s1 (ih _ _ m1 m' r h)

theorem unit_add_target_dependencies_kinds_stable (oom : Nat → Nat → Nat → Bool) (u : UnitId)
    (ds : List UnitDependency) : ∀ (k : Nat) (r0 : Int) (m m' : Manager) (r : Int),
    unit_add_target_dependencies_kinds oom u k r0 m ds = some (r, m') → m.load_stable m' := by
  induction ds with
  | nil =>
    intro k r0 m m' r h
    simp only [unit_add_target_dependencies_kinds, Option.some.injEq, Prod.mk.injEq] at h
    rw [← h.2]; exact load_stable_refl m
  | cons d ds ih =>
    intro k r0 m m' r h
    unfold unit_add_target_dependencies_kinds at h
    cases hp : unit_add_target_dependencies_set (oom k) u 0 r0 m (m.deps u d) with
    | none => simp only [hp] at h; cases h
    | some p =>
      obtain ⟨r1, m1⟩ := p
      simp only [hp] at h
      have s1 := unit_add_target_dependencies_set_stable _ u _ 0 r0 m m1 r1 hp
      split_ifs at h
      · simp only [Option.some.injEq, Prod.mk.injEq] at h
        rw [← h.2]; exact s1
      · exact load_stable_trans s1 (ih _ _ m1 m' r h)

theorem unit_add_two_dependencies_stable (oom : Nat → Nat → Bool) (m m' : Manager) (u : UnitId)
    (d e : UnitDependency) (other : UnitId) (ar : Bool) (r : Int)
    (h : unit_add_two_dependencies oom m u d e other ar = some (r, m')) : m.load_stable m' := by
  unfold unit_add_two_dependencies at h
  cases ha : unit_add_dependency (oom 0) m u d other ar with
  | none => simp only [ha] at h; cases h
  | some p =>
    obtain ⟨r1, m1⟩ := p
    simp only [ha] at h
    have s1 := load_stable_of_same_load (same_load_add_dependency _ m m1 u other _ _ r1 ha)
    split_ifs at h
    · simp only [Option.some.injEq, Prod.mk.injEq] at h
      rw [← h.2]; exact s1
    · exact load_stable_trans s1
        (load_stable_of_same_load (same_load_add_dependency _ m1 m' u other _ _ r h))

theorem unit_load_dequeue_stable (m : Manager) (u : UnitId) :
    m.load_stable (unit_load_dequeue m u) := by
  unfold unit_load_dequeue
  split_ifs
  · exact load_stable_modify_heap_mem m _ u (fun x => { x with in_load_queue := false })
      (fun x q => List.mem_of_mem_erase q) rfl (fun _ => ⟨fun _ => rfl, id⟩)
  · exact load_stable_refl m

/-- After the start of `unit_load` the unit is not on the load queue, when the
queue held it once or not at all, as its flag says. -/
theorem unit_load_dequeue_off (m : Manager) (u : UnitId) (hq : m.on_load_queue_once u) :
    u ∉ (unit_load_dequeue m u).load_queue := by
  unfold Manager.on_load_queue_once at hq
  unfold unit_load_dequeue
  split_ifs with h
  · rw [if_pos h] at hq
    show u ∉ m.load_queue.erase u
    intro q
    have c := List.count_erase_self u m.load_queue
    rw [hq] at c
    exact absurd (List.count_pos_iff.2 q) (by rw [c]; decide)
  · rw [if_neg h] at hq
    exact List.count_eq_zero.1 hq

theorem unit_load_dequeue_unit (m : Manager) (u : UnitId) (hv : m.valid u) :
    (unit_load_dequeue m u).unit u = { m.unit u with in_load_queue := false } := by
  unfold unit_load_dequeue
  split_ifs with h
  · show (m.modify u (fun x => { x with in_load_queue := false })).unit u = _
    rw [unit_modify_self _ _ _ hv]
  · have e : (m.unit u).in_load_queue = false := by
      cases hq : (m.unit u).in_load_queue with
      | true => exact absurd hq h
      | false => rfl
    cases hx : m.unit u
    rw [hx] at e
    simp only at e
    simp only [e]

theorem manager_dispatch_load_queue_loop_stable
    (unit_load : Nat → Manager → UnitId → Option (Int × Manager))
    (hl : ∀ n m u r m', unit_load n m u = some (r, m') → m.load_stable m') :
    ∀ (fuel n : Nat) (m : Manager) (k : Nat) (m' : Manager),
    manager_dispatch_load_queue_loop unit_load fuel n m = some (k, m') → m.load_stable m' := by
  intro fuel
  induction fuel with
  | zero => intro n m k m' h; simp [manager_dispatch_load_queue_loop] at h
  | succ fuel ih =>
    intro n m k m' h
    unfold manager_dispatch_load_queue_loop at h
    cases hq : m.load_queue with
    | nil =>
      simp only [hq, Option.some.injEq, Prod.mk.injEq] at h
      rw [← h.2]; exact load_stable_refl m
    | cons u rest =>
      simp only [hq] at h
      split_ifs at h
      cases hu : unit_load n m u with
      | none => simp only [hu] at h; cases h
      | some p =>
        obtain ⟨r1, m1⟩ := p
        simp only [hu] at h
        exact load_stable_trans (hl n m u r1 m1 hu) (ih _ m1 k m' h)

theorem manager_dispatch_load_queue_stable
    (unit_load : Nat → Manager → UnitId → Option (Int × Manager))
    (hl : ∀ n m u r m', unit_load n m u = some (r, m') → m.load_stable m')
    (fuel : Nat) (m : Manager) (k : Nat) (m' : Manager)
    (h : manager_dispatch_load_queue unit_load fuel m = some (k, m')) : m.load_stable m' := by
  unfold manager_dispatch_load_queue at h
  split_ifs at h
  · simp only [Option.some.injEq, Prod.mk.injEq] at h
    rw [← h.2]; exact load_stable_refl m
  · simp only [Option.map_eq_some', Prod.mk.injEq] at h
    obtain ⟨⟨k1, m1⟩, hp, -, e⟩ := h
    rw [← e]
    have s1 := manager_dispatch_load_queue_loop_stable unit_load hl fuel 0 _ k1 m1 hp
    have s0 : m.load_stable { m with dispatching_load_queue := true } :=
      load_stable_of_heap rfl rfl
    exact load_stable_trans s0 (load_stable_trans s1 (load_stable_of_heap rfl rfl))

theorem manager_load_unit_stable (env : Env) (jenv : JobEnv) (penv : PathEnv) (oom : Nat → Bool)
    (dispatch : Manager → Option (Nat × Manager))
    (hd : ∀ m k m', dispatch m = some (k, m') → m.load_stable m')
    (m m' : Manager) (name : String) (r : Int) (ret : Option UnitId)
    (h : manager_load_unit env jenv penv oom dispatch m (some name) none = some (r, ret, m')) :
    m.load_stable m' := by
  unfold manager_load_unit at h
  cases hp : manager_load_unit_prepare env jenv penv oom m (some name) none with
  | none => simp only [hp] at h; cases h
  | some p =>
    obtain ⟨r1, ret1, m1⟩ := p
    simp only [hp] at h
    have s1 := manager_load_unit_prepare_stable env jenv penv oom m m1 name r1 ret1 hp
    split_ifs at h
    · simp only [Option.some.injEq, Prod.mk.injEq] at h
      rw [← h.2.2]; exact s1
    · cases hq : dispatch m1 with
      | none => simp only [hq] at h; cases h
      | some q =>
        obtain ⟨k, m2⟩ := q
        simp only [hq] at h
        cases ret1 with
        | none => simp only at h; cases h
        | some x =>
          simp only [Option.map_eq_some', Prod.mk.injEq] at h
          obtain ⟨y, -, -, -, e⟩ := h
          rw [← e]
          exact load_stable_trans s1 (hd m1 k m2 hq)

theorem unit_add_two_dependencies_by_name_stable (env : Env) (jenv : JobEnv) (penv : PathEnv)
    (lenv : LoadEnv) (oom : Nat → Nat → Bool) (dispatch : Manager → Option (Nat × Manager))
    (hd : ∀ m k m', dispatch m = some (k, m') → m.load_stable m')
    (m m' : Manager) (u : UnitId) (d e : UnitDependency) (name : String) (ar : Bool) (r : Int)
    (h : unit_add_two_dependencies_by_name env jenv penv lenv oom dispatch m u d e (some name)
      none ar = some (r, m')) : m.load_stable m' := by
  unfold unit_add_two_dependencies_by_name at h
  cases ht : resolve_template env penv lenv m u (some name) none with
  | none => simp only [ht] at h; cases h
  | some p =>
    obtain ⟨r0, name1⟩ := p
    simp only [ht] at h
    split_ifs at h
    · simp only [Option.some.injEq, Prod.mk.injEq] at h
      rw [← h.2]; exact load_stable_refl m
    · cases hl : manager_load_unit env jenv penv (oom 2) dispatch m (some name1) none with
      | none => simp only [hl] at h; cases h
      | some q =>
        obtain ⟨r1, other, m1⟩ := q
        simp only [hl] at h
        have s1 := manager_load_unit_stable env jenv penv _ dispatch hd m m1 name1 r1 other hl
        split_ifs at h
        · simp only [Option.some.injEq, Prod.mk.injEq] at h
          rw [← h.2]; exact s1
        · cases other with
          | none => simp only at h; cases h
          | some o =>
            simp only at h
            exact load_stable_trans s1
              (unit_add_two_dependencies_stable oom m1 m' u d e o ar r h)

theorem unit_add_slice_dependencies_stable (env : Env) (jenv : JobEnv) (penv : PathEnv)
    (lenv : LoadEnv) (oom : Nat → Nat → Bool) (dispatch : Manager → Option (Nat × Manager))
    (hd : ∀ m k m', dispatch m = some (k, m') → m.load_stable m')
    (m m' : Manager) (u : UnitId) (r : Int)
    (h : unit_add_slice_dependencies env jenv penv lenv oom dispatch m u = some (r, m')) :
    m.load_stable m' := by
  unfold unit_add_slice_dependencies at h
  by_cases c1 : lenv.UNIT_HAS_CGROUP_CONTEXT m u = false
  · rw [if_pos c1] at h
    simp only [Option.some.injEq, Prod.mk.injEq] at h
    rw [← h.2]; exact load_stable_refl m
  rw [if_neg c1] at h
  cases hs : (m.unit u).slice with
  | some s =>
    simp only [hs] at h
    exact unit_add_two_dependencies_stable oom m m' u _ _ s true r h
  | none =>
    simp only [hs] at h
    by_cases c2 : unit_has_name m u lenv.SPECIAL_ROOT_SLICE = true
    · rw [if_pos c2] at h
      simp only [Option.some.injEq, Prod.mk.injEq] at h
      rw [← h.2]; exact load_stable_refl m
    · rw [if_neg c2] at h
      exact unit_add_two_dependencies_by_name_stable env jenv penv lenv oom dispatch hd m m' u
        _ _ _ true r h

theorem unit_add_startup_units_heap (env : Env) (lenv : LoadEnv) (oom : Nat → Bool)
    (m : Manager) (u : UnitId) :
    (unit_add_startup_units env lenv oom m u).2.heap = m.heap ∧
    (unit_add_startup_units env lenv oom m u).2.load_queue = m.load_queue := by
  unfold unit_add_startup_units
  split_ifs <;> exact ⟨rfl, rfl⟩

theorem unit_load_loaded_stable (env : Env) (jenv : JobEnv) (penv : PathEnv) (lenv : LoadEnv)
    (oom : List Nat → Nat → Bool) (dispatch : Manager → Option (Nat × Manager))
    (hd : ∀ m k m', dispatch m = some (k, m') → m.load_stable m')
    (m m' : Manager) (u : UnitId) (r : Int)
    (h : unit_load_loaded env jenv penv lenv oom dispatch m u = some (r, m')) :
    m.load_stable m' := by
  unfold unit_load_loaded at h
  cases h1 : unit_add_target_dependencies (fun k i => oom [0, k, i]) m u with
  | none => simp only [h1] at h; cases h
  | some p1 =>
    obtain ⟨r1, m1⟩ := p1
    simp only [h1] at h
    have s1 : m.load_stable m1 :=
      unit_add_target_dependencies_kinds_stable _ u _ 0 0 m m1 r1 h1
    split_ifs at h
    · simp only [Option.some.injEq, Prod.mk.injEq] at h
      rw [← h.2]; exact s1
    cases h2 : unit_add_slice_dependencies env jenv penv lenv (fun i => oom [1, i]) dispatch
        m1 u with
    | none => simp only [h2] at h; cases h
    | some p2 =>
      obtain ⟨r2, m2⟩ := p2
      simp only [h2] at h
      have s2 := load_stable_trans s1
        (unit_add_slice_dependencies_stable env jenv penv lenv _ dispatch hd m1 m2 u r2 h2)
      split_ifs at h
      · simp only [Option.some.injEq, Prod.mk.injEq] at h
        rw [← h.2]; exact s2
      cases h3 : unit_add_mount_dependencies env jenv penv (fun i j => oom [2, i, j]) m2 u with
      | none => simp only [h3] at h; cases h
      | some p3 =>
        obtain ⟨r3, m3⟩ := p3
        simp only [h3] at h
        have s3 := load_stable_trans s2
          (unit_add_mount_dependencies_stable env jenv penv _ m2 m3 u r3 h3)
        have s4 := load_stable_trans s3
          (load_stable_of_heap (unit_add_startup_units_heap env lenv (oom [3]) m3 u).1
            (unit_add_startup_units_heap env lenv (oom [3]) m3 u).2)
        by_cases c3 : r3 < 0
        · rw [if_pos c3] at h
          simp only [Option.some.injEq, Prod.mk.injEq] at h
          rw [← h.2]; exact s3
        rw [if_neg c3] at h
        by_cases c4 : (unit_add_startup_units env lenv (oom [3]) m3 u).1 < 0
        · rw [if_pos c4] at h
          simp only [Option.some.injEq] at h
          have e := congrArg Prod.snd h
          simp only at e
          rw [← e]; exact s4
        rw [if_neg c4] at h
        split_ifs at h
        all_goals
          simp only [Option.some.injEq, Prod.mk.injEq] at h
          rw [← h.2]; exact s4

theorem unit_add_dependency_by_name_stable (env : Env) (jenv : JobEnv) (penv : PathEnv)
    (lenv : LoadEnv) (oom : Nat → Nat → Bool) (dispatch : Manager → Option (Nat × Manager))
    (hd : ∀ m k m', dispatch m = some (k, m') → m.load_stable m')
    (m m' : Manager) (u : UnitId) (d : UnitDependency) (name : String) (ar : Bool) (r : Int)
    (h : unit_add_dependency_by_name env jenv penv lenv oom dispatch m u d (some name)
      none ar = some (r, m')) : m.load_stable m' := by
  unfold unit_add_dependency_by_name at h
  cases ht : resolve_template env penv lenv m u (some name) none with
  | none => simp only [ht] at h; cases h
  | some p =>
    obtain ⟨r0, name1⟩ := p
    simp only [ht] at h
    split_ifs at h
    · simp only [Option.some.injEq, Prod.mk.injEq] at h
      rw [← h.2]; exact load_stable_refl m
    · cases hl : manager_load_unit env jenv penv (oom 2) dispatch m (some name1) none with
      | none => simp only [hl] at h; cases h
      | some q =>
        obtain ⟨r1, other, m1⟩ := q
        simp only [hl] at h
        have s1 := manager_load_unit_stable env jenv penv _ dispatch hd m m1 name1 r1 other hl
        split_ifs at h
        · simp only [Option.some.injEq, Prod.mk.injEq] at h
          rw [← h.2]; exact s1
        · cases other with
          | none => simp only at h; cases h
          | some o =>
            simp only at h
            exact load_stable_trans s1
              (load_stable_of_same_load (same_load_add_dependency _ m1 m' u o _ _ r h))

theorem unit_load_names_stable (env : Env) (oom : Nat → Nat → Bool) (u : UnitId)
    (names : List String) : ∀ (i : Nat) (m m' : Manager) (r : Int),
    unit_load_names env oom u i m names = some (r, m') → m.load_stable m' := by
  induction names with
  | nil =>
    intro i m m' r h
    simp only [unit_load_names, Option.some.injEq, Prod.mk.injEq] at h
    rw [← h.2]; exact load_stable_refl m
  | cons name names ih =>
    intro i m m' r h
    unfold unit_load_names at h
    cases hp : unit_merge_by_name env (oom i) m u name with
    | none => simp only [hp] at h; cases h
    | some p =>
      obtain ⟨r1, m1⟩ := p
      simp only [hp] at h
      have s1 := unit_merge_by_name_stable env _ m m1 u name r1 hp
      split_ifs at h
      · simp only [Option.some.injEq, Prod.mk.injEq] at h
        rw [← h.2]; exact s1
      · exact load_stable_trans s1 (ih _ m1 m' r h)

theorem unit_load_dependencies_stable (env : Env) (jenv : JobEnv) (penv : PathEnv)
    (lenv : LoadEnv) (oom : Nat → Nat → Nat → Bool)
    (dispatch : Nat → Manager → Option (Nat × Manager))
    (hd : ∀ i m k m', dispatch i m = some (k, m') → m.load_stable m') (u : UnitId)
    (decls : List (UnitDependency × String)) : ∀ (i : Nat) (m m' : Manager) (r : Int),
    unit_load_dependencies env jenv penv lenv oom dispatch u i m decls = some (r, m') →
    m.load_stable m' := by
  induction decls with
  | nil =>
    intro i m m' r h
    simp only [unit_load_dependencies, Option.some.injEq, Prod.mk.injEq] at h
    rw [← h.2]; exact load_stable_refl m
  | cons decl decls ih =>
    intro i m m' r h
    unfold unit_load_dependencies at h
    cases hp : unit_add_dependency_by_name env jenv penv lenv (oom i) (dispatch i) m u decl.1
        (some decl.2) none true with
    | none => simp only [hp] at h; cases h
    | some p =>
      obtain ⟨r1, m1⟩ := p
      simp only [hp] at h
      have s1 := unit_add_dependency_by_name_stable env jenv penv lenv _ _ (hd i) m m1 u _ _ _
        r1 hp
      split_ifs at h
      · simp only [Option.some.injEq, Prod.mk.injEq] at h
        rw [← h.2]; exact s1
      · exact load_stable_trans s1 (ih _ m1 m' r h)

/-- The model of `unit_load_fragment` keeps the load state and the load queue
of the unit objects stable, for every configuration loader. -/
theorem unit_load_fragment_stable (env : Env) (jenv : JobEnv) (penv : PathEnv) (lenv : LoadEnv)
    (oom : List Nat → Nat → Bool) (dispatch : Nat → Manager → Option (Nat × Manager))
    (hd : ∀ i m k m', dispatch i m = some (k, m') → m.load_stable m')
    (m m' : Manager) (u : UnitId) (r : Int)
    (h : unit_load_fragment env jenv penv lenv oom dispatch m u = some (r, m')) :
    m.load_stable m' := by
  unfold unit_load_fragment at h
  by_cases c1 : (lenv.load_fragment m u).1 < 0
  · rw [if_pos c1] at h
    simp only [Option.some.injEq, Prod.mk.injEq] at h
    rw [← h.2]; exact load_stable_refl m
  rw [if_neg c1] at h
  cases hdef : (lenv.load_fragment m u).2 with
  | none =>
    simp only [hdef, Option.some.injEq, Prod.mk.injEq] at h
    rw [← h.2]; exact load_stable_refl m
  | some d =>
    simp only [hdef] at h
    cases hn : unit_load_names env (fun i => oom [0, i]) u 0 m d.names with
    | none => simp only [hn] at h; cases h
    | some p =>
      obtain ⟨r1, m1⟩ := p
      simp only [hn] at h
      have s1 := unit_load_names_stable env _ u _ 0 m m1 r1 hn
      by_cases c2 : r1 < 0
      · rw [if_pos c2] at h
        simp only [Option.some.injEq, Prod.mk.injEq] at h
        rw [← h.2]; exact s1
      rw [if_neg c2] at h
      have s2 : m1.load_stable (m1.modify u (fun x => if x.load_state = .stub
          then { x with load_state := if d.masked = true then .masked else .loaded }
          else x)) :=
        load_stable_modify_heap m1 _ u _ rfl rfl (fun x => by
          by_cases cx : x.load_state = .stub
          · rw [if_pos cx]
            exact ⟨id, fun q => absurd cx q⟩
          · rw [if_neg cx]
            exact ⟨id, id⟩)
      generalize m1.modify u (fun x => if x.load_state = .stub
          then { x with load_state := if d.masked = true then .masked else .loaded }
          else x) = m1a at h s2
      cases hdp : unit_load_dependencies env jenv penv lenv (fun i k => oom [1, i, k])
          (fun i => dispatch (2 * i + 1)) u 0 m1a d.dependencies with
      | none => simp only [hdp] at h; cases h
      | some q =>
        obtain ⟨r2, m2⟩ := q
        simp only [hdp] at h
        have s3 := unit_load_dependencies_stable env jenv penv lenv _ _
          (fun i => hd (2 * i + 1)) u _ 0 m1a m2 r2 hdp
        have s123 := load_stable_trans s1 (load_stable_trans s2 s3)
        by_cases c3 : r2 < 0
        · rw [if_pos c3] at h
          simp only [Option.some.injEq, Prod.mk.injEq] at h
          rw [← h.2]; exact s123
        · rw [if_neg c3] at h
          simp only [Option.some.injEq, Prod.mk.injEq] at h
          rw [← h.2]
          exact load_stable_trans s123 (load_stable_modify_heap m2 _ u
            (fun x => { x with data := d.settings x.data }) rfl rfl (fun _ => ⟨id, id⟩))

/-- The model of `unit_load_dropin` keeps the load state and the load queue of
the unit objects stable, for every configuration loader. -/
theorem unit_load_dropin_stable (env : Env) (jenv : JobEnv) (penv : PathEnv) (lenv : LoadEnv)
    (oom : List Nat → Nat → Bool) (dispatch : Nat → Manager → Option (Nat × Manager))
    (hd : ∀ i m k m', dispatch i m = some (k, m') → m.load_stable m')
    (m m' : Manager) (u : UnitId) (r : Int)
    (h : unit_load_dropin env jenv penv lenv oom dispatch m u = some (r, m')) :
    m.load_stable m' := by
  unfold unit_load_dropin at h
  by_cases c1 : (lenv.load_dropin m u).1 < 0
  · rw [if_pos c1] at h
    simp only [Option.some.injEq, Prod.mk.injEq] at h
    rw [← h.2]; exact load_stable_refl m
  rw [if_neg c1] at h
  cases hdp : unit_load_dependencies env jenv penv lenv (fun i k => oom [2, i, k])
      (fun i => dispatch (2 * i + 2)) u 0 m (lenv.load_dropin m u).2.dependencies with
  | none => simp only [hdp] at h; cases h
  | some q =>
    obtain ⟨r2, m2⟩ := q
    simp only [hdp] at h
    have s3 := unit_load_dependencies_stable env jenv penv lenv _ _
      (fun i => hd (2 * i + 2)) u _ 0 m m2 r2 hdp
    by_cases c3 : r2 < 0
    · rw [if_pos c3] at h
      simp only [Option.some.injEq, Prod.mk.injEq] at h
      rw [← h.2]; exact s3
    · rw [if_neg c3] at h
      simp only [Option.some.injEq, Prod.mk.injEq] at h
      rw [← h.2]
      exact load_stable_trans s3 (load_stable_modify_heap m2 _ u
        (fun x => { x with data := (lenv.load_dropin m u).2.settings x.data }) rfl rfl
        (fun _ => ⟨id, id⟩))

theorem unit_load_fragment_and_dropin_stable (env : Env) (jenv : JobEnv) (penv : PathEnv)
    (lenv : LoadEnv) (oom : List Nat → Nat → Bool)
    (dispatch : Nat → Manager → Option (Nat × Manager))
    (hd : ∀ i m k m', dispatch i m = some (k, m') → m.load_stable m')
    (m m' : Manager) (u : UnitId) (r : Int)
    (h : unit_load_fragment_and_dropin env jenv penv lenv oom dispatch m u = some (r, m')) :
    m.load_stable m' := by
  unfold unit_load_fragment_and_dropin at h
  cases hf : unit_load_fragment env jenv penv lenv oom dispatch m u with
  | none => simp only [hf] at h; cases h
  | some p =>
    obtain ⟨r1, m1⟩ := p
    simp only [hf] at h
    have s1 := unit_load_fragment_stable env jenv penv lenv oom dispatch hd m m1 u r1 hf
    by_cases c1 : r1 < 0
    · rw [if_pos c1] at h
      simp only [Option.some.injEq, Prod.mk.injEq] at h
      rw [← h.2]; exact s1
    rw [if_neg c1] at h
    by_cases c2 : (m1.unit u).load_state = .stub
    · rw [if_pos c2] at h
      simp only [Option.some.injEq, Prod.mk.injEq] at h
      rw [← h.2]; exact s1
    rw [if_neg c2] at h
    cases hv : unit_follow_merge m1 u with
    | none => simp only [hv] at h; cases h
    | some v =>
      simp only [hv] at h
      exact load_stable_trans s1
        (unit_load_dropin_stable env jenv penv lenv oom dispatch hd m1 m' v r h)

theorem unit_load_fragment_and_dropin_optional_stable (env : Env) (jenv : JobEnv)
    (penv : PathEnv) (lenv : LoadEnv) (oom : List Nat → Nat → Bool)
    (dispatch : Nat → Manager → Option (Nat × Manager))
    (hd : ∀ i m k m', dispatch i m = some (k, m') → m.load_stable m')
    (m m' : Manager) (u : UnitId) (r : Int)
    (h : unit_load_fragment_and_dropin_optional env jenv penv lenv oom dispatch m u =
      some (r, m')) : m.load_stable m' := by
  unfold unit_load_fragment_and_dropin_optional at h
  cases hf : unit_load_fragment env jenv penv lenv oom dispatch m u with
  | none => simp only [hf] at h; cases h
  | some p =>
    obtain ⟨r1, m1⟩ := p
    simp only [hf] at h
    have s1 := unit_load_fragment_stable env jenv penv lenv oom dispatch hd m m1 u r1 hf
    by_cases c1 : r1 < 0
    · rw [if_pos c1] at h
      simp only [Option.some.injEq, Prod.mk.injEq] at h
      rw [← h.2]; exact s1
    rw [if_neg c1] at h
    have s2 : m1.load_stable (if (m1.unit u).load_state = .stub
        then m1.modify u (fun x => { x with load_state := .loaded }) else m1) := by
      split_ifs
      · exact load_stable_modify_heap m1 _ u (fun x => { x with load_state := .loaded }) rfl rfl
          (fun _ => ⟨id, fun _ q => by cases q⟩)
      · exact load_stable_refl m1
    generalize (if (m1.unit u).load_state = .stub
        then m1.modify u (fun x => { x with load_state := .loaded }) else m1) = m2 at h s2
    cases hv : unit_follow_merge m2 u with
    | none => simp only [hv] at h; cases h
    | some v =>
      simp only [hv] at h
      exact load_stable_trans s1 (load_stable_trans s2
        (unit_load_dropin_stable env jenv penv lenv oom dispatch hd m2 m' v r h))

/-- The `load` hook of a unit type keeps the load state and the load queue of
the unit objects stable. -/
theorem unit_vtable_load_stable (env : Env) (jenv : JobEnv) (penv : PathEnv)
    (lenv : LoadEnv) (oom : List Nat → Nat → Bool)
    (dispatch : Nat → Manager → Option (Nat × Manager))
    (hd : ∀ i m k m', dispatch i m = some (k, m') → m.load_stable m')
    (hook : UnitLoadHook) (m m' : Manager) (u : UnitId) (r : Int)
    (h : unit_vtable_load env jenv penv lenv oom dispatch hook m u = some (r, m')) :
    m.load_stable m' := by
  cases hook with
  | fragment_and_dropin =>
    exact unit_load_fragment_and_dropin_stable env jenv penv lenv oom dispatch hd m m' u r h
  | fragment_and_dropin_optional =>
    exact unit_load_fragment_and_dropin_optional_stable env jenv penv lenv oom dispatch hd
      m m' u r h

/-- The body of `unit_load` keeps the load state and the load queue of the
unit objects stable, and when it does not fail the unit is not a stub. -/
theorem unit_load_body_stable (env : Env) (jenv : JobEnv) (penv : PathEnv) (lenv : LoadEnv)
    (oom : List Nat → Nat → Bool) (dispatch : Nat → Manager → Option (Nat × Manager))
    (hd : ∀ i m k m', dispatch i m = some (k, m') → m.load_stable m')
    (m m' : Manager) (u : UnitId) (r : Int) (hv : m.valid u)
    (h : unit_load_body env jenv penv lenv oom dispatch m u = some (r, m')) :
    m.load_stable m' ∧ (¬ r < 0 → (m'.unit u).load_state ≠ .stub) := by
  unfold unit_load_body at h
  by_cases h0 : (m.unit u).transient_file = true ∧ lenv.fflush_and_check m u < 0
  · rw [if_pos h0] at h
    simp only [Option.some.injEq, Prod.mk.injEq] at h
    rw [← h.2, ← h.1]
    exact ⟨load_stable_refl m, fun q => absurd h0.2 q⟩
  rw [if_neg h0] at h
  dsimp only at h
  have s1 : m.load_stable (if (m.unit u).transient_file = true
      then m.modify u (fun x => { x with transient_file := false, fragment_mtime := lenv.now })
      else m) := by
    split_ifs
    · exact load_stable_modify_heap m _ u
        (fun x => { x with transient_file := false, fragment_mtime := lenv.now }) rfl rfl
        (fun _ => ⟨id, id⟩)
    · exact load_stable_refl m
  generalize (if (m.unit u).transient_file = true
      then m.modify u (fun x => { x with transient_file := false, fragment_mtime := lenv.now })
      else m) = m1 at s1 h
  have v1 : m1.valid u := load_stable_valid s1 u hv
  cases ht : (m1.unit u).type with
  | none => simp only [ht] at h; cases h
  | some t =>
    simp only [ht] at h
    have key : ∀ (r2 : Int) (m2 : Manager), m1.load_stable m2 →
        (if r2 < 0 then some (r2, m2)
          else if (m2.unit u).load_state = .stub then some (-ENOENT, m2)
          else if (m2.unit u).load_state = .loaded then
            unit_load_loaded env jenv penv lenv oom (dispatch 0) m2 u
          else some (0, m2)) = some (r, m') →
        m.load_stable m' ∧ (¬ r < 0 → (m'.unit u).load_state ≠ .stub) := by
      intro r2 m2 s12 hq
      have s2 : m.load_stable m2 := load_stable_trans s1 s12
      have v2 : m2.valid u := load_stable_valid s2 u hv
      by_cases a1 : r2 < 0
      · rw [if_pos a1] at hq
        simp only [Option.some.injEq, Prod.mk.injEq] at hq
        rw [← hq.2, ← hq.1]
        exact ⟨s2, fun q => absurd a1 q⟩
      rw [if_neg a1] at hq
      by_cases a2 : (m2.unit u).load_state = .stub
      · rw [if_pos a2] at hq
        simp only [Option.some.injEq, Prod.mk.injEq] at hq
        rw [← hq.2, ← hq.1]
        exact ⟨s2, fun q => absurd (by decide : (-ENOENT : Int) < 0) q⟩
      rw [if_neg a2] at hq
      by_cases a3 : (m2.unit u).load_state = .loaded
      · rw [if_pos a3] at hq
        have s3 := unit_load_loaded_stable env jenv penv lenv oom (dispatch 0) (hd 0) m2 m' u r hq
        exact ⟨load_stable_trans s2 s3, fun _ => (s3.2.2 u v2).2 a2⟩
      · rw [if_neg a3] at hq
        simp only [Option.some.injEq, Prod.mk.injEq] at hq
        rw [← hq.2]
        exact ⟨s2, fun _ => a2⟩
    cases hf : (env.unit_vtable t).load with
    | none =>
      simp only [hf] at h
      exact key 0 m1 (load_stable_refl m1) h
    | some hook =>
      simp only [hf] at h
      cases hq : unit_vtable_load env jenv penv lenv (fun p => oom (4 :: p)) dispatch hook
          m1 u with
      | none => simp only [hq] at h; cases h
      | some p =>
        obtain ⟨r2, m2⟩ := p
        simp only [hq] at h
        exact key r2 m2
          (unit_vtable_load_stable env jenv penv lenv _ dispatch hd hook m1 m2 u r2 hq) h

theorem load_error_dbus_queue (m m' : Manager) (u x : UnitId)
    (h : unit_add_to_dbus_queue m u = some m') :
    (m'.unit x).load_error = (m.unit x).load_error := by
  unfold unit_add_to_dbus_queue at h
  split_ifs at h <;> cases h
  · rfl
  · rw [unit_modify]; split_ifs with q
    · rw [q.2]
    · rfl
  · show ((m.modify u (fun x => { x with in_dbus_queue := true })).unit x).load_error = _
    rw [unit_modify]; split_ifs with q
    · rw [q.2]
    · rfl

theorem load_error_gc_queue (env : Env) (m m' : Manager) (u x : UnitId)
    (h : unit_add_to_gc_queue env m u = some m') :
    (m'.unit x).load_error = (m.unit x).load_error := by
  unfold unit_add_to_gc_queue at h
  split_ifs at h
  · cases h; rfl
  · cases hc : unit_check_gc env m u with
    | none => simp [hc] at h
    | some p =>
      obtain ⟨b, m2⟩ := p
      have e2 : (m2.unit x).load_error = (m.unit x).load_error := by
        obtain ⟨-, st⟩ := unit_check_gc_step env m m2 u b hc
        rcases st with e | ⟨f, e⟩
        · rw [e]
        · rw [e, unit_modify]; split_ifs with q
          · rw [q.2]
          · rfl
      cases b with
      | true =>
        simp only [hc, Option.some.injEq] at h
        rw [← h]; exact e2
      | false =>
        simp only [hc, Option.some.injEq] at h
        rw [← h, ← e2]
        show ((m2.modify u (fun x => { x with in_gc_queue := true })).unit x).load_error = _
        rw [unit_modify]; split_ifs with q
        · rw [q.2]
        · rfl

/-- The label `fail:` of `unit_load`: the load state of the unit becomes
not-found when it is a stub and error otherwise, and `load_error` holds the
returned code. -/
theorem unit_load_fail_spec (env : Env) (m m' : Manager) (u : UnitId) (r r' : Int)
    (hv : m.valid u) (h : unit_load_fail env m u r = some (r', m')) :
    r' = r ∧ m.load_stable m' ∧ (m'.unit u).load_error = r ∧
    (m'.unit u).load_state = (if (m.unit u).load_state = .stub then .not_found else .error) := by
  unfold unit_load_fail at h
  simp only [Option.bind_eq_some, Option.map_eq_some', Prod.mk.injEq] at h
  obtain ⟨m2, h2, m3, h3, e1, e2⟩ := h
  have hu : ((m.modify u (fun x => { x with
      load_state := if x.load_state = .stub then .not_found else .error,
      load_error := r })).unit u) = { m.unit u with
      load_state := if (m.unit u).load_state = .stub then .not_found else .error,
      load_error := r } := unit_modify_self _ _ _ hv
  have s1 : m.load_stable (m.modify u (fun x => { x with
      load_state := if x.load_state = .stub then .not_found else .error,
      load_error := r })) :=
    load_stable_modify_heap m _ u (fun x => { x with
      load_state := if x.load_state = .stub then .not_found else .error,
      load_error := r }) rfl rfl (fun x => ⟨id, fun _ => by
        show (if x.load_state = .stub then UnitLoadState.not_found else .error) ≠ .stub
        split_ifs <;> exact fun q => by cases q⟩)
  generalize (m.modify u (fun x => { x with
      load_state := if x.load_state = .stub then .not_found else .error,
      load_error := r })) = m1 at hu s1 h2
  have l2 := same_load_dbus_queue m1 m2 u h2
  have l3 := same_load_gc_queue env m2 m3 u h3
  rw [← e2]
  refine ⟨e1.symm, load_stable_trans s1 (load_stable_of_same_load (same_load_trans l2 l3)), ?_, ?_⟩
  · rw [load_error_gc_queue env m2 m3 u u h3, load_error_dbus_queue m1 m2 u u h2, hu]
  · rw [(l3.2.2 u).2, (l2.2.2 u).2, hu]

/-- A call of `unit_load` keeps the load state and the load queue of the unit
objects stable. -/
theorem unit_load_stable (env : Env) (jenv : JobEnv) (penv : PathEnv) (lenv : LoadEnv) :
    ∀ (fuel : Nat) (oom : List Nat → Nat → Bool) (m : Manager)
    (u : UnitId) (r : Int) (m' : Manager),
    unit_load env jenv penv lenv fuel oom m u = some (r, m') → m.load_stable m' := by
  intro fuel
  induction fuel with
  | zero => intro oom m u r m' h; simp [unit_load] at h
  | succ fuel ih =>
    intro oom m u r m' h
    unfold unit_load at h
    split_ifs at h with hv
    dsimp only at h
    have s0 := unit_load_dequeue_stable m u
    have v0 : (unit_load_dequeue m u).valid u := load_stable_valid s0 u hv
    generalize unit_load_dequeue m u = m0 at s0 v0 h
    split_ifs at h with a1 a2
    · simp only [Option.some.injEq, Prod.mk.injEq] at h
      rw [← h.2]; exact s0
    · simp only [Option.some.injEq, Prod.mk.injEq] at h
      rw [← h.2]; exact s0
    · have hd : ∀ i a k a', manager_dispatch_load_queue (fun j => unit_load env jenv penv lenv
          fuel (fun p => oom (5 :: i :: j :: p))) fuel a = some (k, a') → a.load_stable a' :=
        fun i a k a' ha => manager_dispatch_load_queue_stable _
          (fun n b x q b' hb => ih _ b x q b' hb) fuel a k a' ha
      cases hb : unit_load_body env jenv penv lenv oom
          (fun i => manager_dispatch_load_queue (fun j => unit_load env jenv penv lenv fuel
            (fun p => oom (5 :: i :: j :: p))) fuel) m0 u with
      | none => simp only [hb] at h; cases h
      | some p =>
        obtain ⟨r1, m1⟩ := p
        simp only [hb] at h
        obtain ⟨s1, -⟩ := unit_load_body_stable env jenv penv lenv oom _ hd m0 m1 u r1 v0 hb
        have v1 : m1.valid u := load_stable_valid s1 u v0
        by_cases b1 : r1 < 0
        · rw [if_pos b1] at h
          exact load_stable_trans s0 (load_stable_trans s1
            (unit_load_fail_spec env m1 m' u r1 r v1 h).2.1)
        rw [if_neg b1] at h
        by_cases b2 : decide ((m1.unit u).load_state ≠ .merged) ≠
            decide ((m1.unit u).merged_into = none)
        · rw [if_pos b2] at h; cases h
        · rw [if_neg b2] at h
          simp only [Option.bind_eq_some, Option.map_eq_some', Prod.mk.injEq] at h
          obtain ⟨v, -, m2, h2, m3, h3, -, e⟩ := h
          rw [← e]
          exact load_stable_trans s0 (load_stable_trans s1 (load_stable_of_same_load
            (same_load_trans (same_load_dbus_queue m1 m2 v h2) (same_load_gc_queue env m2 m3 u h3))))

set_option maxRecDepth 1000000 in
/-- Calls of `unit_load` on the stub `a.service`. Without a definition the hook
`unit_load_fragment_and_dropin_optional` marks the unit as loaded; the call
loads the root slice on the way and returns 0: both units are loaded, off the
load queue, and `a.service` is ordered after the slice and requires it. With
the definition of `load_env1` the unit gets the name `c.service` and the state
5 of its type, wants `b.service` and comes after `d.mount`, which are loaded
on the way. With the hook `unit_load_fragment_and_dropin` and without a
definition the unit stays a stub, the call returns `-ENOENT`, and the unit is
not-found with that code in `load_error`. When the loader fails on the
drop-ins of the unit, which is loaded by then, the call returns that error
and the load state of the unit is error. -/
theorem unit_load_examples :
    (unit_load env_load jenv0 penv0 load_env0 3 (fun _ _ => false) load_stub 0).map
      (fun p => (p.1, p.2.load_queue, p.2.units)) =
      some (0, [], [("a.service", 0), ("-.slice", 1)]) ∧
    (unit_load env_load jenv0 penv0 load_env0 3 (fun _ _ => false) load_stub 0).map
      (fun p => (p.2.heap.map (fun x => (x.load_state, x.in_load_queue)),
        p.2.deps 0 .after, p.2.deps 0 .requires)) =
      some ([(.loaded, false), (.loaded, false)], [1], [1]) ∧
    (unit_load env_load jenv0 penv0 load_env1 4 (fun _ _ => false) load_stub 0).map
      (fun p => (p.1, p.2.load_queue, p.2.units)) =
      some (0, [], [("a.service", 0), ("c.service", 0), ("b.service", 1), ("-.slice", 2),
        ("d.mount", 3)]) ∧
    (unit_load env_load jenv0 penv0 load_env1 4 (fun _ _ => false) load_stub 0).map
      (fun p => (p.2.heap.map (fun x => (x.load_state, x.in_load_queue, x.data)),
        p.2.deps 0 .wants, p.2.deps 0 .after, p.2.deps 0 .requires)) =
      some ([(.loaded, false, 5), (.loaded, false, 0), (.loaded, false, 0), (.loaded, false, 0)],
        [1], [3, 2], [2]) ∧
    (unit_load env_load_strict jenv0 penv0 load_env0 3 (fun _ _ => false) load_stub 0).map
      (fun p => (p.1, p.2.load_queue,
        p.2.heap.map (fun x => (x.load_state, x.in_load_queue, x.load_error)))) =
      some (-ENOENT, [], [(.not_found, false, -ENOENT)]) ∧
    (unit_load env_load jenv0 penv0 load_env_dropin_fails 4 (fun _ _ => false) load_stub 0).map
      (fun p => (p.1, p.2.load_queue,
        p.2.heap.map (fun x => (x.load_state, x.in_load_queue, x.load_error)))) =
      some (- EIO, [], [(.error, false, - EIO), (.loaded, false, 0), (.loaded, false, 0)]) := by
  refine ⟨?_, ?_, ?_, ?_, ?_, ?_⟩ <;> decide

end Systemd
